import Mathlib

/-!
# tes-k8s-agent: a verification development

Shallow embedding of the per-task execution engine of the agent
(`pkg/localstore`, `pkg/reconciler/runner`, `pkg/accelerate/mounttos`).

Conventions of the embedding

* Go `int` values that come from annotations are `Int`; Go's `/` and `%`
  truncate toward zero, so they are `Int.tdiv` and `Int.tmod`.  The only
  arithmetic on them is `index*10 + status` with `index = v / 10`, which
  stays within one decade of a value that was already a machine integer, so
  no wrap-around is modelled there.  The executor number of a pod label is any
  64-bit `int`; the sum `executorNo + 1` is taken with its wrap-around
  (`wrapInt`).
* The inputs, the outputs and the logs of a control-plane task are slices of
  pointers with entries that may be nil: lists of options; a loop that reads a
  field of every entry panics at a nil one.
* Go strings are Lean strings.
* A Go function returning `(ctrl.Result, error)` returns a `Ret`; a nil
  dereference or an out-of-range index is `Ret.panic`.
* Calls that leave the process (control plane, cluster API, local store, files)
  append an `Effect` to the trace of the `World`; whether such a call fails is
  decided by the `Env` of the invocation.
* The accelerator acts on a `State`: its reference table and the PVs, PVCs and
  secrets of the cluster by name.  Which of its requests fail is decided by
  `Faults`, and so is whether an object on which a delete was accepted is
  gone at once or stays with a deletion timestamp; the cluster removes such an
  object later (`reap`).
-/

/-! ## pkg/consts -/

namespace consts

def TaskQueued : String := "QUEUED"
def TaskInitializing : String := "INITIALIZING"
def TaskRunning : String := "RUNNING"
def TaskComplete : String := "COMPLETE"
def TaskSystemError : String := "SYSTEM_ERROR"
def TaskExecutorError : String := "EXECUTOR_ERROR"
def TaskCanceling : String := "CANCELING"
def TaskCanceled : String := "CANCELED"

end consts

/-! ## pkg/localstore/types.go -/

namespace localstore

structure ExternalBucketAuthInfo where
  Bucket : String
  AK : String
  SK : String
deriving DecidableEq, Repr

structure BucketsAuthInfo where
  ReadOnly : List String
  ReadWrite : List String
  External : List ExternalBucketAuthInfo
deriving DecidableEq, Repr

structure BioosInfoMeta where
  AAIPassport : Option String
  MountTOS : Option Bool
  BucketsAuthInfo : Option BucketsAuthInfo
deriving DecidableEq, Repr

structure BioosInfo where
  AccountID : String
  UserID : String
  SubmissionID : String
  RunID : String
  Meta : Option BioosInfoMeta
deriving DecidableEq, Repr

/-- The GPU request; `Count` is a float64 in the source and is only formatted. -/
structure GPUResource where
  Type_ : String
  Count : Nat
deriving DecidableEq, Repr

/-- Compute requirements; `RamGB` and `DiskGB` are float64 in the source and are
only formatted into quantity strings. -/
structure Resources where
  CPUCores : Int
  RamGB : Nat
  DiskGB : Nat
  GPU : Option GPUResource
deriving DecidableEq, Repr

structure Executor where
  Image : String
  Command : List String
  Workdir : String
  Stdin : String
  Stdout : String
  Stderr : String
  Env : List (String × String)
deriving DecidableEq, Repr

structure Task where
  ID : String
  Name : String
  Resources : Option Resources
  Executors : List Executor
  BioosInfo : Option BioosInfo
  Volumes : List String
  InputsJSON : String
  OutputsJSON : String
  InputsRef : String
  OutputsRef : String
  AccelerateNames : List String
deriving DecidableEq, Repr

/-- The record read back from the store: the task body plus the three
annotations (an annotation that is absent or does not parse is `none`). -/
structure TaskInfo extends Task where
  Stop : Option String
  Stage : Option Int
  ExecutorStage : Option Int
deriving DecidableEq, Repr

end localstore

/-! ## pkg/reconciler/runner/stage.go -/

namespace runner

open localstore

def taskStageInit : Int := 0
def taskStageInitializing : Int := 1
def taskStagePVCCreated : Int := 2
def taskStageInputsFilerCreated : Int := 3
def taskStageInputsFilerFinished : Int := 4
def taskStageRunning : Int := 5
def taskStageExecutorsFinished : Int := 6
def taskStageOutputsFilerCreated : Int := 7
def taskStageOutputsFilerFinished : Int := 8

def taskStagePVCToCreate : Int := taskStageInitializing
def taskStageInputsFilerToCreate : Int := taskStagePVCCreated
def taskStageExecutorsToCreate : Int := taskStageRunning
def taskStageOutputsFilerToCreate : Int := taskStageExecutorsFinished

def executorStatusToCreate : Int := 0
def executorStatusCreated : Int := 1
def executorStatusFailed : Int := 2
def executorStatusSuccess : Int := 3

structure executorStage where
  index : Int
  status : Int
deriving DecidableEq, Repr

def executorStage.value (e : executorStage) : Int :=
  e.index * 10 + e.status

def newExecutorStageValue (index : Int) (status : Int) : Int :=
  executorStage.value { index := index, status := status }

def parseExecutorStageValue (v : Int) : executorStage :=
  { index := Int.tdiv v 10, status := Int.tmod v 10 }

/-! ## The world the runner acts on -/

/-- The cluster objects the runner derives from one task id: `<id>-pvc`,
`<id>-inputs-filer`, `<id>-ex-NN` and `<id>-outputs-filer`.  The four name
formats are pairwise distinct and `%02d` is injective, so a name is
represented by its kind and index. -/
inductive Obj where
  | pvc
  | inputsFiler
  | executor (index : Int)
  | outputsFiler
deriving DecidableEq, Repr

def pvcName : Obj := Obj.pvc
def inputsFilerJobName : Obj := Obj.inputsFiler
def outputsFilerJobName : Obj := Obj.outputsFiler
def executorJobName (index : Int) : Obj := Obj.executor index

/-- Errors are told apart the way the code tells them apart (`errors.Is`):
the local store's not-found sentinel, the control plane's bad-request sentinel,
and everything else. -/
inductive Err where
  | notFound
  | badRequest
  | failure (what : String)
deriving DecidableEq, Repr

/-- The `ctrl.Result` of a reconciliation; `RequeueAfter` is in milliseconds. -/
structure Result where
  Requeue : Bool
  RequeueAfter : Nat
deriving DecidableEq, Repr

def Result.empty : Result := { Requeue := false, RequeueAfter := 0 }

def Result.IsZero (r : Result) : Bool :=
  r.Requeue == false && r.RequeueAfter == 0

/-- What a reconcile function hands back: `(ctrl.Result, error)`, or a run-time
panic. -/
inductive Ret where
  | done (res : Result) (err : Option Err)
  | panic
deriving DecidableEq, Repr

def waitPodDeleted : Nat := 5000
def waitUpdateTaskTimeConflict : Nat := 1000
def tryProcessLatency : Nat := 1000

/-- Modelled from the spec: the executor log of `vetesclient/models` (the
package's declarations are not among the sources) as the runner reads and
writes it: the id of the executor (the pod name) and its start and end time. -/
structure ExecutorLog where
  ExecutorID : String
  StartTime : Option String
  EndTime : Option String
deriving DecidableEq, Repr

/-- Modelled from the spec: the task-log projection of `vetesclient/models`
(the package's declarations are not among the sources): a per-cluster entry
with task start and end time, the system-log blobs, and the executor logs by
executor number (`[][]*ExecutorLog`, entries may be nil). -/
structure TaskLog where
  ClusterID : String
  StartTime : Option String
  EndTime : Option String
  SystemLogs : List String
  Logs : List (List (Option ExecutorLog))
deriving DecidableEq, Repr

/-- Modelled from the spec: the control-plane task of `vetesclient/models` as
the runner uses it: id, state, owning cluster, the executors (only their number
is used) and the task logs (entries may be nil). -/
structure CPTask where
  ID : String
  State : String
  ClusterID : String
  Executors : List Executor
  Logs : List (Option TaskLog)
deriving DecidableEq, Repr

/-- One call that leaves the process. -/
inductive Effect where
  | cpGetTask
  | cpUpdateTask (state : Option String) (logs : List TaskLog)
  | localGet
  | localStop (state : String)
  | localRecordStage (stage : Int)
  | localRecordExecutorStage (stage : Int)
  | localDelete
  | kubeCreate (o : Obj)
  | kubeGet (o : Obj)
  | kubeRemoveFinalizer (o : Obj)
  | kubeDelete (o : Obj)
  | kubeListPods (o : Obj)
  | kubeDeletePods (o : Obj)
  | readLogFile
  | removeLogFile
  | offloadDelete
  | accelOnProcess
  | accelOnFinish
deriving DecidableEq, Repr

/-- The part of the namespace and of the process that belongs to one task:
its local record, its cluster objects in order of creation, those of them
that still carry the agent's finalizer, the runner's busy set, and the trace
of outgoing calls. -/
structure World where
  record : Option TaskInfo
  objects : List Obj
  finalizers : List Obj
  taskProcessing : List String
  trace : List Effect
deriving DecidableEq, Repr

/-- Outcome of a cluster write the environment decides: it goes through, the
object has vanished meanwhile (the API answers not-found), or it fails. -/
inductive Api where
  | ok
  | gone
  | fail
deriving DecidableEq, Repr

inductive jobStatus where
  | jobRunning
  | jobFailed
  | jobComplete
deriving DecidableEq, Repr

/-- Outcome of deleting and re-listing the pods of a job. -/
inductive PodsOutcome where
  | deleteFailed
  | listFailed
  | remaining
  | gone
deriving DecidableEq, Repr

/-- Outcome of reading the task's log file. -/
inductive LogRead where
  | content (s : String)
  | notExist
  | failed
deriving DecidableEq, Repr

/-- What the surroundings answer during one reconciliation: the clock, the
control plane, transient failures of the store and of the cluster API, the
status the job controller reports, and the accelerator. -/
structure Env where
  now : String
  cpGetTask : Except Err CPTask
  cpUpdateTask : Option Err
  localGetFails : Bool
  localGetFailsOnClean : Bool
  localStopFails : Bool
  localRecordFails : Bool
  localDeleteFails : Bool
  kubeCreateFails : Obj → Bool
  kubeGetFails : Obj → Bool
  kubeRemoveFinalizer : Obj → Api
  kubeDelete : Obj → Api
  getJobStatus : Obj → jobStatus
  listPodsFails : Obj → Bool
  deletePods : Obj → PodsOutcome
  logFile : LogRead
  accelOnProcess : Result × Option Err
  accelOnFinish : Option Err

/-- The runner's own configuration as far as the stage machine reads it. -/
structure Runner where
  clusterID : String

def emit (e : Effect) (w : World) : World :=
  { w with trace := w.trace ++ [e] }

/-! ## pkg/localstore/localstore.go, on the record of the world -/

/-- `GetTask`: a transient failure, the not-found sentinel, or the record. -/
def GetTask (fails : Bool) (w : World) : Except Err TaskInfo × World :=
  let w := emit Effect.localGet w
  if fails then (Except.error (Err.failure "failed to get configmap"), w)
  else
    match w.record with
    | none => (Except.error Err.notFound, w)
    | some taskInfo => (Except.ok taskInfo, w)

/-- `StopTask`: set the stop annotation. -/
def StopTask (env : Env) (state : String) (w : World) : Option Err × World :=
  let w := emit (Effect.localStop state) w
  if env.localStopFails then (some (Err.failure "failed to mark task cancel on configmap"), w)
  else
    match w.record with
    | none => (some Err.notFound, w)
    | some taskInfo => (none, { w with record := some { taskInfo with Stop := some state } })

/-- `RecordTaskStage`: write the stage annotation. -/
def RecordTaskStage (env : Env) (stage : Int) (w : World) : Option Err × World :=
  let w := emit (Effect.localRecordStage stage) w
  if env.localRecordFails then (some (Err.failure "failed to record task stage on configmap"), w)
  else
    match w.record with
    | none => (some Err.notFound, w)
    | some taskInfo => (none, { w with record := some { taskInfo with Stage := some stage } })

/-- `RecordTaskExecutorStage`: write the executor-stage annotation. -/
def RecordTaskExecutorStage (env : Env) (stage : Int) (w : World) : Option Err × World :=
  let w := emit (Effect.localRecordExecutorStage stage) w
  if env.localRecordFails then (some (Err.failure "failed to record executor stage on configmap"), w)
  else
    match w.record with
    | none => (some Err.notFound, w)
    | some taskInfo => (none, { w with record := some { taskInfo with ExecutorStage := some stage } })

/-- `DeleteTask`: remove the finalizer and delete the record. -/
def DeleteTask (env : Env) (w : World) : Option Err × World :=
  let w := emit Effect.localDelete w
  if env.localDeleteFails then (some (Err.failure "failed to delete configmap"), w)
  else
    match w.record with
    | none => (some Err.notFound, w)
    | some _ => (none, { w with record := none })

/-! ## pkg/reconciler/runner/job.go and pvc.go -/

/-- `getJobStatus` reads the conditions the job controller wrote; the
environment supplies them. -/
def getJobStatus (env : Env) (job : Obj) : jobStatus :=
  env.getJobStatus job

/-- `kubeClient.Create` with the agent's finalizer on the object; an object
that already exists is left as it is (`IsAlreadyExists` is absorbed). -/
def kubeCreate (env : Env) (o : Obj) (what : String) (w : World) : Option Err × World :=
  let w := emit (Effect.kubeCreate o) w
  if env.kubeCreateFails o then (some (Err.failure what), w)
  else if o ∈ w.objects then (none, w)
  else (none, { w with objects := w.objects ++ [o], finalizers := w.finalizers ++ [o] })

def createJob (env : Env) (job : Obj) (w : World) : Option Err × World :=
  kubeCreate env job "failed to create job" w

def createPVC (env : Env) (w : World) : Option Err × World :=
  kubeCreate env pvcName "failed to create pvc" w

def removeObject (o : Obj) (w : World) : World :=
  { w with objects := w.objects.filter (fun x => x != o),
           finalizers := w.finalizers.filter (fun x => x != o) }

/-- The shared body of `deleteJob` and `deletePVC`: get the object (not found
is success), remove the agent's finalizer if it is still there, delete (not
found is success). -/
def kubeDeleteObject (env : Env) (o : Obj) (w : World) : Option Err × World :=
  let w := emit (Effect.kubeGet o) w
  if env.kubeGetFails o then (some (Err.failure "failed to get object"), w)
  else if o ∉ w.objects then (none, w)
  else
    let step (w : World) : Option Err × World :=
      let w := emit (Effect.kubeDelete o) w
      match env.kubeDelete o with
      | Api.fail => (some (Err.failure "failed to delete object"), w)
      | Api.gone => (none, removeObject o w)
      | Api.ok => (none, removeObject o w)
    if o ∈ w.finalizers then
      let w := emit (Effect.kubeRemoveFinalizer o) w
      match env.kubeRemoveFinalizer o with
      | Api.fail => (some (Err.failure "failed to remove finalizer"), w)
      | Api.gone => step (removeObject o w)
      | Api.ok => step { w with finalizers := w.finalizers.filter (fun x => x != o) }
    else step w

def deleteJob (env : Env) (jobName : Obj) (w : World) : Option Err × World :=
  kubeDeleteObject env jobName w

def deletePVC (env : Env) (pvcName : Obj) (w : World) : Option Err × World :=
  kubeDeleteObject env pvcName w

/-- `deleteJobPods`: delete the pods of the job, list them again, and report
whether none is left. -/
def deleteJobPods (env : Env) (jobName : Obj) (w : World) : (Bool × Option Err) × World :=
  let w := emit (Effect.kubeDeletePods jobName) w
  match env.deletePods jobName with
  | PodsOutcome.deleteFailed => ((false, some (Err.failure "failed to delete pods of job")), w)
  | PodsOutcome.listFailed => ((false, some (Err.failure "failed to list pods of job")), w)
  | PodsOutcome.gone => ((true, none), w)
  | PodsOutcome.remaining => ((false, none), w)

/-- `recordJobFailedMessage`: list the pods of the job and log the exit codes. -/
def recordJobFailedMessage (env : Env) (jobName : Obj) (w : World) : Option Err × World :=
  let w := emit (Effect.kubeListPods jobName) w
  if env.listPodsFails jobName then (some (Err.failure "failed to list pods of job"), w)
  else (none, w)

/-- `kubeClient.Get` of a job the stage machine watches. -/
def getJob (env : Env) (job : Obj) (w : World) : Option Err × World :=
  let w := emit (Effect.kubeGet job) w
  if env.kubeGetFails job then (some (Err.failure "failed to get job"), w)
  else if job ∉ w.objects then (some (Err.failure "failed to get job"), w)
  else (none, w)

/-! ## pkg/reconciler/runner/task.go -/

/-- A Go function that returns only `error`, or panics. -/
inductive Outcome where
  | returned (err : Option Err)
  | panic
deriving DecidableEq, Repr

/-- `return ctrl.Result{}, f(...)` for an `f` that returns only `error`. -/
def ret (x : Option Err × World) : Ret × World :=
  (Ret.done Result.empty x.1, x.2)

def Outcome.toRet (x : Outcome × World) : Ret × World :=
  match x with
  | (Outcome.returned err, w) => (Ret.done Result.empty err, w)
  | (Outcome.panic, w) => (Ret.panic, w)

/-- `if err := f(...); err != nil { return ctrl.Result{}, err }` followed by
the rest of the function. -/
def andThen (x : Option Err × World) (k : World → Ret × World) : Ret × World :=
  match x with
  | (some err, w) => (Ret.done Result.empty (some err), w)
  | (none, w) => k w

def shouldCreateInputsFiler (task : Task) : Bool :=
  decide (task.InputsJSON.length > 0) || decide (task.InputsRef.length > 0)

def shouldCreateOutputsFiler (task : Task) : Bool :=
  decide (task.OutputsJSON.length > 0) || decide (task.OutputsRef.length > 0)

def shouldCreatePVC (task : Task) : Bool :=
  shouldCreateInputsFiler task || shouldCreateOutputsFiler task || decide (task.Volumes.length > 0)

def getMatchedTaskLog (r : Runner) : List (Option TaskLog) → Option TaskLog
  | [] => none
  | none :: rest => getMatchedTaskLog r rest
  | some taskLog :: rest =>
    if taskLog.ClusterID = r.clusterID then some taskLog else getMatchedTaskLog r rest

def genUpdateTaskLogsInitializing (r : Runner) (now : String) (taskLogs : List (Option TaskLog)) :
    List TaskLog :=
  match getMatchedTaskLog r taskLogs with
  | some matched =>
    if matched.StartTime ≠ none then []
    else
      let started : TaskLog :=
        { ClusterID := r.clusterID, StartTime := some now, EndTime := none, SystemLogs := [], Logs := [] }
      [started]
  | none =>
    let started : TaskLog :=
      { ClusterID := r.clusterID, StartTime := some now, EndTime := none, SystemLogs := [], Logs := [] }
    [started]

def genUpdateTaskLogsFinish (r : Runner) (now : String) (taskLogs : List (Option TaskLog))
    (message : String) : List TaskLog :=
  let message := if message = "" then "<empty>" else message
  let res : TaskLog :=
    { ClusterID := r.clusterID, StartTime := none, EndTime := none, SystemLogs := [message], Logs := [] }
  match getMatchedTaskLog r taskLogs with
  | none => [{ res with StartTime := some now, EndTime := some now }]
  | some matched =>
    if matched.StartTime = none then [{ res with StartTime := some now, EndTime := some now }]
    else if matched.EndTime = none then [{ res with EndTime := some now }]
    else [res]

/-- `vetesClient.UpdateTask`. -/
def UpdateTask (env : Env) (state : Option String) (logs : List TaskLog) (w : World) :
    Option Err × World :=
  (env.cpUpdateTask, emit (Effect.cpUpdateTask state logs) w)

/-- The indices `0, 1, ..., last` of the loop
`for index := 0; index <= last; index++`. -/
def executorIndices (last : Int) : List Int :=
  (List.range (last + 1).toNat).map Int.ofNat

/-- The executor loop of `stopAndCleanTask`, which returns at the first
failing delete. -/
def deleteExecutorJobs (env : Env) : List Int → World → Option Err × World
  | [], w => (none, w)
  | index :: rest, w =>
    match deleteJob env (executorJobName index) w with
    | (some err, w) => (some err, w)
    | (none, w) => deleteExecutorJobs env rest w

/-- `currentStage` of `stopAndCleanTask`: `taskStageInit`, or the stage
annotation when there is one. -/
def currentStageOf (taskInfo : TaskInfo) : Int :=
  match taskInfo.Stage with
  | some stage => stage
  | none => taskStageInit

/-- The end of `stopAndCleanTask`, after the deletes: read the log file, post
the final update, remove the offload file and the log directory, notify the
accelerator and delete the record. -/
def stopAndCleanTaskReport (r : Runner) (env : Env) (task : CPTask) (state : String)
    (taskInfo : TaskInfo) (w : World) : Ret × World :=
  let w := emit Effect.readLogFile w
  match env.logFile with
  | LogRead.failed =>
    (Ret.done Result.empty (some (Err.failure "failed to read log file content")), w)
  | logFile =>
    let message := match logFile with
      | LogRead.content s => s
      | _ => ""
    let logs := genUpdateTaskLogsFinish r env.now task.Logs message
    let newState := if task.State ≠ state then some state else none
    match UpdateTask env newState logs w with
    | (some Err.badRequest, w) =>
      (Ret.done { Requeue := false, RequeueAfter := waitUpdateTaskTimeConflict } none, w)
    | (some err, w) => (Ret.done Result.empty (some err), w)
    | (none, w) =>
      let w := if taskInfo.InputsRef ≠ "" ∨ taskInfo.OutputsRef ≠ ""
               then emit Effect.offloadDelete w else w
      let w := emit Effect.removeLogFile w
      let w := emit Effect.accelOnFinish w
      match env.accelOnFinish with
      | some err => (Ret.done Result.empty (some err), w)
      | none =>
        match DeleteTask env w with
        | (some Err.notFound, w) => (Ret.done Result.empty none, w)
        | (some err, w) => (Ret.done Result.empty (some err), w)
        | (none, w) => (Ret.done Result.empty none, w)

def stopAndCleanTask (r : Runner) (env : Env) (task : CPTask) (state : String) (w : World) :
    Ret × World :=
  match GetTask env.localGetFailsOnClean w with
  | (Except.error Err.notFound, w) => (Ret.done Result.empty none, w)
  | (Except.error _, w) => (Ret.panic, w) -- `taskInfo` is nil and `taskInfo.Stop` is read
  | (Except.ok taskInfo, w) =>
    andThen (if taskInfo.Stop = none then StopTask env state w else (none, w)) fun w =>
    let currentStage := currentStageOf taskInfo
    andThen (if currentStage ≥ taskStageOutputsFilerToCreate
                ∧ shouldCreateOutputsFiler taskInfo.toTask = true
             then deleteJob env outputsFilerJobName w else (none, w)) fun w =>
    andThen (if currentStage ≥ taskStageExecutorsToCreate then
               match taskInfo.ExecutorStage with
               | some v => deleteExecutorJobs env (executorIndices (parseExecutorStageValue v).index) w
               | none => (none, w)
             else (none, w)) fun w =>
    andThen (if currentStage ≥ taskStageInputsFilerToCreate
                ∧ shouldCreateInputsFiler taskInfo.toTask = true
             then deleteJob env inputsFilerJobName w else (none, w)) fun w =>
    andThen (if currentStage ≥ taskStagePVCToCreate ∧ shouldCreatePVC taskInfo.toTask = true
             then deletePVC env pvcName w else (none, w)) fun w =>
    stopAndCleanTaskReport r env task state taskInfo w

def doInitializing (r : Runner) (env : Env) (task : CPTask) (w : World) : Option Err × World :=
  match UpdateTask env (some consts.TaskInitializing)
      (genUpdateTaskLogsInitializing r env.now task.Logs) w with
  | (some err, w) => (some err, w)
  | (none, w) => RecordTaskStage env taskStageInitializing w

def doCreatePVC (env : Env) (localTask : Task) (w : World) : Outcome × World :=
  if shouldCreatePVC localTask then
    match localTask.Resources with
    | none => (Outcome.panic, w) -- `localTask.Resources.DiskGB` on a nil `Resources`
    | some _ =>
      match createPVC env w with
      | (some err, w) => (Outcome.returned (some err), w)
      | (none, w) =>
        let x := RecordTaskStage env taskStagePVCCreated w
        (Outcome.returned x.1, x.2)
  else
    let x := RecordTaskStage env taskStagePVCCreated w
    (Outcome.returned x.1, x.2)

def doCreateInputsFiler (env : Env) (localTask : Task) (w : World) : Option Err × World :=
  if shouldCreateInputsFiler localTask then
    match createJob env inputsFilerJobName w with
    | (some err, w) => (some err, w)
    | (none, w) => RecordTaskStage env taskStageInputsFilerCreated w
  else RecordTaskStage env taskStageInputsFilerCreated w

def doWatchInputsFiler (r : Runner) (env : Env) (task : CPTask) (localTask : Task) (w : World) :
    Ret × World :=
  if shouldCreateInputsFiler localTask then
    andThen (getJob env inputsFilerJobName w) fun w =>
    match getJobStatus env inputsFilerJobName with
    | jobStatus.jobRunning => (Ret.done Result.empty none, w)
    | jobStatus.jobFailed =>
      andThen (recordJobFailedMessage env inputsFilerJobName w) fun w =>
      stopAndCleanTask r env task consts.TaskSystemError w
    | jobStatus.jobComplete =>
      let x := deleteJobPods env inputsFilerJobName w
      match x.1.2 with
      | some err => (Ret.done Result.empty (some err), x.2)
      | none =>
        if x.1.1 = false then
          (Ret.done { Requeue := false, RequeueAfter := waitPodDeleted } none, x.2)
        else ret (RecordTaskStage env taskStageInputsFilerFinished x.2)
  else ret (RecordTaskStage env taskStageInputsFilerFinished w)

def doRunning (env : Env) (w : World) : Option Err × World :=
  match UpdateTask env (some consts.TaskRunning) [] w with
  | (some err, w) => (some err, w)
  | (none, w) => RecordTaskStage env taskStageRunning w

/-- `doCreateExecutor` (executor.go): `initExecutorBase` reads
`localTask.Executors[index]`, which panics when the index is out of range;
then the job is created and `(index, Created)` recorded. -/
def doCreateExecutor (env : Env) (localTask : Task) (index : Int) (w : World) : Ret × World :=
  if index < 0 ∨ index ≥ (localTask.Executors.length : Int) then (Ret.panic, w)
  else
    andThen (createJob env (executorJobName index) w) fun w =>
    ret (RecordTaskExecutorStage env (newExecutorStageValue index executorStatusCreated) w)

/-- The tail of `doWatchExecutor`, after the `switch` has set `eStatus`: delete
the pods of the job and record `(executorIndex, eStatus)`. -/
def doWatchExecutorTail (env : Env) (executorIndex : Int) (eStatus : Int) (w : World) :
    Ret × World :=
  let x := deleteJobPods env (executorJobName executorIndex) w
  match x.1.2 with
  | some err => (Ret.done Result.empty (some err), x.2)
  | none =>
    if x.1.1 = false then
      (Ret.done { Requeue := false, RequeueAfter := waitPodDeleted } none, x.2)
    else
      ret (RecordTaskExecutorStage env (newExecutorStageValue executorIndex eStatus) x.2)

def doWatchExecutor (env : Env) (executorIndex : Int) (w : World) : Ret × World :=
  andThen (getJob env (executorJobName executorIndex) w) fun w =>
  match getJobStatus env (executorJobName executorIndex) with
  | jobStatus.jobRunning => (Ret.done Result.empty none, w)
  | jobStatus.jobFailed =>
    andThen (recordJobFailedMessage env (executorJobName executorIndex) w) fun w =>
    doWatchExecutorTail env executorIndex executorStatusFailed w
  | jobStatus.jobComplete => doWatchExecutorTail env executorIndex executorStatusSuccess w

def doExecutors (env : Env) (task : CPTask) (taskInfo : TaskInfo) (w : World) : Ret × World :=
  match taskInfo.ExecutorStage with
  | none =>
    ret (RecordTaskExecutorStage env (newExecutorStageValue 0 executorStatusToCreate) w)
  | some v =>
    let eStage := parseExecutorStageValue v
    let maxIndex : Int := (task.Executors.length : Int) - 1
    if eStage.status = executorStatusToCreate then
      doCreateExecutor env taskInfo.toTask eStage.index w
    else if eStage.status = executorStatusCreated then
      doWatchExecutor env eStage.index w
    else if eStage.status = executorStatusSuccess ∧ eStage.index < maxIndex then
      ret (RecordTaskExecutorStage env
        (newExecutorStageValue (eStage.index + 1) executorStatusToCreate) w)
    else
      ret (RecordTaskStage env taskStageExecutorsFinished w)

def doCreateOutputsFiler (env : Env) (localTask : Task) (w : World) : Option Err × World :=
  if shouldCreateOutputsFiler localTask then
    match createJob env outputsFilerJobName w with
    | (some err, w) => (some err, w)
    | (none, w) => RecordTaskStage env taskStageOutputsFilerCreated w
  else RecordTaskStage env taskStageOutputsFilerCreated w

def doWatchOutputsFiler (r : Runner) (env : Env) (task : CPTask) (localTask : Task) (w : World) :
    Ret × World :=
  if shouldCreateOutputsFiler localTask then
    andThen (getJob env outputsFilerJobName w) fun w =>
    match getJobStatus env outputsFilerJobName with
    | jobStatus.jobRunning => (Ret.done Result.empty none, w)
    | jobStatus.jobFailed =>
      andThen (recordJobFailedMessage env outputsFilerJobName w) fun w =>
      stopAndCleanTask r env task consts.TaskSystemError w
    | jobStatus.jobComplete =>
      let x := deleteJobPods env outputsFilerJobName w
      match x.1.2 with
      | some err => (Ret.done Result.empty (some err), x.2)
      | none =>
        if x.1.1 = false then
          (Ret.done { Requeue := false, RequeueAfter := waitPodDeleted } none, x.2)
        else ret (RecordTaskStage env taskStageOutputsFilerFinished x.2)
  else ret (RecordTaskStage env taskStageOutputsFilerFinished w)

def doComplete (r : Runner) (env : Env) (task : CPTask) (taskInfo : TaskInfo) (w : World) :
    Ret × World :=
  let executorsSuccess : Bool :=
    match taskInfo.ExecutorStage with
    | none => false
    | some v => decide ((parseExecutorStageValue v).status = executorStatusSuccess)
  let finishState : String :=
    if executorsSuccess then consts.TaskComplete else consts.TaskExecutorError
  stopAndCleanTask r env task finishState w

/-- `accelerator.OnProcessTask` as the runner sees it. -/
def OnProcessTask (env : Env) (w : World) : (Result × Option Err) × World :=
  (env.accelOnProcess, emit Effect.accelOnProcess w)

def runTask (r : Runner) (env : Env) (task : CPTask) (w : World) : Ret × World :=
  match GetTask env.localGetFails w with
  | (Except.error err, w) => (Ret.done Result.empty (some err), w)
  | (Except.ok taskInfo, w) =>
    match taskInfo.Stop with
    | some stop => stopAndCleanTask r env task stop w
    | none =>
      match OnProcessTask env w with
      | ((result, err), w) =>
        if err ≠ none ∨ result.IsZero = false then (Ret.done result err, w)
        else
          match taskInfo.Stage with
          | none => ret (RecordTaskStage env taskStageInit w)
          | some currentStage =>
            if currentStage < taskStageInitializing then
              ret (doInitializing r env task w)
            else if currentStage < taskStagePVCCreated then
              Outcome.toRet (doCreatePVC env taskInfo.toTask w)
            else if currentStage < taskStageInputsFilerCreated then
              ret (doCreateInputsFiler env taskInfo.toTask w)
            else if currentStage < taskStageInputsFilerFinished then
              doWatchInputsFiler r env task taskInfo.toTask w
            else if currentStage < taskStageRunning then
              ret (doRunning env w)
            else if currentStage < taskStageExecutorsFinished then
              doExecutors env task taskInfo w
            else if currentStage < taskStageOutputsFilerCreated then
              ret (doCreateOutputsFiler env taskInfo.toTask w)
            else if currentStage < taskStageOutputsFilerFinished then
              doWatchOutputsFiler r env task taskInfo.toTask w
            else
              doComplete r env task taskInfo w

/-! ## pkg/reconciler/runner/runner.go -/

def tryProcessTask (taskID : String) (w : World) : Bool × World :=
  if taskID ∈ w.taskProcessing then (false, w)
  else (true, { w with taskProcessing := taskID :: w.taskProcessing })

def releaseProcessTask (taskID : String) (w : World) : World :=
  { w with taskProcessing := w.taskProcessing.filter (fun x => x != taskID) }

/-- `ProcessTask`; the deferred `releaseProcessTask` runs on every way out of
the admitted part, a panic included. -/
def ProcessTask (r : Runner) (env : Env) (taskID : String) (w : World) : Ret × World :=
  match tryProcessTask taskID w with
  | (false, w) => (Ret.done { Requeue := false, RequeueAfter := tryProcessLatency } none, w)
  | (true, w) =>
    let admitted : Ret × World :=
      let w := emit Effect.cpGetTask w
      match env.cpGetTask with
      | Except.error err => (Ret.done Result.empty (some err), w)
      | Except.ok task =>
        if task.ClusterID ≠ r.clusterID then (Ret.done Result.empty none, w)
        else if task.State = consts.TaskCanceling then
          stopAndCleanTask r env task consts.TaskCanceled w
        else if task.State = consts.TaskSystemError ∨ task.State = consts.TaskExecutorError
            ∨ task.State = consts.TaskCanceled ∨ task.State = consts.TaskComplete then
          stopAndCleanTask r env task task.State w
        else runTask r env task w
    (admitted.1, releaseProcessTask taskID admitted.2)

/-! ## pkg/reconciler/runner/executor.go: the command of an executor -/

def singleQuote : Char := Char.ofNat 39

def doubleQuote : Char := Char.ofNat 34

/-- The character class of the regular expression `specialChars`: space, `!`,
double quote, `#`, `$`, `&`, single quote, `(`, `)`, `*`, `;`, `<`, `>`, `?`,
`[`, backslash, backtick, opening brace, `|`, `~`, tab and newline, by code
point. -/
def specialCharsClass : List Char :=
  [32, 33, 34, 35, 36, 38, 39, 40, 41, 42, 59, 60, 62, 63, 91, 92, 96, 123, 124, 126, 9, 10].map
    Char.ofNat

/-- `specialChars.FindAllString(s, -1)`: the expression is one character
class, so the matches are the characters of `s` that are in the class, from
left to right. -/
def specialCharsFindAllString (s : String) : List String :=
  (s.toList.filter (fun c => decide (c ∈ specialCharsClass))).map String.singleton

/-- `strings.Contains(s, "'")`. -/
def containsSingleQuote (s : String) : Bool :=
  s.toList.contains singleQuote

/-- The replacement text of the quoting: quote, double quote, quote, double
quote, quote. -/
def escapedSingleQuote : String :=
  String.mk [singleQuote, doubleQuote, singleQuote, doubleQuote, singleQuote]

/-- `strings.ReplaceAll(s, "'", escapedSingleQuote)`: the text replaced is one
character long, so every occurrence is replaced where it stands. -/
def replaceAllSingleQuotes (s : String) : String :=
  String.join (s.toList.map fun c => if c = singleQuote then escapedSingleQuote
    else String.singleton c)

/-- The body of the loop over `executor.Command`. -/
def quoteCommand (command : String) : String :=
  if (specialCharsFindAllString command).length > 0 then
    let command :=
      if containsSingleQuote command then replaceAllSingleQuotes command else command
    String.singleton singleQuote ++ command ++ String.singleton singleQuote
  else command

def getCommandsWithStreamRedirects (executor : Executor) : List String :=
  if executor.Stdin = "" ∧ executor.Stdout = "" ∧ executor.Stderr = "" then executor.Command
  else
    let res := ["/bin/sh", "-c"]
    let cmd := executor.Command.foldl (fun cmd command => cmd ++ [quoteCommand command]) []
    let cmd := if executor.Stdin ≠ "" then cmd ++ ["<", executor.Stdin] else cmd
    let cmd := if executor.Stdout ≠ "" then cmd ++ [">", executor.Stdout] else cmd
    let cmd := if executor.Stderr ≠ "" then cmd ++ ["2>", executor.Stderr] else cmd
    res ++ [String.intercalate " " cmd]

end runner

/-! ## pkg/accelerate/mounttos -/

namespace mounttos

open localstore

/-- The kinds of cluster object the accelerator touches. -/
inductive Kind where
  | pv
  | pvc
  | secret
deriving DecidableEq, Repr

inductive Verb where
  | get
  | create
  | delete
  | patch
deriving DecidableEq, Repr

/-- One request to the cluster API. -/
structure Call where
  verb : Verb
  kind : Kind
  name : String
deriving DecidableEq, Repr

/-- A persistent volume as far as the code reads or writes it. -/
structure PV where
  deleting : Bool
  secretName : String
  bucket : String
deriving DecidableEq, Repr

structure PVC where
  deleting : Bool
  bucket : String
deriving DecidableEq, Repr

/-- A secret: deletion timestamp, the managed-by label, and the two keys. -/
structure Secret where
  deleting : Bool
  managed : Bool
  ak : String
  sk : String
deriving DecidableEq, Repr

/-- The `Impl` with its surroundings: the reference table
`pvcWithTasksCache` (mount name to set of task ids), the PVs, PVCs and secrets
of the cluster by name, and the requests sent so far. `deleting` is the
deletion timestamp of an object: an object on which a delete request was
accepted stays in the cluster with it for as long as something holds the
object, and is removed by the cluster afterwards. -/
structure State where
  pvcWithTasksCache : String → Option (List String)
  pvs : String → Option PV
  pvcs : String → Option PVC
  secrets : String → Option Secret
  trace : List Call

/-- The options the accelerator reads. -/
structure Options where
  StaticTOSSecretName : String
  BucketNumPerTask : Int

/-- How the cluster answers the requests of one call: which requests fail for
a reason other than not-found or already-exists, and at which delete requests
the object found, instead of being removed at once, stays in the cluster with
a deletion timestamp (something holds it, as the protection of volumes in
use does), to be removed by the cluster later. -/
structure Faults where
  fails : Call → Bool
  lingers : Call → Bool

def deletingWaitDuration : Nat := 5000

/-- Assignment to (or deletion from) a Go map keyed by strings. -/
def assign {α : Type} (m : String → Option α) (key : String) (v : Option α) :
    String → Option α :=
  fun n => if n = key then v else m n

def request (c : Call) (st : State) : State :=
  { st with trace := st.trace ++ [c] }

def pvcNameFromExternalBucket (submissionID bucket : String) : String :=
  submissionID ++ "-" ++ bucket

def pvcNameFromBucket (bucket : String) : String :=
  "workflow-" ++ bucket

def externalBucketTOSSecretName (submissionID bucket : String) : String :=
  submissionID ++ "-" ++ bucket

/-- `strings.SplitN(pvcName, "-", 2)` and the choice of the second part:
the text after the first dash, or the whole name when it has no dash. -/
def parseBucketFromPVCName (pvcName : String) : String :=
  match pvcName.toList.span (fun c => c != '-') with
  | (_, []) => pvcName
  | (_, _ :: rest) => String.mk rest

/-- The entries of `BioosInfo.Meta.BucketsAuthInfo.External`, empty when the
path to them is nil. -/
def externalEntries (bioosInfo : BioosInfo) : List ExternalBucketAuthInfo :=
  match bioosInfo.Meta with
  | none => []
  | some m =>
    match m.BucketsAuthInfo with
    | none => []
    | some info => info.External

/-- Lookup in the map `externalBucketAuthInfo`, built by assigning the entries
in order: the last entry of a bucket wins. -/
def externalBucketAuthInfo (bioosInfo : BioosInfo) (bucket : String) : Option (String × String) :=
  ((externalEntries bioosInfo).reverse.find? (fun e => e.Bucket == bucket)).map
    fun e => (e.AK, e.SK)

/-- Membership in `externalBucketSet`. -/
def externalBucketSet (bioosInfo : BioosInfo) (bucket : String) : Bool :=
  (externalEntries bioosInfo).any (fun e => e.Bucket == bucket)

/-! ### secret.go -/

def createKubeSecret (f : Faults) (name ak sk : String) (st : State) : Option runner.Err × State :=
  let c : Call := { verb := Verb.create, kind := Kind.secret, name := name }
  let st := request c st
  if f.fails c then (some (runner.Err.failure "failed to create secret in k8s"), st)
  else
    match st.secrets name with
    | some _ => (none, st)
    | none =>
      let created : Secret := { deleting := false, managed := true, ak := ak, sk := sk }
      (none, { st with secrets := assign st.secrets name (some created) })

def storeKubeSecret (f : Faults) (name ak sk : String) (st : State) :
    (Bool × Option runner.Err) × State :=
  let c : Call := { verb := Verb.get, kind := Kind.secret, name := name }
  let st := request c st
  if f.fails c then ((false, some (runner.Err.failure "failed to get secret from k8s")), st)
  else
    match st.secrets name with
    | none =>
      let x := createKubeSecret f name ak sk st
      ((false, x.1), x.2)
    | some kubeSecret =>
      if kubeSecret.managed = false then ((false, none), st)
      else if kubeSecret.deleting then ((true, none), st)
      else if ak = kubeSecret.ak ∧ sk = kubeSecret.sk then ((false, none), st)
      else
        let p : Call := { verb := Verb.patch, kind := Kind.secret, name := name }
        let st := request p st
        if f.fails p then ((false, some (runner.Err.failure "failed to upate tos secret aksk")), st)
        else
          let patched : Secret := { kubeSecret with ak := ak, sk := sk }
          ((false, none), { st with secrets := assign st.secrets name (some patched) })

/-- `deleteKubeSecret`: a delete request with background propagation, on
which not-found counts as success. The call returns when the request is
accepted; the secret found is then gone, or still there with a deletion
timestamp, as the cluster has it (`f.lingers`). -/
def deleteKubeSecret (f : Faults) (name : String) (st : State) : Option runner.Err × State :=
  let c : Call := { verb := Verb.delete, kind := Kind.secret, name := name }
  let st := request c st
  if f.fails c then (some (runner.Err.failure "failed to delete secret in k8s"), st)
  else
    match st.secrets name with
    | none => (none, st)
    | some kubeSecret =>
      if f.lingers c then
        (none, { st with
          secrets := assign st.secrets name (some { kubeSecret with deleting := true }) })
      else (none, { st with secrets := assign st.secrets name none })

/-! ### pvc.go -/

def createPVAndPVC (f : Faults) (pvcName secretName : String) (st : State) :
    (Bool × Option runner.Err) × State :=
  let getPV : Call := { verb := Verb.get, kind := Kind.pv, name := pvcName }
  let st := request getPV st
  if f.fails getPV then ((false, some (runner.Err.failure "failed to get pv")), st)
  else
    let pvExist : Bool := (st.pvs pvcName).isSome
    if (st.pvs pvcName).any (fun gotPV => gotPV.deleting) then ((true, none), st)
    else
      let getPVC : Call := { verb := Verb.get, kind := Kind.pvc, name := pvcName }
      let st := request getPVC st
      if f.fails getPVC then ((false, some (runner.Err.failure "failed to get pvc")), st)
      else
        let pvcExist : Bool := (st.pvcs pvcName).isSome
        if (st.pvcs pvcName).any (fun gotPVC => gotPVC.deleting) then ((true, none), st)
        else
          let createPVC (st : State) : (Bool × Option runner.Err) × State :=
            if pvcExist = false then
              let c : Call := { verb := Verb.create, kind := Kind.pvc, name := pvcName }
              let st := request c st
              if f.fails c then ((false, some (runner.Err.failure "failed to create pvc")), st)
              else
                let newPVC : PVC := { deleting := false, bucket := parseBucketFromPVCName pvcName }
                ((false, none), { st with pvcs := assign st.pvcs pvcName (some newPVC) })
            else ((false, none), st)
          if pvExist = false then
            let c : Call := { verb := Verb.create, kind := Kind.pv, name := pvcName }
            let st := request c st
            if f.fails c then ((false, some (runner.Err.failure "failed to create pv")), st)
            else
              let newPV : PV := { deleting := false, secretName := secretName,
                                  bucket := parseBucketFromPVCName pvcName }
              createPVC { st with pvs := assign st.pvs pvcName (some newPV) }
          else createPVC st

/-- `deletePVAndPVC`: a delete request with background propagation for the
PVC, then one for the PV; not-found on either ends the function without
error, so a PVC that is not found leaves the PV alone. The function returns
when the requests are accepted; each object found is then gone, or still there
with a deletion timestamp, as the cluster has it (`f.lingers`). -/
def deletePVAndPVC (f : Faults) (pvcName : String) (st : State) : Option runner.Err × State :=
  let delPVC : Call := { verb := Verb.delete, kind := Kind.pvc, name := pvcName }
  let st := request delPVC st
  if f.fails delPVC then (some (runner.Err.failure "failed to delete pvc"), st)
  else
    match st.pvcs pvcName with
    | none => (none, st) -- not found: return nil
    | some pvc =>
      let st : State :=
        if f.lingers delPVC then
          { st with pvcs := assign st.pvcs pvcName (some { pvc with deleting := true }) }
        else { st with pvcs := assign st.pvcs pvcName none }
      let delPV : Call := { verb := Verb.delete, kind := Kind.pv, name := pvcName }
      let st := request delPV st
      if f.fails delPV then (some (runner.Err.failure "failed to delete pv"), st)
      else
        match st.pvs pvcName with
        | none => (none, st)
        | some pv =>
          if f.lingers delPV then
            (none, { st with pvs := assign st.pvs pvcName (some { pv with deleting := true }) })
          else (none, { st with pvs := assign st.pvs pvcName none })

/-! ### mounttos.go -/

/-- `set[id] = struct` on a set of task ids. -/
def insertID (id : String) (ids : List String) : List String :=
  if id ∈ ids then ids else ids ++ [id]

/-- `delete(set, id)` on a set of task ids. -/
def deleteID (id : String) (ids : List String) : List String :=
  ids.filter (fun x => x != id)

/-- `k8sutilerrors.NewAggregate(errs)`: nil for no errors. -/
def NewAggregate (errs : List runner.Err) : Option runner.Err :=
  match errs with
  | [] => none
  | _ :: _ => some (runner.Err.failure "aggregate")

/-- The loop variables of `OnProcessTask` and `OnFinishTask`. -/
structure Loop where
  errs : List runner.Err
  existDeleting : Bool
  st : State

/-- The end of the loop body of `OnProcessTask`: `createPVAndPVC` and, when
it reports neither an error nor a deletion, the new reference set. -/
def OnProcessTaskMount (f : Faults) (localTask : Task) (pvcName secretName : String)
    (acc : Loop) : Loop :=
  let x := createPVAndPVC f pvcName secretName acc.st
  match x.1.2 with
  | some err => { acc with errs := acc.errs ++ [err], st := x.2 }
  | none =>
    if x.1.1 then { acc with existDeleting := true, st := x.2 }
    else
      { acc with st := { x.2 with
          pvcWithTasksCache := assign x.2.pvcWithTasksCache pvcName (some [localTask.ID]) } }

/-- The loop body of `OnProcessTask`. -/
def OnProcessTaskBody (opts : Options) (f : Faults) (localTask : Task) (bioosInfo : BioosInfo)
    (acc : Loop) (pvcName : String) : Loop :=
  match acc.st.pvcWithTasksCache pvcName with
  | some ids =>
    { acc with st := { acc.st with
        pvcWithTasksCache := assign acc.st.pvcWithTasksCache pvcName
          (some (insertID localTask.ID ids)) } }
  | none =>
    let bucket := parseBucketFromPVCName pvcName
    match externalBucketAuthInfo bioosInfo bucket with
    | some authInfo =>
      let secretName := externalBucketTOSSecretName bioosInfo.SubmissionID bucket
      let x := storeKubeSecret f secretName authInfo.1 authInfo.2 acc.st
      match x.1.2 with
      | some err => { acc with errs := acc.errs ++ [err], st := x.2 }
      | none =>
        if x.1.1 then { acc with existDeleting := true, st := x.2 }
        else OnProcessTaskMount f localTask pvcName secretName { acc with st := x.2 }
    | none => OnProcessTaskMount f localTask pvcName opts.StaticTOSSecretName acc

def OnProcessTask (opts : Options) (f : Faults) (localTask : Task) (st : State) :
    (runner.Result × Option runner.Err) × State :=
  match localTask.BioosInfo with
  | none => ((runner.Result.empty, none), st)
  | some bioosInfo =>
    let pvcNames := localTask.AccelerateNames
    if pvcNames.length = 0 then ((runner.Result.empty, none), st)
    else
      let acc := pvcNames.foldl (OnProcessTaskBody opts f localTask bioosInfo)
        { errs := [], existDeleting := false, st := st }
      match NewAggregate acc.errs with
      | some reterr => ((runner.Result.empty, some reterr), acc.st)
      | none =>
        if acc.existDeleting then
          (({ Requeue := false, RequeueAfter := deletingWaitDuration }, none), acc.st)
        else ((runner.Result.empty, none), acc.st)

/-- The end of the loop body of `OnFinishTask`: delete PVC and PV, the secret
of an external bucket, and the table entry. -/
def OnFinishTaskUnmount (f : Faults) (bioosInfo : BioosInfo) (pvcName : String) (acc : Loop) :
    Loop :=
  match deletePVAndPVC f pvcName acc.st with
  | (some err, st) => { acc with errs := acc.errs ++ [err], st := st }
  | (none, st) =>
    let bucket := parseBucketFromPVCName pvcName
    let dropEntry (st : State) : State :=
      { st with pvcWithTasksCache := assign st.pvcWithTasksCache pvcName none }
    if externalBucketSet bioosInfo bucket then
      let secretName := externalBucketTOSSecretName bioosInfo.SubmissionID bucket
      match deleteKubeSecret f secretName st with
      | (some err, st) => { acc with errs := acc.errs ++ [err], st := st }
      | (none, st) => { acc with st := dropEntry st }
    else { acc with st := dropEntry st }

/-- The loop body of `OnFinishTask`. -/
def OnFinishTaskBody (f : Faults) (localTask : Task) (bioosInfo : BioosInfo) (acc : Loop)
    (pvcName : String) : Loop :=
  match acc.st.pvcWithTasksCache pvcName with
  | some ids =>
    let ids := deleteID localTask.ID ids
    let acc : Loop := { acc with st := { acc.st with
      pvcWithTasksCache := assign acc.st.pvcWithTasksCache pvcName (some ids) } }
    if ids.length > 0 then acc
    else OnFinishTaskUnmount f bioosInfo pvcName acc
  | none => OnFinishTaskUnmount f bioosInfo pvcName acc

def OnFinishTask (f : Faults) (localTask : Task) (st : State) : Option runner.Err × State :=
  match localTask.BioosInfo with
  | none => (none, st)
  | some bioosInfo =>
    let pvcNames := localTask.AccelerateNames
    if pvcNames.length = 0 then (none, st)
    else
      let acc := pvcNames.foldl (OnFinishTaskBody f localTask bioosInfo)
        { errs := [], existDeleting := false, st := st }
      (NewAggregate acc.errs, acc.st)

/-- The accelerator as it is constructed by `New`: an empty reference table,
here on a cluster without mount objects. -/
def New : State :=
  { pvcWithTasksCache := fun _ => none, pvs := fun _ => none, pvcs := fun _ => none,
    secrets := fun _ => none, trace := [] }

/-- No request fails, and nothing holds the objects: a delete removes the
object at once. -/
def noFaults : Faults := { fails := fun _ => false, lingers := fun _ => false }

end mounttos

/-! ## Vocabulary of the properties -/

namespace runner

open localstore

/-- A write of one of the two counters. -/
def isCounterWrite : Effect → Bool
  | Effect.localRecordStage _ => true
  | Effect.localRecordExecutorStage _ => true
  | _ => false

def isCreate : Effect → Bool
  | Effect.kubeCreate _ => true
  | _ => false

/-- The counter writes of a trace, in order. -/
def counterWrites (t : List Effect) : List Effect :=
  t.filter isCounterWrite

/-- The objects a trace asks the cluster to create, in order. -/
def createRequests (t : List Effect) : List Obj :=
  t.filterMap fun e =>
    match e with
    | Effect.kubeCreate o => some o
    | _ => none

/-- The objects a trace asks the cluster to delete, in order. -/
def deleteRequests (t : List Effect) : List Obj :=
  t.filterMap fun e =>
    match e with
    | Effect.kubeDelete o => some o
    | _ => none

/-- The calls made on the way from `w` to `w'`: what the trace has gained. -/
def callsOf (w w' : World) : List Effect :=
  w'.trace.drop w.trace.length

/-- The world right after the syncer has stored the task: a record without
annotations and no cluster object. -/
def initial (task : Task) : World :=
  { record := some { toTask := task, Stop := none, Stage := none, ExecutorStage := none },
    objects := [], finalizers := [], taskProcessing := [], trace := [] }

/-- The syncer's handling of a task the control plane lists as Canceling, on
a world that has the record (canceling.go): mark it Canceled unless a stop
marker is there. -/
def syncCancelingMark (env : Env) (w : World) : World :=
  match w.record with
  | none => w
  | some taskInfo =>
    match taskInfo.Stop with
    | some _ => w
    | none => (StopTask env consts.TaskCanceled w).2

/-- The worlds a task goes through: any number of reconciliations of the task,
each under an environment of its own, and cancellation marks of the syncer in
between. -/
inductive Run (r : Runner) (taskID : String) : World → World → Prop where
  | refl (w : World) : Run r taskID w w
  | step (env : Env) {w w' : World} :
      Run r taskID w w' → Run r taskID w (ProcessTask r env taskID w').2
  | cancel (env : Env) {w w' : World} :
      Run r taskID w w' → Run r taskID w (syncCancelingMark env w')

/-- `n` reconciliations in a row under one environment. -/
def reconcileTimes (r : Runner) (env : Env) (taskID : String) : Nat → World → World
  | 0, w => w
  | n + 1, w => reconcileTimes r env taskID n (ProcessTask r env taskID w).2

/-- No call to the local store or to the cluster API fails on the way
through `stopAndCleanTask` up to its deletes. -/
def Env.cleanUnhindered (env : Env) : Prop :=
  env.localGetFailsOnClean = false ∧ env.localStopFails = false ∧
    ∀ o, env.kubeGetFails o = false ∧ env.kubeRemoveFinalizer o ≠ Api.fail
      ∧ env.kubeDelete o ≠ Api.fail

/-- Position of an object in the clean-up: outputs stager, executors, inputs
stager, PVC. -/
def cleanRank : Obj → Nat
  | Obj.outputsFiler => 0
  | Obj.executor _ => 1
  | Obj.inputsFiler => 2
  | Obj.pvc => 3

/-- `a` is deleted before `b`: an earlier group, or two executors in ascending
index. -/
def deletedBefore (a b : Obj) : Prop :=
  cleanRank a < cleanRank b ∨ ∃ i j, a = Obj.executor i ∧ b = Obj.executor j ∧ i < j

/-! ### Summaries of one reconciliation -/

/-- The objects `stopAndCleanTask` deletes for a record, in the order of its
four blocks. -/
def cleanTargets (ri : TaskInfo) : List Obj :=
  (if currentStageOf ri ≥ taskStageOutputsFilerToCreate ∧ shouldCreateOutputsFiler ri.toTask = true
     then [outputsFilerJobName] else [])
  ++ (if currentStageOf ri ≥ taskStageExecutorsToCreate then
        match ri.ExecutorStage with
        | some v => (executorIndices (parseExecutorStageValue v).index).map executorJobName
        | none => []
      else [])
  ++ (if currentStageOf ri ≥ taskStageInputsFilerToCreate ∧ shouldCreateInputsFiler ri.toTask = true
        then [inputsFilerJobName] else [])
  ++ (if currentStageOf ri ≥ taskStagePVCToCreate ∧ shouldCreatePVC ri.toTask = true
        then [pvcName] else [])

/-- Every cluster object of the task is a clean-up target of its record, and
there is none when the record is gone. -/
def Covered (w : World) : Prop :=
  match w.record with
  | none => w.objects = []
  | some ri => ∀ o ∈ w.objects, o ∈ cleanTargets ri

/-- Deletes in a row, stopping at the first error. -/
def deleteAll (env : Env) : List Obj → World → Option Err × World
  | [], w => (none, w)
  | o :: rest, w =>
    match kubeDeleteObject env o w with
    | (some err, w) => (some err, w)
    | (none, w) => deleteAll env rest w

/-- Two records with the same task body and the same counters (or both
absent). -/
def sameCounters (a b : Option TaskInfo) : Prop :=
  (a = none ∧ b = none) ∨
    ∃ ri rj, a = some ri ∧ b = some rj ∧ rj.toTask = ri.toTask ∧ rj.Stage = ri.Stage
      ∧ rj.ExecutorStage = ri.ExecutorStage

/-- The record keeps its task body and neither counter goes down (or the
record is gone). -/
def countersGrow (a b : Option TaskInfo) : Prop :=
  b = none ∨ ∃ ri rj, a = some ri ∧ b = some rj ∧ rj.toTask = ri.toTask
    ∧ (∀ c, ri.Stage = some c → ∃ c', rj.Stage = some c' ∧ c ≤ c')
    ∧ (∀ v, ri.ExecutorStage = some v → ∃ v', rj.ExecutorStage = some v' ∧ v ≤ v')

/-- The record `rj` is `ri` after the counter write `e`. -/
def applied (e : Effect) (ri rj : TaskInfo) : Prop :=
  match e with
  | Effect.localRecordStage s => rj.Stage = some s ∧ rj.ExecutorStage = ri.ExecutorStage
  | Effect.localRecordExecutorStage v => rj.ExecutorStage = some v ∧ rj.Stage = ri.Stage
  | _ => False

/-- The trace of `w'` is the trace of `w` followed by calls that neither
write a counter nor create an object. -/
def quietExtension (w w' : World) : Prop :=
  ∃ new, w'.trace = w.trace ++ new ∧ counterWrites new = [] ∧ createRequests new = []

/-- The trace of `w'` is the trace of `w` followed by calls that neither
write a counter nor create or delete an object. -/
def silentExtension (w w' : World) : Prop :=
  ∃ new, w'.trace = w.trace ++ new ∧ counterWrites new = [] ∧ createRequests new = []
    ∧ deleteRequests new = []

/-- Calls that only read or report: the record and the objects stay, and the
trace grows by calls that neither write a counter nor create or delete an
object. -/
structure Same (w w' : World) : Prop where
  trace : silentExtension w w'
  objects : w'.objects = w.objects
  record : w'.record = w.record

/-- Like `Same`, except that the record may have been deleted. -/
structure Harmless (w w' : World) : Prop where
  trace : silentExtension w w'
  objects : w'.objects = w.objects
  record : w'.record = w.record ∨ w'.record = none

/-- A stretch of a reconciliation that writes no counter and creates nothing:
objects can only go away, and the record keeps its counters or is deleted
after every clean-up target of it is gone. -/
structure Settled (w w' : World) : Prop where
  trace : quietExtension w w'
  objects : ∀ o ∈ w'.objects, o ∈ w.objects
  record : sameCounters w.record w'.record ∨
    (w'.record = none ∧ ∃ ri, w.record = some ri ∧ ∀ o ∈ w'.objects, o ∉ cleanTargets ri)

/-- A reconciliation that tries one step: it may create the object `o` and
may write the counter `e`, in this order, and nothing else of the kind. -/
structure Attempt (o : Option Obj) (e : Effect) (w w' : World) : Prop where
  trace : ∃ new, w'.trace = w.trace ++ new
    ∧ (counterWrites new = [] ∨ counterWrites new = [e])
    ∧ ∀ x ∈ createRequests new, o = some x
  objects : ∀ x ∈ w'.objects, x ∈ w.objects ∨ o = some x
  record : sameCounters w.record w'.record ∨
    ∃ ri rj, w.record = some ri ∧ w'.record = some rj ∧ rj.toTask = ri.toTask ∧ applied e ri rj

/-- The steps of the stage machine: for a record `ri`, the object a step may
create and the counter it may write. -/
inductive Advance (task : CPTask) (ri : TaskInfo) : Option Obj → Effect → Prop where
  | init : ri.Stage = none → Advance task ri none (Effect.localRecordStage taskStageInit)
  | initializing (c : Int) : ri.Stage = some c → c < taskStageInitializing →
      Advance task ri none (Effect.localRecordStage taskStageInitializing)
  | pvcCreated (c : Int) : ri.Stage = some c → taskStageInitializing ≤ c → c < taskStagePVCCreated →
      Advance task ri (if shouldCreatePVC ri.toTask then some pvcName else none)
        (Effect.localRecordStage taskStagePVCCreated)
  | inputsFilerCreated (c : Int) : ri.Stage = some c → taskStagePVCCreated ≤ c →
      c < taskStageInputsFilerCreated →
      Advance task ri (if shouldCreateInputsFiler ri.toTask then some inputsFilerJobName else none)
        (Effect.localRecordStage taskStageInputsFilerCreated)
  | inputsFilerFinished (c : Int) : ri.Stage = some c → taskStageInputsFilerCreated ≤ c →
      c < taskStageInputsFilerFinished →
      Advance task ri none (Effect.localRecordStage taskStageInputsFilerFinished)
  | running (c : Int) : ri.Stage = some c → taskStageInputsFilerFinished ≤ c →
      c < taskStageRunning → Advance task ri none (Effect.localRecordStage taskStageRunning)
  | executorsStart (c : Int) : ri.Stage = some c → taskStageRunning ≤ c →
      c < taskStageExecutorsFinished → ri.ExecutorStage = none →
      Advance task ri none
        (Effect.localRecordExecutorStage (newExecutorStageValue 0 executorStatusToCreate))
  | executorCreated (c v : Int) : ri.Stage = some c → taskStageRunning ≤ c →
      c < taskStageExecutorsFinished → ri.ExecutorStage = some v →
      (parseExecutorStageValue v).status = executorStatusToCreate →
      0 ≤ (parseExecutorStageValue v).index →
      (parseExecutorStageValue v).index < (ri.Executors.length : Int) →
      Advance task ri (some (executorJobName (parseExecutorStageValue v).index))
        (Effect.localRecordExecutorStage
          (newExecutorStageValue (parseExecutorStageValue v).index executorStatusCreated))
  | executorWatched (c v s : Int) : ri.Stage = some c → taskStageRunning ≤ c →
      c < taskStageExecutorsFinished → ri.ExecutorStage = some v →
      (parseExecutorStageValue v).status = executorStatusCreated →
      (s = executorStatusFailed ∨ s = executorStatusSuccess) →
      Advance task ri none
        (Effect.localRecordExecutorStage
          (newExecutorStageValue (parseExecutorStageValue v).index s))
  | executorNext (c v : Int) : ri.Stage = some c → taskStageRunning ≤ c →
      c < taskStageExecutorsFinished → ri.ExecutorStage = some v →
      (parseExecutorStageValue v).status = executorStatusSuccess →
      (parseExecutorStageValue v).index < (task.Executors.length : Int) - 1 →
      Advance task ri none
        (Effect.localRecordExecutorStage
          (newExecutorStageValue ((parseExecutorStageValue v).index + 1) executorStatusToCreate))
  | executorsFinished (c v : Int) : ri.Stage = some c → taskStageRunning ≤ c →
      c < taskStageExecutorsFinished → ri.ExecutorStage = some v →
      (parseExecutorStageValue v).status ≠ executorStatusToCreate →
      (parseExecutorStageValue v).status ≠ executorStatusCreated →
      Advance task ri none (Effect.localRecordStage taskStageExecutorsFinished)
  | outputsFilerCreated (c : Int) : ri.Stage = some c → taskStageExecutorsFinished ≤ c →
      c < taskStageOutputsFilerCreated →
      Advance task ri (if shouldCreateOutputsFiler ri.toTask then some outputsFilerJobName else none)
        (Effect.localRecordStage taskStageOutputsFilerCreated)
  | outputsFilerFinished (c : Int) : ri.Stage = some c → taskStageOutputsFilerCreated ≤ c →
      c < taskStageOutputsFilerFinished →
      Advance task ri none (Effect.localRecordStage taskStageOutputsFilerFinished)

/-! ### Sample inputs -/

/-- An agent of cluster `c1`. -/
def sampleRunner : Runner := { clusterID := "c1" }

def sampleExecutor : Executor :=
  { Image := "busybox", Command := ["true"], Workdir := "", Stdin := "", Stdout := "",
    Stderr := "", Env := [] }

/-- A task with three executors, no inputs, outputs or volumes. -/
def sampleTask : Task :=
  { ID := "task-1", Name := "sample", Resources := none,
    Executors := [sampleExecutor, sampleExecutor, sampleExecutor], BioosInfo := none,
    Volumes := [], InputsJSON := "", OutputsJSON := "", InputsRef := "", OutputsRef := "",
    AccelerateNames := [] }

/-- A task with inputs, outputs and two executors, so that a PVC and both
stagers are needed. -/
def stagedTask : Task :=
  { ID := "task-1", Name := "staged",
    Resources := some { CPUCores := 1, RamGB := 1, DiskGB := 10, GPU := none },
    Executors := [sampleExecutor, sampleExecutor], BioosInfo := none,
    Volumes := [], InputsJSON := "[in]", OutputsJSON := "[out]", InputsRef := "",
    OutputsRef := "", AccelerateNames := [] }

/-- The control plane's view of `sampleTask` in a given state. -/
def sampleCPTask (state : String) : CPTask :=
  { ID := "task-1", State := state, ClusterID := "c1", Executors := sampleTask.Executors,
    Logs := [] }

/-- An environment in which no call fails, pods are gone after their delete,
and every job has completed except those in `failed`. -/
def sampleEnv (state : String) (failed : List Obj) : Env :=
  { now := "2024-01-01T00:00:00Z",
    cpGetTask := Except.ok (sampleCPTask state),
    cpUpdateTask := none,
    localGetFails := false,
    localGetFailsOnClean := false,
    localStopFails := false,
    localRecordFails := false,
    localDeleteFails := false,
    kubeCreateFails := fun _ => false,
    kubeGetFails := fun _ => false,
    kubeRemoveFinalizer := fun _ => Api.ok,
    kubeDelete := fun _ => Api.ok,
    getJobStatus := fun o => if o ∈ failed then jobStatus.jobFailed else jobStatus.jobComplete,
    listPodsFails := fun _ => false,
    deletePods := fun _ => PodsOutcome.gone,
    logFile := LogRead.notExist,
    accelOnProcess := (Result.empty, none),
    accelOnFinish := none }

/-- A world whose record carries the given counters. -/
def sampleWorld (stage executorStage : Option Int) : World :=
  { record := some { toTask := sampleTask, Stop := none, Stage := stage,
                     ExecutorStage := executorStage },
    objects := [], finalizers := [], taskProcessing := [], trace := [] }

/-- The set of characters the specification lists for quoting: space `!`
double quote `#` `$` `&` single quote `(` `)` `*` `;` `<` `>` `?` `[`
backslash backtick opening brace `|` `~` tab newline. -/
def specQuotedSet : List Char :=
  [' ', '!', doubleQuote, '#', '$', '&', singleQuote, '(', ')', '*', ';', '<', '>', '?', '[',
    Char.ofNat 92, Char.ofNat 96, Char.ofNat 123, '|', '~', Char.ofNat 9, Char.ofNat 10]

/-- Quoting of one argument in the words of the specification: an argument
with a character of the set is put in single quotes with every single quote
in it replaced by the five characters quote, double quote, quote, double
quote, quote; any other argument is left as it is. -/
def specQuoted (a : String) : String :=
  if a.toList.any (fun c => decide (c ∈ specQuotedSet)) then
    String.singleton singleQuote
      ++ String.join (a.toList.map fun c =>
          if c = singleQuote then escapedSingleQuote else String.singleton c)
      ++ String.singleton singleQuote
  else a

/-- The redirections in the words of the specification: `< stdin`, then
`> stdout`, then `2> stderr`, each only if set. -/
def specRedirects (executor : Executor) : List String :=
  (if executor.Stdin = "" then [] else ["< " ++ executor.Stdin])
    ++ (if executor.Stdout = "" then [] else ["> " ++ executor.Stdout])
    ++ (if executor.Stderr = "" then [] else ["2> " ++ executor.Stderr])

end runner

/-! ## Vocabulary of the mount properties -/

namespace mounttos

open localstore

/-- `OnProcessTask` for each task of the list, in order. -/
def processAll (opts : Options) (f : Faults) (tasks : List Task) (st : State) : State :=
  tasks.foldl (fun acc t => (OnProcessTask opts f t acc).2) st

/-- `OnFinishTask` for each task of the list, in order. -/
def finishAll (f : Faults) (tasks : List Task) (st : State) : State :=
  tasks.foldl (fun acc t => (OnFinishTask f t acc).2) st

/-- The create and delete requests for the PV and the PVC named `m`, in the
order they were sent. -/
def mountRequests (m : String) (tr : List Call) : List Call :=
  tr.filter fun c =>
    decide (c.name = m) && decide (c.kind ≠ Kind.secret)
      && (decide (c.verb = Verb.create) || decide (c.verb = Verb.delete))

/-- The reference set of a mount after a task has been added to it. -/
def addRef (id : String) (entry : Option (List String)) : List String :=
  match entry with
  | some ids => insertID id ids
  | none => [id]

/-- The table entry of a mount after a task has been taken from it: the entry
goes when its set gets empty. -/
def dropRef (id : String) (entry : Option (List String)) : Option (List String) :=
  match entry with
  | some ids => if deleteID id ids = [] then none else some (deleteID id ids)
  | none => none

/-- No secret of the cluster carries a deletion timestamp. -/
def secretsLive (st : State) : Prop :=
  ∀ n s, st.secrets n = some s → s.deleting = false

/-- The PV and the PVC of every mount exist exactly when the table has an
entry for the mount, and no entry of the table is an empty set. -/
def mountsBacked (st : State) : Prop :=
  ∀ n, (st.pvs n).isSome = (st.pvcWithTasksCache n).isSome
    ∧ (st.pvcs n).isSome = (st.pvcWithTasksCache n).isSome
    ∧ st.pvcWithTasksCache n ≠ some []

/-- A secret named `n` exists exactly when `n` is an external mount with an
entry in the table. -/
def secretsBacked (ext : String → Bool) (st : State) : Prop :=
  ∀ n, (st.secrets n).isSome = (ext n && (st.pvcWithTasksCache n).isSome)

/-- The task names its mounts the way `ModifySyncTask` does, in agreement with
`ext`: the bucket read back from a mount name it lists is externally
credentialed for the task exactly when `ext` holds of the name, and then the
secret of that bucket for the task's submission bears the name of the mount. -/
def coherent (ext : String → Bool) (t : Task) : Prop :=
  ∀ bioosInfo, t.BioosInfo = some bioosInfo → ∀ n ∈ t.AccelerateNames,
    externalBucketSet bioosInfo (parseBucketFromPVCName n) = ext n
    ∧ (ext n = true →
        externalBucketTOSSecretName bioosInfo.SubmissionID (parseBucketFromPVCName n) = n)

/-- The state differs from the earlier one only at the mount `k`, in the
secrets, and by requests about secrets or about objects named `k`. -/
def Frame (k : String) (st st' : State) : Prop :=
  (∀ n, n ≠ k → st'.pvcWithTasksCache n = st.pvcWithTasksCache n
      ∧ st'.pvs n = st.pvs n ∧ st'.pvcs n = st.pvcs n)
  ∧ ∃ new, st'.trace = st.trace ++ new ∧ ∀ c ∈ new, c.kind = Kind.secret ∨ c.name = k

/-- One event on the accelerator and its cluster: a call of `OnProcessTask` or
of `OnFinishTask`, with the answers of the cluster to the requests of that
call, or the cluster removing an object that carries a deletion timestamp. -/
inductive Event where
  | process (f : Faults) (t : Task)
  | finish (f : Faults) (t : Task)
  | reap (kind : Kind) (name : String)

/-- The cluster removes the object of the kind and the name if it carries a
deletion timestamp. -/
def reap (kind : Kind) (name : String) (st : State) : State :=
  match kind with
  | Kind.pv =>
    if (st.pvs name).any (fun pv => pv.deleting) then
      { st with pvs := assign st.pvs name none }
    else st
  | Kind.pvc =>
    if (st.pvcs name).any (fun pvc => pvc.deleting) then
      { st with pvcs := assign st.pvcs name none }
    else st
  | Kind.secret =>
    if (st.secrets name).any (fun s => s.deleting) then
      { st with secrets := assign st.secrets name none }
    else st

/-- No request of the event fails. -/
def Event.quiet : Event → Prop
  | Event.process f _ => ∀ c, f.fails c = false
  | Event.finish f _ => ∀ c, f.fails c = false
  | Event.reap _ _ => True

def sampleOptions : Options :=
  { StaticTOSSecretName := "tos-secret", BucketNumPerTask := 10 }

/-- A task of submission `sub` that lists the mounts `names` and carries
credentials of its own for the buckets `external`. -/
def mountTask (id sub : String) (names external : List String) : Task :=
  { ID := id, Name := id, Resources := none, Executors := [],
    BioosInfo := some
      { AccountID := "acc", UserID := "user", SubmissionID := sub, RunID := "run",
        Meta := some
          { AAIPassport := none, MountTOS := some true,
            BucketsAuthInfo := some
              { ReadOnly := [], ReadWrite := [],
                External := external.map fun b => { Bucket := b, AK := "ak", SK := "sk" } } } },
    Volumes := [], InputsJSON := "", OutputsJSON := "", InputsRef := "", OutputsRef := "",
    AccelerateNames := names }

end mounttos

/-! ## pkg/reconciler/runner/pod.go -/

namespace runner

open localstore

/-- The zero `time.Time` (January 1, year 1) on the clock's scale: instants
are milliseconds since the Unix epoch. -/
def zeroTime : Int := -62135596800000

/-- `!t.IsZero() && t.Unix() > 0` of a `metav1.Time`. -/
def validTime (t : Int) : Bool :=
  decide (t ≠ zeroTime) && decide (t > 0)

/-- `corev1.ContainerState`: the three optional states with the fields the
runner reads (`Waiting.Reason`, `Running.StartedAt`, `Terminated.StartedAt` and
`Terminated.FinishedAt`). -/
structure ContainerState where
  Waiting : Option String
  Running : Option Int
  Terminated : Option (Int × Int)
deriving DecidableEq, Repr

structure ContainerStatus where
  State : ContainerState
deriving DecidableEq, Repr

/-- `corev1.Pod` as far as the runner reads it; `Labels` is the label map as a
list of pairs with distinct keys. -/
structure Pod where
  Name : String
  Labels : List (String × String)
  Finalizers : List String
  DeletionTimestamp : Option Int
  Phase : String
  StartTime : Option Int
  ContainerStatuses : List ContainerStatus
deriving DecidableEq, Repr

structure JobCondition where
  Type_ : String
  Status : String
deriving DecidableEq, Repr

/-- `batchv1.Job` as far as the pod observer reads and writes it. -/
structure Job where
  Name : String
  Conditions : List JobCondition
  ActiveDeadlineSeconds : Option Int
deriving DecidableEq, Repr

def PodPending : String := "Pending"
def PodRunning : String := "Running"
def PodSucceeded : String := "Succeeded"
def PodFailed : String := "Failed"

def LabelTaskID : String := "vetes.bioos.volcengine.com/task-id"
def LabelJobName : String := "job-name"
def LabelType : String := "vetes.bioos.volcengine.com/type"
def ExecutorType : String := "executor"
def LabelExecutorNo : String := "vetes.bioos.volcengine.com/executor-no"
def ProcessExecutorTimeFinalizer : String := "vetes.bioos.volcengine.com/executor-time"

/-- `m[key]` with the comma-ok form. -/
def label (pod : Pod) (key : String) : Option String :=
  pod.Labels.lookup key

/-- The options of the runner the pod observer reads, durations in
milliseconds. -/
structure Options where
  PodPollInterval : Nat
  PodImagePullBackoffTimeout : Int
deriving DecidableEq, Repr

/-- One request of the pod observer to the cluster API. -/
inductive PodEffect where
  | getPod (name : String)
  | getLogs (name : String)
  | addFinalizer (name : String)
  | removeFinalizer (name : String)
  | getJob (name : String)
  | listEvents (name : String)
  | stopJob (name : String)
deriving DecidableEq, Repr

/-- What the pod observer acts on: the world of the task reconciliation (the
busy set and the trace of control-plane calls are there), the pods and the
jobs of the namespace, and the requests sent to the cluster API. -/
structure PodWorld where
  base : World
  pods : List Pod
  jobs : List Job
  calls : List PodEffect
deriving DecidableEq, Repr

/-- What the surroundings answer during one pod reconciliation: those of the
task reconciliation, the clock, the library's `Time.Format(time.RFC3339)` and
`time.Parse(time.RFC3339, _)`, the greatest length for which `make` hands out
a slice of executor-log slices on the platform at hand, and the failures of
the cluster API. -/
structure PodEnv where
  env : Env
  nowTime : Int
  timeFormat : Int → String
  timeParse : String → Option Int
  makeLimit : Nat
  getPodFails : Bool
  addFinalizer : Api
  removeFinalizer : Api
  getJobFails : Bool
  stopJob : Api

def emitPod (e : PodEffect) (pw : PodWorld) : PodWorld :=
  { pw with calls := pw.calls ++ [e] }

def getPod (pw : PodWorld) (name : String) : Option Pod :=
  pw.pods.find? fun p => p.Name == name

def getJobByName (pw : PodWorld) (name : String) : Option Job :=
  pw.jobs.find? fun j => j.Name == name

/-- Write a pod back under its name. -/
def setPod (pod : Pod) (pw : PodWorld) : PodWorld :=
  { pw with pods := pw.pods.map fun p => if p.Name == pod.Name then pod else p }

/-- Write a job back under its name. -/
def setJob (job : Job) (pw : PodWorld) : PodWorld :=
  { pw with jobs := pw.jobs.map fun j => if j.Name == job.Name then job else j }

/-- `getJobStatus` (job.go) on the conditions of a job: the first condition
that is `Failed` or `Complete` with status `True` decides. -/
def getJobStatusOfConditions : List JobCondition → jobStatus
  | [] => jobStatus.jobRunning
  | condition :: rest =>
    if condition.Type_ = "Failed" ∧ condition.Status = "True" then jobStatus.jobFailed
    else if condition.Type_ = "Complete" ∧ condition.Status = "True" then jobStatus.jobComplete
    else getJobStatusOfConditions rest

def jobFinished (job : Job) : Bool :=
  getJobStatusOfConditions job.Conditions != jobStatus.jobRunning

/-- `utils.MergeCtrlResults`. -/
def MergeCtrlResults (results : List Result) : Result :=
  results.foldl (fun res r =>
    let res := if r.Requeue then { res with Requeue := true } else res
    if r.RequeueAfter > 0 then
      if res.RequeueAfter = 0 ∨ r.RequeueAfter < res.RequeueAfter then
        { res with RequeueAfter := r.RequeueAfter }
      else res
    else res) Result.empty

/-- `strconv.Atoi`: an optional sign, then decimal digits, within the range of
a 64-bit `int`. -/
def Atoi (s : String) : Option Int :=
  let cs := s.toList
  let neg : Bool := cs.head? == some '-'
  let digits : List Char :=
    match cs with
    | '-' :: rest => rest
    | '+' :: rest => rest
    | _ => cs
  if digits.isEmpty || !digits.all Char.isDigit then none
  else
    let n : Nat := digits.foldl (fun acc c => acc * 10 + (c.toNat - 48)) 0
    let v : Int := if neg then -(n : Int) else (n : Int)
    if v < -(2 ^ 63 : Int) ∨ v > (2 ^ 63 : Int) - 1 then none else some v

/-- `utils.AddObjectFinalizer` on a pod. -/
def AddObjectFinalizer (penv : PodEnv) (pod : Pod) (finalizerName : String) (pw : PodWorld) :
    Option Err × PodWorld :=
  if finalizerName ∈ pod.Finalizers then (none, pw)
  else
    let pw := emitPod (PodEffect.addFinalizer pod.Name) pw
    match penv.addFinalizer with
    | Api.ok => (none, setPod { pod with Finalizers := pod.Finalizers ++ [finalizerName] } pw)
    | Api.gone => (some (Err.failure "failed to add finalizer"), pw)
    | Api.fail => (some (Err.failure "failed to add finalizer"), pw)

/-- `utils.RemoveObjectFinalizer` on a pod: not-found on the patch is success. -/
def RemoveObjectFinalizer (penv : PodEnv) (pod : Pod) (finalizerName : String) (pw : PodWorld) :
    Option Err × PodWorld :=
  if finalizerName ∉ pod.Finalizers then (none, pw)
  else
    let pw := emitPod (PodEffect.removeFinalizer pod.Name) pw
    match penv.removeFinalizer with
    | Api.ok =>
      (none, setPod { pod with Finalizers := pod.Finalizers.filter fun f => f != finalizerName } pw)
    | Api.gone => (none, pw)
    | Api.fail => (some (Err.failure "failed to remove finalizer"), pw)

/-- `recordExecutorLog`: for a finished executor pod the logs are streamed and
written to the task's log file; a failure on the way is logged and nothing is
returned, so only the request is kept. -/
def recordExecutorLog (pod : Pod) (pw : PodWorld) : PodWorld :=
  if (label pod LabelType).getD "" ≠ ExecutorType then pw
  else if pod.Phase ≠ PodFailed ∧ pod.Phase ≠ PodSucceeded then pw
  else emitPod (PodEffect.getLogs pod.Name) pw

/-- The body of `getExecutorTime`, before the deferred function runs. -/
def getExecutorTimeBody (penv : PodEnv) (pod : Pod) : Option String × Option String :=
  match pod.ContainerStatuses with
  | [] => (none, none)
  | containerStatus :: _ =>
    match containerStatus.State.Running with
    | some startedAt =>
      (if validTime startedAt then some (penv.timeFormat startedAt) else none, none)
    | none =>
      match containerStatus.State.Terminated with
      | some terminated =>
        let startTime : Option String :=
          if validTime terminated.1 then some (penv.timeFormat terminated.1) else none
        let endTime : Option String :=
          if validTime terminated.2 then some (penv.timeFormat terminated.2)
          else some (penv.timeFormat penv.nowTime)
        (if startTime = none then endTime else startTime, endTime)
      | none => (none, none)

/-- `getExecutorTime`: the body, then the deferred function on the named
results. A minute is 60000 on the clock's scale. -/
def getExecutorTime (penv : PodEnv) (pod : Pod) : Option String × Option String :=
  let body := getExecutorTimeBody penv pod
  if pod.Phase = PodFailed ∨ pod.Phase = PodSucceeded then
    let startTime : Option String :=
      match body.1 with
      | some s => some s
      | none =>
        match pod.StartTime with
        | some t => if validTime t then some (penv.timeFormat t) else some (penv.timeFormat penv.nowTime)
        | none => some (penv.timeFormat penv.nowTime)
    let endTime : Option String :=
      match body.2 with
      | some e => some e
      | none => some (penv.timeFormat penv.nowTime)
    (startTime, endTime)
  else if pod.Phase = PodRunning then
    match pod.DeletionTimestamp with
    | some deletion =>
      if body.1 ≠ none ∧ body.2 = none ∧ deletion ≠ zeroTime ∧ deletion + 60000 < penv.nowTime then
        (body.1, some (penv.timeFormat deletion))
      else body
    | none => body
  else body

/-- `invalidEndTime`: both strings are parsed with the errors dropped, so a
string that does not parse stands for the zero time. -/
def invalidEndTime (timeParse : String → Option Int) (startTimeStr endTimeStr : String) : Bool :=
  let startTime := (timeParse startTimeStr).getD zeroTime
  let endTime := (timeParse endTimeStr).getD zeroTime
  decide (endTime < startTime)

def getMatchedExecutorLog : List (Option ExecutorLog) → String → Option ExecutorLog
  | [], _ => none
  | none :: rest, executorID => getMatchedExecutorLog rest executorID
  | some executorLog :: rest, executorID =>
    if executorLog.ExecutorID = executorID then some executorLog
    else getMatchedExecutorLog rest executorID

/-- The value of an expression of the type `int` on a 64-bit platform: the
integer wrapped into the range from -2^63 to 2^63 - 1. -/
def wrapInt (x : Int) : Int :=
  (x + 2 ^ 63) % 2 ^ 64 - 2 ^ 63

/-- `genUpdateTaskLogsExecutor`; `none` is a run-time panic: of
`make(_, executorNo+1)` when the length, computed on `int`, is negative (so
for `executorNo` below -1, and for the greatest `int`, where the sum wraps) or
beyond `makeLimit`, the greatest length the run-time hands out for this slice
(a longer one is refused or exhausts the memory); or of the index
`Logs[executorNo]` when it is outside the slice made. -/
def genUpdateTaskLogsExecutor (r : Runner) (timeParse : String → Option Int) (makeLimit : Nat)
    (taskLogs : List (Option TaskLog)) (executorNo : Int) (executorID : String)
    (startTime endTime : Option String) : Option (List TaskLog) :=
  if wrapInt (executorNo + 1) < 0 ∨ (makeLimit : Int) < wrapInt (executorNo + 1)
      ∨ executorNo < 0 ∨ wrapInt (executorNo + 1) ≤ executorNo then none
  else
    let matchedTaskLog := getMatchedTaskLog r taskLogs
    let taskStart : Option String :=
      match matchedTaskLog with
      | none => startTime
      | some matched => if matched.StartTime = none then startTime else none
    let matchedExecutorLog : Option ExecutorLog :=
      match matchedTaskLog with
      | none => none
      | some matched =>
        if (matched.Logs.length : Int) ≥ wrapInt (executorNo + 1) then
          getMatchedExecutorLog (matched.Logs.getD executorNo.toNat []) executorID
        else none
    let recordedStart : Option String := matchedExecutorLog.bind fun m => m.StartTime
    let executorLog : ExecutorLog :=
      match recordedStart with
      | none =>
        let clamped : Option String :=
          match startTime, endTime with
          | some s, some e => if invalidEndTime timeParse s e then startTime else endTime
          | _, _ => endTime
        { ExecutorID := executorID, StartTime := startTime, EndTime := clamped }
      | some recorded =>
        if (matchedExecutorLog.bind fun m => m.EndTime) = none then
          let clamped : Option String :=
            match endTime with
            | some e => if invalidEndTime timeParse recorded e then some recorded else endTime
            | none => endTime
          { ExecutorID := executorID, StartTime := none, EndTime := clamped }
        else { ExecutorID := executorID, StartTime := none, EndTime := none }
    let res : TaskLog :=
      { ClusterID := r.clusterID, StartTime := taskStart, EndTime := none, SystemLogs := [], Logs := List.replicate executorNo.toNat [] ++ [[some executorLog]] }
    some [res]

/-- The end of `processExecutorTime`, from the control-plane read on. The
finalizer is added only when there is no end time and removed only when there
is one, so the removal sees the finalizers of the pod as it was read. -/
def processExecutorTimeReport (r : Runner) (penv : PodEnv) (pod : Pod) (executorNo : Int)
    (startTime endTime : Option String) (pw : PodWorld) : Ret × PodWorld :=
  let pw : PodWorld := { pw with base := emit Effect.cpGetTask pw.base }
  match penv.env.cpGetTask with
  | Except.error err => (Ret.done Result.empty (some err), pw)
  | Except.ok task =>
    if task.ClusterID ≠ r.clusterID then (Ret.done Result.empty none, pw)
    else if startTime ≠ none ∧ endTime = none ∧ pod.DeletionTimestamp.any (fun t => t != zeroTime) then
      (Ret.done { Requeue := false, RequeueAfter := 60000 } none, pw)
    else
      let x : Option Err × PodWorld :=
        if startTime ≠ none ∧ endTime = none then
          AddObjectFinalizer penv pod ProcessExecutorTimeFinalizer pw
        else (none, pw)
      match x.1 with
      | some err => (Ret.done Result.empty (some err), x.2)
      | none =>
        match genUpdateTaskLogsExecutor r penv.timeParse penv.makeLimit task.Logs executorNo
            pod.Name startTime endTime with
        | none => (Ret.panic, x.2)
        | some taskLogs =>
          let y := UpdateTask penv.env none taskLogs x.2.base
          let pw : PodWorld := { x.2 with base := y.2 }
          match y.1 with
          | some Err.badRequest =>
            (Ret.done { Requeue := false, RequeueAfter := waitUpdateTaskTimeConflict } none, pw)
          | some err => (Ret.done Result.empty (some err), pw)
          | none =>
            if endTime ≠ none then
              let z := RemoveObjectFinalizer penv pod ProcessExecutorTimeFinalizer pw
              (Ret.done Result.empty z.1, z.2)
            else (Ret.done Result.empty none, pw)

def processExecutorTime (r : Runner) (penv : PodEnv) (pod : Pod) (pw : PodWorld) :
    Ret × PodWorld :=
  if (label pod LabelType).getD "" ≠ ExecutorType then (Ret.done Result.empty none, pw)
  else
    match Atoi ((label pod LabelExecutorNo).getD "") with
    | none => (Ret.done Result.empty none, pw)
    | some executorNo =>
      let times := getExecutorTime penv pod
      if times.1 = none ∧ times.2 = none then (Ret.done Result.empty none, pw)
      else processExecutorTimeReport r penv pod executorNo times.1 times.2 pw

/-- `podImagePullBackoff`: some container is waiting with reason
`ImagePullBackOff`. -/
def podImagePullBackoff (pod : Pod) : Bool :=
  pod.ContainerStatuses.any fun containerStatus =>
    containerStatus.State.Waiting == some "ImagePullBackOff"

def podImagePullBackoffTimeout (opts : Options) (penv : PodEnv) (pod : Pod) : Bool :=
  match pod.StartTime with
  | none => false
  | some startTime =>
    let delta := penv.nowTime - startTime
    if delta ≤ opts.PodImagePullBackoffTimeout ∨ podImagePullBackoff pod = false then false
    else true

/-- `stopJob`: patch `activeDeadlineSeconds` to 0; not-found on the patch is
success. -/
def stopJob (penv : PodEnv) (job : Job) (pw : PodWorld) : Option Err × PodWorld :=
  let pw := emitPod (PodEffect.stopJob job.Name) pw
  match penv.stopJob with
  | Api.ok => (none, setJob { job with ActiveDeadlineSeconds := some 0 } pw)
  | Api.gone => (none, pw)
  | Api.fail => (some (Err.failure "failed to stop job"), pw)

def processImagePullBackoff (opts : Options) (penv : PodEnv) (pod : Pod) (pw : PodWorld) :
    Ret × PodWorld :=
  match label pod LabelJobName with
  | none => (Ret.done Result.empty none, pw)
  | some jobName =>
    let pw := emitPod (PodEffect.getJob jobName) pw
    if penv.getJobFails then (Ret.done Result.empty (some (Err.failure "failed to get job")), pw)
    else
      match getJobByName pw jobName with
      | none => (Ret.done Result.empty none, pw)
      | some job =>
        if jobFinished job then (Ret.done Result.empty none, pw)
        else if pod.Phase ≠ PodPending then (Ret.done Result.empty none, pw)
        else if podImagePullBackoffTimeout opts penv pod = false then
          (Ret.done { Requeue := false, RequeueAfter := opts.PodPollInterval } none, pw)
        else
          let pw := emitPod (PodEffect.listEvents pod.Name) pw
          let x := stopJob penv job pw
          (Ret.done Result.empty x.1, x.2)

/-- The part of `ProcessPod` that runs once the task is entered. -/
def ProcessPodAdmitted (r : Runner) (opts : Options) (penv : PodEnv) (pod : Pod)
    (pw : PodWorld) : Ret × PodWorld :=
  let pw := recordExecutorLog pod pw
  match processExecutorTime r penv pod pw with
  | (Ret.panic, pw) => (Ret.panic, pw)
  | (Ret.done _ (some err), pw) => (Ret.done Result.empty (some err), pw)
  | (Ret.done result1 none, pw) =>
    match processImagePullBackoff opts penv pod pw with
    | (Ret.panic, pw) => (Ret.panic, pw)
    | (Ret.done _ (some err), pw) => (Ret.done Result.empty (some err), pw)
    | (Ret.done result2 none, pw) => (Ret.done (MergeCtrlResults [result1, result2]) none, pw)

/-- `ProcessPod`; the deferred `releaseProcessTask` runs on every way out of
the admitted part, a panic included. -/
def ProcessPod (r : Runner) (opts : Options) (penv : PodEnv) (podName : String) (pw : PodWorld) :
    Ret × PodWorld :=
  let pw := emitPod (PodEffect.getPod podName) pw
  if penv.getPodFails then (Ret.done Result.empty (some (Err.failure "failed to get pod")), pw)
  else
    match getPod pw podName with
    | none => (Ret.done Result.empty none, pw)
    | some pod =>
      match label pod LabelTaskID with
      | none => (Ret.done Result.empty none, pw)
      | some taskID =>
        let entered := tryProcessTask taskID pw.base
        if entered.1 = false then
          (Ret.done { Requeue := false, RequeueAfter := tryProcessLatency } none, pw)
        else
          let admitted := ProcessPodAdmitted r opts penv pod { pw with base := entered.2 }
          (admitted.1, { admitted.2 with base := releaseProcessTask taskID admitted.2.base })

end runner

/-! ## pkg/accelerate/mounttos: bucket.go, `ModifySyncTask` and `mountPVC` -/

namespace mounttos

open localstore

/-- The result of `net/url.Parse` as far as `extractBucket` reads it. -/
structure URL where
  Scheme : String
  Host : String
deriving DecidableEq, Repr

/-- Modelled from the spec: an input of `vetesclient/models` (the package's
declarations are not among the sources); only its URL is read and written. -/
structure Input where
  URL : String
deriving DecidableEq, Repr

/-- Modelled from the spec: the control-plane task of `vetesclient/models` as
`ModifySyncTask` reads it: the platform info and the inputs. The inputs are a
slice of pointers, `[]*models.Input`: an entry may be nil (`none`), as the
syncer expects when it ranges over them. -/
structure TaskFull where
  BioosInfo : Option BioosInfo
  Inputs : List (Option Input)
deriving DecidableEq, Repr

/-- The entries of a slice of pointers as a loop finds them that reads a field
of every entry without a check: the values pointed to when no entry is nil,
and `none`, the run-time panic of the nil pointer, when one is. -/
def derefAll {α : Type} : List (Option α) → Option (List α)
  | [] => some []
  | none :: _ => none
  | some a :: rest => (derefAll rest).map fun as => a :: as

def S3Type : String := "s3"

/-- `extractBucket`; `urlParse` is the library's `net/url.Parse`, `none` its
error. -/
def extractBucket (urlParse : String → Option URL) (taskURL : String) : String :=
  match urlParse taskURL with
  | none => ""
  | some u => if u.Scheme ≠ S3Type then "" else u.Host

/-- The map `bucketCounts` of `extractBucketsAndSort` at one key. -/
def bucketCounts (urlParse : String → Option URL) (inputs : List Input) (bucket : String) : Nat :=
  (inputs.filter fun input => extractBucket urlParse input.URL == bucket).length

/-- The keys of the map `bucketCounts`: the non-empty buckets of the inputs. -/
def bucketKeys (urlParse : String → Option URL) (inputs : List Input) : List String :=
  ((inputs.map fun input => extractBucket urlParse input.URL).filter fun b => b != "").dedup

/-- `sort.Slice(res, less)`: the elements in an order in which no element is
`less` than one before it. The library's sort is not stable; insertion sort
stands for it, and the order among elements that `less` does not tell apart
is that of the list handed in. -/
def sortSlice {α : Type} (less : α → α → Bool) (l : List α) : List α :=
  l.insertionSort fun a b => less b a = false

/-- `extractBucketsAndSort`; `mapOrder` is the order in which Go ranges over
the keys of the map, which the language leaves open. The first loop reads
`input.URL` of every entry, so `none`, a run-time panic, is the result when an
entry is nil. -/
def extractBucketsAndSort (urlParse : String → Option URL) (mapOrder : List String → List String)
    (inputs : List (Option Input)) : Option (List String) :=
  match derefAll inputs with
  | none => none
  | some inputs =>
    some (sortSlice
      (fun a b => decide (bucketCounts urlParse inputs a > bucketCounts urlParse inputs b))
      (mapOrder (bucketKeys urlParse inputs)))

/-- `getAccelerateBuckets`; `none` is a run-time panic: that of
`extractBucketsAndSort`, or that of `buckets[:n]` with a negative `n`. -/
def getAccelerateBuckets (urlParse : String → Option URL) (mapOrder : List String → List String)
    (opts : Options) (taskFull : TaskFull) (externalBucketSet : String → Bool) :
    Option (List String) :=
  match extractBucketsAndSort urlParse mapOrder taskFull.Inputs with
  | none => none
  | some buckets =>
    if buckets.length = 0 then some []
    else
      let defaultSupportMountTOS : Bool := opts.StaticTOSSecretName != ""
      let buckets :=
        if defaultSupportMountTOS = false then buckets.filter externalBucketSet else buckets
      if (buckets.length : Int) > opts.BucketNumPerTask then
        if opts.BucketNumPerTask < 0 then none
        else some (buckets.take opts.BucketNumPerTask.toNat)
      else some buckets

def mountTOSPath (bucket : String) : String :=
  "/tos-data/" ++ bucket

/-- `strings.Replace(s, old, new, 1)` on the characters of `s`, for a
non-empty `old`: the first occurrence of `old` is replaced. -/
def replaceFirstChars (old new : List Char) : List Char → List Char
  | [] => []
  | c :: cs =>
    if old.isPrefixOf (c :: cs) then new ++ (c :: cs).drop old.length
    else c :: replaceFirstChars old new cs

def stringsReplaceOnce (s old new : String) : String :=
  String.mk (replaceFirstChars old.toList new.toList s.toList)

/-- The loop of `ModifySyncTask` over the inputs, on one input. -/
def rewriteInput (urlParse : String → Option URL) (buckets : List String) (input : Input) :
    Input :=
  let bucket := extractBucket urlParse input.URL
  if bucket = "" then input
  else if bucket ∉ buckets then input
  else { input with URL := stringsReplaceOnce input.URL ("s3://" ++ bucket) (mountTOSPath bucket) }

/-- `ModifySyncTask`: the mount names returned and the inputs of the task as
the call leaves them; `none` is a run-time panic: that of
`getAccelerateBuckets`, or that of the loop over the inputs, which reads
`input.URL` of every entry, at an entry that is nil. -/
def ModifySyncTask (urlParse : String → Option URL) (mapOrder : List String → List String)
    (opts : Options) (taskFull : TaskFull) : Option (List String × List (Option Input)) :=
  match taskFull.BioosInfo with
  | none => some ([], taskFull.Inputs)
  | some bioosInfo =>
    match bioosInfo.Meta with
    | none => some ([], taskFull.Inputs)
    | some meta =>
      if meta.MountTOS ≠ some true then some ([], taskFull.Inputs)
      else
        match getAccelerateBuckets urlParse mapOrder opts taskFull (externalBucketSet bioosInfo) with
        | none => none
        | some buckets =>
          if buckets.length = 0 then some ([], taskFull.Inputs)
          else
            let pvcNames := buckets.map fun bucket =>
              if externalBucketSet bioosInfo bucket then
                pvcNameFromExternalBucket bioosInfo.SubmissionID bucket
              else pvcNameFromBucket bucket
            match derefAll taskFull.Inputs with
            | none => none
            | some inputs => some (pvcNames, (inputs.map (rewriteInput urlParse buckets)).map some)

/-- `corev1.Volume` with a PVC source. -/
structure Volume where
  Name : String
  ClaimName : String
  ReadOnly : Bool
deriving DecidableEq, Repr

structure VolumeMount where
  Name : String
  ReadOnly : Bool
  MountPath : String
deriving DecidableEq, Repr

structure Container where
  VolumeMounts : List VolumeMount
deriving DecidableEq, Repr

/-- `corev1.PodTemplateSpec` as far as `mountPVC` writes it. -/
structure PodTemplateSpec where
  Volumes : List Volume
  Containers : List Container
deriving DecidableEq, Repr

/-- The body of the loop of `mountPVC`. -/
def mountOne (podTemplate : PodTemplateSpec) (pvcName : String) : PodTemplateSpec :=
  { Volumes := podTemplate.Volumes ++ [{ Name := pvcName, ClaimName := pvcName, ReadOnly := true }],
    Containers := podTemplate.Containers.map fun container =>
      { container with VolumeMounts := container.VolumeMounts ++
          [{ Name := pvcName, ReadOnly := true,
             MountPath := mountTOSPath (parseBucketFromPVCName pvcName) }] } }

def mountPVC (podTemplate : PodTemplateSpec) (localTask : Task) : PodTemplateSpec :=
  if localTask.AccelerateNames.length = 0 then podTemplate
  else localTask.AccelerateNames.foldl mountOne podTemplate

end mounttos

/-! ## Vocabulary of the pod and sync properties -/

namespace runner

open localstore

/-- The calls of `stopAndCleanTask` that come after its final update: the
offload file, the log directory, the accelerator and the local record. -/
def isCleanupCall : Effect → Bool
  | Effect.offloadDelete => true
  | Effect.removeLogFile => true
  | Effect.accelOnFinish => true
  | Effect.localDelete => true
  | _ => false

/-- A call to the control plane. -/
def isControlPlaneCall : Effect → Bool
  | Effect.cpGetTask => true
  | Effect.cpUpdateTask _ _ => true
  | _ => false

/-- The update of the task on the control plane. -/
def isUpdateCall : Effect → Bool
  | Effect.cpUpdateTask _ _ => true
  | _ => false

/-- A request of the pod observer that changes an object of the cluster. -/
def isPodMutation : PodEffect → Bool
  | PodEffect.addFinalizer _ => true
  | PodEffect.removeFinalizer _ => true
  | PodEffect.stopJob _ => true
  | _ => false

/-- Days from the civil date to the Unix epoch (proleptic Gregorian
calendar). -/
def daysFromCivil (y m d : Int) : Int :=
  let y1 := if m ≤ 2 then y - 1 else y
  let era := Int.fdiv y1 400
  let yoe := y1 - era * 400
  let doy := Int.fdiv (153 * (m + (if m > 2 then -3 else 9)) + 2) 5 + d - 1
  let doe := yoe * 365 + Int.fdiv yoe 4 - Int.fdiv yoe 100 + doy
  era * 146097 + doe - 719468

def daysInMonth (y m : Int) : Int :=
  if m = 2 then (if Int.fmod y 4 = 0 ∧ (Int.fmod y 100 ≠ 0 ∨ Int.fmod y 400 = 0) then 29 else 28)
  else if m = 4 ∨ m = 6 ∨ m = 9 ∨ m = 11 then 30
  else 31

/-- The decimal number a list of digits writes, `none` when one of them is
not a digit. -/
def digitsValue (cs : List Char) : Option Int :=
  if cs.all Char.isDigit then
    some ((cs.foldl (fun acc c => acc * 10 + (c.toNat - 48)) 0 : Nat) : Int)
  else none

/-- `time.Parse(time.RFC3339, s)` for the texts `time.Format(time.RFC3339)`
writes: `YYYY-MM-DDTHH:MM:SS` followed by `Z` or by an offset `+HH:MM` or
`-HH:MM`; the instant in milliseconds since the Unix epoch. Texts the library
reads beyond these (fractions of a second) are not covered: `none`. -/
def parseRFC3339 (s : String) : Option Int :=
  match s.toList with
  | y1 :: y2 :: y3 :: y4 :: '-' :: m1 :: m2 :: '-' :: d1 :: d2 :: 'T' :: h1 :: h2 :: ':' :: n1 :: n2 :: ':'
      :: s1 :: s2 :: zone =>
    match digitsValue [y1, y2, y3, y4], digitsValue [m1, m2], digitsValue [d1, d2],
        digitsValue [h1, h2], digitsValue [n1, n2], digitsValue [s1, s2] with
    | some y, some m, some d, some h, some n, some sec =>
      if m < 1 ∨ m > 12 ∨ d < 1 ∨ d > daysInMonth y m ∨ h > 23 ∨ n > 59 ∨ sec > 59 then none
      else
        let utc := ((daysFromCivil y m d * 24 + h) * 60 + n) * 60 + sec
        match zone with
        | ['Z'] => some (utc * 1000)
        | [sign, o1, o2, ':', o3, o4] =>
          match digitsValue [o1, o2], digitsValue [o3, o4] with
          | some oh, some om =>
            if oh > 23 ∨ om > 59 then none
            else if sign = '+' then some ((utc - (oh * 60 + om) * 60) * 1000)
            else if sign = '-' then some ((utc + (oh * 60 + om) * 60) * 1000)
            else none
          | _, _ => none
        | _ => none
    | _, _, _, _, _, _ => none
  | _ => none

/-- A number in decimal, padded with zeros to `width` digits. -/
def padded (width : Nat) (n : Int) : String :=
  let digits := toString n.toNat
  String.mk (List.replicate (width - digits.length) '0') ++ digits

/-- `Time.Format(time.RFC3339)` of an instant in UTC, for the years 0 to
9999. -/
def formatRFC3339 (t : Int) : String :=
  let secs := Int.fdiv t 1000
  let days := Int.fdiv secs 86400
  let rem := Int.fmod secs 86400
  let z := days + 719468
  let era := Int.fdiv z 146097
  let doe := z - era * 146097
  let yoe := Int.fdiv (doe - Int.fdiv doe 1460 + Int.fdiv doe 36524 - Int.fdiv doe 146096) 365
  let doy := doe - (365 * yoe + Int.fdiv yoe 4 - Int.fdiv yoe 100)
  let mp := Int.fdiv (5 * doy + 2) 153
  let d := doy - Int.fdiv (153 * mp + 2) 5 + 1
  let m := if mp < 10 then mp + 3 else mp - 9
  let y := yoe + era * 400 + (if m ≤ 2 then 1 else 0)
  padded 4 y ++ "-" ++ padded 2 m ++ "-" ++ padded 2 d ++ "T" ++ padded 2 (Int.fdiv rem 3600)
    ++ ":" ++ padded 2 (Int.fmod (Int.fdiv rem 60) 60) ++ ":" ++ padded 2 (Int.fmod rem 60) ++ "Z"

/-! ### Sample inputs of the pod observer -/

/-- Poll every minute, give a stalled image pull ten minutes. -/
def samplePodOptions : Options :=
  { PodPollInterval := 60000, PodImagePullBackoffTimeout := 600000 }

/-- Noon of 1 January 2024 in milliseconds since the Unix epoch. -/
def sampleNow : Int := 1704110400000

/-- A platform on which `make` hands out up to 2^32 executor-log slices. -/
def sampleMakeLimit : Nat := 4294967296

/-- The surroundings of a pod reconciliation in which no call fails. -/
def samplePodEnv (state : String) : PodEnv :=
  { env := sampleEnv state [],
    nowTime := sampleNow,
    timeFormat := formatRFC3339,
    timeParse := parseRFC3339,
    makeLimit := sampleMakeLimit,
    getPodFails := false,
    addFinalizer := Api.ok,
    removeFinalizer := Api.ok,
    getJobFails := false,
    stopJob := Api.ok }

/-- The pod of the inputs stager of `task-1`, pending since `startTime` with
its container waiting for the given reason. -/
def stagerPod (startTime : Option Int) (reason : String) : Pod :=
  { Name := "task-1-inputs-filer-abcde",
    Labels := [(LabelTaskID, "task-1"), (LabelJobName, "task-1-inputs-filer"),
      (LabelType, "inputs-filer")],
    Finalizers := [],
    DeletionTimestamp := none,
    Phase := PodPending,
    StartTime := startTime,
    ContainerStatuses := [{ State := { Waiting := some reason, Running := none, Terminated := none } }] }

def stagerJob : Job :=
  { Name := "task-1-inputs-filer", Conditions := [], ActiveDeadlineSeconds := none }

/-- The pod of executor 0 of `task-1` with the given phase and container
state. -/
def executorPod (phase : String) (state : ContainerState) : Pod :=
  { Name := "task-1-ex-00-abcde",
    Labels := [(LabelTaskID, "task-1"), (LabelJobName, "task-1-ex-00"),
      (LabelType, ExecutorType), (LabelExecutorNo, "0")],
    Finalizers := [],
    DeletionTimestamp := none,
    Phase := phase,
    StartTime := some sampleNow,
    ContainerStatuses := [{ State := state }] }

/-- A namespace with the given pods and jobs, with `busy` in the busy set of
the runner. -/
def samplePodWorld (busy : List String) (pods : List Pod) (jobs : List Job) : PodWorld :=
  { base := { initial sampleTask with taskProcessing := busy },
    pods := pods, jobs := jobs, calls := [] }

end runner

namespace mounttos

open localstore

/-- A bucket the selection may return: a bucket of the inputs, and an
externally credentialed one when no default secret is configured. -/
def eligible (urlParse : String → Option URL) (opts : Options) (inputs : List Input)
    (externalBucketSet : String → Bool) (bucket : String) : Prop :=
  bucket ∈ bucketKeys urlParse inputs
    ∧ (opts.StaticTOSSecretName ≠ "" ∨ externalBucketSet bucket = true)

/-! ### The library's URL parser, for the samples -/

/-- `getScheme` of `net/url`: the scheme and what follows the colon; `none`
is the error of a URL that starts with a colon. -/
def getScheme : List Char → List Char → Option (List Char × List Char)
  | seen, [] => some ([], seen.reverse)
  | seen, c :: rest =>
    if c.isAlpha then getScheme (c :: seen) rest
    else if c.isDigit ∨ c = '+' ∨ c = '-' ∨ c = '.' then
      if seen = [] then some ([], c :: rest) else getScheme (c :: seen) rest
    else if c = ':' then
      if seen = [] then none else some (seen.reverse, rest)
    else some ([], seen.reverse ++ c :: rest)

/-- A character of a host that the library takes as it stands and that is not
part of a port, a user name, an IPv6 literal or an escape. -/
def plainHostChar (c : Char) : Bool :=
  c.isAlphanum || c == '-' || c == '.' || c == '_' || c == '~'

/-- `net/url.Parse` as far as `extractBucket` reads its result, for URLs whose
authority is made of plain host characters. The library goes on to user
names, ports, IPv6 literals and escapes; for an authority with any other
character, and for a URL with an escape, the model answers `none`, and no
general statement below depends on that answer. -/
def urlParse (rawURL : String) : Option URL :=
  let cs := rawURL.toList
  if cs.any (fun c => decide (c.toNat < 32) || decide (c.toNat = 127) || c == '%') then none
  else
    let u := cs.takeWhile fun c => c != '#'
    match getScheme [] u with
    | none => none
    | some (scheme, rest) =>
      let rest := rest.takeWhile fun c => c != '?'
      let scheme := String.mk (scheme.map Char.toLower)
      if rest.take 2 = ['/', '/'] ∧ (scheme ≠ "" ∨ rest.take 3 ≠ ['/', '/', '/']) then
        let authority := (rest.drop 2).takeWhile fun c => c != '/'
        if authority.all plainHostChar then some { Scheme := scheme, Host := String.mk authority }
        else none
      else if rest.head? ≠ some '/' ∧ scheme = ""
          ∧ (rest.takeWhile fun c => c != '/').contains ':' then none
      else some { Scheme := scheme, Host := "" }

/-- A task that has opted in, of submission `sub`, with the given inputs and
with credentials of its own for the buckets `external`. -/
def syncTask (sub : String) (urls external : List String) : TaskFull :=
  { BioosInfo := (mountTask "t" sub [] external).BioosInfo,
    Inputs := urls.map fun u => some { URL := u } }

end mounttos

/-! ## pkg/offload/pvc.go -/

namespace offload

/-- The shared volume as the offload helper sees it: the directories and the
regular files with their content, by path. A byte string is a `String`, as a
Go string is. -/
structure Disk where
  dirs : List String
  files : List (String × String)
deriving DecidableEq, Repr

/-- Which calls of the package `os` fail during one call of the helper. -/
structure DiskFaults where
  mkdirAll : Bool
  writeFile : Bool
  removeAll : Bool
deriving DecidableEq, Repr

structure pvcHelper where
  path : String
  pvcName : String
deriving DecidableEq, Repr

def inputsFileName : String := "inputs.json"

def outputsFileName : String := "outputs.json"

/-- `filepath.Join(dir, elem)` for a directory path that is clean and an
element that is a plain name (a task id, a file name): the two with a
separator between them. The cleaning the library applies to other arguments
(empty elements, separators or dots inside) is not modelled. -/
def filepathJoin (dir elem : String) : String :=
  dir ++ "/" ++ elem

/-- The path is the directory or lies below it. -/
def within (dir path : String) : Bool :=
  path == dir || (dir ++ "/").toList.isPrefixOf path.toList

/-- `os.ReadFile`: the content of the file, `none` when there is none. -/
def readFile (disk : Disk) (path : String) : Option String :=
  (disk.files.find? fun f => f.1 == path).map fun f => f.2

/-- `os.MkdirAll` when it succeeds. -/
def mkdirAll (dir : String) (disk : Disk) : Disk :=
  if dir ∈ disk.dirs then disk else { disk with dirs := disk.dirs ++ [dir] }

/-- `os.WriteFile` when it succeeds: the file has the content, whether it
was there or not. -/
def writeFile (path content : String) (disk : Disk) : Disk :=
  { disk with files := (path, content) :: disk.files.filter fun f => f.1 != path }

/-- `os.RemoveAll` when it succeeds: the path and everything below it is
gone. -/
def removeAll (dir : String) (disk : Disk) : Disk :=
  { dirs := disk.dirs.filter fun d => !within dir d,
    files := disk.files.filter fun f => !within dir f.1 }

/-- `pvcHelper.offload`: the path returned and the error. -/
def offload (p : pvcHelper) (f : DiskFaults) (taskID content fileName : String) (disk : Disk) :
    (String × Option runner.Err) × Disk :=
  let offloadDir := filepathJoin p.path taskID
  if f.mkdirAll then (("", some (runner.Err.failure "failed to mkdir")), disk)
  else
    let disk := mkdirAll offloadDir disk
    let offloadPath := filepathJoin offloadDir fileName
    if f.writeFile then (("", some (runner.Err.failure "failed to write file")), disk)
    else ((offloadPath, none), writeFile offloadPath content disk)

def OffloadInputs (p : pvcHelper) (f : DiskFaults) (taskID inputsJSON : String) (disk : Disk) :
    (String × Option runner.Err) × Disk :=
  offload p f taskID inputsJSON inputsFileName disk

def OffloadOutputs (p : pvcHelper) (f : DiskFaults) (taskID outputsJSON : String) (disk : Disk) :
    (String × Option runner.Err) × Disk :=
  offload p f taskID outputsJSON outputsFileName disk

/-- `DeleteOffloadFile`: the error of `os.RemoveAll` is dropped; a call that
fails is taken to leave the volume as it was. -/
def DeleteOffloadFile (p : pvcHelper) (f : DiskFaults) (taskID : String) (disk : Disk) : Disk :=
  let offloadDir := filepathJoin p.path taskID
  if f.removeAll then disk else removeAll offloadDir disk

end offload

/-! ## pkg/syncer -/

namespace syncer

open localstore

def OffloadThreshold : Nat := 102400

/-- Modelled from the spec: an input or an output of `vetesclient/models`
(the package's declarations are not among the sources); the syncer reads and
writes its URL, everything else goes to the serializer as it is. -/
structure Item where
  URL : String
  rest : String
deriving DecidableEq, Repr

/-- Modelled from the spec: the control-plane task of `vetesclient/models` in
the full view, as the syncer reads it. The resources, the executors and the
platform info have the fields of their counterparts of the local store, which
`taskFullToStore` copies one by one, so the types of the local store stand for
them. Inputs and outputs are slices of pointers, an entry may be nil. -/
structure FullTask where
  ID : String
  Name : String
  Resources : Option Resources
  Executors : List Executor
  BioosInfo : Option BioosInfo
  Volumes : List String
  Inputs : List (Option Item)
  Outputs : List (Option Item)
deriving DecidableEq, Repr

structure taskMinimal where
  id : String
  state : String
deriving DecidableEq, Repr

/-- The syncer as far as `syncQueuedTask` reads it: the threshold and the
offload helper. -/
structure Syncer where
  offloadThreshold : Nat
  offloadHelper : offload.pvcHelper
deriving DecidableEq, Repr

/-- The syncer `RegisterCrontab` builds. -/
def newSyncer (offloadHelper : offload.pvcHelper) : Syncer :=
  { offloadThreshold := OffloadThreshold, offloadHelper := offloadHelper }

/-- The library functions `syncQueuedTask` calls: `net/url.Parse` (`none` is
its error), the text of a parsed URL after its user info has been set to a key
pair (`URL.String`), and `encoding/json.Marshal` on a slice of inputs or
outputs (`none` is its error). -/
structure Library where
  urlParse : String → Option mounttos.URL
  withUserPassword : String → String → String → String
  marshalItems : List (Option Item) → Option String

/-- One call of `syncQueuedTask` that leaves the syncer. -/
inductive SyncEffect where
  | localGet
  | cpGetTask
  | modifySyncTask
  | offloadInputs
  | offloadOutputs
  | deleteOffloadFile
  | storeTask
deriving DecidableEq, Repr

/-- What `syncQueuedTask` acts on: the record of the task in the local store,
the shared volume, and the calls made. -/
structure SyncWorld where
  record : Option Task
  disk : offload.Disk
  calls : List SyncEffect
deriving DecidableEq, Repr

/-- What the surroundings answer during one `syncQueuedTask`: failures of the
local store, the control plane's full view of the task, the accelerator's
`ModifySyncTask` (its error, or the mount names it returns and what it makes
of the URL of an input), and the failures of the shared volume per call of
the offload helper. -/
structure SyncEnv where
  localGetFails : Bool
  cpGetTask : Except runner.Err FullTask
  modifySyncTask : Except runner.Err (List String × (String → String))
  offloadInputs : offload.DiskFaults
  offloadOutputs : offload.DiskFaults
  deleteOffloadFile : offload.DiskFaults
  storeTaskFails : Bool

def emitSync (e : SyncEffect) (w : SyncWorld) : SyncWorld :=
  { w with calls := w.calls ++ [e] }

def taskFullToStore (task : FullTask) : Task :=
  { ID := task.ID, Name := task.Name, Resources := task.Resources, Executors := task.Executors,
    BioosInfo := task.BioosInfo, Volumes := task.Volumes, InputsJSON := "", OutputsJSON := "",
    InputsRef := "", OutputsRef := "", AccelerateNames := [] }

def modifyURLByAuthInfo (lib : Library) (url : String)
    (externalBucketAuthInfoMap : String → Option (String × String)) : String :=
  match lib.urlParse url with
  | none => url
  | some u =>
    if u.Scheme ≠ mounttos.S3Type then url
    else
      match externalBucketAuthInfoMap u.Host with
      | some authInfo => lib.withUserPassword url authInfo.1 authInfo.2
      | none => url

/-- The loop of `syncQueuedTask` over the inputs, and over the outputs, of a
task with external credentials. -/
def embedCredentials (lib : Library) (bioosInfo : Option BioosInfo) (items : List (Option Item)) :
    List (Option Item) :=
  match bioosInfo with
  | none => items
  | some info =>
    if (mounttos.externalEntries info).length > 0 then
      items.map fun item => item.map fun i =>
        { i with URL := modifyURLByAuthInfo lib i.URL (mounttos.externalBucketAuthInfo info) }
    else items

/-- `json.Marshal` of a map with the one key `key`: an object with that key
and the serialized value. -/
def marshalManifest (lib : Library) (key : String) (items : List (Option Item)) : Option String :=
  (lib.marshalItems items).map fun value => "\x7b\"" ++ key ++ "\":" ++ value ++ "\x7d"

/-- `len` of a Go string or byte slice: its size in bytes. -/
def len (s : String) : Nat :=
  s.utf8ByteSize

/-- `localstore.StoreTask` on the record of the world. -/
def StoreTask (env : SyncEnv) (task : Task) (w : SyncWorld) : Option runner.Err × SyncWorld :=
  let w := emitSync SyncEffect.storeTask w
  if env.storeTaskFails then (some (runner.Err.failure "failed to create configmap"), w)
  else
    match w.record with
    | some _ => (some (runner.Err.failure "failed to create configmap"), w)
    | none => (none, { w with record := some task })

/-- The inputs of the task as they are serialized: after the accelerator and
after the embedding of external credentials. -/
def syncedInputs (lib : Library) (taskFull : FullTask) (rewrite : String → String) :
    List (Option Item) :=
  embedCredentials lib taskFull.BioosInfo
    (taskFull.Inputs.map fun item => item.map fun i => { i with URL := rewrite i.URL })

def syncedOutputs (lib : Library) (taskFull : FullTask) : List (Option Item) :=
  embedCredentials lib taskFull.BioosInfo taskFull.Outputs

/-- The block of `syncQueuedTask` on the inputs: the error, the record as it
leaves the block, the world. -/
def storeInputs (s : Syncer) (lib : Library) (env : SyncEnv) (task : taskMinimal)
    (inputs : List (Option Item)) (taskStore : Task) (w : SyncWorld) :
    Option runner.Err × Task × SyncWorld :=
  if inputs.length > 0 then
    match marshalManifest lib "inputs" inputs with
    | none => (some (runner.Err.failure "failed to marshal inputs"), taskStore, w)
    | some inputsJSON =>
      if len inputsJSON ≤ s.offloadThreshold then
        (none, { taskStore with InputsJSON := inputsJSON }, w)
      else
        let w := emitSync SyncEffect.offloadInputs w
        let x := offload.OffloadInputs s.offloadHelper env.offloadInputs task.id inputsJSON w.disk
        match x.1.2 with
        | some err => (some err, taskStore, { w with disk := x.2 })
        | none => (none, { taskStore with InputsRef := x.1.1 }, { w with disk := x.2 })
  else (none, taskStore, w)

/-- The block of `syncQueuedTask` on the outputs. -/
def storeOutputs (s : Syncer) (lib : Library) (env : SyncEnv) (task : taskMinimal)
    (outputs : List (Option Item)) (taskStore : Task) (w : SyncWorld) :
    Option runner.Err × Task × SyncWorld :=
  if outputs.length > 0 then
    match marshalManifest lib "outputs" outputs with
    | none => (some (runner.Err.failure "failed to marshal outputs"), taskStore, w)
    | some outputsJSON =>
      if len outputsJSON ≤ s.offloadThreshold then
        (none, { taskStore with OutputsJSON := outputsJSON }, w)
      else
        let w := emitSync SyncEffect.offloadOutputs w
        let x := offload.OffloadOutputs s.offloadHelper env.offloadOutputs task.id outputsJSON w.disk
        match x.1.2 with
        | some err => (some err, taskStore, { w with disk := x.2 })
        | none => (none, { taskStore with OutputsRef := x.1.1 }, { w with disk := x.2 })
  else (none, taskStore, w)

/-- The part of `syncQueuedTask` after the deferred function is set up: the
error returned, the record `taskStore` as the deferred function finds it, and
the world. -/
def syncQueuedTaskBody (s : Syncer) (lib : Library) (env : SyncEnv) (task : taskMinimal)
    (taskFull : FullTask) (rewrite : String → String) (taskStore : Task) (w : SyncWorld) :
    Option runner.Err × Task × SyncWorld :=
  match storeInputs s lib env task (syncedInputs lib taskFull rewrite) taskStore w with
  | (some err, taskStore, w) => (some err, taskStore, w)
  | (none, taskStore, w) =>
    match storeOutputs s lib env task (syncedOutputs lib taskFull) taskStore w with
    | (some err, taskStore, w) => (some err, taskStore, w)
    | (none, taskStore, w) =>
      let x := StoreTask env taskStore w
      (x.1, taskStore, x.2)

/-- The deferred function of `syncQueuedTask`, on what the body returns: when
an error is returned after a manifest has been spilled, the offload directory
of the task is removed. -/
def syncQueuedTaskDeferred (s : Syncer) (env : SyncEnv) (task : taskMinimal)
    (x : Option runner.Err × Task × SyncWorld) : Option runner.Err × SyncWorld :=
  match x with
  | (none, _, w) => (none, w)
  | (some reterr, taskStore, w) =>
    if taskStore.InputsRef ≠ "" ∨ taskStore.OutputsRef ≠ "" then
      let w := emitSync SyncEffect.deleteOffloadFile w
      let disk :=
        offload.DeleteOffloadFile s.offloadHelper env.deleteOffloadFile task.id w.disk
      (some reterr, { w with disk := disk })
    else (some reterr, w)

/-- `syncQueuedTask`. -/
def syncQueuedTask (s : Syncer) (lib : Library) (env : SyncEnv) (task : taskMinimal)
    (w : SyncWorld) : Option runner.Err × SyncWorld :=
  let w := emitSync SyncEffect.localGet w
  if env.localGetFails then (some (runner.Err.failure "failed to get configmap"), w)
  else
    match w.record with
    | some _ => (none, w)
    | none =>
      let w := emitSync SyncEffect.cpGetTask w
      match env.cpGetTask with
      | Except.error err => (some err, w)
      | Except.ok taskFull =>
        let w := emitSync SyncEffect.modifySyncTask w
        match env.modifySyncTask with
        | Except.error err => (some err, w)
        | Except.ok (accelerateNames, rewrite) =>
          let taskStore : Task :=
            { taskFullToStore taskFull with AccelerateNames := accelerateNames }
          syncQueuedTaskDeferred s env task
            (syncQueuedTaskBody s lib env task taskFull rewrite taskStore w)

/-- `syncCancelingTask`, on the world of the runner: the local store and the
control plane are the ones the reconciliation of the task uses. -/
def syncCancelingTask (env : runner.Env) (w : runner.World) : Option runner.Err × runner.World :=
  match runner.GetTask env.localGetFails w with
  | (Except.ok taskInfo, w) =>
    if taskInfo.Stop ≠ none then (none, w)
    else runner.StopTask env consts.TaskCanceled w
  | (Except.error runner.Err.notFound, w) =>
    runner.UpdateTask env (some consts.TaskCanceled) [] w
  | (Except.error err, w) => (some err, w)

/-! ### Sample inputs of the syncer -/

/-- A stand-in for the library in the samples: the URL parser of the samples,
user info put after the scheme, and items serialized as objects with the URL
and the rest of the item. -/
def sampleLibrary : Library :=
  { urlParse := mounttos.urlParse,
    withUserPassword := fun url ak sk => "s3://" ++ ak ++ ":" ++ sk ++ "@" ++ url.drop 5,
    marshalItems := fun items =>
      some ("[" ++ String.intercalate "," (items.map fun item =>
        match item with
        | none => "null"
        | some i => "\x7b\"url\":\"" ++ i.URL ++ "\"" ++ i.rest ++ "\x7d") ++ "]") }

/-- A task with one input and one output, the output with the longer URL. -/
def sampleFullTask : FullTask :=
  { ID := "task-1", Name := "sample", Resources := none, Executors := [], BioosInfo := none,
    Volumes := [],
    Inputs := [some { URL := "s3://b/k", rest := "" }],
    Outputs := [some { URL := "s3://b/a-rather-long-output-key", rest := "" }] }

/-- Surroundings in which no call fails and the accelerator changes nothing. -/
def sampleSyncEnv (taskFull : FullTask) : SyncEnv :=
  { localGetFails := false,
    cpGetTask := Except.ok taskFull,
    modifySyncTask := Except.ok ([], id),
    offloadInputs := { mkdirAll := false, writeFile := false, removeAll := false },
    offloadOutputs := { mkdirAll := false, writeFile := false, removeAll := false },
    deleteOffloadFile := { mkdirAll := false, writeFile := false, removeAll := false },
    storeTaskFails := false }

/-- A syncer with a threshold of 32 bytes, as a test would set it. -/
def smallSyncer : Syncer :=
  { offloadThreshold := 32, offloadHelper := { path := "/offload", pvcName := "offload-pvc" } }

/-- No record, an empty volume, no call made. -/
def emptySyncWorld : SyncWorld :=
  { record := none, disk := { dirs := [], files := [] }, calls := [] }

end syncer

/-! ## pkg/crontab/crontab.go -/

namespace crontab

/-- The variable `runningFlag` of one `RegisterCron`, with the number of times
the registered function has been invoked. -/
structure Guard where
  runningFlag : Bool
  invocations : Nat
deriving DecidableEq, Repr

/-- How an invocation of the registered function ends. -/
inductive Ending where
  | returns
  | panics
deriving DecidableEq, Repr

/-- `runningFlag := false` of `RegisterCron`. -/
def RegisterCron : Guard :=
  { runningFlag := false, invocations := 0 }

/-- The wrapper on a tick, up to and with the call of `fn`: whether `fn` is
invoked, and the guard. -/
def tick (g : Guard) : Bool × Guard :=
  if g.runningFlag then (false, g)
  else (true, { runningFlag := true, invocations := g.invocations + 1 })

/-- The wrapper after `fn` has ended: the statement `runningFlag = false`
follows the call, so it runs when `fn` returns; a panic of `fn` leaves the
wrapper before it. -/
def finish (ending : Ending) (g : Guard) : Guard :=
  match ending with
  | Ending.returns => { g with runningFlag := false }
  | Ending.panics => g

/-- One tick whose invocation, if there is one, ends before the next tick. -/
def tickToEnd (ending : Ending) (g : Guard) : Guard :=
  match tick g with
  | (false, g) => g
  | (true, g) => finish ending g

end crontab

/-! ## Vocabulary of the remaining properties -/

namespace runner

open localstore

/-- A blank of the shell: space, tab or newline. -/
def isBlank (c : Char) : Bool :=
  c == ' ' || c == Char.ofNat 9 || c == Char.ofNat 10

/-- Splitting of a command line into words by the rules the property names:
blanks separate words, a segment in single quotes or in double quotes is
taken literally, and adjacent segments make one word. `word` is the word
begun so far (`none` between words), `quote` is the quote that is open. -/
def shellWordsFrom : Option (List Char) → Option Char → List Char → List String
  | none, _, [] => []
  | some w, _, [] => [String.mk w]
  | word, some q, c :: rest =>
    if c = q then shellWordsFrom (some (word.getD [])) none rest
    else shellWordsFrom (some (word.getD [] ++ [c])) (some q) rest
  | none, none, c :: rest =>
    if isBlank c then shellWordsFrom none none rest
    else if c = singleQuote ∨ c = doubleQuote then shellWordsFrom (some []) (some c) rest
    else shellWordsFrom (some [c]) none rest
  | some w, none, c :: rest =>
    if isBlank c then String.mk w :: shellWordsFrom none none rest
    else if c = singleQuote ∨ c = doubleQuote then shellWordsFrom (some w) (some c) rest
    else shellWordsFrom (some (w ++ [c])) none rest

def shellWords (s : String) : List String :=
  shellWordsFrom none none s.toList

/-- The worlds a task goes through when the control plane reports `n`
executors for it at every reconciliation. -/
inductive RunReporting (r : Runner) (taskID : String) (n : Nat) : World → World → Prop where
  | refl (w : World) : RunReporting r taskID n w w
  | step (env : Env) {w w' : World} :
      (∀ task, env.cpGetTask = Except.ok task → task.Executors.length = n) →
      RunReporting r taskID n w w' → RunReporting r taskID n w (ProcessTask r env taskID w').2
  | cancel (env : Env) {w w' : World} :
      RunReporting r taskID n w w' → RunReporting r taskID n w (syncCancelingMark env w')

/-- The executor stage of the record, if there is one, has an index that is
an index of the `n` executors. -/
def executorIndexInRange (n : Nat) (w : World) : Prop :=
  ∀ ri v, w.record = some ri → ri.ExecutorStage = some v →
    0 ≤ (parseExecutorStageValue v).index ∧ (parseExecutorStageValue v).index < (n : Int)

end runner

namespace mounttos

/-- No PV and no PVC of the cluster carries a deletion timestamp. -/
def mountsLive (st : State) : Prop :=
  (∀ n pv, st.pvs n = some pv → pv.deleting = false)
    ∧ ∀ n pvc, st.pvcs n = some pvc → pvc.deleting = false

/-- The PV or the PVC of the mount `m` carries a deletion timestamp. -/
def mountDeleting (st : State) (m : String) : Prop :=
  (st.pvs m).any (fun pv => pv.deleting) = true
    ∨ (st.pvcs m).any (fun pvc => pvc.deleting) = true

/-- From `st` to `st'` the mount `m` was left alone: it has no reference set,
its PV and PVC are as they were, and every request sent in between is about a
secret, about another name, or a read. -/
def Deferred (m : String) (st st' : State) : Prop :=
  st'.pvcWithTasksCache m = none ∧ st'.pvs m = st.pvs m ∧ st'.pvcs m = st.pvcs m
    ∧ ∃ new, st'.trace = st.trace ++ new
        ∧ ∀ c ∈ new, c.kind = Kind.secret ∨ c.name ≠ m ∨ c.verb = Verb.get

/-- A state in which the PV of the mount `workflow-B` is being deleted. -/
def deletingState : State :=
  let pv : PV := { deleting := true, secretName := "tos-secret", bucket := "B" }
  { New with pvs := assign New.pvs "workflow-B" (some pv) }

end mounttos

/-! # Theorems -/

/-! ## The stage machine -/

namespace runner

open localstore

/-! ## Traces -/

@[simp] theorem emit_trace (e : Effect) (w : World) : (emit e w).trace = w.trace ++ [e] := rfl
@[simp] theorem emit_record (e : Effect) (w : World) : (emit e w).record = w.record := rfl
@[simp] theorem emit_objects (e : Effect) (w : World) : (emit e w).objects = w.objects := rfl
@[simp] theorem emit_finalizers (e : Effect) (w : World) :
    (emit e w).finalizers = w.finalizers := rfl
@[simp] theorem emit_taskProcessing (e : Effect) (w : World) :
    (emit e w).taskProcessing = w.taskProcessing := rfl

theorem counterWrites_append (a b : List Effect) :
    counterWrites (a ++ b) = counterWrites a ++ counterWrites b := by
  simp [counterWrites]

theorem createRequests_append (a b : List Effect) :
    createRequests (a ++ b) = createRequests a ++ createRequests b := by
  simp [createRequests]

theorem deleteRequests_append (a b : List Effect) :
    deleteRequests (a ++ b) = deleteRequests a ++ deleteRequests b := by
  simp [deleteRequests]

theorem quietExtension.quiet_refl (w : World) : quietExtension w w :=
  ⟨[], by simp, rfl, rfl⟩

theorem quietExtension.quiet_trans {w w1 w2 : World} (h1 : quietExtension w w1)
    (h2 : quietExtension w1 w2) : quietExtension w w2 := by
  obtain ⟨n1, e1, c1, k1⟩ := h1
  obtain ⟨n2, e2, c2, k2⟩ := h2
  exact ⟨n1 ++ n2, by rw [e2, e1, List.append_assoc],
    by rw [counterWrites_append, c1, c2]; rfl,
    by rw [createRequests_append, k1, k2]; rfl⟩

theorem quietExtension.quiet_emit (e : Effect) (w : World) (h1 : isCounterWrite e = false)
    (h2 : isCreate e = false) : quietExtension w (emit e w) := by
  refine ⟨[e], rfl, ?_, ?_⟩
  · simp [counterWrites, h1]
  · cases e <;> simp_all [createRequests, isCreate]

theorem sameCounters.counters_refl (a : Option TaskInfo) : sameCounters a a := by
  cases a with
  | none => exact Or.inl ⟨rfl, rfl⟩
  | some ri => exact Or.inr ⟨ri, ri, rfl, rfl, rfl, rfl, rfl⟩

theorem sameCounters.counters_trans {a b c : Option TaskInfo} (h1 : sameCounters a b)
    (h2 : sameCounters b c) : sameCounters a c := by
  rcases h1 with ⟨ha, hb⟩ | ⟨ri, rj, ha, hb, t1, s1, x1⟩
  · rcases h2 with ⟨_, hc⟩ | ⟨rj, rk, hb2, _, _, _, _⟩
    · exact Or.inl ⟨ha, hc⟩
    · rw [hb] at hb2; cases hb2
  · rcases h2 with ⟨hb2, _⟩ | ⟨rj2, rk, hb2, hc, t2, s2, x2⟩
    · rw [hb] at hb2; cases hb2
    · rw [hb] at hb2
      cases hb2
      exact Or.inr ⟨ri, rk, ha, hc, t2.trans t1, s2.trans s1, x2.trans x1⟩

theorem silentExtension.silent_refl (w : World) : silentExtension w w :=
  ⟨[], by simp, rfl, rfl, rfl⟩

theorem silentExtension.silent_trans {w w1 w2 : World} (h1 : silentExtension w w1)
    (h2 : silentExtension w1 w2) : silentExtension w w2 := by
  obtain ⟨n1, e1, c1, k1, d1⟩ := h1
  obtain ⟨n2, e2, c2, k2, d2⟩ := h2
  exact ⟨n1 ++ n2, by rw [e2, e1, List.append_assoc],
    by rw [counterWrites_append, c1, c2]; rfl,
    by rw [createRequests_append, k1, k2]; rfl,
    by rw [deleteRequests_append, d1, d2]; rfl⟩

/-- An effect that is neither a counter write, nor a create, nor a delete. -/
theorem silentExtension.silent_emit (e : Effect) (w : World)
    (h : counterWrites [e] = [] ∧ createRequests [e] = [] ∧ deleteRequests [e] = []) :
    silentExtension w (emit e w) :=
  ⟨[e], rfl, h.1, h.2.1, h.2.2⟩

theorem silentExtension.quiet {w w' : World} (h : silentExtension w w') : quietExtension w w' := by
  obtain ⟨n, e, c, k, _⟩ := h
  exact ⟨n, e, c, k⟩

theorem Same.same_refl (w : World) : Same w w := ⟨silentExtension.silent_refl w, rfl, rfl⟩

theorem Same.same_trans {w w1 w2 : World} (h1 : Same w w1) (h2 : Same w1 w2) : Same w w2 :=
  ⟨h1.trace.silent_trans h2.trace, h2.objects.trans h1.objects, h2.record.trans h1.record⟩

theorem Same.same_emit (e : Effect) (w : World)
    (h : counterWrites [e] = [] ∧ createRequests [e] = [] ∧ deleteRequests [e] = []) :
    Same w (emit e w) :=
  ⟨silentExtension.silent_emit e w h, rfl, rfl⟩

theorem Same.harmless {w w' : World} (h : Same w w') : Harmless w w' :=
  ⟨h.trace, h.objects, Or.inl h.record⟩

theorem Harmless.harmless_trans {w w1 w2 : World} (h1 : Harmless w w1) (h2 : Harmless w1 w2) :
    Harmless w w2 := by
  refine ⟨h1.trace.silent_trans h2.trace, h2.objects.trans h1.objects, ?_⟩
  rcases h2.record with h | h
  · rcases h1.record with g | g
    · exact Or.inl (h.trans g)
    · exact Or.inr (h.trans g)
  · exact Or.inr h

theorem Same.settled {w w' : World} (h : Same w w') : Settled w w' :=
  ⟨h.trace.quiet, by rw [h.objects]; exact fun o ho => ho, Or.inl (by rw [h.record]; exact sameCounters.counters_refl _)⟩

theorem Settled.settled_after {w w1 w2 : World} (h1 : Same w w1) (h2 : Settled w1 w2) : Settled w w2 := by
  refine ⟨h1.trace.quiet.quiet_trans h2.trace, ?_, ?_⟩
  · intro o ho; rw [← h1.objects]; exact h2.objects o ho
  · rw [← h1.record]; exact h2.record

theorem Attempt.attempt_after {o : Option Obj} {e : Effect} {w w1 w2 : World} (h1 : Same w w1)
    (h2 : Attempt o e w1 w2) : Attempt o e w w2 := by
  obtain ⟨n1, e1, c1, k1, _⟩ := h1.trace
  obtain ⟨n2, e2, c2, k2⟩ := h2.trace
  refine ⟨⟨n1 ++ n2, by rw [e2, e1, List.append_assoc], ?_, ?_⟩, ?_, ?_⟩
  · rw [counterWrites_append, c1]; simpa using c2
  · rw [createRequests_append, k1]; simpa using k2
  · intro x hx; rw [← h1.objects]; exact h2.objects x hx
  · rw [← h1.record]; exact h2.record

theorem Same.attempt {o : Option Obj} {e : Effect} {w w' : World} (h : Same w w') :
    Attempt o e w w' := by
  obtain ⟨n, e1, c1, k1, _⟩ := h.trace
  refine ⟨⟨n, e1, Or.inl c1, by rw [k1]; simp⟩, ?_, Or.inl ?_⟩
  · intro x hx; rw [h.objects] at hx; exact Or.inl hx
  · rw [h.record]; exact sameCounters.counters_refl _

/-! ## Deleting objects -/

theorem GetTask_world (f : Bool) (w : World) : (GetTask f w).2 = emit Effect.localGet w := by
  unfold GetTask
  by_cases hf : f = true
  · simp [hf]
  · cases hr : w.record <;> simp [hf, hr]

theorem GetTask_ok {f : Bool} {w : World} {ti : TaskInfo} (h : (GetTask f w).1 = Except.ok ti) :
    w.record = some ti := by
  unfold GetTask at h
  by_cases hf : f = true
  · simp [hf] at h
  · cases hr : w.record with
    | none => simp [hf, hr] at h
    | some r => simp [hf, hr] at h; rw [h]

theorem GetTask_notFound {f : Bool} {w : World} (h : (GetTask f w).1 = Except.error Err.notFound) :
    w.record = none := by
  unfold GetTask at h
  by_cases hf : f = true
  · simp [hf] at h
  · cases hr : w.record with
    | none => rfl
    | some r => simp [hf, hr] at h

/-- What one `kubeDeleteObject` does. -/
theorem kubeDeleteObject_spec (env : Env) (o : Obj) (w : World) :
    ∃ new, (kubeDeleteObject env o w).2.trace = w.trace ++ new
      ∧ counterWrites new = [] ∧ createRequests new = []
      ∧ (deleteRequests new = [] ∨ deleteRequests new = [o])
      ∧ (env.kubeGetFails o = false → env.kubeRemoveFinalizer o ≠ Api.fail →
          o ∈ w.objects → deleteRequests new = [o])
      ∧ (env.kubeGetFails o = false → env.kubeRemoveFinalizer o ≠ Api.fail →
          env.kubeDelete o ≠ Api.fail → (kubeDeleteObject env o w).1 = none)
      ∧ (kubeDeleteObject env o w).2.record = w.record
      ∧ (∀ x ∈ (kubeDeleteObject env o w).2.objects, x ∈ w.objects)
      ∧ (∀ x ∈ w.objects, x ≠ o → x ∈ (kubeDeleteObject env o w).2.objects)
      ∧ ((kubeDeleteObject env o w).1 = none → o ∉ (kubeDeleteObject env o w).2.objects) := by
  unfold kubeDeleteObject
  by_cases hg : env.kubeGetFails o = true
  · refine ⟨[Effect.kubeGet o], ?_⟩
    simp [hg, counterWrites, createRequests, deleteRequests, isCounterWrite]
    exact fun x hx _ => hx
  · by_cases ho : o ∈ w.objects
    · by_cases hf : o ∈ w.finalizers
      · cases hp : env.kubeRemoveFinalizer o
        · cases hd : env.kubeDelete o <;>
            refine ⟨[Effect.kubeGet o, Effect.kubeRemoveFinalizer o, Effect.kubeDelete o], ?_⟩ <;>
            simp [hg, ho, hf, hp, hd, removeObject, counterWrites, createRequests, deleteRequests,
              isCounterWrite, List.mem_filter] <;>
            first | exact fun x hx _ => hx | exact fun x hx => hx.1 | exact ⟨fun x hx _ => hx, fun x hx hne => ⟨hx, hne⟩⟩
        · cases hd : env.kubeDelete o <;>
            refine ⟨[Effect.kubeGet o, Effect.kubeRemoveFinalizer o, Effect.kubeDelete o], ?_⟩ <;>
            simp [hg, ho, hf, hp, hd, removeObject, counterWrites, createRequests, deleteRequests,
              isCounterWrite, List.mem_filter] <;>
            first | exact fun x hx _ => hx | exact fun x hx => hx.1 | exact ⟨fun x hx _ => hx, fun x hx hne => ⟨hx, hne⟩⟩
        · refine ⟨[Effect.kubeGet o, Effect.kubeRemoveFinalizer o], ?_⟩
          simp [hg, ho, hf, hp, removeObject, counterWrites, createRequests, deleteRequests,
              isCounterWrite, List.mem_filter]
          exact fun x hx _ => hx
      · cases hd : env.kubeDelete o <;>
          refine ⟨[Effect.kubeGet o, Effect.kubeDelete o], ?_⟩ <;>
          simp [hg, ho, hf, hd, removeObject, counterWrites, createRequests, deleteRequests,
            isCounterWrite, List.mem_filter] <;>
          first | exact fun x hx _ => hx | exact fun x hx => hx.1 | exact ⟨fun x hx _ => hx, fun x hx hne => ⟨hx, hne⟩⟩
    · refine ⟨[Effect.kubeGet o], ?_⟩
      simp [hg, ho, counterWrites, createRequests, deleteRequests, isCounterWrite]
      exact fun x hx _ => hx


theorem deleteAll_spec (env : Env) (l : List Obj) (w : World) :
    ∃ new, (deleteAll env l w).2.trace = w.trace ++ new
      ∧ counterWrites new = [] ∧ createRequests new = []
      ∧ (deleteRequests new).Sublist l
      ∧ ((∀ o, env.kubeGetFails o = false ∧ env.kubeRemoveFinalizer o ≠ Api.fail
            ∧ env.kubeDelete o ≠ Api.fail) →
          (deleteAll env l w).1 = none ∧ ∀ o ∈ l, o ∈ w.objects → o ∈ deleteRequests new)
      ∧ (deleteAll env l w).2.record = w.record
      ∧ (∀ x ∈ (deleteAll env l w).2.objects, x ∈ w.objects)
      ∧ ((deleteAll env l w).1 = none → ∀ o ∈ l, o ∉ (deleteAll env l w).2.objects) := by
  induction l generalizing w with
  | nil =>
    exact ⟨[], by simp [deleteAll], rfl, rfl, by simp [deleteRequests], by simp [deleteAll],
      rfl, fun x hx => hx, by simp⟩
  | cons a rest ih =>
    have hspec := kubeDeleteObject_spec env a w
    unfold deleteAll
    generalize kubeDeleteObject env a w = x at hspec ⊢
    obtain ⟨res, w1⟩ := x
    obtain ⟨n1, t1, c1, k1, d1, f1, g1, r1, o1, p1, q1⟩ := hspec
    simp only at t1 f1 g1 r1 o1 p1 q1
    · cases res with
      | some err =>
        refine ⟨n1, t1, c1, k1, ?_, ?_, r1, o1, ?_⟩
        · rcases d1 with d | d <;> rw [d] <;> simp
        · intro hu
          have := g1 (hu a).1 (hu a).2.1 (hu a).2.2
          simp at this
        · simp
      | none =>
        obtain ⟨n2, t2, c2, k2, d2, f2, r2, o2, q2⟩ := ih w1
        refine ⟨n1 ++ n2, ?_, ?_, ?_, ?_, ?_, ?_, ?_, ?_⟩
        · simp only [t2, t1, List.append_assoc]
        · rw [counterWrites_append, c1, c2]; rfl
        · rw [createRequests_append, k1, k2]; rfl
        · rw [deleteRequests_append]
          rcases d1 with d | d
          · rw [d]; simpa using d2.cons a
          · rw [d]; simpa using d2.cons₂ a
        · intro hu
          obtain ⟨hn, hall⟩ := f2 hu
          refine ⟨hn, ?_⟩
          intro o ho hw
          rw [deleteRequests_append]
          by_cases hoa : o = a
          · subst hoa
            rw [f1 (hu o).1 (hu o).2.1 hw]
            simp
          · have : o ∈ rest := by
              rcases List.mem_cons.mp ho with h | h
              · exact absurd h hoa
              · exact h
            exact List.mem_append_right _ (hall o this (p1 o hw hoa))
        · exact r2.trans r1
        · exact fun x hx => o1 x (o2 x hx)
        · intro hn o ho
          rcases List.mem_cons.mp ho with h | h
          · subst h
            exact fun hmem => q1 rfl (o2 o hmem)
          · exact q2 hn o h

theorem deleteAll_append (env : Env) (a b : List Obj) (w : World) :
    deleteAll env (a ++ b) w =
      match deleteAll env a w with
      | (some err, w) => (some err, w)
      | (none, w) => deleteAll env b w := by
  induction a generalizing w with
  | nil => simp [deleteAll]
  | cons x rest ih =>
    simp only [List.cons_append, deleteAll]
    generalize kubeDeleteObject env x w = y
    obtain ⟨res, w1⟩ := y
    cases res with
    | some err => rfl
    | none => exact ih w1

theorem andThen_deleteAll_append (env : Env) (a b : List Obj) (w : World)
    (k : World → Ret × World) :
    andThen (deleteAll env a w) (fun w => andThen (deleteAll env b w) k)
      = andThen (deleteAll env (a ++ b) w) k := by
  rw [deleteAll_append]
  generalize deleteAll env a w = y
  obtain ⟨res, w1⟩ := y
  cases res <;> rfl

theorem deleteAll_singleton (env : Env) (o : Obj) (w : World) :
    deleteAll env [o] w = kubeDeleteObject env o w := by
  simp only [deleteAll]
  generalize kubeDeleteObject env o w = y
  obtain ⟨res, w1⟩ := y
  cases res <;> rfl

theorem deleteExecutorJobs_eq (env : Env) (l : List Int) (w : World) :
    deleteExecutorJobs env l w = deleteAll env (l.map executorJobName) w := by
  induction l generalizing w with
  | nil => rfl
  | cons i rest ih =>
    simp only [deleteExecutorJobs, List.map_cons, deleteAll, deleteJob]
    generalize kubeDeleteObject env (executorJobName i) w = y
    obtain ⟨res, w1⟩ := y
    cases res with
    | some err => rfl
    | none => exact ih w1

/-- The four delete blocks of `stopAndCleanTask` are one pass over
`cleanTargets`. -/
theorem stopAndCleanTask_eq (r : Runner) (env : Env) (task : CPTask) (state : String) (w : World) :
    stopAndCleanTask r env task state w =
      match GetTask env.localGetFailsOnClean w with
      | (Except.error Err.notFound, w) => (Ret.done Result.empty none, w)
      | (Except.error _, w) => (Ret.panic, w)
      | (Except.ok taskInfo, w) =>
        andThen (if taskInfo.Stop = none then StopTask env state w else (none, w)) fun w =>
        andThen (deleteAll env (cleanTargets taskInfo) w) fun w =>
        stopAndCleanTaskReport r env task state taskInfo w := by
  unfold stopAndCleanTask
  generalize GetTask env.localGetFailsOnClean w = g
  obtain ⟨res, w1⟩ := g
  cases res with
  | error e => cases e <;> rfl
  | ok taskInfo =>
    simp only
    congr 1
    funext w2
    unfold cleanTargets
    rw [← andThen_deleteAll_append, ← andThen_deleteAll_append, ← andThen_deleteAll_append]
    have h1 : ∀ (c : Prop) [Decidable c] (o : Obj) (w : World),
        (if c then deleteJob env o w else (none, w)) = deleteAll env (if c then [o] else []) w := by
      intro c _ o w
      by_cases hc : c
      · simp [hc, deleteAll_singleton, deleteJob]
      · simp [hc, deleteAll]
    have h2 : ∀ (c : Prop) [Decidable c] (o : Obj) (w : World),
        (if c then deletePVC env o w else (none, w)) = deleteAll env (if c then [o] else []) w := by
      intro c _ o w
      by_cases hc : c
      · simp [hc, deleteAll_singleton, deletePVC]
      · simp [hc, deleteAll]
    simp only [h1, h2]
    by_cases hc : currentStageOf taskInfo ≥ taskStageExecutorsToCreate
    · cases hv : taskInfo.ExecutorStage with
      | none => simp [hc, deleteAll]
      | some v => simp [hc, deleteExecutorJobs_eq]
    · simp [hc, deleteAll]

theorem UpdateTask_fst (env : Env) (s : Option String) (l : List TaskLog) (w : World) :
    (UpdateTask env s l w).1 = env.cpUpdateTask := rfl

theorem UpdateTask_same (env : Env) (s : Option String) (l : List TaskLog) (w : World) :
    Same w (UpdateTask env s l w).2 :=
  Same.same_emit _ w ⟨rfl, rfl, rfl⟩

theorem DeleteTask_harmless (env : Env) (w : World) : Harmless w (DeleteTask env w).2 := by
  unfold DeleteTask
  have h : Same w (emit Effect.localDelete w) := Same.same_emit _ w ⟨rfl, rfl, rfl⟩
  by_cases hf : env.localDeleteFails = true
  · simp only [hf, if_true]; exact h.harmless
  · cases hr : w.record with
    | none => simp only [hf, emit_record, hr]; exact h.harmless
    | some ri =>
      simp only [hf, emit_record, hr]
      exact ⟨h.trace, rfl, Or.inr rfl⟩

theorem stopAndCleanTaskReport_harmless (r : Runner) (env : Env) (task : CPTask) (state : String)
    (taskInfo : TaskInfo) (w : World) :
    Harmless w (stopAndCleanTaskReport r env task state taskInfo w).2 := by
  unfold stopAndCleanTaskReport
  have h1 : Same w (emit Effect.readLogFile w) := Same.same_emit _ w ⟨rfl, rfl, rfl⟩
  simp only
  split
  · exact h1.harmless
  · have h2 := fun s l => (h1.same_trans (UpdateTask_same env s l (emit Effect.readLogFile w)))
    split
    · rename_i heq; rw [← show _ = _ from congrArg Prod.snd heq]; exact (h2 _ _).harmless
    · rename_i heq; rw [← show _ = _ from congrArg Prod.snd heq]; exact (h2 _ _).harmless
    · rename_i w2 heq
      have hw2 : Same w w2 := by
        rw [← show _ = w2 from congrArg Prod.snd heq]; exact h2 _ _
      have h3 : Same w (if taskInfo.InputsRef ≠ "" ∨ taskInfo.OutputsRef ≠ ""
          then emit Effect.offloadDelete w2 else w2) := by
        split
        · exact hw2.same_trans (Same.same_emit _ _ ⟨rfl, rfl, rfl⟩)
        · exact hw2
      have h4 := (h3.same_trans (Same.same_emit Effect.removeLogFile _ ⟨rfl, rfl, rfl⟩)).same_trans
        (Same.same_emit Effect.accelOnFinish _ ⟨rfl, rfl, rfl⟩)
      split
      · exact h4.harmless
      · have h5 := h4.harmless.harmless_trans (DeleteTask_harmless env _)
        split
        · rename_i heq; rw [← show _ = _ from congrArg Prod.snd heq]; exact h5
        · rename_i heq; rw [← show _ = _ from congrArg Prod.snd heq]; exact h5
        · rename_i heq; rw [← show _ = _ from congrArg Prod.snd heq]; exact h5

theorem GetTask_eq (f : Bool) (w : World) :
    GetTask f w =
      (if f = true then Except.error (Err.failure "failed to get configmap")
        else match w.record with
          | none => Except.error Err.notFound
          | some taskInfo => Except.ok taskInfo, emit Effect.localGet w) := by
  unfold GetTask
  by_cases hf : f = true
  · simp [hf]
  · cases hr : w.record <;> simp [hf, hr]

theorem StopTask_spec (env : Env) (state : String) (w : World) :
    silentExtension w (StopTask env state w).2
      ∧ (StopTask env state w).2.objects = w.objects
      ∧ sameCounters w.record (StopTask env state w).2.record
      ∧ (env.localStopFails = false → w.record ≠ none → (StopTask env state w).1 = none) := by
  unfold StopTask
  have h : silentExtension w (emit (Effect.localStop state) w) :=
    silentExtension.silent_emit _ w ⟨rfl, rfl, rfl⟩
  by_cases hf : env.localStopFails = true
  · simp only [hf, if_true]
    exact ⟨h, rfl, sameCounters.counters_refl _, by simp⟩
  · cases hr : w.record with
    | none =>
      simp only [hf, emit_record, hr, Bool.false_eq_true, ↓reduceIte]
      exact ⟨h, rfl, sameCounters.counters_refl _, by simp⟩
    | some ri =>
      simp only [hf, emit_record, hr, Bool.false_eq_true, ↓reduceIte]
      exact ⟨h, rfl, Or.inr ⟨ri, _, rfl, rfl, rfl, rfl, rfl⟩, by simp⟩

theorem stopAndCleanTask_spec (r : Runner) (env : Env) (task : CPTask) (state : String)
    (w : World) :
    ∃ new, (stopAndCleanTask r env task state w).2.trace = w.trace ++ new
      ∧ counterWrites new = [] ∧ createRequests new = []
      ∧ (∀ ri, w.record = some ri → (deleteRequests new).Sublist (cleanTargets ri))
      ∧ (w.record = none → deleteRequests new = [])
      ∧ (∀ ri, w.record = some ri → env.cleanUnhindered →
          (∀ o ∈ cleanTargets ri, o ∈ w.objects → o ∈ deleteRequests new)
          ∧ ∀ o ∈ cleanTargets ri, o ∉ (stopAndCleanTask r env task state w).2.objects)
      ∧ (∀ o ∈ (stopAndCleanTask r env task state w).2.objects, o ∈ w.objects)
      ∧ (sameCounters w.record (stopAndCleanTask r env task state w).2.record
          ∨ ((stopAndCleanTask r env task state w).2.record = none
              ∧ ∃ ri, w.record = some ri
                ∧ ∀ o ∈ (stopAndCleanTask r env task state w).2.objects, o ∉ cleanTargets ri)) := by
  rw [stopAndCleanTask_eq, GetTask_eq]
  have h0 : silentExtension w (emit Effect.localGet w) := silentExtension.silent_emit _ w ⟨rfl, rfl, rfl⟩
  obtain ⟨n0, t0, c0, k0, d0⟩ := h0
  by_cases hf : env.localGetFailsOnClean = true
  · simp only [hf, if_true]
    refine ⟨n0, t0, c0, k0, by simp [d0], fun _ => d0, ?_, fun o ho => ho,
      Or.inl (sameCounters.counters_refl _)⟩
    intro ri _ hu
    rw [hu.1] at hf
    cases hf
  · cases hr : w.record with
    | none =>
      simp only [hf, Bool.false_eq_true, ↓reduceIte]
      exact ⟨n0, t0, c0, k0, by simp, fun _ => d0, by simp, fun o ho => ho,
        Or.inl (by rw [emit_record, hr]; exact sameCounters.counters_refl _)⟩
    | some ri =>
      simp only [hf, Bool.false_eq_true, ↓reduceIte]
      -- the stop marker
      have hstop : ∃ w1 res, (if ri.Stop = none then StopTask env state (emit Effect.localGet w)
            else (none, emit Effect.localGet w)) = (res, w1)
          ∧ silentExtension (emit Effect.localGet w) w1 ∧ w1.objects = w.objects
          ∧ sameCounters (some ri) w1.record
          ∧ (env.localStopFails = false → res = none) := by
        by_cases hs : ri.Stop = none
        · obtain ⟨a, b, c, d⟩ := StopTask_spec env state (emit Effect.localGet w)
          refine ⟨_, _, by rw [if_pos hs], a, b, ?_, ?_⟩
          · rw [emit_record, hr] at c; exact c
          · intro hh; exact d hh (by rw [emit_record, hr]; simp)
        · exact ⟨_, _, by rw [if_neg hs], silentExtension.silent_refl _, rfl,
            by rw [emit_record, hr]; exact sameCounters.counters_refl _, fun _ => rfl⟩
      obtain ⟨w1, res1, e1, s1, o1, r1, f1⟩ := hstop
      rw [e1]
      obtain ⟨n1, t1, c1, k1, d1⟩ := s1
      cases res1 with
      | some err =>
        refine ⟨n0 ++ n1, by simp only [andThen]; rw [t1, t0, List.append_assoc], ?_, ?_, ?_, ?_, ?_,
          ?_, ?_⟩
        · rw [counterWrites_append, c0, c1]; rfl
        · rw [createRequests_append, k0, k1]; rfl
        · intro _ _; rw [deleteRequests_append, d0, d1]; simp
        · intro h; cases h
        · intro ri2 _ hu
          have := f1 hu.2.1
          cases this
        · intro o ho; simp only [andThen] at ho; rw [o1] at ho; exact ho
        · exact Or.inl r1
      | none =>
        simp only [andThen]
        have hd := deleteAll_spec env (cleanTargets ri) w1
        generalize deleteAll env (cleanTargets ri) w1 = x at hd ⊢
        obtain ⟨res2, w2⟩ := x
        obtain ⟨n2, t2, c2, k2, d2, f2, r2, o2, q2⟩ := hd
        simp only at t2 f2 r2 o2 q2
        cases res2 with
        | some err =>
          refine ⟨n0 ++ n1 ++ n2, by simp only; rw [t2, t1, t0]; simp [List.append_assoc],
            ?_, ?_, ?_, ?_, ?_, ?_, ?_⟩
          · simp [counterWrites_append, c0, c1, c2]
          · simp [createRequests_append, k0, k1, k2]
          · intro ri2 h2; cases h2
            simpa [deleteRequests_append, d0, d1] using d2
          · intro h; cases h
          · intro ri2 _ hu
            have := (f2 hu.2.2).1
            cases this
          · intro o ho; simp only at ho; rw [← o1]; exact o2 o ho
          · left
            simp only
            rw [r2]; exact r1
        | none =>
          simp only
          have hrep := stopAndCleanTaskReport_harmless r env task state ri w2
          generalize stopAndCleanTaskReport r env task state ri w2 = y at hrep ⊢
          obtain ⟨ret3, w3⟩ := y
          obtain ⟨⟨n3, t3, c3, k3, d3⟩, o3, r3⟩ := hrep
          simp only at t3 o3 r3
          have hq := q2 rfl
          refine ⟨n0 ++ n1 ++ n2 ++ n3, by simp only; rw [t3, t2, t1, t0]; simp [List.append_assoc],
            ?_, ?_, ?_, ?_, ?_, ?_, ?_⟩
          · simp [counterWrites_append, c0, c1, c2, c3]
          · simp [createRequests_append, k0, k1, k2, k3]
          · intro ri2 h2; cases h2
            simpa [deleteRequests_append, d0, d1, d3] using d2
          · intro h; cases h
          · intro ri2 h2 hu
            cases h2
            refine ⟨?_, ?_⟩
            · intro o ho hw
              have := (f2 hu.2.2).2 o ho (by rw [o1]; exact hw)
              simp [deleteRequests_append, d0, d1, d3, this]
            · intro o ho; simp only; rw [o3]; exact hq o ho
          · intro o ho; simp only at ho; rw [o3] at ho; rw [← o1]; exact o2 o ho
          · simp only
            rcases r3 with h | h
            · left; rw [h, r2]; exact r1
            · right
              refine ⟨h, ri, rfl, ?_⟩
              intro o ho; rw [o3] at ho
              exact fun hmem => hq o hmem ho

theorem stopAndCleanTask_settled (r : Runner) (env : Env) (task : CPTask) (state : String)
    (w : World) : Settled w (stopAndCleanTask r env task state w).2 := by
  obtain ⟨n, t, c, k, _, _, _, o, rec⟩ := stopAndCleanTask_spec r env task state w
  exact ⟨⟨n, t, c, k⟩, o, rec⟩

@[simp] theorem ret_snd (x : Option Err × World) : (ret x).2 = x.2 := rfl

theorem RecordTaskStage_attempt (env : Env) (s : Int) (w : World) :
    Attempt none (Effect.localRecordStage s) w (RecordTaskStage env s w).2 := by
  unfold RecordTaskStage
  have ht : ∃ new, (emit (Effect.localRecordStage s) w).trace = w.trace ++ new
      ∧ (counterWrites new = [] ∨ counterWrites new = [Effect.localRecordStage s])
      ∧ ∀ x ∈ createRequests new, (none : Option Obj) = some x :=
    ⟨[Effect.localRecordStage s], rfl, Or.inr rfl, by simp [createRequests]⟩
  by_cases hf : env.localRecordFails = true
  · simp only [hf, if_true]
    exact ⟨ht, fun x hx => Or.inl hx, Or.inl (sameCounters.counters_refl _)⟩
  · cases hr : w.record with
    | none =>
      simp only [hf, emit_record, hr, Bool.false_eq_true, ↓reduceIte]
      exact ⟨ht, fun x hx => Or.inl hx, Or.inl (by rw [emit_record, hr]; exact sameCounters.counters_refl _)⟩
    | some ri =>
      simp only [hf, emit_record, hr, Bool.false_eq_true, ↓reduceIte]
      exact ⟨ht, fun x hx => Or.inl hx, Or.inr ⟨ri, _, hr, rfl, rfl, rfl, rfl⟩⟩

theorem RecordTaskExecutorStage_attempt (env : Env) (s : Int) (w : World) :
    Attempt none (Effect.localRecordExecutorStage s) w (RecordTaskExecutorStage env s w).2 := by
  unfold RecordTaskExecutorStage
  have ht : ∃ new, (emit (Effect.localRecordExecutorStage s) w).trace = w.trace ++ new
      ∧ (counterWrites new = [] ∨ counterWrites new = [Effect.localRecordExecutorStage s])
      ∧ ∀ x ∈ createRequests new, (none : Option Obj) = some x :=
    ⟨[Effect.localRecordExecutorStage s], rfl, Or.inr rfl, by simp [createRequests]⟩
  by_cases hf : env.localRecordFails = true
  · simp only [hf, if_true]
    exact ⟨ht, fun x hx => Or.inl hx, Or.inl (sameCounters.counters_refl _)⟩
  · cases hr : w.record with
    | none =>
      simp only [hf, emit_record, hr, Bool.false_eq_true, ↓reduceIte]
      exact ⟨ht, fun x hx => Or.inl hx, Or.inl (by rw [emit_record, hr]; exact sameCounters.counters_refl _)⟩
    | some ri =>
      simp only [hf, emit_record, hr, Bool.false_eq_true, ↓reduceIte]
      exact ⟨ht, fun x hx => Or.inl hx, Or.inr ⟨ri, _, hr, rfl, rfl, rfl, rfl⟩⟩

/-- An attempt that may create nothing may as well be allowed to create. -/
theorem Attempt.allow {e : Effect} {w w' : World} (o : Option Obj) (h : Attempt none e w w') :
    Attempt o e w w' := by
  obtain ⟨n, t, c, k⟩ := h.trace
  refine ⟨⟨n, t, c, ?_⟩, ?_, h.record⟩
  · intro x hx; exact absurd (k x hx) (by simp)
  · intro x hx
    rcases h.objects x hx with h1 | h1
    · exact Or.inl h1
    · cases h1

/-- A create followed by an attempt that creates nothing. -/
theorem kubeCreate_attempt (env : Env) (o : Obj) (what : String) (e : Effect) (w : World) :
    Attempt (some o) e w (kubeCreate env o what w).2
    ∧ ∀ w', Attempt none e (kubeCreate env o what w).2 w' → Attempt (some o) e w w' := by
  have key : (kubeCreate env o what w).2.trace = w.trace ++ [Effect.kubeCreate o]
      ∧ (kubeCreate env o what w).2.record = w.record
      ∧ ∀ x ∈ (kubeCreate env o what w).2.objects, x ∈ w.objects ∨ some o = some x := by
    unfold kubeCreate
    by_cases hf : env.kubeCreateFails o = true
    · simp only [hf, if_true]; exact ⟨rfl, rfl, fun x hx => Or.inl hx⟩
    · by_cases ho : o ∈ w.objects
      · simp only [hf, emit_objects, ho, if_true, Bool.false_eq_true, ↓reduceIte]
        exact ⟨rfl, rfl, fun x hx => Or.inl hx⟩
      · simp only [hf, emit_objects, ho, Bool.false_eq_true, ↓reduceIte]
        refine ⟨rfl, rfl, ?_⟩
        intro x hx
        simp only [List.mem_append, List.mem_singleton] at hx
        rcases hx with h | h
        · exact Or.inl h
        · exact Or.inr (by rw [h])
  obtain ⟨kt, kr, ko⟩ := key
  refine ⟨⟨⟨[Effect.kubeCreate o], kt, Or.inl rfl, by simp [createRequests]⟩, ko,
    Or.inl (by rw [kr]; exact sameCounters.counters_refl _)⟩, ?_⟩
  intro w' h
  obtain ⟨n, t, c, k⟩ := h.trace
  refine ⟨⟨[Effect.kubeCreate o] ++ n, by rw [t, kt, List.append_assoc], ?_, ?_⟩, ?_, ?_⟩
  · rw [counterWrites_append]; simpa [counterWrites, isCounterWrite] using c
  · intro x hx
    rw [createRequests_append] at hx
    rcases List.mem_append.mp hx with h1 | h1
    · simp [createRequests] at h1; rw [h1]
    · exact absurd (k x h1) (by simp)
  · intro x hx
    rcases h.objects x hx with h1 | h1
    · exact ko x h1
    · cases h1
  · rw [← kr]; exact h.record

theorem doInitializing_attempt (r : Runner) (env : Env) (task : CPTask) (w : World) :
    Attempt none (Effect.localRecordStage taskStageInitializing) w
      (doInitializing r env task w).2 := by
  unfold doInitializing UpdateTask
  have h := Same.same_emit (Effect.cpUpdateTask (some consts.TaskInitializing)
    (genUpdateTaskLogsInitializing r env.now task.Logs)) w ⟨rfl, rfl, rfl⟩
  cases env.cpUpdateTask with
  | some err => exact h.attempt
  | none => exact Attempt.attempt_after h (RecordTaskStage_attempt env _ _)

theorem doRunning_attempt (env : Env) (w : World) :
    Attempt none (Effect.localRecordStage taskStageRunning) w (doRunning env w).2 := by
  unfold doRunning UpdateTask
  have h := Same.same_emit (Effect.cpUpdateTask (some consts.TaskRunning) []) w ⟨rfl, rfl, rfl⟩
  cases env.cpUpdateTask with
  | some err => exact h.attempt
  | none => exact Attempt.attempt_after h (RecordTaskStage_attempt env _ _)

/-- A create that is followed, when it succeeds, by a counter write. -/
theorem create_then_record (env : Env) (o : Obj) (what : String) (e : Effect) (w : World)
    (k : World → Option Err × World) (hk : ∀ w1, Attempt none e w1 (k w1).2) :
    Attempt (some o) e w
      (match kubeCreate env o what w with
        | (some err, w) => (some err, w)
        | (none, w) => k w).2 := by
  obtain ⟨h1, h2⟩ := kubeCreate_attempt env o what e w
  generalize kubeCreate env o what w = x at h1 h2 ⊢
  obtain ⟨res, w1⟩ := x
  cases res with
  | some err => exact h1
  | none => exact h2 _ (hk w1)

theorem doCreatePVC_attempt (env : Env) (localTask : Task) (w : World) :
    Attempt (if shouldCreatePVC localTask then some pvcName else none)
      (Effect.localRecordStage taskStagePVCCreated) w (doCreatePVC env localTask w).2 := by
  unfold doCreatePVC
  by_cases hs : shouldCreatePVC localTask = true
  · simp only [hs, if_true]
    cases localTask.Resources with
    | none => exact (Same.same_refl w).attempt
    | some res =>
      simp only [createPVC]
      have := create_then_record env pvcName "failed to create pvc"
        (Effect.localRecordStage taskStagePVCCreated) w
        (fun w => RecordTaskStage env taskStagePVCCreated w)
        (fun w1 => RecordTaskStage_attempt env _ w1)
      generalize kubeCreate env pvcName "failed to create pvc" w = x at this ⊢
      obtain ⟨res, w1⟩ := x
      cases res <;> exact this
  · simp only [hs, Bool.false_eq_true, ↓reduceIte]
    exact RecordTaskStage_attempt env _ w

theorem doCreateInputsFiler_attempt (env : Env) (localTask : Task) (w : World) :
    Attempt (if shouldCreateInputsFiler localTask then some inputsFilerJobName else none)
      (Effect.localRecordStage taskStageInputsFilerCreated) w
      (doCreateInputsFiler env localTask w).2 := by
  unfold doCreateInputsFiler
  by_cases hs : shouldCreateInputsFiler localTask = true
  · simp only [hs, if_true, createJob]
    exact create_then_record env inputsFilerJobName "failed to create job" _ w _
      (fun w1 => RecordTaskStage_attempt env _ w1)
  · simp only [hs, Bool.false_eq_true, ↓reduceIte]
    exact RecordTaskStage_attempt env _ w

theorem doCreateOutputsFiler_attempt (env : Env) (localTask : Task) (w : World) :
    Attempt (if shouldCreateOutputsFiler localTask then some outputsFilerJobName else none)
      (Effect.localRecordStage taskStageOutputsFilerCreated) w
      (doCreateOutputsFiler env localTask w).2 := by
  unfold doCreateOutputsFiler
  by_cases hs : shouldCreateOutputsFiler localTask = true
  · simp only [hs, if_true, createJob]
    exact create_then_record env outputsFilerJobName "failed to create job" _ w _
      (fun w1 => RecordTaskStage_attempt env _ w1)
  · simp only [hs, Bool.false_eq_true, ↓reduceIte]
    exact RecordTaskStage_attempt env _ w

theorem getJob_same (env : Env) (o : Obj) (w : World) : Same w (getJob env o w).2 := by
  unfold getJob
  have h := Same.same_emit (Effect.kubeGet o) w ⟨rfl, rfl, rfl⟩
  by_cases h1 : env.kubeGetFails o = true
  · simp only [h1, if_true]; exact h
  · by_cases h2 : o ∈ w.objects
    · simp only [h1, emit_objects, h2, not_true_eq_false, Bool.false_eq_true, ↓reduceIte]; exact h
    · simp only [h1, emit_objects, h2, not_false_eq_true, Bool.false_eq_true, ↓reduceIte]; exact h

theorem recordJobFailedMessage_same (env : Env) (o : Obj) (w : World) :
    Same w (recordJobFailedMessage env o w).2 := by
  unfold recordJobFailedMessage
  have h := Same.same_emit (Effect.kubeListPods o) w ⟨rfl, rfl, rfl⟩
  split <;> exact h

theorem deleteJobPods_same (env : Env) (o : Obj) (w : World) :
    Same w (deleteJobPods env o w).2 := by
  unfold deleteJobPods
  have h := Same.same_emit (Effect.kubeDeletePods o) w ⟨rfl, rfl, rfl⟩
  split <;> exact h

/-- The common shape of the two stager watches. -/
theorem watchFiler_summary (r : Runner) (env : Env) (task : CPTask) (o : Obj) (s : Int)
    (w : World) :
    Settled w (andThen (getJob env o w) fun w =>
      match getJobStatus env o with
      | jobStatus.jobRunning => (Ret.done Result.empty none, w)
      | jobStatus.jobFailed =>
        andThen (recordJobFailedMessage env o w) fun w =>
        stopAndCleanTask r env task consts.TaskSystemError w
      | jobStatus.jobComplete =>
        let x := deleteJobPods env o w
        match x.1.2 with
        | some err => (Ret.done Result.empty (some err), x.2)
        | none =>
          if x.1.1 = false then
            (Ret.done { Requeue := false, RequeueAfter := waitPodDeleted } none, x.2)
          else ret (RecordTaskStage env s x.2)).2
    ∨ Attempt none (Effect.localRecordStage s) w (andThen (getJob env o w) fun w =>
      match getJobStatus env o with
      | jobStatus.jobRunning => (Ret.done Result.empty none, w)
      | jobStatus.jobFailed =>
        andThen (recordJobFailedMessage env o w) fun w =>
        stopAndCleanTask r env task consts.TaskSystemError w
      | jobStatus.jobComplete =>
        let x := deleteJobPods env o w
        match x.1.2 with
        | some err => (Ret.done Result.empty (some err), x.2)
        | none =>
          if x.1.1 = false then
            (Ret.done { Requeue := false, RequeueAfter := waitPodDeleted } none, x.2)
          else ret (RecordTaskStage env s x.2)).2 := by
  have hg := getJob_same env o w
  generalize getJob env o w = g at hg ⊢
  obtain ⟨res, w1⟩ := g
  simp only at hg
  cases res with
  | some err => exact Or.inl hg.settled
  | none =>
    simp only [andThen]
    cases getJobStatus env o with
    | jobRunning => exact Or.inl hg.settled
    | jobFailed =>
      simp only
      have hm := recordJobFailedMessage_same env o w1
      generalize recordJobFailedMessage env o w1 = m at hm ⊢
      obtain ⟨res2, w2⟩ := m
      simp only at hm
      cases res2 with
      | some err => exact Or.inl (hg.same_trans hm).settled
      | none => exact Or.inl (Settled.settled_after (hg.same_trans hm) (stopAndCleanTask_settled _ _ _ _ _))
    | jobComplete =>
      simp only
      have hp := deleteJobPods_same env o w1
      generalize deleteJobPods env o w1 = p at hp ⊢
      obtain ⟨⟨deleted, err⟩, w2⟩ := p
      simp only at hp
      cases err with
      | some err => exact Or.inl (hg.same_trans hp).settled
      | none =>
        cases deleted with
        | false => exact Or.inl (hg.same_trans hp).settled
        | true =>
          simp only [Bool.true_eq_false, ↓reduceIte, ret_snd]
          exact Or.inr (Attempt.attempt_after (hg.same_trans hp) (RecordTaskStage_attempt env _ _))

theorem doWatchInputsFiler_summary (r : Runner) (env : Env) (task : CPTask) (localTask : Task)
    (w : World) :
    Settled w (doWatchInputsFiler r env task localTask w).2
    ∨ Attempt none (Effect.localRecordStage taskStageInputsFilerFinished) w
        (doWatchInputsFiler r env task localTask w).2 := by
  unfold doWatchInputsFiler
  by_cases hs : shouldCreateInputsFiler localTask = true
  · simp only [hs, if_true]
    exact watchFiler_summary r env task inputsFilerJobName taskStageInputsFilerFinished w
  · simp only [hs, Bool.false_eq_true, ↓reduceIte, ret_snd]
    exact Or.inr (RecordTaskStage_attempt env _ w)

theorem doWatchOutputsFiler_summary (r : Runner) (env : Env) (task : CPTask) (localTask : Task)
    (w : World) :
    Settled w (doWatchOutputsFiler r env task localTask w).2
    ∨ Attempt none (Effect.localRecordStage taskStageOutputsFilerFinished) w
        (doWatchOutputsFiler r env task localTask w).2 := by
  unfold doWatchOutputsFiler
  by_cases hs : shouldCreateOutputsFiler localTask = true
  · simp only [hs, if_true]
    exact watchFiler_summary r env task outputsFilerJobName taskStageOutputsFilerFinished w
  · simp only [hs, Bool.false_eq_true, ↓reduceIte, ret_snd]
    exact Or.inr (RecordTaskStage_attempt env _ w)

theorem doWatchExecutorTail_summary (env : Env) (index s : Int) (w : World) :
    Settled w (doWatchExecutorTail env index s w).2
    ∨ Attempt none (Effect.localRecordExecutorStage (newExecutorStageValue index s)) w
        (doWatchExecutorTail env index s w).2 := by
  unfold doWatchExecutorTail
  have hp := deleteJobPods_same env (executorJobName index) w
  generalize deleteJobPods env (executorJobName index) w = p at hp ⊢
  obtain ⟨⟨deleted, err⟩, w2⟩ := p
  simp only at hp
  cases err with
  | some err => exact Or.inl hp.settled
  | none =>
    cases deleted with
    | false => exact Or.inl hp.settled
    | true =>
      simp only [Bool.true_eq_false, ↓reduceIte, ret_snd]
      exact Or.inr (Attempt.attempt_after hp (RecordTaskExecutorStage_attempt env _ _))

theorem doWatchExecutor_summary (env : Env) (index : Int) (w : World) :
    Settled w (doWatchExecutor env index w).2
    ∨ ∃ s, (s = executorStatusFailed ∨ s = executorStatusSuccess)
        ∧ Attempt none (Effect.localRecordExecutorStage (newExecutorStageValue index s)) w
            (doWatchExecutor env index w).2 := by
  unfold doWatchExecutor
  have hg := getJob_same env (executorJobName index) w
  generalize getJob env (executorJobName index) w = g at hg ⊢
  obtain ⟨res, w1⟩ := g
  simp only at hg
  cases res with
  | some err => exact Or.inl hg.settled
  | none =>
    simp only [andThen]
    cases getJobStatus env (executorJobName index) with
    | jobRunning => exact Or.inl hg.settled
    | jobFailed =>
      simp only
      have hm := recordJobFailedMessage_same env (executorJobName index) w1
      generalize recordJobFailedMessage env (executorJobName index) w1 = m at hm ⊢
      obtain ⟨res2, w2⟩ := m
      simp only at hm
      cases res2 with
      | some err => exact Or.inl (hg.same_trans hm).settled
      | none =>
        simp only
        rcases doWatchExecutorTail_summary env index executorStatusFailed w2 with h | h
        · exact Or.inl (Settled.settled_after (hg.same_trans hm) h)
        · exact Or.inr ⟨_, Or.inl rfl, Attempt.attempt_after (hg.same_trans hm) h⟩
    | jobComplete =>
      simp only
      rcases doWatchExecutorTail_summary env index executorStatusSuccess w1 with h | h
      · exact Or.inl (Settled.settled_after hg h)
      · exact Or.inr ⟨_, Or.inr rfl, Attempt.attempt_after hg h⟩

theorem doCreateExecutor_summary (env : Env) (localTask : Task) (index : Int) (w : World) :
    Settled w (doCreateExecutor env localTask index w).2
    ∨ (0 ≤ index ∧ index < (localTask.Executors.length : Int)
        ∧ Attempt (some (executorJobName index))
            (Effect.localRecordExecutorStage (newExecutorStageValue index executorStatusCreated))
            w (doCreateExecutor env localTask index w).2) := by
  unfold doCreateExecutor
  by_cases h : index < 0 ∨ index ≥ (localTask.Executors.length : Int)
  · simp only [h, if_true]
    exact Or.inl (Same.same_refl w).settled
  · simp only [h, if_false, createJob]
    have hb : 0 ≤ index ∧ index < (localTask.Executors.length : Int) := by omega
    refine Or.inr ⟨hb.1, hb.2, ?_⟩
    have := create_then_record env (executorJobName index) "failed to create job"
      (Effect.localRecordExecutorStage (newExecutorStageValue index executorStatusCreated)) w
      (fun w => RecordTaskExecutorStage env (newExecutorStageValue index executorStatusCreated) w)
      (fun w1 => RecordTaskExecutorStage_attempt env _ w1)
    generalize kubeCreate env (executorJobName index) "failed to create job" w = x at this ⊢
    obtain ⟨res, w1⟩ := x
    cases res <;> exact this

theorem doExecutors_summary (env : Env) (task : CPTask) (taskInfo : TaskInfo) (w : World) (c : Int)
    (hc : taskInfo.Stage = some c) (h5 : taskStageRunning ≤ c)
    (h6 : c < taskStageExecutorsFinished) :
    Settled w (doExecutors env task taskInfo w).2
    ∨ ∃ o e, Advance task taskInfo o e ∧ Attempt o e w (doExecutors env task taskInfo w).2 := by
  unfold doExecutors
  cases hv : taskInfo.ExecutorStage with
  | none =>
    simp only [ret_snd]
    exact Or.inr ⟨_, _, Advance.executorsStart c hc h5 h6 hv,
      RecordTaskExecutorStage_attempt env _ w⟩
  | some v =>
    simp only
    by_cases s0 : (parseExecutorStageValue v).status = executorStatusToCreate
    · simp only [s0, if_true]
      rcases doCreateExecutor_summary env taskInfo.toTask (parseExecutorStageValue v).index w
        with h | ⟨h1, h2, h3⟩
      · exact Or.inl h
      · exact Or.inr ⟨_, _, Advance.executorCreated c v hc h5 h6 hv s0 h1 h2, h3⟩
    · by_cases s1 : (parseExecutorStageValue v).status = executorStatusCreated
      · simp only [s0, s1, if_true, if_false]
        rcases doWatchExecutor_summary env (parseExecutorStageValue v).index w with h | ⟨s, hs, h⟩
        · exact Or.inl h
        · exact Or.inr ⟨_, _, Advance.executorWatched c v s hc h5 h6 hv s1 hs, h⟩
      · by_cases s3 : (parseExecutorStageValue v).status = executorStatusSuccess
            ∧ (parseExecutorStageValue v).index < (task.Executors.length : Int) - 1
        · simp only [s0, s1, s3, if_true, if_false, and_self, ret_snd]
          exact Or.inr ⟨_, _, Advance.executorNext c v hc h5 h6 hv s3.1 s3.2,
            RecordTaskExecutorStage_attempt env _ w⟩
        · simp only [s0, s1, s3, if_false, ret_snd]
          exact Or.inr ⟨_, _, Advance.executorsFinished c v hc h5 h6 hv s0 s1,
            RecordTaskStage_attempt env _ w⟩

theorem doComplete_settled (r : Runner) (env : Env) (task : CPTask) (taskInfo : TaskInfo)
    (w : World) : Settled w (doComplete r env task taskInfo w).2 := by
  unfold doComplete
  exact stopAndCleanTask_settled _ _ _ _ _

/-- What one `runTask` does to the world: nothing that advances the task, or
one step of the stage machine. -/
theorem runTask_summary (r : Runner) (env : Env) (task : CPTask) (w : World) :
    Settled w (runTask r env task w).2
    ∨ ∃ ri o e, w.record = some ri ∧ Advance task ri o e
        ∧ Attempt o e w (runTask r env task w).2 := by
  unfold runTask
  rw [GetTask_eq]
  have h0 : Same w (emit Effect.localGet w) := Same.same_emit _ w ⟨rfl, rfl, rfl⟩
  by_cases hf : env.localGetFails = true
  · simp only [hf, if_true]
    exact Or.inl h0.settled
  · cases hr : w.record with
    | none =>
      simp only [hf, Bool.false_eq_true, ↓reduceIte]
      exact Or.inl h0.settled
    | some ri =>
      simp only [hf, Bool.false_eq_true, ↓reduceIte]
      cases hstop : ri.Stop with
      | some stop =>
        simp only
        exact Or.inl (Settled.settled_after h0 (stopAndCleanTask_settled _ _ _ _ _))
      | none =>
        simp only [OnProcessTask]
        have h1 : Same w (emit Effect.accelOnProcess (emit Effect.localGet w)) :=
          h0.same_trans (Same.same_emit _ _ ⟨rfl, rfl, rfl⟩)
        generalize emit Effect.accelOnProcess (emit Effect.localGet w) = w1 at h1 ⊢
        by_cases ha : env.accelOnProcess.2 ≠ none ∨ env.accelOnProcess.1.IsZero = false
        · simp only [ha, if_true]
          exact Or.inl h1.settled
        · simp only [ha, if_false]
          have lift : ∀ {o e w'}, Advance task ri o e → Attempt o e w1 w' →
              ∃ ri2 o e, some ri = some ri2 ∧ Advance task ri2 o e ∧ Attempt o e w w' :=
            fun hadv hatt => ⟨ri, _, _, rfl, hadv, Attempt.attempt_after h1 hatt⟩
          cases hs : ri.Stage with
          | none =>
            simp only [ret_snd]
            exact Or.inr (lift (Advance.init hs) (RecordTaskStage_attempt env _ w1))
          | some c =>
            simp only
            by_cases c1 : c < taskStageInitializing
            · simp only [c1, if_true, ret_snd]
              exact Or.inr (lift (Advance.initializing c hs c1) (doInitializing_attempt r env task w1))
            · by_cases c2 : c < taskStagePVCCreated
              · simp only [c1, c2, if_true, if_false]
                have hatt := doCreatePVC_attempt env ri.toTask w1
                have : (Outcome.toRet (doCreatePVC env ri.toTask w1)).2
                    = (doCreatePVC env ri.toTask w1).2 := by
                  generalize doCreatePVC env ri.toTask w1 = x
                  obtain ⟨out, w2⟩ := x
                  cases out <;> rfl
                rw [this]
                exact Or.inr (lift (Advance.pvcCreated c hs (not_lt.mp c1) c2) hatt)
              · by_cases c3 : c < taskStageInputsFilerCreated
                · simp only [c1, c2, c3, if_true, if_false, ret_snd]
                  exact Or.inr (lift (Advance.inputsFilerCreated c hs (not_lt.mp c2) c3)
                    (doCreateInputsFiler_attempt env ri.toTask w1))
                · by_cases c4 : c < taskStageInputsFilerFinished
                  · simp only [c1, c2, c3, c4, if_true, if_false]
                    rcases doWatchInputsFiler_summary r env task ri.toTask w1 with h | h
                    · exact Or.inl (Settled.settled_after h1 h)
                    · exact Or.inr (lift (Advance.inputsFilerFinished c hs (not_lt.mp c3) c4) h)
                  · by_cases c5 : c < taskStageRunning
                    · simp only [c1, c2, c3, c4, c5, if_true, if_false, ret_snd]
                      exact Or.inr (lift (Advance.running c hs (not_lt.mp c4) c5)
                        (doRunning_attempt env w1))
                    · by_cases c6 : c < taskStageExecutorsFinished
                      · simp only [c1, c2, c3, c4, c5, c6, if_true, if_false]
                        rcases doExecutors_summary env task ri w1 c hs (not_lt.mp c5) c6
                          with h | ⟨o, e, hadv, h⟩
                        · exact Or.inl (Settled.settled_after h1 h)
                        · exact Or.inr (lift hadv h)
                      · by_cases c7 : c < taskStageOutputsFilerCreated
                        · simp only [c1, c2, c3, c4, c5, c6, c7, if_true, if_false, ret_snd]
                          exact Or.inr (lift (Advance.outputsFilerCreated c hs (not_lt.mp c6) c7)
                            (doCreateOutputsFiler_attempt env ri.toTask w1))
                        · by_cases c8 : c < taskStageOutputsFilerFinished
                          · simp only [c1, c2, c3, c4, c5, c6, c7, c8, if_true, if_false]
                            rcases doWatchOutputsFiler_summary r env task ri.toTask w1 with h | h
                            · exact Or.inl (Settled.settled_after h1 h)
                            · exact Or.inr
                                (lift (Advance.outputsFilerFinished c hs (not_lt.mp c7) c8) h)
                          · simp only [c1, c2, c3, c4, c5, c6, c7, c8, if_false]
                            exact Or.inl (Settled.settled_after h1 (doComplete_settled _ _ _ _ _))

theorem Settled.settled_andSame {w w1 w2 : World} (h1 : Settled w w1) (h2 : Same w1 w2) :
    Settled w w2 := by
  refine ⟨h1.trace.quiet_trans h2.trace.quiet, ?_, ?_⟩
  · intro o ho; rw [h2.objects] at ho; exact h1.objects o ho
  · rw [h2.record, h2.objects]; exact h1.record

theorem Attempt.attempt_andSame {o : Option Obj} {e : Effect} {w w1 w2 : World} (h1 : Attempt o e w w1)
    (h2 : Same w1 w2) : Attempt o e w w2 := by
  obtain ⟨n1, e1, c1, k1⟩ := h1.trace
  obtain ⟨n2, e2, c2, k2, _⟩ := h2.trace
  refine ⟨⟨n1 ++ n2, by rw [e2, e1, List.append_assoc], ?_, ?_⟩, ?_, ?_⟩
  · rw [counterWrites_append, c2]; simpa using c1
  · rw [createRequests_append, k2]; simpa using k1
  · intro x hx; rw [h2.objects] at hx; exact h1.objects x hx
  · rw [h2.record]; exact h1.record

theorem releaseProcessTask_same (taskID : String) (w : World) :
    Same w (releaseProcessTask taskID w) :=
  ⟨silentExtension.silent_refl w, rfl, rfl⟩

/-- What one `ProcessTask` does to the world. -/
theorem ProcessTask_summary (r : Runner) (env : Env) (taskID : String) (w : World) :
    Settled w (ProcessTask r env taskID w).2
    ∨ ∃ task ri o e, w.record = some ri ∧ Advance task ri o e
        ∧ Attempt o e w (ProcessTask r env taskID w).2 := by
  unfold ProcessTask tryProcessTask
  by_cases hb : taskID ∈ w.taskProcessing
  · simp only [hb, if_true]
    exact Or.inl (Same.same_refl w).settled
  · simp only [hb, if_false]
    have h0 : Same w (emit Effect.cpGetTask
        { w with taskProcessing := taskID :: w.taskProcessing }) :=
      ⟨⟨[Effect.cpGetTask], rfl, rfl, rfl, rfl⟩, rfl, rfl⟩
    generalize emit Effect.cpGetTask { w with taskProcessing := taskID :: w.taskProcessing }
      = w0 at h0 ⊢
    cases env.cpGetTask with
    | error err => exact Or.inl (h0.same_trans (releaseProcessTask_same _ _)).settled
    | ok task =>
      have hsc : ∀ state, Settled w
          (releaseProcessTask taskID (stopAndCleanTask r env task state w0).2) := fun state =>
        (Settled.settled_after h0 (stopAndCleanTask_settled r env task state w0)).settled_andSame
          (releaseProcessTask_same _ _)
      by_cases h1 : task.ClusterID ≠ r.clusterID
      · simp only [if_pos h1]
        exact Or.inl (h0.same_trans (releaseProcessTask_same _ _)).settled
      · by_cases h2 : task.State = consts.TaskCanceling
        · simp only [if_neg h1, if_pos h2]
          exact Or.inl (hsc _)
        · by_cases h3 : task.State = consts.TaskSystemError
              ∨ task.State = consts.TaskExecutorError
              ∨ task.State = consts.TaskCanceled ∨ task.State = consts.TaskComplete
          · simp only [if_neg h1, if_neg h2, if_pos h3]
            exact Or.inl (hsc _)
          · simp only [if_neg h1, if_neg h2, if_neg h3]
            rcases runTask_summary r env task w0 with h | ⟨ri, o, e, hr, hadv, hatt⟩
            · exact Or.inl ((Settled.settled_after h0 h).settled_andSame (releaseProcessTask_same _ _))
            · exact Or.inr ⟨task, ri, o, e, by rw [← hr, h0.record], hadv,
                (Attempt.attempt_after h0 hatt).attempt_andSame (releaseProcessTask_same _ _)⟩

theorem syncCancelingMark_settled (env : Env) (w : World) :
    Settled w (syncCancelingMark env w) := by
  unfold syncCancelingMark
  cases hr : w.record with
  | none => exact (Same.same_refl w).settled
  | some ri =>
    simp only
    cases ri.Stop with
    | some s => exact (Same.same_refl w).settled
    | none =>
      simp only
      obtain ⟨a, b, c, _⟩ := StopTask_spec env consts.TaskCanceled w
      exact ⟨a.quiet, by rw [b]; exact fun o ho => ho, Or.inl c⟩

/-! ## Arithmetic of the counters -/

/-- Go's quotient and remainder by ten: the remainder has the sign of the
dividend. -/
theorem tdiv_tmod_ten (v : Int) :
    v = 10 * Int.tdiv v 10 + Int.tmod v 10
      ∧ ((0 ≤ v ∧ 0 ≤ Int.tmod v 10 ∧ Int.tmod v 10 < 10)
          ∨ (v < 0 ∧ -10 < Int.tmod v 10 ∧ Int.tmod v 10 ≤ 0)) := by
  have h := Int.tmod_add_tdiv v 10
  refine ⟨by omega, ?_⟩
  by_cases hv : 0 ≤ v
  · exact Or.inl ⟨hv, Int.tmod_nonneg 10 hv, Int.tmod_lt_of_pos v (by decide)⟩
  · right
    have hn : 0 ≤ -v := by omega
    have h1 := Int.tmod_nonneg 10 hn
    have h2 := Int.tmod_lt_of_pos (-v) (show (0 : Int) < 10 by decide)
    have h3 := Int.tmod_add_tdiv (-v) 10
    rw [Int.neg_tdiv] at h3
    omega

/-- The stage a step writes, against the stage it read. -/
theorem Advance.stage_written {task : CPTask} {ri : TaskInfo} {o : Option Obj} {s : Int}
    (h : Advance task ri o (Effect.localRecordStage s)) :
    (ri.Stage = none ∧ s = 0) ∨
      ∃ c, ri.Stage = some c ∧ c < s ∧ (0 ≤ c → c ≤ 7 → s = c + 1) := by
  cases h with
  | init h => exact Or.inl ⟨h, rfl⟩
  | initializing c h1 h2 =>
    exact Or.inr ⟨c, h1, h2, by simp only [taskStageInitializing] at *; omega⟩
  | pvcCreated c h1 h2 h3 =>
    exact Or.inr ⟨c, h1, h3, by simp only [taskStageInitializing, taskStagePVCCreated] at *; omega⟩
  | inputsFilerCreated c h1 h2 h3 =>
    exact Or.inr ⟨c, h1, h3,
      by simp only [taskStageInputsFilerCreated, taskStagePVCCreated] at *; omega⟩
  | inputsFilerFinished c h1 h2 h3 =>
    exact Or.inr ⟨c, h1, h3,
      by simp only [taskStageInputsFilerCreated, taskStageInputsFilerFinished] at *; omega⟩
  | running c h1 h2 h3 =>
    exact Or.inr ⟨c, h1, h3,
      by simp only [taskStageRunning, taskStageInputsFilerFinished] at *; omega⟩
  | executorsFinished c v h1 h2 h3 _ _ _ =>
    exact Or.inr ⟨c, h1, h3,
      by simp only [taskStageRunning, taskStageExecutorsFinished] at *; omega⟩
  | outputsFilerCreated c h1 h2 h3 =>
    exact Or.inr ⟨c, h1, h3,
      by simp only [taskStageOutputsFilerCreated, taskStageExecutorsFinished] at *; omega⟩
  | outputsFilerFinished c h1 h2 h3 =>
    exact Or.inr ⟨c, h1, h3,
      by simp only [taskStageOutputsFilerCreated, taskStageOutputsFilerFinished] at *; omega⟩

/-- The executor stage a step writes, against the executor stage it read. -/
theorem Advance.executorStage_written {task : CPTask} {ri : TaskInfo} {o : Option Obj} {v' : Int}
    (h : Advance task ri o (Effect.localRecordExecutorStage v')) :
    (ri.ExecutorStage = none ∧ v' = 0) ∨
      ∃ v, ri.ExecutorStage = some v ∧ v < v'
        ∧ (parseExecutorStageValue v).status ≠ executorStatusFailed
        ∧ (parseExecutorStageValue v).index ≤ (parseExecutorStageValue v').index
        ∧ (parseExecutorStageValue v').index ≤ (parseExecutorStageValue v).index + 1 := by
  generalize he : Effect.localRecordExecutorStage v' = e at h
  cases h <;> simp only [Effect.localRecordExecutorStage.injEq, reduceCtorEq] at he
  case executorsStart c h1 h2 h3 h4 =>
    left
    refine ⟨h4, ?_⟩
    rw [he]; rfl
  case executorCreated c v h1 h2 h3 h4 h5 h6 h7 =>
    right
    refine ⟨v, h4, ?_⟩
    have hv := tdiv_tmod_ten v
    have hv' := tdiv_tmod_ten v'
    simp only [parseExecutorStageValue, newExecutorStageValue, executorStage.value,
      executorStatusToCreate, executorStatusCreated, executorStatusFailed] at *
    omega
  case executorWatched c v s h1 h2 h3 h4 h5 h6 =>
    right
    refine ⟨v, h4, ?_⟩
    have hv := tdiv_tmod_ten v
    have hv' := tdiv_tmod_ten v'
    simp only [parseExecutorStageValue, newExecutorStageValue, executorStage.value,
      executorStatusSuccess, executorStatusCreated, executorStatusFailed] at *
    omega
  case executorNext c v h1 h2 h3 h4 h5 h6 =>
    right
    refine ⟨v, h4, ?_⟩
    have hv := tdiv_tmod_ten v
    have hv' := tdiv_tmod_ten v'
    simp only [parseExecutorStageValue, newExecutorStageValue, executorStage.value,
      executorStatusSuccess, executorStatusToCreate, executorStatusFailed] at *
    omega

theorem callsOf_eq {w w' : World} {new : List Effect} (h : w'.trace = w.trace ++ new) :
    callsOf w w' = new := by
  simp [callsOf, h]

theorem mem_counterWrites {e : Effect} {t : List Effect} :
    e ∈ counterWrites t ↔ e ∈ t ∧ isCounterWrite e = true := by
  simp [counterWrites, List.mem_filter]

theorem mem_deleteRequests {o : Obj} {t : List Effect} :
    o ∈ deleteRequests t ↔ Effect.kubeDelete o ∈ t := by
  induction t with
  | nil => simp [deleteRequests]
  | cons e t ih =>
    have hc : deleteRequests (e :: t) = deleteRequests [e] ++ deleteRequests t :=
      deleteRequests_append [e] t
    rw [hc, List.mem_append, ih]
    cases e <;> simp [deleteRequests]

theorem countersGrow.grow_refl (a : Option TaskInfo) : countersGrow a a := by
  cases a with
  | none => exact Or.inl rfl
  | some ri => exact Or.inr ⟨ri, ri, rfl, rfl, rfl, fun c h => ⟨c, h, le_refl _⟩,
      fun v h => ⟨v, h, le_refl _⟩⟩

theorem countersGrow.grow_trans {a b c : Option TaskInfo} (h1 : countersGrow a b)
    (h2 : countersGrow b c) : countersGrow a c := by
  rcases h2 with h | ⟨rj, rk, hb, hc, t2, s2, x2⟩
  · exact Or.inl h
  · rcases h1 with h | ⟨ri, rj2, ha, hb2, t1, s1, x1⟩
    · rw [h] at hb; cases hb
    · rw [hb] at hb2
      cases hb2
      refine Or.inr ⟨ri, rk, ha, hc, t2.trans t1, ?_, ?_⟩
      · intro c0 h0
        obtain ⟨c1, e1, l1⟩ := s1 c0 h0
        obtain ⟨c2, e2, l2⟩ := s2 c1 e1
        exact ⟨c2, e2, le_trans l1 l2⟩
      · intro c0 h0
        obtain ⟨c1, e1, l1⟩ := x1 c0 h0
        obtain ⟨c2, e2, l2⟩ := x2 c1 e1
        exact ⟨c2, e2, le_trans l1 l2⟩

theorem sameCounters.counters_grow {a b : Option TaskInfo} (h : sameCounters a b) : countersGrow a b := by
  rcases h with ⟨_, hb⟩ | ⟨ri, rj, ha, hb, t, s, x⟩
  · exact Or.inl hb
  · exact Or.inr ⟨ri, rj, ha, hb, t, fun c h => ⟨c, by rw [s]; exact h, le_refl _⟩,
      fun v h => ⟨v, by rw [x]; exact h, le_refl _⟩⟩

theorem Settled.settled_grow {w w' : World} (h : Settled w w') : countersGrow w.record w'.record := by
  rcases h.record with h1 | ⟨h1, _⟩
  · exact h1.counters_grow
  · exact Or.inl h1

theorem Attempt.attempt_grow {task : CPTask} {ri : TaskInfo} {o : Option Obj} {e : Effect} {w w' : World}
    (hr : w.record = some ri) (hadv : Advance task ri o e) (h : Attempt o e w w') :
    countersGrow w.record w'.record := by
  rcases h.record with h1 | ⟨ri2, rj, h1, h2, h3, h4⟩
  · exact h1.counters_grow
  · rw [hr] at h1
    cases h1
    refine Or.inr ⟨ri, rj, hr, h2, h3, ?_⟩
    cases e with
    | localRecordStage s =>
      simp only [applied] at h4
      refine ⟨?_, fun v hv => ⟨v, by rw [h4.2]; exact hv, le_refl _⟩⟩
      intro c hc
      rcases hadv.stage_written with ⟨hn, _⟩ | ⟨c2, hc2, hlt, _⟩
      · rw [hn] at hc; cases hc
      · rw [hc2] at hc; cases hc
        exact ⟨s, h4.1, le_of_lt hlt⟩
    | localRecordExecutorStage v' =>
      simp only [applied] at h4
      refine ⟨fun c hc => ⟨c, by rw [h4.2]; exact hc, le_refl _⟩, ?_⟩
      intro v hv
      rcases hadv.executorStage_written with ⟨hn, _⟩ | ⟨v2, hv2, hlt, _⟩
      · rw [hn] at hv; cases hv
      · rw [hv2] at hv; cases hv
        exact ⟨v', h4.1, le_of_lt hlt⟩
    | _ => simp [applied] at h4

theorem ProcessTask_grow (r : Runner) (env : Env) (taskID : String) (w : World) :
    countersGrow w.record (ProcessTask r env taskID w).2.record := by
  rcases ProcessTask_summary r env taskID w with h | ⟨task, ri, o, e, hr, hadv, hatt⟩
  · exact h.settled_grow
  · exact hatt.attempt_grow hr hadv

theorem Run.run_grow {r : Runner} {taskID : String} {w w' : World} (h : Run r taskID w w') :
    countersGrow w.record w'.record := by
  induction h with
  | refl => exact countersGrow.grow_refl _
  | step env _ ih => exact ih.grow_trans (ProcessTask_grow r env taskID _)
  | cancel env _ ih => exact ih.grow_trans (syncCancelingMark_settled env _).settled_grow

theorem Run.reconcileTimes (r : Runner) (env : Env) (taskID : String) (n : Nat) (w0 w : World)
    (h : Run r taskID w0 w) : Run r taskID w0 (reconcileTimes r env taskID n w) := by
  induction n generalizing w with
  | zero => exact h
  | succ n ih => exact ih _ (Run.step env h)

/-- The counter writes of one step, from its summary. -/
theorem step_counter_writes {w w' : World}
    (h : Settled w w' ∨ ∃ task ri o e, w.record = some ri ∧ Advance task ri o e
      ∧ Attempt o e w w') :
    w'.trace = w.trace ++ callsOf w w'
    ∧ (counterWrites (callsOf w w')).length ≤ 1
    ∧ (∀ ri c s, w.record = some ri → ri.Stage = some c →
        Effect.localRecordStage s ∈ callsOf w w' → c < s ∧ (0 ≤ c → c ≤ 7 → s = c + 1))
    ∧ (∀ ri v v', w.record = some ri → ri.ExecutorStage = some v →
        Effect.localRecordExecutorStage v' ∈ callsOf w w' → v < v') := by
  rcases h with h | ⟨task, ri, o, e, hr, hadv, hatt⟩
  · obtain ⟨n, t, c, _⟩ := h.trace
    rw [callsOf_eq t]
    refine ⟨t, by rw [c]; simp, ?_, ?_⟩
    · intro ri c0 s _ _ hs
      have : Effect.localRecordStage s ∈ counterWrites n := mem_counterWrites.mpr ⟨hs, rfl⟩
      rw [c] at this; cases this
    · intro ri v v' _ _ hs
      have : Effect.localRecordExecutorStage v' ∈ counterWrites n :=
        mem_counterWrites.mpr ⟨hs, rfl⟩
      rw [c] at this; cases this
  · obtain ⟨n, t, c, _⟩ := hatt.trace
    rw [callsOf_eq t]
    have hmem : ∀ x, x ∈ n → isCounterWrite x = true → x = e := by
      intro x hx hcw
      have : x ∈ counterWrites n := mem_counterWrites.mpr ⟨hx, hcw⟩
      rcases c with c | c
      · rw [c] at this; cases this
      · rw [c] at this; simpa using this
    refine ⟨t, by rcases c with c | c <;> rw [c] <;> simp, ?_, ?_⟩
    · intro ri2 c0 s hr2 hc0 hs
      rw [hr] at hr2; cases hr2
      have he := hmem _ hs rfl
      subst he
      rcases hadv.stage_written with ⟨hn, _⟩ | ⟨c2, hc2, hlt, hnext⟩
      · rw [hn] at hc0; cases hc0
      · rw [hc2] at hc0; cases hc0
        exact ⟨hlt, hnext⟩
    · intro ri2 v v' hr2 hv hs
      rw [hr] at hr2; cases hr2
      have he := hmem _ hs rfl
      subst he
      rcases hadv.executorStage_written with ⟨hn, _⟩ | ⟨v2, hv2, hlt, _⟩
      · rw [hn] at hv; cases hv
      · rw [hv2] at hv; cases hv
        exact hlt

/-- C1: one `runTask` writes at most one counter; a stage it writes is above
the stage `c` it read, and is `c + 1` when `c` is between Init and
OutputsFilerCreated; an executor stage it writes is above the executor stage
it read; and over any number of reconciliations neither counter of the record
goes down. -/
theorem runTask_counters_increase (r : Runner) :
    (∀ (env : Env) (task : CPTask) (w : World),
      (runTask r env task w).2.trace = w.trace ++ callsOf w (runTask r env task w).2
      ∧ (counterWrites (callsOf w (runTask r env task w).2)).length ≤ 1
      ∧ (∀ ri c s, w.record = some ri → ri.Stage = some c →
          Effect.localRecordStage s ∈ callsOf w (runTask r env task w).2 →
          c < s ∧ (0 ≤ c → c ≤ 7 → s = c + 1))
      ∧ (∀ ri v v', w.record = some ri → ri.ExecutorStage = some v →
          Effect.localRecordExecutorStage v' ∈ callsOf w (runTask r env task w).2 → v < v'))
    ∧ (∀ (taskID : String) (w w' : World) (ri rj : TaskInfo), Run r taskID w w' →
        w.record = some ri → w'.record = some rj →
        (∀ c, ri.Stage = some c → ∃ c', rj.Stage = some c' ∧ c ≤ c')
        ∧ (∀ v, ri.ExecutorStage = some v → ∃ v', rj.ExecutorStage = some v' ∧ v ≤ v')) := by
  refine ⟨fun env task w => ?_, ?_⟩
  · apply step_counter_writes
    rcases runTask_summary r env task w with h | ⟨ri, o, e, h⟩
    · exact Or.inl h
    · exact Or.inr ⟨task, ri, o, e, h⟩
  · intro taskID w w' ri rj hrun hi hj
    rcases hrun.run_grow with h | ⟨ri2, rj2, h1, h2, _, h3, h4⟩
    · rw [h] at hj; cases hj
    · rw [hi] at h1; cases h1
      rw [hj] at h2; cases h2
      exact ⟨h3, h4⟩

/-- C1 at a record in stage Initializing: `runTask` writes stage PVCCreated,
one above; and three reconciliations later the stage is not below. -/
theorem runTask_counters_increase_witness :
    Effect.localRecordStage 2 ∈ callsOf (sampleWorld (some 1) none)
        (runTask sampleRunner (sampleEnv consts.TaskRunning [])
          (sampleCPTask consts.TaskRunning) (sampleWorld (some 1) none)).2
    ∧ ((1 : Int) < 2 ∧ ((0 : Int) ≤ 1 → (1 : Int) ≤ 7 → (2 : Int) = 1 + 1))
    ∧ ∃ c', (some 4 : Option Int) = some c' ∧ (1 : Int) ≤ c' :=
  ⟨by decide,
   ((runTask_counters_increase sampleRunner).1 (sampleEnv consts.TaskRunning [])
      (sampleCPTask consts.TaskRunning) (sampleWorld (some 1) none)).2.2.1
      { toTask := sampleTask, Stop := none, Stage := some 1, ExecutorStage := none } 1 2
      rfl rfl (by decide),
   ((runTask_counters_increase sampleRunner).2 "task-1" (sampleWorld (some 1) none)
      (reconcileTimes sampleRunner (sampleEnv consts.TaskRunning []) "task-1" 3
        (sampleWorld (some 1) none))
      { toTask := sampleTask, Stop := none, Stage := some 1, ExecutorStage := none }
      { toTask := sampleTask, Stop := none, Stage := some 4, ExecutorStage := none }
      (Run.reconcileTimes _ _ _ 3 _ _ (Run.refl _)) rfl (by decide)).1 1 rfl⟩

theorem mem_executorIndices {x last : Int} : x ∈ executorIndices last ↔ 0 ≤ x ∧ x ≤ last := by
  simp only [executorIndices, List.mem_map, List.mem_range]
  constructor
  · rintro ⟨n, hn, rfl⟩
    constructor
    · exact Int.ofNat_nonneg n
    · have : (n : Int) < (last + 1).toNat := by exact_mod_cast hn
      have h2 : ((last + 1).toNat : Int) = max (last + 1) 0 := Int.toNat_eq_max _
      simp only [Int.ofNat_eq_coe]
      omega
  · rintro ⟨h0, h1⟩
    refine ⟨x.toNat, ?_, ?_⟩
    · have : (x.toNat : Int) = x := Int.toNat_of_nonneg h0
      have h2 : ((last + 1).toNat : Int) = last + 1 := Int.toNat_of_nonneg (by omega)
      have : (x.toNat : Int) < ((last + 1).toNat : Int) := by omega
      exact_mod_cast this
    · simp only [Int.ofNat_eq_coe]
      exact Int.toNat_of_nonneg h0

/-- Membership in the clean-up targets. -/
theorem mem_cleanTargets {x : Obj} {ri : TaskInfo} :
    x ∈ cleanTargets ri ↔
      (x = Obj.outputsFiler ∧ currentStageOf ri ≥ 6 ∧ shouldCreateOutputsFiler ri.toTask = true)
      ∨ (∃ j v, x = Obj.executor j ∧ currentStageOf ri ≥ 5 ∧ ri.ExecutorStage = some v
          ∧ 0 ≤ j ∧ j ≤ (parseExecutorStageValue v).index)
      ∨ (x = Obj.inputsFiler ∧ currentStageOf ri ≥ 2 ∧ shouldCreateInputsFiler ri.toTask = true)
      ∨ (x = Obj.pvc ∧ currentStageOf ri ≥ 1 ∧ shouldCreatePVC ri.toTask = true) := by
  unfold cleanTargets
  simp only [List.mem_append, taskStageOutputsFilerToCreate, taskStageExecutorsFinished,
    taskStageExecutorsToCreate, taskStageRunning, taskStageInputsFilerToCreate,
    taskStagePVCCreated, taskStagePVCToCreate, taskStageInitializing, outputsFilerJobName,
    inputsFilerJobName, pvcName]
  have hex : (x ∈ (if currentStageOf ri ≥ 5 then
        match ri.ExecutorStage with
        | some v => (executorIndices (parseExecutorStageValue v).index).map executorJobName
        | none => []
      else [])) ↔ (∃ j v, x = Obj.executor j ∧ currentStageOf ri ≥ 5 ∧ ri.ExecutorStage = some v
          ∧ 0 ≤ j ∧ j ≤ (parseExecutorStageValue v).index) := by
    by_cases h5 : currentStageOf ri ≥ 5
    · cases hv : ri.ExecutorStage with
      | none => simp [h5]
      | some v =>
        simp only [h5, if_true, List.mem_map, mem_executorIndices, executorJobName]
        constructor
        · rintro ⟨j, ⟨h0, h1⟩, rfl⟩
          exact ⟨j, v, rfl, trivial, rfl, h0, h1⟩
        · rintro ⟨j, v2, rfl, _, hv2, h0, h1⟩
          cases hv2
          exact ⟨j, ⟨h0, h1⟩, rfl⟩
    · rw [if_neg h5]
      simp only [List.not_mem_nil, false_iff]
      rintro ⟨j, v, _, h, _⟩
      exact h5 h
  constructor
  · rintro (((h | h) | h) | h)
    · left
      split at h
      · rename_i hc; simp at h; exact ⟨h, hc.1, hc.2⟩
      · cases h
    · right; left; exact hex.mp h
    · right; right; left
      split at h
      · rename_i hc; simp at h; exact ⟨h, hc.1, hc.2⟩
      · cases h
    · right; right; right
      split at h
      · rename_i hc; simp at h; exact ⟨h, hc.1, hc.2⟩
      · cases h
  · rintro (⟨rfl, h1, h2⟩ | h | ⟨rfl, h1, h2⟩ | ⟨rfl, h1, h2⟩)
    · left; left; left; simp [h1, h2]
    · left; left; right; exact hex.mpr h
    · left; right; simp [h1, h2]
    · right; simp [h1, h2]

theorem currentStageOf_some {ri : TaskInfo} {c : Int} (h : ri.Stage = some c) :
    currentStageOf ri = c := by
  simp [currentStageOf, h]

theorem currentStageOf_none {ri : TaskInfo} (h : ri.Stage = none) :
    currentStageOf ri = 0 := by
  simp [currentStageOf, h, taskStageInit]

/-- An object a step may create is already a clean-up target of the record
the step read. -/
theorem Advance.created_is_target {task : CPTask} {ri : TaskInfo} {x : Obj} {e : Effect}
    (h : Advance task ri (some x) e) : x ∈ cleanTargets ri := by
  rw [mem_cleanTargets]
  generalize ho : some x = o at h
  cases h <;> try (cases ho)
  case pvcCreated c h1 h2 h3 =>
    by_cases hs : shouldCreatePVC ri.toTask = true
    · simp only [hs, if_true, Option.some.injEq] at ho
      right; right; right
      refine ⟨by rw [ho]; rfl, ?_, hs⟩
      rw [currentStageOf_some h1]; simp only [taskStageInitializing] at h2; omega
    · simp [hs] at ho
  case inputsFilerCreated c h1 h2 h3 =>
    by_cases hs : shouldCreateInputsFiler ri.toTask = true
    · simp only [hs, if_true, Option.some.injEq] at ho
      right; right; left
      refine ⟨by rw [ho]; rfl, ?_, hs⟩
      rw [currentStageOf_some h1]; simp only [taskStagePVCCreated] at h2; omega
    · simp [hs] at ho
  case executorCreated c v h1 h2 h3 h4 h5 h6 h7 =>
    right; left
    refine ⟨_, v, rfl, ?_, h4, h6, le_refl _⟩
    rw [currentStageOf_some h1]; simp only [taskStageRunning] at h2; omega
  case outputsFilerCreated c h1 h2 h3 =>
    by_cases hs : shouldCreateOutputsFiler ri.toTask = true
    · simp only [hs, if_true, Option.some.injEq] at ho
      left
      refine ⟨by rw [ho]; rfl, ?_, hs⟩
      rw [currentStageOf_some h1]; simp only [taskStageExecutorsFinished] at h2; omega
    · simp [hs] at ho

/-- The clean-up targets only grow when a counter is written. -/
theorem Advance.targets_grow {task : CPTask} {ri rj : TaskInfo} {o : Option Obj} {e : Effect}
    (h : Advance task ri o e) (ht : rj.toTask = ri.toTask) (ha : applied e ri rj) :
    ∀ x ∈ cleanTargets ri, x ∈ cleanTargets rj := by
  intro x hx
  rw [mem_cleanTargets] at hx ⊢
  cases e with
  | localRecordStage s =>
    simp only [applied] at ha
    have hle : currentStageOf ri ≤ currentStageOf rj := by
      rw [currentStageOf_some ha.1]
      rcases h.stage_written with ⟨hn, hs⟩ | ⟨c, hc, hlt, _⟩
      · rw [currentStageOf_none hn, hs]
      · rw [currentStageOf_some hc]; exact le_of_lt hlt
    rw [ht, ha.2]
    rcases hx with ⟨a, b, c⟩ | ⟨j, v, a, b, c⟩ | ⟨a, b, c⟩ | ⟨a, b, c⟩
    · exact Or.inl ⟨a, by omega, c⟩
    · exact Or.inr (Or.inl ⟨j, v, a, by omega, c⟩)
    · exact Or.inr (Or.inr (Or.inl ⟨a, by omega, c⟩))
    · exact Or.inr (Or.inr (Or.inr ⟨a, by omega, c⟩))
  | localRecordExecutorStage v' =>
    simp only [applied] at ha
    have hst : currentStageOf rj = currentStageOf ri := by
      simp only [currentStageOf, ha.2]
    rw [ht, hst]
    rcases hx with ⟨a, b, c⟩ | ⟨j, v, a, b, c, d, f⟩ | ⟨a, b, c⟩ | ⟨a, b, c⟩
    · exact Or.inl ⟨a, b, c⟩
    · refine Or.inr (Or.inl ⟨j, v', a, b, ha.1, d, ?_⟩)
      rcases h.executorStage_written with ⟨hn, _⟩ | ⟨v2, hv2, _, _, hidx, _⟩
      · rw [hn] at c; cases c
      · rw [hv2] at c; cases c
        exact le_trans f hidx
    · exact Or.inr (Or.inr (Or.inl ⟨a, b, c⟩))
    · exact Or.inr (Or.inr (Or.inr ⟨a, b, c⟩))
  | _ => simp [applied] at ha

theorem cleanTargets_congr {ri rj : TaskInfo} (ht : rj.toTask = ri.toTask)
    (hs : rj.Stage = ri.Stage) (hx : rj.ExecutorStage = ri.ExecutorStage) :
    cleanTargets rj = cleanTargets ri := by
  simp only [cleanTargets, currentStageOf, ht, hs, hx]

/-- One step keeps every object covered by the record. -/
theorem Covered.step {w w' : World} (hc : Covered w)
    (h : Settled w w' ∨ ∃ task ri o e, w.record = some ri ∧ Advance task ri o e
      ∧ Attempt o e w w') : Covered w' := by
  unfold Covered at hc ⊢
  rcases h with h | ⟨task, ri, o, e, hr, hadv, hatt⟩
  · rcases h.record with h1 | ⟨h1, ri, hr, hno⟩
    · rcases h1 with ⟨ha, hb⟩ | ⟨ri, rj, ha, hb, t, s, x⟩
      · rw [ha] at hc
        rw [hb]
        simp only at hc ⊢
        apply List.eq_nil_iff_forall_not_mem.mpr
        intro o ho
        have := h.objects o ho
        rw [hc] at this; cases this
      · rw [ha] at hc
        rw [hb]
        simp only at hc ⊢
        intro o ho
        rw [cleanTargets_congr t s x]
        exact hc o (h.objects o ho)
    · rw [hr] at hc
      rw [h1]
      simp only at hc ⊢
      apply List.eq_nil_iff_forall_not_mem.mpr
      intro o ho
      exact hno o ho (hc o (h.objects o ho))
  · rw [hr] at hc
    simp only at hc
    have hold : ∀ x ∈ w'.objects, x ∈ cleanTargets ri := by
      intro x hx
      rcases hatt.objects x hx with h1 | h1
      · exact hc x h1
      · rw [h1] at hadv; exact hadv.created_is_target
    rcases hatt.record with h1 | ⟨ri2, rj, h1, h2, h3, h4⟩
    · rcases h1 with ⟨ha, _⟩ | ⟨ri2, rj, ha, hb, t, s, x⟩
      · rw [hr] at ha; cases ha
      · rw [hr] at ha; cases ha
        rw [hb]
        simp only
        intro o ho
        rw [cleanTargets_congr t s x]
        exact hold o ho
    · rw [hr] at h1; cases h1
      rw [h2]
      simp only
      intro x hx
      exact hadv.targets_grow h3 h4 x (hold x hx)

theorem Covered.run {r : Runner} {taskID : String} {w w' : World} (hc : Covered w)
    (h : Run r taskID w w') : Covered w' := by
  induction h with
  | refl => exact hc
  | step env _ ih => exact (ih hc).step (ProcessTask_summary r env taskID _)
  | cancel env _ ih => exact (ih hc).step (Or.inl (syncCancelingMark_settled env _))

theorem Covered.initial (task : Task) : Covered (initial task) := by
  intro o ho
  cases ho

/-- C3: in every world the task reaches from its stored record, each cluster
object that exists for the task is deleted by `stopAndCleanTask` when no call
of its delete phase fails: a delete request for it is among the calls, and no
object of the task is left afterwards. -/
theorem stopAndCleanTask_deletes_created (r : Runner) (taskID : String) (task : Task)
    (w : World) (env : Env) (cp : CPTask) (state : String)
    (hrun : Run r taskID (initial task) w) (hunhindered : env.cleanUnhindered) :
    (∀ o ∈ w.objects, Effect.kubeDelete o ∈ callsOf w (stopAndCleanTask r env cp state w).2)
    ∧ (stopAndCleanTask r env cp state w).2.objects = [] := by
  have hcov := (Covered.initial task).run hrun
  obtain ⟨n, t, _, _, _, hnone, hdel, hobj, _⟩ := stopAndCleanTask_spec r env cp state w
  rw [callsOf_eq t]
  unfold Covered at hcov
  cases hr : w.record with
  | none =>
    rw [hr] at hcov
    simp only at hcov
    refine ⟨by rw [hcov]; simp, ?_⟩
    apply List.eq_nil_iff_forall_not_mem.mpr
    intro o ho
    have := hobj o ho
    rw [hcov] at this; cases this
  | some ri =>
    rw [hr] at hcov
    simp only at hcov
    obtain ⟨h1, h2⟩ := hdel ri hr hunhindered
    refine ⟨fun o ho => mem_deleteRequests.mp (h1 o (hcov o ho) ho), ?_⟩
    apply List.eq_nil_iff_forall_not_mem.mpr
    intro o ho
    exact h2 o (hcov o (hobj o ho)) ho

theorem sampleEnv_cleanUnhindered (state : String) (failed : List Obj) :
    (sampleEnv state failed).cleanUnhindered :=
  ⟨rfl, rfl, fun _ => ⟨rfl, by simp [sampleEnv], by simp [sampleEnv]⟩⟩

/-- C3 at the staged task after fourteen reconciliations, when the PVC, both
stagers and two executor jobs exist: each of them gets its delete request and
none is left. -/
theorem stopAndCleanTask_deletes_created_witness :
    (reconcileTimes sampleRunner (sampleEnv consts.TaskRunning [Obj.executor 1]) "task-1" 14
        (initial stagedTask)).objects
      = [Obj.pvc, Obj.inputsFiler, Obj.executor 0, Obj.executor 1, Obj.outputsFiler]
    ∧ Effect.kubeDelete Obj.pvc ∈ callsOf
        (reconcileTimes sampleRunner (sampleEnv consts.TaskRunning [Obj.executor 1]) "task-1" 14
          (initial stagedTask))
        (stopAndCleanTask sampleRunner (sampleEnv consts.TaskRunning [Obj.executor 1])
          (sampleCPTask consts.TaskRunning) consts.TaskCanceled
          (reconcileTimes sampleRunner (sampleEnv consts.TaskRunning [Obj.executor 1]) "task-1" 14
            (initial stagedTask))).2
    ∧ Effect.kubeDelete (Obj.executor 1) ∈ callsOf
        (reconcileTimes sampleRunner (sampleEnv consts.TaskRunning [Obj.executor 1]) "task-1" 14
          (initial stagedTask))
        (stopAndCleanTask sampleRunner (sampleEnv consts.TaskRunning [Obj.executor 1])
          (sampleCPTask consts.TaskRunning) consts.TaskCanceled
          (reconcileTimes sampleRunner (sampleEnv consts.TaskRunning [Obj.executor 1]) "task-1" 14
            (initial stagedTask))).2
    ∧ (stopAndCleanTask sampleRunner (sampleEnv consts.TaskRunning [Obj.executor 1])
          (sampleCPTask consts.TaskRunning) consts.TaskCanceled
          (reconcileTimes sampleRunner (sampleEnv consts.TaskRunning [Obj.executor 1]) "task-1" 14
            (initial stagedTask))).2.objects = [] :=
  ⟨by decide,
   (stopAndCleanTask_deletes_created sampleRunner "task-1" stagedTask _ _ _ _
      (Run.reconcileTimes _ _ _ 14 _ _ (Run.refl _)) (sampleEnv_cleanUnhindered _ _)).1
      Obj.pvc (by decide),
   (stopAndCleanTask_deletes_created sampleRunner "task-1" stagedTask _ _ _ _
      (Run.reconcileTimes _ _ _ 14 _ _ (Run.refl _)) (sampleEnv_cleanUnhindered _ _)).1
      (Obj.executor 1) (by decide),
   (stopAndCleanTask_deletes_created sampleRunner "task-1" stagedTask _ _ _ _
      (Run.reconcileTimes _ _ _ 14 _ _ (Run.refl _)) (sampleEnv_cleanUnhindered _ _)).2⟩

theorem executorIndices_pairwise (last : Int) :
    List.Pairwise deletedBefore ((executorIndices last).map executorJobName) := by
  unfold executorIndices
  rw [List.map_map]
  apply List.Pairwise.map _ _ (List.pairwise_lt_range _)
  intro a b hab
  right
  exact ⟨a, b, rfl, rfl, by exact_mod_cast hab⟩

theorem cleanTargets_pairwise (ri : TaskInfo) : List.Pairwise deletedBefore (cleanTargets ri) := by
  unfold cleanTargets
  have hex : ∀ x ∈ (if currentStageOf ri ≥ taskStageExecutorsToCreate then
        match ri.ExecutorStage with
        | some v => (executorIndices (parseExecutorStageValue v).index).map executorJobName
        | none => []
      else []), cleanRank x = 1 := by
    intro x hx
    split at hx
    · split at hx
      · simp only [List.mem_map] at hx
        obtain ⟨j, _, rfl⟩ := hx
        rfl
      · cases hx
    · cases hx
  have hexp : List.Pairwise deletedBefore (if currentStageOf ri ≥ taskStageExecutorsToCreate then
        match ri.ExecutorStage with
        | some v => (executorIndices (parseExecutorStageValue v).index).map executorJobName
        | none => []
      else []) := by
    split
    · split
      · exact executorIndices_pairwise _
      · exact List.Pairwise.nil
    · exact List.Pairwise.nil
  have h1 : ∀ (c : Prop) [Decidable c] (o : Obj), List.Pairwise deletedBefore (if c then [o] else [])
      ∧ ∀ x ∈ (if c then [o] else []), x = o := by
    intro c _ o
    by_cases hc : c <;> simp [hc]
  rw [List.pairwise_append, List.pairwise_append, List.pairwise_append]
  refine ⟨⟨⟨(h1 _ _).1, hexp, ?_⟩, (h1 _ _).1, ?_⟩, (h1 _ _).1, ?_⟩
  · intro a ha b hb
    left
    rw [(h1 _ _).2 a ha, hex b hb]
    decide
  · intro a ha b hb
    left
    rw [(h1 _ _).2 b hb]
    rcases List.mem_append.mp ha with h | h
    · rw [(h1 _ _).2 a h]; decide
    · rw [hex a h]; decide
  · intro a ha b hb
    left
    rw [(h1 _ _).2 b hb]
    rcases List.mem_append.mp ha with h | h
    · rcases List.mem_append.mp h with h | h
      · rw [(h1 _ _).2 a h]; decide
      · rw [hex a h]; decide
    · rw [(h1 _ _).2 a h]; decide

/-- C4 as amended: the delete requests of `stopAndCleanTask` come in the order
outputs stager, executor jobs by ascending index, inputs stager, PVC. -/
theorem stopAndCleanTask_delete_order (r : Runner) (env : Env) (task : CPTask) (state : String)
    (w : World) :
    List.Pairwise deletedBefore
      (deleteRequests (callsOf w (stopAndCleanTask r env task state w).2)) := by
  obtain ⟨n, t, _, _, hsub, hnone, _⟩ := stopAndCleanTask_spec r env task state w
  rw [callsOf_eq t]
  cases hr : w.record with
  | none => rw [hnone hr]; exact List.Pairwise.nil
  | some ri => exact List.Pairwise.sublist (hsub ri hr) (cleanTargets_pairwise ri)

/-- C4 as stated fails: for the staged task with two executor jobs created,
the objects were created in the order PVC, inputs stager, executor 0, executor
1, outputs stager, and `stopAndCleanTask` asks for their deletion in the order
outputs stager, executor 0, executor 1, inputs stager, PVC, which is not the
reverse. -/
theorem stopAndCleanTask_not_reverse_of_creation :
    createRequests
        (reconcileTimes sampleRunner (sampleEnv consts.TaskRunning [Obj.executor 1]) "task-1" 14
          (initial stagedTask)).trace
      = [Obj.pvc, Obj.inputsFiler, Obj.executor 0, Obj.executor 1, Obj.outputsFiler]
    ∧ deleteRequests (callsOf
        (reconcileTimes sampleRunner (sampleEnv consts.TaskRunning [Obj.executor 1]) "task-1" 14
          (initial stagedTask))
        (stopAndCleanTask sampleRunner (sampleEnv consts.TaskRunning [Obj.executor 1])
          (sampleCPTask consts.TaskRunning) consts.TaskCanceled
          (reconcileTimes sampleRunner (sampleEnv consts.TaskRunning [Obj.executor 1]) "task-1" 14
            (initial stagedTask))).2)
      = [Obj.outputsFiler, Obj.executor 0, Obj.executor 1, Obj.inputsFiler, Obj.pvc]
    ∧ deleteRequests (callsOf
        (reconcileTimes sampleRunner (sampleEnv consts.TaskRunning [Obj.executor 1]) "task-1" 14
          (initial stagedTask))
        (stopAndCleanTask sampleRunner (sampleEnv consts.TaskRunning [Obj.executor 1])
          (sampleCPTask consts.TaskRunning) consts.TaskCanceled
          (reconcileTimes sampleRunner (sampleEnv consts.TaskRunning [Obj.executor 1]) "task-1" 14
            (initial stagedTask))).2)
      ≠ (createRequests
        (reconcileTimes sampleRunner (sampleEnv consts.TaskRunning [Obj.executor 1]) "task-1" 14
          (initial stagedTask)).trace).reverse := by
  decide

theorem releaseProcessTask_tryProcessTask (taskID : String) (l : List String) (h : taskID ∉ l) :
    (taskID :: l).filter (fun x => x != taskID) = l := by
  simp only [List.filter_cons, bne_self_eq_false, Bool.false_eq_true, ↓reduceIte]
  rw [List.filter_eq_self]
  intro a ha
  simp only [bne_iff_ne, ne_eq]
  intro hEq
  exact h (hEq ▸ ha)

/-- C5 as amended: `doComplete` stops and cleans the task with terminal state
Complete when the recorded executor status is Success, and with terminal state
ExecutorError in every other case (Failed, any other recorded executor stage,
or none recorded). -/
theorem doComplete_terminal_state (r : Runner) (env : Env) (task : CPTask) (taskInfo : TaskInfo)
    (w : World) :
    ((∃ v, taskInfo.ExecutorStage = some v
        ∧ (parseExecutorStageValue v).status = executorStatusSuccess) →
      doComplete r env task taskInfo w = stopAndCleanTask r env task consts.TaskComplete w) ∧
    ((∀ v, taskInfo.ExecutorStage = some v
        → (parseExecutorStageValue v).status ≠ executorStatusSuccess) →
      doComplete r env task taskInfo w
        = stopAndCleanTask r env task consts.TaskExecutorError w) := by
  constructor
  · rintro ⟨v, hv, hs⟩
    simp [doComplete, hv, hs]
  · intro h
    cases hv : taskInfo.ExecutorStage with
    | none => simp [doComplete, hv]
    | some v => simp [doComplete, hv, h v hv]

/-- C5 as amended at the executor stages `(2, Success)` and `(1, Failed)`. -/
theorem doComplete_terminal_state_witness :
    doComplete sampleRunner (sampleEnv consts.TaskRunning []) (sampleCPTask consts.TaskRunning)
        { toTask := sampleTask, Stop := none, Stage := some 8, ExecutorStage := some 23 }
        (sampleWorld (some 8) (some 23))
      = stopAndCleanTask sampleRunner (sampleEnv consts.TaskRunning [])
          (sampleCPTask consts.TaskRunning) consts.TaskComplete (sampleWorld (some 8) (some 23)) ∧
    doComplete sampleRunner (sampleEnv consts.TaskRunning []) (sampleCPTask consts.TaskRunning)
        { toTask := sampleTask, Stop := none, Stage := some 8, ExecutorStage := some 12 }
        (sampleWorld (some 8) (some 12))
      = stopAndCleanTask sampleRunner (sampleEnv consts.TaskRunning [])
          (sampleCPTask consts.TaskRunning) consts.TaskExecutorError
          (sampleWorld (some 8) (some 12)) :=
  ⟨(doComplete_terminal_state _ _ _ _ _).1 ⟨23, rfl, by decide⟩,
   (doComplete_terminal_state _ _ _ _ _).2 (fun v hv => by
      have : v = 12 := by simpa using hv.symm
      subst this
      decide)⟩

/-- C5 as stated fails: with no executor stage recorded, and with the executor
stage `(0, Created)`, `doComplete` marks the task ExecutorError, not
Complete. -/
theorem doComplete_without_success_is_executor_error :
    Effect.localStop consts.TaskExecutorError ∈
      (doComplete sampleRunner (sampleEnv consts.TaskRunning [])
        (sampleCPTask consts.TaskRunning)
        { toTask := sampleTask, Stop := none, Stage := some 8, ExecutorStage := none }
        (sampleWorld (some 8) none)).2.trace ∧
    Effect.localStop consts.TaskComplete ∉
      (doComplete sampleRunner (sampleEnv consts.TaskRunning [])
        (sampleCPTask consts.TaskRunning)
        { toTask := sampleTask, Stop := none, Stage := some 8, ExecutorStage := none }
        (sampleWorld (some 8) none)).2.trace ∧
    Effect.localStop consts.TaskExecutorError ∈
      (doComplete sampleRunner (sampleEnv consts.TaskRunning [])
        (sampleCPTask consts.TaskRunning)
        { toTask := sampleTask, Stop := none, Stage := some 8, ExecutorStage := some 1 }
        (sampleWorld (some 8) (some 1))).2.trace := by
  decide

/-- C6: an admitted `ProcessTask` whose control-plane read succeeds does
nothing beyond that read when the task belongs to another cluster (empty
result, no error, local store and cluster objects untouched); runs
`stopAndCleanTask` with Canceled for a Canceling task, and with the task's own
state for SystemError, ExecutorError, Canceled and Complete; and runs
`runTask` for every other state. -/
theorem ProcessTask_dispatch (r : Runner) (env : Env) (taskID : String) (w : World) (task : CPTask)
    (hfree : taskID ∉ w.taskProcessing) (hget : env.cpGetTask = Except.ok task) :
    (task.ClusterID ≠ r.clusterID →
      ProcessTask r env taskID w = (Ret.done Result.empty none, emit Effect.cpGetTask w)) ∧
    (task.ClusterID = r.clusterID → task.State = consts.TaskCanceling →
      ProcessTask r env taskID w =
        ((stopAndCleanTask r env task consts.TaskCanceled
            (emit Effect.cpGetTask { w with taskProcessing := taskID :: w.taskProcessing })).1,
          releaseProcessTask taskID (stopAndCleanTask r env task consts.TaskCanceled
            (emit Effect.cpGetTask { w with taskProcessing := taskID :: w.taskProcessing })).2)) ∧
    (task.ClusterID = r.clusterID →
      (task.State = consts.TaskSystemError ∨ task.State = consts.TaskExecutorError
        ∨ task.State = consts.TaskCanceled ∨ task.State = consts.TaskComplete) →
      ProcessTask r env taskID w =
        ((stopAndCleanTask r env task task.State
            (emit Effect.cpGetTask { w with taskProcessing := taskID :: w.taskProcessing })).1,
          releaseProcessTask taskID (stopAndCleanTask r env task task.State
            (emit Effect.cpGetTask { w with taskProcessing := taskID :: w.taskProcessing })).2)) ∧
    (task.ClusterID = r.clusterID → task.State ≠ consts.TaskCanceling →
      task.State ≠ consts.TaskSystemError → task.State ≠ consts.TaskExecutorError →
      task.State ≠ consts.TaskCanceled → task.State ≠ consts.TaskComplete →
      ProcessTask r env taskID w =
        ((runTask r env task
            (emit Effect.cpGetTask { w with taskProcessing := taskID :: w.taskProcessing })).1,
          releaseProcessTask taskID (runTask r env task
            (emit Effect.cpGetTask { w with taskProcessing := taskID :: w.taskProcessing })).2)) := by
  refine ⟨?_, ?_, ?_, ?_⟩
  · intro hc
    simp only [ProcessTask, tryProcessTask, hfree, if_false, hget, ne_eq, hc, not_false_eq_true,
      if_true, releaseProcessTask, emit]
    simp [releaseProcessTask_tryProcessTask taskID w.taskProcessing hfree]
  · intro hc hs
    simp [ProcessTask, tryProcessTask, hfree, hget, hc, hs]
  · intro hc hs
    have hne : task.State ≠ consts.TaskCanceling := by
      rcases hs with h | h | h | h <;> rw [h] <;> decide
    simp [ProcessTask, tryProcessTask, hfree, hget, hc, hs, hne]
  · intro hc h1 h2 h3 h4 h5
    simp [ProcessTask, tryProcessTask, hfree, hget, hc, h1, h2, h3, h4, h5]

/-- C6 at a task of another cluster and at a Canceling task. -/
theorem ProcessTask_dispatch_witness :
    ProcessTask sampleRunner
        { sampleEnv consts.TaskRunning [] with
          cpGetTask := Except.ok { sampleCPTask consts.TaskRunning with ClusterID := "c2" } }
        "task-1" (initial sampleTask)
      = (Ret.done Result.empty none, emit Effect.cpGetTask (initial sampleTask))
    ∧ ProcessTask sampleRunner (sampleEnv consts.TaskCanceling []) "task-1" (initial sampleTask)
      = ((stopAndCleanTask sampleRunner (sampleEnv consts.TaskCanceling [])
            (sampleCPTask consts.TaskCanceling) consts.TaskCanceled
            (emit Effect.cpGetTask { initial sampleTask with
              taskProcessing := "task-1" :: (initial sampleTask).taskProcessing })).1,
          releaseProcessTask "task-1" (stopAndCleanTask sampleRunner
            (sampleEnv consts.TaskCanceling []) (sampleCPTask consts.TaskCanceling)
            consts.TaskCanceled
            (emit Effect.cpGetTask { initial sampleTask with
              taskProcessing := "task-1" :: (initial sampleTask).taskProcessing })).2) :=
  ⟨(ProcessTask_dispatch sampleRunner _ "task-1" (initial sampleTask) _ (by decide) rfl).1
      (by decide),
   (ProcessTask_dispatch sampleRunner _ "task-1" (initial sampleTask) _ (by decide) rfl).2.1
      rfl rfl⟩

end runner

/-! ## The command of an executor -/

namespace runner

open localstore

theorem foldl_snoc_map {α β : Type} (f : α → β) (l : List α) (init : List β) :
    l.foldl (fun acc a => acc ++ [f a]) init = init ++ l.map f := by
  induction l generalizing init with
  | nil => simp
  | cons a l ih => simp [ih]

theorem intercalate_go_append (acc sep : String) (xs ys : List String) :
    String.intercalate.go acc sep (xs ++ ys)
      = String.intercalate.go (String.intercalate.go acc sep xs) sep ys := by
  induction xs generalizing acc with
  | nil => simp [String.intercalate.go]
  | cons x xs ih => simp [String.intercalate.go, ih]

theorem intercalate_pair (sep a b : String) (xs ys : List String) :
    String.intercalate sep (xs ++ [a, b] ++ ys)
      = String.intercalate sep (xs ++ [a ++ sep ++ b] ++ ys) := by
  cases xs with
  | nil => simp [String.intercalate, String.intercalate.go, String.append_assoc]
  | cons x xs =>
    simp [String.intercalate, intercalate_go_append, String.intercalate.go, String.append_assoc]

theorem intercalate_pairs (sep : String) (xs : List String) (ps : List (String × String)) :
    String.intercalate sep (xs ++ ps.flatMap (fun p => [p.1, p.2]))
      = String.intercalate sep (xs ++ ps.map (fun p => p.1 ++ sep ++ p.2)) := by
  induction ps generalizing xs with
  | nil => simp
  | cons p ps ih =>
    have h1 := ih (xs ++ [p.1, p.2])
    have h2 := intercalate_pair sep p.1 p.2 xs (ps.map (fun p => p.1 ++ sep ++ p.2))
    simp only [List.flatMap_cons, List.map_cons, List.append_assoc, List.cons_append,
      List.nil_append, List.singleton_append] at h1 h2 ⊢
    rw [h1, h2]

theorem foldl_append_singletons (l : List Char) (acc : String) :
    (l.map String.singleton).foldl (fun a b => a ++ b) acc = acc ++ String.mk l := by
  induction l generalizing acc with
  | nil => apply String.ext; simp
  | cons c l ih =>
    simp only [List.map_cons, List.foldl_cons, ih]
    apply String.ext
    simp [String.singleton]

theorem join_singletons (l : List Char) : String.join (l.map String.singleton) = String.mk l := by
  unfold String.join
  rw [foldl_append_singletons]
  apply String.ext; simp

theorem replaceAllSingleQuotes_of_not_contains (s : String) (h : containsSingleQuote s = false) :
    replaceAllSingleQuotes s = s := by
  unfold replaceAllSingleQuotes
  have hmap : (s.toList.map fun c => if c = singleQuote then escapedSingleQuote
      else String.singleton c) = s.toList.map String.singleton := by
    apply List.map_congr_left
    intro c hc
    have : c ≠ singleQuote := by
      intro hcs
      subst hcs
      simp [containsSingleQuote] at h
      exact h hc
    simp [this]
  rw [hmap, join_singletons]
  rfl

theorem specialCharsClass_eq : specialCharsClass = specQuotedSet := by decide

theorem quoteCommand_eq (a : String) : quoteCommand a = specQuoted a := by
  unfold quoteCommand specQuoted specialCharsFindAllString
  rw [← specialCharsClass_eq]
  by_cases h : a.toList.any (fun c => decide (c ∈ specialCharsClass)) = true
  · have hlen : ((a.toList.filter (fun c => decide (c ∈ specialCharsClass))).map String.singleton).length > 0 := by
      simp only [List.length_map]
      rw [List.any_eq_true] at h
      obtain ⟨c, hc, hp⟩ := h
      exact List.length_pos_of_mem (List.mem_filter.mpr ⟨hc, hp⟩)
    rw [if_pos hlen, if_pos h]
    by_cases hq : containsSingleQuote a = true
    · simp [hq, replaceAllSingleQuotes]
    · have hq2 : containsSingleQuote a = false := by simpa using hq
      have := replaceAllSingleQuotes_of_not_contains a hq2
      simp only [hq2]
      unfold replaceAllSingleQuotes at this
      have this2 : String.join (List.map (fun c => if c = singleQuote then escapedSingleQuote
          else String.singleton c) a.data) = a := this
      simp [this2]
  · have hlen : ¬ ((a.toList.filter (fun c => decide (c ∈ specialCharsClass))).map String.singleton).length > 0 := by
      simp only [List.length_map, gt_iff_lt, List.length_pos, ne_eq, not_not]
      rw [List.filter_eq_nil_iff]
      intro c hc hp
      exact h (List.any_eq_true.mpr ⟨c, hc, hp⟩)
    rw [if_neg hlen, if_neg h]


/-- The wrapped command, with the loop written as a map and the redirections
as the specification words them. -/
theorem getCommandsWithStreamRedirects_wrapped (executor : Executor)
    (h : ¬ (executor.Stdin = "" ∧ executor.Stdout = "" ∧ executor.Stderr = "")) :
    getCommandsWithStreamRedirects executor =
      ["/bin/sh", "-c",
        String.intercalate " " (executor.Command.map quoteCommand ++ specRedirects executor)] := by
  unfold getCommandsWithStreamRedirects
  rw [if_neg h]
  simp only [foldl_snoc_map, List.nil_append, specRedirects]
  by_cases h1 : executor.Stdin = "" <;> by_cases h2 : executor.Stdout = "" <;>
    by_cases h3 : executor.Stderr = "" <;>
    simp [h1, h2, h3]
  · exact intercalate_pairs " " _ [("2>", _)]
  · exact intercalate_pairs " " _ [(">", _)]
  · exact intercalate_pairs " " _ [(">", _), ("2>", _)]
  · exact intercalate_pairs " " _ [("<", _)]
  · exact intercalate_pairs " " _ [("<", _), ("2>", _)]
  · exact intercalate_pairs " " _ [("<", _), (">", _)]
  · exact intercalate_pairs " " _ [("<", _), (">", _), ("2>", _)]

/-- C7: `getCommandsWithStreamRedirects` returns the argv unchanged when stdin,
stdout and stderr are all empty; otherwise it returns the three elements
`/bin/sh`, `-c` and `s`, where `s` joins with single spaces the arguments (each
as the loop emits it) in order, followed by `< stdin`, `> stdout` and
`2> stderr`, each only if set. -/
theorem getCommandsWithStreamRedirects_shape (executor : Executor) :
    (executor.Stdin = "" ∧ executor.Stdout = "" ∧ executor.Stderr = "" →
      getCommandsWithStreamRedirects executor = executor.Command) ∧
    (¬ (executor.Stdin = "" ∧ executor.Stdout = "" ∧ executor.Stderr = "") →
      getCommandsWithStreamRedirects executor =
        ["/bin/sh", "-c",
          String.intercalate " " (executor.Command.map quoteCommand ++ specRedirects executor)]) := by
  constructor
  · intro h
    simp [getCommandsWithStreamRedirects, h]
  · exact getCommandsWithStreamRedirects_wrapped executor

/-- C7 at two executors: one without redirections and one with all three. -/
theorem getCommandsWithStreamRedirects_shape_witness :
    getCommandsWithStreamRedirects
        { Image := "img", Command := ["ls", "-l"], Workdir := "", Stdin := "", Stdout := "",
          Stderr := "", Env := [] }
      = ["ls", "-l"] ∧
    getCommandsWithStreamRedirects
        { Image := "img", Command := ["sort", "-u"], Workdir := "", Stdin := "in.txt",
          Stdout := "out.txt", Stderr := "err.txt", Env := [] }
      = ["/bin/sh", "-c", "sort -u < in.txt > out.txt 2> err.txt"] :=
  ⟨(getCommandsWithStreamRedirects_shape _).1 (by decide),
   ((getCommandsWithStreamRedirects_shape _).2 (by decide)).trans (by decide)⟩

/-- C8: when a command is wrapped, every argument with a character of the
quoted set is emitted in single quotes with each embedded single quote replaced
by quote, double quote, quote, double quote, quote, and every other argument is
emitted unchanged; the set the code tests is the set the specification
lists. -/
theorem wrapped_arguments_quoted (executor : Executor)
    (h : ¬ (executor.Stdin = "" ∧ executor.Stdout = "" ∧ executor.Stderr = "")) :
    getCommandsWithStreamRedirects executor =
      ["/bin/sh", "-c",
        String.intercalate " " (executor.Command.map specQuoted ++ specRedirects executor)]
    ∧ ∀ c, c ∈ specialCharsClass ↔ c ∈ specQuotedSet := by
  refine ⟨?_, fun c => by rw [specialCharsClass_eq]⟩
  rw [getCommandsWithStreamRedirects_wrapped executor h]
  have : executor.Command.map quoteCommand = executor.Command.map specQuoted :=
    List.map_congr_left (fun a _ => quoteCommand_eq a)
  rw [this]

/-- C8 at the two commands of the specification: `echo "hi there"` with stdout
`/out`, and the argument `a'b`. -/
theorem wrapped_arguments_quoted_witness :
    getCommandsWithStreamRedirects
        { Image := "img", Command := ["echo", "hi there"], Workdir := "", Stdin := "",
          Stdout := "/out", Stderr := "", Env := [] }
      = ["/bin/sh", "-c", "echo 'hi there' > /out"] ∧
    getCommandsWithStreamRedirects
        { Image := "img", Command := ["a'b"], Workdir := "", Stdin := "",
          Stdout := "/out", Stderr := "", Env := [] }
      = ["/bin/sh", "-c", "'a'\"'\"'b' > /out"] :=
  ⟨((wrapped_arguments_quoted _ (by decide)).1).trans (by decide),
   ((wrapped_arguments_quoted _ (by decide)).1).trans (by decide)⟩

end runner

/-! ## The acceleration mounts -/

namespace mounttos

open localstore

@[simp] theorem assign_same {α : Type} (m : String → Option α) (k : String) (v : Option α) :
    assign m k v k = v := by
  simp [assign]

theorem assign_other {α : Type} (m : String → Option α) (k : String) (v : Option α) (n : String)
    (h : n ≠ k) : assign m k v n = m n := by
  simp [assign, h]

@[simp] theorem noFaults_fails (c : Call) : noFaults.fails c = false := rfl

@[simp] theorem noFaults_lingers (c : Call) : noFaults.lingers c = false := rfl

@[simp] theorem request_pvcWithTasksCache (c : Call) (st : State) :
    (request c st).pvcWithTasksCache = st.pvcWithTasksCache := rfl

@[simp] theorem request_pvs (c : Call) (st : State) : (request c st).pvs = st.pvs := rfl

@[simp] theorem request_pvcs (c : Call) (st : State) : (request c st).pvcs = st.pvcs := rfl

@[simp] theorem request_secrets (c : Call) (st : State) : (request c st).secrets = st.secrets := rfl

@[simp] theorem request_trace (c : Call) (st : State) :
    (request c st).trace = st.trace ++ [c] := rfl

theorem secretsLive_assign (st : State) (name : String) (s : Secret) (secrets : String → Option Secret)
    (hlive : secretsLive st) (hs : s.deleting = false)
    (heq : secrets = assign st.secrets name (some s)) :
    ∀ n x, secrets n = some x → x.deleting = false := by
  intro n x hn
  rw [heq] at hn
  by_cases h : n = name
  · subst h
    simp only [assign_same, Option.some.injEq] at hn
    rw [← hn]
    exact hs
  · rw [assign_other _ _ _ _ h] at hn
    exact hlive n x hn

theorem mem_pair {α : Type} {p : α → Prop} {a b : α} (ha : p a) (hb : p b) :
    ∀ c ∈ [a] ++ [b], p c := by
  intro c hc
  simp only [List.cons_append, List.nil_append, List.mem_cons, List.mem_singleton,
    List.not_mem_nil, or_false] at hc
  rcases hc with h | h <;> rw [h] <;> assumption

theorem mem_single {α : Type} {p : α → Prop} {a : α} (ha : p a) :
    ∀ c ∈ [a], p c := by
  intro c hc
  simp only [List.mem_singleton] at hc
  rw [hc]
  exact ha

theorem storeKubeSecret_none (name ak sk : String) (st : State) (h : st.secrets name = none) :
    storeKubeSecret noFaults name ak sk st
      = ((false, none),
          { st with
            secrets := assign st.secrets name (some { deleting := false, managed := true, ak := ak, sk := sk }),
            trace := st.trace ++ [{ verb := Verb.get, kind := Kind.secret, name := name },
              { verb := Verb.create, kind := Kind.secret, name := name }] }) := by
  simp [storeKubeSecret, createKubeSecret, h, request]

theorem storeKubeSecret_some (name ak sk : String) (st : State) (s : Secret)
    (h : st.secrets name = some s) :
    storeKubeSecret noFaults name ak sk st
      = if s.managed = false ∨ (s.deleting = false ∧ ak = s.ak ∧ sk = s.sk) then
          ((false, none), { st with
            trace := st.trace ++ [{ verb := Verb.get, kind := Kind.secret, name := name }] })
        else if s.deleting = true then
          ((true, none), { st with
            trace := st.trace ++ [{ verb := Verb.get, kind := Kind.secret, name := name }] })
        else
          ((false, none), { st with
            secrets := assign st.secrets name (some { s with ak := ak, sk := sk }),
            trace := st.trace ++ [{ verb := Verb.get, kind := Kind.secret, name := name },
              { verb := Verb.patch, kind := Kind.secret, name := name }] }) := by
  obtain ⟨deleting, managed, ak0, sk0⟩ := s
  cases managed <;> cases deleting <;> by_cases he : ak = ak0 ∧ sk = sk0 <;>
    simp [storeKubeSecret, h, request, he]

/-- What `storeKubeSecret` does when no request fails. -/
theorem storeKubeSecret_spec (name ak sk : String) (st : State) :
    (storeKubeSecret noFaults name ak sk st).2.pvcWithTasksCache = st.pvcWithTasksCache
    ∧ (storeKubeSecret noFaults name ak sk st).2.pvs = st.pvs
    ∧ (storeKubeSecret noFaults name ak sk st).2.pvcs = st.pvcs
    ∧ (∃ new, (storeKubeSecret noFaults name ak sk st).2.trace = st.trace ++ new
        ∧ ∀ c ∈ new, c.kind = Kind.secret)
    ∧ (∀ n, n ≠ name → (storeKubeSecret noFaults name ak sk st).2.secrets n = st.secrets n)
    ∧ (storeKubeSecret noFaults name ak sk st).1.2 = none
    ∧ ((storeKubeSecret noFaults name ak sk st).1.1 = false →
        ((storeKubeSecret noFaults name ak sk st).2.secrets name).isSome = true)
    ∧ (secretsLive st → secretsLive (storeKubeSecret noFaults name ak sk st).2
        ∧ (storeKubeSecret noFaults name ak sk st).1.1 = false) := by
  cases hs : st.secrets name with
  | none =>
    rw [storeKubeSecret_none name ak sk st hs]
    refine ⟨rfl, rfl, rfl, ⟨_, rfl, ?_⟩,
      fun n hn => assign_other _ _ _ _ hn, rfl, fun _ => by simp, fun hlive => ⟨?_, rfl⟩⟩
    · intro c hc
      simp only [List.mem_cons, List.mem_singleton, List.not_mem_nil, or_false] at hc
      rcases hc with h | h <;> rw [h]
    · exact secretsLive_assign st name _ _ hlive rfl rfl
  | some s =>
    rw [storeKubeSecret_some name ak sk st s hs]
    by_cases h1 : s.managed = false ∨ (s.deleting = false ∧ ak = s.ak ∧ sk = s.sk)
    · rw [if_pos h1]
      exact ⟨rfl, rfl, rfl, ⟨_, rfl, mem_single rfl⟩, fun n hn => rfl, rfl,
        fun _ => by simp [hs], fun hlive => ⟨hlive, rfl⟩⟩
    · rw [if_neg h1]
      have hd := hs
      by_cases h2 : s.deleting = true
      · rw [if_pos h2]
        refine ⟨rfl, rfl, rfl, ⟨_, rfl, mem_single rfl⟩, fun n hn => rfl, rfl,
          fun h => by simp at h, fun hlive => ?_⟩
        have := hlive name _ hs
        rw [this] at h2
        cases h2
      · rw [if_neg h2]
        have h2f : s.deleting = false := by
          cases hk : s.deleting
          · rfl
          · exact absurd hk h2
        refine ⟨rfl, rfl, rfl, ⟨_, rfl, ?_⟩,
          fun n hn => assign_other _ _ _ _ hn, rfl, fun _ => by simp, fun hlive => ⟨?_, rfl⟩⟩
        · intro c hc
          simp only [List.mem_cons, List.mem_singleton, List.not_mem_nil, or_false] at hc
          rcases hc with h | h <;> rw [h]
        · exact secretsLive_assign st name { s with ak := ak, sk := sk } _ hlive h2f rfl

theorem createPVAndPVC_absent (k secretName : String) (st : State) (hpv : st.pvs k = none)
    (hpvc : st.pvcs k = none) :
    createPVAndPVC noFaults k secretName st
      = ((false, none),
          { st with
            pvs := assign st.pvs k (some { deleting := false, secretName := secretName, bucket := parseBucketFromPVCName k }),
            pvcs := assign st.pvcs k (some { deleting := false, bucket := parseBucketFromPVCName k }),
            trace := st.trace ++ [{ verb := Verb.get, kind := Kind.pv, name := k },
              { verb := Verb.get, kind := Kind.pvc, name := k },
              { verb := Verb.create, kind := Kind.pv, name := k },
              { verb := Verb.create, kind := Kind.pvc, name := k }] }) := by
  simp [createPVAndPVC, hpv, hpvc, request]

theorem deletePVAndPVC_present (k : String) (st : State) (hpv : (st.pvs k).isSome = true)
    (hpvc : (st.pvcs k).isSome = true) :
    deletePVAndPVC noFaults k st
      = (none,
          { st with
            pvs := assign st.pvs k none,
            pvcs := assign st.pvcs k none,
            trace := st.trace ++ [{ verb := Verb.delete, kind := Kind.pvc, name := k },
              { verb := Verb.delete, kind := Kind.pv, name := k }] }) := by
  cases h1 : st.pvs k with
  | none => rw [h1] at hpv; cases hpv
  | some pv =>
    cases h2 : st.pvcs k with
    | none => rw [h2] at hpvc; cases hpvc
    | some pvc => simp [deletePVAndPVC, h1, h2, request]

theorem deletePVAndPVC_absent (k : String) (st : State) (hpvc : st.pvcs k = none) :
    deletePVAndPVC noFaults k st
      = (none, { st with
          trace := st.trace ++ [{ verb := Verb.delete, kind := Kind.pvc, name := k }] }) := by
  simp [deletePVAndPVC, hpvc, request]

/-- What `deleteKubeSecret` does when no request fails. -/
theorem deleteKubeSecret_spec (name : String) (st : State) :
    (deleteKubeSecret noFaults name st).1 = none
    ∧ (deleteKubeSecret noFaults name st).2.pvcWithTasksCache = st.pvcWithTasksCache
    ∧ (deleteKubeSecret noFaults name st).2.pvs = st.pvs
    ∧ (deleteKubeSecret noFaults name st).2.pvcs = st.pvcs
    ∧ (deleteKubeSecret noFaults name st).2.trace
        = st.trace ++ [{ verb := Verb.delete, kind := Kind.secret, name := name }]
    ∧ (deleteKubeSecret noFaults name st).2.secrets name = none
    ∧ (∀ n, n ≠ name → (deleteKubeSecret noFaults name st).2.secrets n = st.secrets n)
    ∧ (secretsLive st → secretsLive (deleteKubeSecret noFaults name st).2) := by
  cases hs : st.secrets name with
  | none =>
    have : deleteKubeSecret noFaults name st
        = (none, { st with
            trace := st.trace ++ [{ verb := Verb.delete, kind := Kind.secret, name := name }] }) := by
      simp [deleteKubeSecret, hs, request]
    rw [this]
    exact ⟨rfl, rfl, rfl, rfl, rfl, hs, fun _ _ => rfl, fun h => h⟩
  | some s =>
    have : deleteKubeSecret noFaults name st
        = (none, { st with
            secrets := assign st.secrets name none,
            trace := st.trace ++ [{ verb := Verb.delete, kind := Kind.secret, name := name }] }) := by
      simp [deleteKubeSecret, hs, request]
    rw [this]
    refine ⟨rfl, rfl, rfl, rfl, rfl, assign_same _ _ _, fun n hn => assign_other _ _ _ _ hn, ?_⟩
    intro hlive n x hn
    by_cases h : n = name
    · subst h
      simp only [assign_same] at hn
      cases hn
    · simp only [assign_other _ _ _ _ h] at hn
      exact hlive n x hn

theorem externalBucketAuthInfo_isSome (bioosInfo : BioosInfo) (bucket : String) :
    (externalBucketAuthInfo bioosInfo bucket).isSome = externalBucketSet bioosInfo bucket := by
  unfold externalBucketAuthInfo externalBucketSet
  rw [Bool.eq_iff_iff]
  simp only [Option.isSome_map', List.find?_isSome, List.any_eq_true, List.mem_reverse]

theorem OnProcessTaskBody_some (opts : Options) (t : Task) (bioosInfo : BioosInfo) (acc : Loop)
    (k : String) (ids : List String) (h : acc.st.pvcWithTasksCache k = some ids) :
    OnProcessTaskBody opts noFaults t bioosInfo acc k
      = { acc with st := { acc.st with
            pvcWithTasksCache := assign acc.st.pvcWithTasksCache k (some (insertID t.ID ids)) } } := by
  simp [OnProcessTaskBody, h]

theorem OnProcessTaskMount_absent (t : Task) (k secretName : String) (acc : Loop)
    (hpv : acc.st.pvs k = none) (hpvc : acc.st.pvcs k = none) :
    OnProcessTaskMount noFaults t k secretName acc
      = { acc with st := { acc.st with
            pvcWithTasksCache := assign acc.st.pvcWithTasksCache k (some [t.ID]),
            pvs := assign acc.st.pvs k (some { deleting := false, secretName := secretName, bucket := parseBucketFromPVCName k }),
            pvcs := assign acc.st.pvcs k (some { deleting := false, bucket := parseBucketFromPVCName k }),
            trace := acc.st.trace ++ [{ verb := Verb.get, kind := Kind.pv, name := k },
              { verb := Verb.get, kind := Kind.pvc, name := k },
              { verb := Verb.create, kind := Kind.pv, name := k },
              { verb := Verb.create, kind := Kind.pvc, name := k }] } } := by
  simp [OnProcessTaskMount, createPVAndPVC_absent _ _ _ hpv hpvc]

/-- The loop body of `OnProcessTask` on a mount without table entry and
without objects, when no request fails and no secret is being deleted. -/
theorem OnProcessTaskBody_none (opts : Options) (t : Task) (bioosInfo : BioosInfo) (acc : Loop)
    (k : String) (hc : acc.st.pvcWithTasksCache k = none) (hpv : acc.st.pvs k = none)
    (hpvc : acc.st.pvcs k = none) (hlive : secretsLive acc.st) :
    (OnProcessTaskBody opts noFaults t bioosInfo acc k).errs = acc.errs
    ∧ (OnProcessTaskBody opts noFaults t bioosInfo acc k).existDeleting = acc.existDeleting
    ∧ (OnProcessTaskBody opts noFaults t bioosInfo acc k).st.pvcWithTasksCache
        = assign acc.st.pvcWithTasksCache k (some [t.ID])
    ∧ (∃ pv, (OnProcessTaskBody opts noFaults t bioosInfo acc k).st.pvs
        = assign acc.st.pvs k (some pv))
    ∧ (∃ pvc, (OnProcessTaskBody opts noFaults t bioosInfo acc k).st.pvcs
        = assign acc.st.pvcs k (some pvc))
    ∧ (∃ new, (OnProcessTaskBody opts noFaults t bioosInfo acc k).st.trace
        = acc.st.trace ++ new ++ [{ verb := Verb.get, kind := Kind.pv, name := k },
              { verb := Verb.get, kind := Kind.pvc, name := k },
              { verb := Verb.create, kind := Kind.pv, name := k },
              { verb := Verb.create, kind := Kind.pvc, name := k }]
        ∧ ∀ c ∈ new, c.kind = Kind.secret)
    ∧ secretsLive (OnProcessTaskBody opts noFaults t bioosInfo acc k).st
    ∧ (externalBucketSet bioosInfo (parseBucketFromPVCName k) = false →
        (OnProcessTaskBody opts noFaults t bioosInfo acc k).st.secrets = acc.st.secrets)
    ∧ (externalBucketSet bioosInfo (parseBucketFromPVCName k) = true →
        ((OnProcessTaskBody opts noFaults t bioosInfo acc k).st.secrets
          (externalBucketTOSSecretName bioosInfo.SubmissionID (parseBucketFromPVCName k))).isSome
          = true
        ∧ ∀ n, n ≠ externalBucketTOSSecretName bioosInfo.SubmissionID (parseBucketFromPVCName k) →
            (OnProcessTaskBody opts noFaults t bioosInfo acc k).st.secrets n = acc.st.secrets n) := by
  have hset := externalBucketAuthInfo_isSome bioosInfo (parseBucketFromPVCName k)
  cases hauth : externalBucketAuthInfo bioosInfo (parseBucketFromPVCName k) with
  | none =>
    rw [hauth] at hset
    have hbody : OnProcessTaskBody opts noFaults t bioosInfo acc k
        = OnProcessTaskMount noFaults t k opts.StaticTOSSecretName acc := by
      simp [OnProcessTaskBody, hc, hauth]
    rw [hbody, OnProcessTaskMount_absent t k _ acc hpv hpvc]
    refine ⟨rfl, rfl, rfl, ⟨_, rfl⟩, ⟨_, rfl⟩, ⟨[], by simp, by simp⟩, hlive, fun _ => rfl, ?_⟩
    intro h
    rw [h] at hset
    cases hset
  | some authInfo =>
    rw [hauth] at hset
    have hspec := storeKubeSecret_spec
      (externalBucketTOSSecretName bioosInfo.SubmissionID (parseBucketFromPVCName k))
      authInfo.1 authInfo.2 acc.st
    obtain ⟨h1, h2, h3, ⟨new, h4, h4k⟩, h5, h6, h7, h8⟩ := hspec
    obtain ⟨h8l, h8d⟩ := h8 hlive
    have hbody : OnProcessTaskBody opts noFaults t bioosInfo acc k
        = OnProcessTaskMount noFaults t k
            (externalBucketTOSSecretName bioosInfo.SubmissionID (parseBucketFromPVCName k))
            { acc with st := (storeKubeSecret noFaults
              (externalBucketTOSSecretName bioosInfo.SubmissionID (parseBucketFromPVCName k))
              authInfo.1 authInfo.2 acc.st).2 } := by
      simp [OnProcessTaskBody, hc, hauth, h6, h8d]
    rw [hbody, OnProcessTaskMount_absent t k _ _ (by rw [h2]; exact hpv) (by rw [h3]; exact hpvc)]
    refine ⟨rfl, rfl, ?_,
      ⟨{ deleting := false,
         secretName := externalBucketTOSSecretName bioosInfo.SubmissionID (parseBucketFromPVCName k),
         bucket := parseBucketFromPVCName k }, ?_⟩,
      ⟨{ deleting := false, bucket := parseBucketFromPVCName k }, ?_⟩, ⟨new, ?_, h4k⟩, h8l, ?_, ?_⟩
    · show assign _ _ _ = _
      rw [h1]
    · show assign _ _ _ = _
      rw [h2]
    · show assign _ _ _ = _
      rw [h3]
    · show _ ++ _ = _
      rw [h4]
    · intro h
      rw [h] at hset
      cases hset
    · intro _
      exact ⟨h7 h8d, h5⟩

theorem OnFinishTaskBody_keep (t : Task) (bioosInfo : BioosInfo) (acc : Loop) (k : String)
    (ids : List String) (h : acc.st.pvcWithTasksCache k = some ids)
    (hne : deleteID t.ID ids ≠ []) :
    OnFinishTaskBody noFaults t bioosInfo acc k
      = { acc with st := { acc.st with
            pvcWithTasksCache := assign acc.st.pvcWithTasksCache k (some (deleteID t.ID ids)) } } := by
  simp [OnFinishTaskBody, h, List.length_pos.mpr hne]

theorem OnFinishTaskBody_last (t : Task) (bioosInfo : BioosInfo) (acc : Loop) (k : String)
    (ids : List String) (h : acc.st.pvcWithTasksCache k = some ids)
    (hne : deleteID t.ID ids = []) :
    OnFinishTaskBody noFaults t bioosInfo acc k
      = OnFinishTaskUnmount noFaults bioosInfo k { acc with st := { acc.st with
            pvcWithTasksCache := assign acc.st.pvcWithTasksCache k (some []) } } := by
  simp [OnFinishTaskBody, h, hne]

theorem OnFinishTaskBody_none (t : Task) (bioosInfo : BioosInfo) (acc : Loop) (k : String)
    (h : acc.st.pvcWithTasksCache k = none) :
    OnFinishTaskBody noFaults t bioosInfo acc k = OnFinishTaskUnmount noFaults bioosInfo k acc := by
  simp [OnFinishTaskBody, h]

theorem OnFinishTaskUnmount_eq (bioosInfo : BioosInfo) (k : String) (acc : Loop) (st1 : State)
    (hdel : deletePVAndPVC noFaults k acc.st = (none, st1)) :
    OnFinishTaskUnmount noFaults bioosInfo k acc
      = { acc with st :=
          { pvcWithTasksCache := assign (if externalBucketSet bioosInfo (parseBucketFromPVCName k) then (deleteKubeSecret noFaults (externalBucketTOSSecretName bioosInfo.SubmissionID (parseBucketFromPVCName k)) st1).2 else st1).pvcWithTasksCache k none,
            pvs := (if externalBucketSet bioosInfo (parseBucketFromPVCName k) then (deleteKubeSecret noFaults (externalBucketTOSSecretName bioosInfo.SubmissionID (parseBucketFromPVCName k)) st1).2 else st1).pvs,
            pvcs := (if externalBucketSet bioosInfo (parseBucketFromPVCName k) then (deleteKubeSecret noFaults (externalBucketTOSSecretName bioosInfo.SubmissionID (parseBucketFromPVCName k)) st1).2 else st1).pvcs,
            secrets := (if externalBucketSet bioosInfo (parseBucketFromPVCName k) then (deleteKubeSecret noFaults (externalBucketTOSSecretName bioosInfo.SubmissionID (parseBucketFromPVCName k)) st1).2 else st1).secrets,
            trace := (if externalBucketSet bioosInfo (parseBucketFromPVCName k) then (deleteKubeSecret noFaults (externalBucketTOSSecretName bioosInfo.SubmissionID (parseBucketFromPVCName k)) st1).2 else st1).trace } } := by
  unfold OnFinishTaskUnmount
  rw [hdel]
  by_cases hext : externalBucketSet bioosInfo (parseBucketFromPVCName k) = true
  · have h := (deleteKubeSecret_spec
      (externalBucketTOSSecretName bioosInfo.SubmissionID (parseBucketFromPVCName k)) st1).1
    simp only [hext, ↓reduceIte]
    generalize deleteKubeSecret noFaults
      (externalBucketTOSSecretName bioosInfo.SubmissionID (parseBucketFromPVCName k)) st1 = y at h ⊢
    obtain ⟨e, s2⟩ := y
    simp only at h
    subst h
    rfl
  · simp only [hext, Bool.false_eq_true, ↓reduceIte]

/-- What `deletePVAndPVC` does when no request fails, on a mount whose PV and
PVC exist together or not at all. -/
theorem deletePVAndPVC_spec (k : String) (st : State)
    (hsame : (st.pvs k).isSome = (st.pvcs k).isSome) :
    (deletePVAndPVC noFaults k st).1 = none
    ∧ (deletePVAndPVC noFaults k st).2.pvcWithTasksCache = st.pvcWithTasksCache
    ∧ (deletePVAndPVC noFaults k st).2.secrets = st.secrets
    ∧ (deletePVAndPVC noFaults k st).2.pvs k = none
    ∧ (∀ n, n ≠ k → (deletePVAndPVC noFaults k st).2.pvs n = st.pvs n)
    ∧ (deletePVAndPVC noFaults k st).2.pvcs k = none
    ∧ (∀ n, n ≠ k → (deletePVAndPVC noFaults k st).2.pvcs n = st.pvcs n)
    ∧ (∃ new, (deletePVAndPVC noFaults k st).2.trace = st.trace ++ new
        ∧ (∀ c ∈ new, c.name = k ∧ c.kind ≠ Kind.secret)
        ∧ ((st.pvcs k).isSome = true →
            ({ verb := Verb.delete, kind := Kind.pvc, name := k } : Call) ∈ new
            ∧ ({ verb := Verb.delete, kind := Kind.pv, name := k } : Call) ∈ new)) := by
  cases hp : st.pvcs k with
  | none =>
    rw [hp] at hsame
    have hpv : st.pvs k = none := by
      cases h : st.pvs k with
      | none => rfl
      | some x => rw [h] at hsame; cases hsame
    rw [deletePVAndPVC_absent k st hp]
    refine ⟨rfl, rfl, rfl, hpv, fun _ _ => rfl, hp, fun _ _ => rfl, ⟨_, rfl, ?_, ?_⟩⟩
    · exact mem_single ⟨rfl, by simp⟩
    · intro h
      cases h
  | some x =>
    rw [hp] at hsame
    rw [deletePVAndPVC_present k st hsame (by rw [hp]; rfl)]
    refine ⟨rfl, rfl, rfl, assign_same _ _ _, fun n hn => assign_other _ _ _ _ hn,
      assign_same _ _ _, fun n hn => assign_other _ _ _ _ hn, ⟨_, rfl, ?_, ?_⟩⟩
    · intro c hc
      simp only [List.mem_cons, List.mem_singleton, List.not_mem_nil, or_false] at hc
      rcases hc with h | h <;> rw [h] <;> exact ⟨rfl, by simp⟩
    · intro _
      simp

/-- The end of the loop body of `OnFinishTask` when no request fails. -/
theorem OnFinishTaskUnmount_spec (bioosInfo : BioosInfo) (k : String) (acc : Loop)
    (hsame : (acc.st.pvs k).isSome = (acc.st.pvcs k).isSome) :
    (OnFinishTaskUnmount noFaults bioosInfo k acc).errs = acc.errs
    ∧ (OnFinishTaskUnmount noFaults bioosInfo k acc).existDeleting = acc.existDeleting
    ∧ (OnFinishTaskUnmount noFaults bioosInfo k acc).st.pvcWithTasksCache
        = assign acc.st.pvcWithTasksCache k none
    ∧ (OnFinishTaskUnmount noFaults bioosInfo k acc).st.pvs k = none
    ∧ (∀ n, n ≠ k → (OnFinishTaskUnmount noFaults bioosInfo k acc).st.pvs n = acc.st.pvs n)
    ∧ (OnFinishTaskUnmount noFaults bioosInfo k acc).st.pvcs k = none
    ∧ (∀ n, n ≠ k → (OnFinishTaskUnmount noFaults bioosInfo k acc).st.pvcs n = acc.st.pvcs n)
    ∧ (∃ new, (OnFinishTaskUnmount noFaults bioosInfo k acc).st.trace = acc.st.trace ++ new
        ∧ (∀ c ∈ new, c.kind = Kind.secret ∨ c.name = k)
        ∧ ((acc.st.pvcs k).isSome = true →
            ({ verb := Verb.delete, kind := Kind.pvc, name := k } : Call) ∈ new
            ∧ ({ verb := Verb.delete, kind := Kind.pv, name := k } : Call) ∈ new))
    ∧ (secretsLive acc.st → secretsLive (OnFinishTaskUnmount noFaults bioosInfo k acc).st)
    ∧ (externalBucketSet bioosInfo (parseBucketFromPVCName k) = false →
        (OnFinishTaskUnmount noFaults bioosInfo k acc).st.secrets = acc.st.secrets)
    ∧ (externalBucketSet bioosInfo (parseBucketFromPVCName k) = true →
        (OnFinishTaskUnmount noFaults bioosInfo k acc).st.secrets
          (externalBucketTOSSecretName bioosInfo.SubmissionID (parseBucketFromPVCName k)) = none
        ∧ ∀ n, n ≠ externalBucketTOSSecretName bioosInfo.SubmissionID (parseBucketFromPVCName k) →
            (OnFinishTaskUnmount noFaults bioosInfo k acc).st.secrets n = acc.st.secrets n) := by
  obtain ⟨d1, d2, d3, d4, d5, d6, d7, ⟨new, d8, d8k, d8m⟩⟩ := deletePVAndPVC_spec k acc.st hsame
  have hdel : deletePVAndPVC noFaults k acc.st = (none, (deletePVAndPVC noFaults k acc.st).2) :=
    Prod.ext d1 rfl
  rw [OnFinishTaskUnmount_eq bioosInfo k acc _ hdel]
  by_cases hext : externalBucketSet bioosInfo (parseBucketFromPVCName k) = true
  · obtain ⟨_, s2, s3, s4, s5, s6, s7, s8⟩ := deleteKubeSecret_spec
      (externalBucketTOSSecretName bioosInfo.SubmissionID (parseBucketFromPVCName k))
      (deletePVAndPVC noFaults k acc.st).2
    simp only [hext, ↓reduceIte]
    refine ⟨trivial, trivial, ?_, ?_, ?_, ?_, ?_, ⟨new ++ [{ verb := Verb.delete, kind := Kind.secret, name := externalBucketTOSSecretName bioosInfo.SubmissionID (parseBucketFromPVCName k) }], ?_, ?_, ?_⟩, ?_, ?_, ?_⟩
    · rw [s2, d2]
    · rw [s3]; exact d4
    · intro n hn; rw [s3]; exact d5 n hn
    · rw [s4]; exact d6
    · intro n hn; rw [s4]; exact d7 n hn
    · rw [s5, d8, List.append_assoc]
    · intro c hc
      rcases List.mem_append.mp hc with h | h
      · exact Or.inr (d8k c h).1
      · simp only [List.mem_singleton] at h
        rw [h]
        exact Or.inl rfl
    · intro h
      exact ⟨List.mem_append_left _ (d8m h).1, List.mem_append_left _ (d8m h).2⟩
    · intro hlive
      apply s8
      intro n x hn
      rw [d3] at hn
      exact hlive n x hn
    · intro h
      simp at h
    · intro _
      refine ⟨s6, ?_⟩
      intro n hn
      rw [s7 n hn, d3]
  · have hext' : externalBucketSet bioosInfo (parseBucketFromPVCName k) = false := by
      cases h : externalBucketSet bioosInfo (parseBucketFromPVCName k)
      · rfl
      · exact absurd h hext
    simp only [hext', Bool.false_eq_true, ↓reduceIte]
    refine ⟨trivial, trivial, ?_, d4, d5, d6, d7, ⟨new, d8, ?_, d8m⟩, ?_, ?_, ?_⟩
    · rw [d2]
    · intro c hc
      exact Or.inr (d8k c hc).1
    · intro hlive n x hn
      rw [d3] at hn
      exact hlive n x hn
    · intro _
      exact d3
    · intro h
      cases h

theorem mountRequests_append (m : String) (a b : List Call) :
    mountRequests m (a ++ b) = mountRequests m a ++ mountRequests m b := by
  simp [mountRequests]

theorem mountRequests_other (m k : String) (hk : m ≠ k) (new : List Call)
    (h : ∀ c ∈ new, c.kind = Kind.secret ∨ c.name = k) : mountRequests m new = [] := by
  unfold mountRequests
  rw [List.filter_eq_nil_iff]
  intro c hc
  rcases h c hc with h1 | h1
  · simp [h1]
  · have : c.name ≠ m := by rw [h1]; exact fun e => hk e.symm
    simp [this]

theorem mountRequests_secrets (m : String) (new : List Call)
    (h : ∀ c ∈ new, c.kind = Kind.secret) : mountRequests m new = [] := by
  unfold mountRequests
  rw [List.filter_eq_nil_iff]
  intro c hc
  simp [h c hc]

theorem mountRequests_created (k : String) :
    mountRequests k [{ verb := Verb.get, kind := Kind.pv, name := k },
        { verb := Verb.get, kind := Kind.pvc, name := k },
        { verb := Verb.create, kind := Kind.pv, name := k },
        { verb := Verb.create, kind := Kind.pvc, name := k }]
      = [{ verb := Verb.create, kind := Kind.pv, name := k },
        { verb := Verb.create, kind := Kind.pvc, name := k }] := by
  simp [mountRequests, List.filter]

theorem Frame.refl_frame (k : String) (st : State) : Frame k st st :=
  ⟨fun _ _ => ⟨rfl, rfl, rfl⟩, [], by simp, by simp⟩

theorem Frame.requests (k m : String) (st st' : State) (h : Frame k st st') (hm : m ≠ k) :
    mountRequests m st'.trace = mountRequests m st.trace := by
  obtain ⟨_, new, ht, hnew⟩ := h
  rw [ht, mountRequests_append, mountRequests_other m k hm new hnew, List.append_nil]

theorem Frame.mem_trace (k : String) (st st' : State) (h : Frame k st st') (c : Call)
    (hc : c ∈ st.trace) : c ∈ st'.trace := by
  obtain ⟨_, new, ht, _⟩ := h
  rw [ht]
  exact List.mem_append_left _ hc

theorem insertID_ne_nil (id : String) (ids : List String) : insertID id ids ≠ [] := by
  unfold insertID
  split
  · rename_i h
    exact List.ne_nil_of_mem h
  · simp

theorem addRef_ne_nil (id : String) (entry : Option (List String)) : addRef id entry ≠ [] := by
  cases entry with
  | none => simp [addRef]
  | some ids => exact insertID_ne_nil id ids

theorem isSome_eq_false_iff {α : Type} (o : Option α) : o.isSome = false ↔ o = none := by
  cases o <;> simp

/-- The loop body of `OnProcessTask` on the mount `k`, when no request fails:
the invariant is kept, nothing of another mount changes, the task is in the
reference set of `k`, and the PV and PVC of `k` are created exactly when `k`
had no entry. -/
theorem OnProcessTaskBody_summary (opts : Options) (t : Task) (bioosInfo : BioosInfo) (acc : Loop)
    (k : String) (hback : mountsBacked acc.st) (hlive : secretsLive acc.st) :
    (mountsBacked (OnProcessTaskBody opts noFaults t bioosInfo acc k).st
      ∧ secretsLive (OnProcessTaskBody opts noFaults t bioosInfo acc k).st)
    ∧ Frame k acc.st (OnProcessTaskBody opts noFaults t bioosInfo acc k).st
    ∧ (OnProcessTaskBody opts noFaults t bioosInfo acc k).st.pvcWithTasksCache k
        = some (addRef t.ID (acc.st.pvcWithTasksCache k))
    ∧ mountRequests k (OnProcessTaskBody opts noFaults t bioosInfo acc k).st.trace
        = mountRequests k acc.st.trace ++
          (if (acc.st.pvcWithTasksCache k).isSome then []
           else [{ verb := Verb.create, kind := Kind.pv, name := k },
                 { verb := Verb.create, kind := Kind.pvc, name := k }])
    ∧ (∀ ext : String → Bool,
        externalBucketSet bioosInfo (parseBucketFromPVCName k) = ext k →
        (ext k = true →
          externalBucketTOSSecretName bioosInfo.SubmissionID (parseBucketFromPVCName k) = k) →
        secretsBacked ext acc.st →
        secretsBacked ext (OnProcessTaskBody opts noFaults t bioosInfo acc k).st)
    ∧ (OnProcessTaskBody opts noFaults t bioosInfo acc k).errs = acc.errs
    ∧ (OnProcessTaskBody opts noFaults t bioosInfo acc k).existDeleting = acc.existDeleting := by
  cases hc : acc.st.pvcWithTasksCache k with
  | some ids =>
    rw [OnProcessTaskBody_some opts t bioosInfo acc k ids hc]
    refine ⟨⟨?_, hlive⟩, ⟨?_, [], by simp, by simp⟩, assign_same _ _ _, by simp, ?_, rfl, rfl⟩
    · intro n
      by_cases hn : n = k
      · subst hn
        have := hback n
        rw [hc] at this
        refine ⟨?_, ?_, ?_⟩
        · show _ = (assign _ _ _ _).isSome
          rw [assign_same]
          exact this.1
        · show _ = (assign _ _ _ _).isSome
          rw [assign_same]
          exact this.2.1
        · show assign _ _ _ _ ≠ _
          rw [assign_same]
          intro h
          exact insertID_ne_nil t.ID ids (Option.some.inj h)
      · have := hback n
        refine ⟨?_, ?_, ?_⟩
        · show _ = (assign _ _ _ _).isSome
          rw [assign_other _ _ _ _ hn]
          exact this.1
        · show _ = (assign _ _ _ _).isSome
          rw [assign_other _ _ _ _ hn]
          exact this.2.1
        · show assign _ _ _ _ ≠ _
          rw [assign_other _ _ _ _ hn]
          exact this.2.2
    · intro n hn
      exact ⟨assign_other _ _ _ _ hn, rfl, rfl⟩
    · intro ext _ _ hsec n
      show _ = (ext n && (assign _ _ _ _).isSome)
      by_cases hn : n = k
      · subst hn
        rw [assign_same]
        have := hsec n
        rw [hc] at this
        exact this
      · rw [assign_other _ _ _ _ hn]
        exact hsec n
  | none =>
    have hk := hback k
    rw [hc] at hk
    have hpv : acc.st.pvs k = none := (isSome_eq_false_iff _).mp hk.1
    have hpvc : acc.st.pvcs k = none := (isSome_eq_false_iff _).mp hk.2.1
    obtain ⟨e1, e2, e3, ⟨pv, e4⟩, ⟨pvc, e5⟩, ⟨new, e6, e6k⟩, e7, e8, e9⟩ :=
      OnProcessTaskBody_none opts t bioosInfo acc k hc hpv hpvc hlive
    refine ⟨⟨?_, e7⟩, ⟨?_, _, by rw [e6, List.append_assoc], ?_⟩, ?_, ?_, ?_, e1, e2⟩
    · intro n
      rw [e3, e4, e5]
      by_cases hn : n = k
      · subst hn
        simp
      · rw [assign_other _ _ _ _ hn, assign_other _ _ _ _ hn, assign_other _ _ _ _ hn]
        exact hback n
    · intro n hn
      rw [e3, e4, e5]
      exact ⟨assign_other _ _ _ _ hn, assign_other _ _ _ _ hn, assign_other _ _ _ _ hn⟩
    · intro c hcm
      rcases List.mem_append.mp hcm with h | h
      · exact Or.inl (e6k c h)
      · simp only [List.mem_cons, List.mem_singleton, List.not_mem_nil, or_false] at h
        rcases h with h | h | h | h <;> rw [h] <;> exact Or.inr rfl
    · rw [e3, assign_same]
      rfl
    · rw [e6, mountRequests_append, mountRequests_append, mountRequests_secrets k new e6k,
        mountRequests_created]
      simp
    · intro ext hext hname hsec n
      rw [e3]
      cases hx : ext k with
      | false =>
        rw [hx] at hext
        rw [e8 hext]
        by_cases hn : n = k
        · subst hn
          have := hsec n
          rw [hx] at this
          rw [this, hx]
          rfl
        · rw [assign_other _ _ _ _ hn]
          exact hsec n
      | true =>
        rw [hx] at hext
        obtain ⟨e9a, e9b⟩ := e9 hext
        rw [hname hx] at e9a e9b
        by_cases hn : n = k
        · subst hn
          rw [e9a, hx, assign_same]
          rfl
        · rw [e9b n hn, assign_other _ _ _ _ hn]
          exact hsec n

/-- The end of the loop body of `OnFinishTask` on the mount `k`, from a state
that is backed except that the entry of `k` may be an empty set. -/
theorem OnFinishTaskUnmount_summary (bioosInfo : BioosInfo) (k : String) (acc : Loop)
    (hback : ∀ n, (acc.st.pvs n).isSome = (acc.st.pvcWithTasksCache n).isSome
      ∧ (acc.st.pvcs n).isSome = (acc.st.pvcWithTasksCache n).isSome
      ∧ (n ≠ k → acc.st.pvcWithTasksCache n ≠ some []))
    (hlive : secretsLive acc.st) :
    (mountsBacked (OnFinishTaskUnmount noFaults bioosInfo k acc).st
      ∧ secretsLive (OnFinishTaskUnmount noFaults bioosInfo k acc).st)
    ∧ Frame k acc.st (OnFinishTaskUnmount noFaults bioosInfo k acc).st
    ∧ (OnFinishTaskUnmount noFaults bioosInfo k acc).st.pvcWithTasksCache k = none
    ∧ ((acc.st.pvcWithTasksCache k).isSome = true →
        ({ verb := Verb.delete, kind := Kind.pvc, name := k } : Call)
          ∈ (OnFinishTaskUnmount noFaults bioosInfo k acc).st.trace
        ∧ ({ verb := Verb.delete, kind := Kind.pv, name := k } : Call)
          ∈ (OnFinishTaskUnmount noFaults bioosInfo k acc).st.trace)
    ∧ (∀ ext : String → Bool,
        externalBucketSet bioosInfo (parseBucketFromPVCName k) = ext k →
        (ext k = true →
          externalBucketTOSSecretName bioosInfo.SubmissionID (parseBucketFromPVCName k) = k) →
        secretsBacked ext acc.st →
        secretsBacked ext (OnFinishTaskUnmount noFaults bioosInfo k acc).st)
    ∧ (OnFinishTaskUnmount noFaults bioosInfo k acc).errs = acc.errs
    ∧ (OnFinishTaskUnmount noFaults bioosInfo k acc).existDeleting = acc.existDeleting := by
  have hsame : (acc.st.pvs k).isSome = (acc.st.pvcs k).isSome := by
    rw [(hback k).1, (hback k).2.1]
  obtain ⟨u1, u2, u3, u4, u5, u6, u7, ⟨new, u8, u8k, u8m⟩, u9, u10, u11⟩ :=
    OnFinishTaskUnmount_spec bioosInfo k acc hsame
  refine ⟨⟨?_, u9 hlive⟩, ⟨?_, new, u8, u8k⟩, ?_, ?_, ?_, u1, u2⟩
  · intro n
    by_cases hn : n = k
    · subst hn
      rw [u3, u4, u6, assign_same]
      simp
    · rw [u3, u5 n hn, u7 n hn, assign_other _ _ _ _ hn]
      exact ⟨(hback n).1, (hback n).2.1, (hback n).2.2 hn⟩
  · intro n hn
    rw [u3, u5 n hn, u7 n hn, assign_other _ _ _ _ hn]
    exact ⟨rfl, rfl, rfl⟩
  · rw [u3, assign_same]
  · intro h
    rw [← (hback k).2.1] at h
    rw [u8]
    exact ⟨List.mem_append_right _ (u8m h).1, List.mem_append_right _ (u8m h).2⟩
  · intro ext hext hname hsec n
    rw [u3]
    cases hx : ext k with
    | false =>
      rw [hx] at hext
      rw [u10 hext]
      by_cases hn : n = k
      · subst hn
        have := hsec n
        rw [hx] at this
        rw [this, hx]
        rfl
      · rw [assign_other _ _ _ _ hn]
        exact hsec n
    | true =>
      rw [hx] at hext
      obtain ⟨a, b⟩ := u11 hext
      rw [hname hx] at a b
      by_cases hn : n = k
      · subst hn
        rw [a, hx, assign_same]
        rfl
      · rw [b n hn, assign_other _ _ _ _ hn]
        exact hsec n

theorem dropRef_some_keep (id : String) (ids : List String) (h : deleteID id ids ≠ []) :
    dropRef id (some ids) = some (deleteID id ids) := by
  simp [dropRef, h]

theorem dropRef_some_last (id : String) (ids : List String) (h : deleteID id ids = []) :
    dropRef id (some ids) = none := by
  simp [dropRef, h]

/-- The loop body of `OnFinishTask` on the mount `k`, when no request fails:
the invariant is kept, nothing of another mount changes, the task leaves the
reference set of `k`, nothing is requested while the set stays non-empty, and
the PVC and PV of `k` are deleted when it gets empty. -/
theorem OnFinishTaskBody_summary (t : Task) (bioosInfo : BioosInfo) (acc : Loop) (k : String)
    (hback : mountsBacked acc.st) (hlive : secretsLive acc.st) :
    (mountsBacked (OnFinishTaskBody noFaults t bioosInfo acc k).st
      ∧ secretsLive (OnFinishTaskBody noFaults t bioosInfo acc k).st)
    ∧ Frame k acc.st (OnFinishTaskBody noFaults t bioosInfo acc k).st
    ∧ (OnFinishTaskBody noFaults t bioosInfo acc k).st.pvcWithTasksCache k
        = dropRef t.ID (acc.st.pvcWithTasksCache k)
    ∧ (dropRef t.ID (acc.st.pvcWithTasksCache k) ≠ none →
        (OnFinishTaskBody noFaults t bioosInfo acc k).st.trace = acc.st.trace)
    ∧ ((acc.st.pvcWithTasksCache k).isSome = true →
        dropRef t.ID (acc.st.pvcWithTasksCache k) = none →
        ({ verb := Verb.delete, kind := Kind.pvc, name := k } : Call)
          ∈ (OnFinishTaskBody noFaults t bioosInfo acc k).st.trace
        ∧ ({ verb := Verb.delete, kind := Kind.pv, name := k } : Call)
          ∈ (OnFinishTaskBody noFaults t bioosInfo acc k).st.trace)
    ∧ (∀ ext : String → Bool,
        externalBucketSet bioosInfo (parseBucketFromPVCName k) = ext k →
        (ext k = true →
          externalBucketTOSSecretName bioosInfo.SubmissionID (parseBucketFromPVCName k) = k) →
        secretsBacked ext acc.st →
        secretsBacked ext (OnFinishTaskBody noFaults t bioosInfo acc k).st)
    ∧ (OnFinishTaskBody noFaults t bioosInfo acc k).errs = acc.errs
    ∧ (OnFinishTaskBody noFaults t bioosInfo acc k).existDeleting = acc.existDeleting := by
  cases hc : acc.st.pvcWithTasksCache k with
  | none =>
    rw [OnFinishTaskBody_none t bioosInfo acc k hc]
    obtain ⟨a, b, c, _, e, f, g⟩ := OnFinishTaskUnmount_summary bioosInfo k acc
      (fun n => ⟨(hback n).1, (hback n).2.1, fun _ => (hback n).2.2⟩) hlive
    refine ⟨a, b, c, fun h => absurd rfl h, fun h => ?_, e, f, g⟩
    cases h
  | some ids =>
    by_cases hne : deleteID t.ID ids = []
    · rw [OnFinishTaskBody_last t bioosInfo acc k ids hc hne, dropRef_some_last _ _ hne]
      obtain ⟨a, ⟨b1, new, b2, b3⟩, c, d, e, f, g⟩ := OnFinishTaskUnmount_summary bioosInfo k
        { acc with st := { acc.st with
            pvcWithTasksCache := assign acc.st.pvcWithTasksCache k (some []) } }
        (by
          intro n
          by_cases hn : n = k
          · subst hn
            have := hback n
            rw [hc] at this
            refine ⟨?_, ?_, fun h => absurd rfl h⟩
            · show _ = (assign _ _ _ _).isSome
              rw [assign_same]
              exact this.1
            · show _ = (assign _ _ _ _).isSome
              rw [assign_same]
              exact this.2.1
          · have := hback n
            refine ⟨?_, ?_, fun _ => ?_⟩
            · show _ = (assign _ _ _ _).isSome
              rw [assign_other _ _ _ _ hn]
              exact this.1
            · show _ = (assign _ _ _ _).isSome
              rw [assign_other _ _ _ _ hn]
              exact this.2.1
            · show assign _ _ _ _ ≠ _
              rw [assign_other _ _ _ _ hn]
              exact this.2.2)
        hlive
      refine ⟨a, ⟨?_, new, b2, b3⟩, c, fun h => absurd rfl h, fun _ _ => ?_, ?_, f, g⟩
      · intro n hn
        obtain ⟨x, y, z⟩ := b1 n hn
        refine ⟨?_, y, z⟩
        rw [x]
        exact assign_other _ _ _ _ hn
      · apply d
        show (assign _ _ _ _).isSome = true
        rw [assign_same]
        rfl
      · intro ext hext hname hsec
        apply e ext hext hname
        intro n
        show _ = (ext n && (assign _ _ _ _).isSome)
        by_cases hn : n = k
        · subst hn
          rw [assign_same]
          have := hsec n
          rw [hc] at this
          exact this
        · rw [assign_other _ _ _ _ hn]
          exact hsec n
    · rw [OnFinishTaskBody_keep t bioosInfo acc k ids hc hne, dropRef_some_keep _ _ hne]
      refine ⟨⟨?_, hlive⟩, ⟨?_, [], by simp, by simp⟩, assign_same _ _ _, fun _ => rfl,
        fun _ h => (by cases h), ?_, rfl, rfl⟩
      · intro n
        by_cases hn : n = k
        · subst hn
          have := hback n
          rw [hc] at this
          refine ⟨?_, ?_, ?_⟩
          · show _ = (assign _ _ _ _).isSome
            rw [assign_same]
            exact this.1
          · show _ = (assign _ _ _ _).isSome
            rw [assign_same]
            exact this.2.1
          · show assign _ _ _ _ ≠ _
            rw [assign_same]
            intro h
            exact hne (Option.some.inj h)
        · have := hback n
          refine ⟨?_, ?_, ?_⟩
          · show _ = (assign _ _ _ _).isSome
            rw [assign_other _ _ _ _ hn]
            exact this.1
          · show _ = (assign _ _ _ _).isSome
            rw [assign_other _ _ _ _ hn]
            exact this.2.1
          · show assign _ _ _ _ ≠ _
            rw [assign_other _ _ _ _ hn]
            exact this.2.2
      · intro n hn
        exact ⟨assign_other _ _ _ _ hn, rfl, rfl⟩
      · intro ext _ _ hsec n
        show _ = (ext n && (assign _ _ _ _).isSome)
        by_cases hn : n = k
        · subst hn
          rw [assign_same]
          have := hsec n
          rw [hc] at this
          exact this
        · rw [assign_other _ _ _ _ hn]
          exact hsec n

theorem mem_insertID (x id : String) (ids : List String) :
    x ∈ insertID id ids ↔ x = id ∨ x ∈ ids := by
  unfold insertID
  split
  · rename_i h
    constructor
    · exact Or.inr
    · rintro (h1 | h1)
      · rw [h1]; exact h
      · exact h1
  · simp [or_comm]

theorem mem_addRef (x id : String) (entry : Option (List String)) :
    x ∈ addRef id entry ↔ x = id ∨ ∃ ids, entry = some ids ∧ x ∈ ids := by
  cases entry with
  | none => simp [addRef]
  | some ids => simp [addRef, mem_insertID]

theorem addRef_addRef (id : String) (entry : Option (List String)) :
    addRef id (some (addRef id entry)) = addRef id entry := by
  have h : id ∈ addRef id entry := (mem_addRef id id entry).mpr (Or.inl rfl)
  show insertID id (addRef id entry) = addRef id entry
  unfold insertID
  rw [if_pos h]

theorem mem_deleteID (x id : String) (ids : List String) :
    x ∈ deleteID id ids ↔ x ∈ ids ∧ x ≠ id := by
  simp [deleteID]

theorem deleteID_deleteID (id : String) (ids : List String) :
    deleteID id (deleteID id ids) = deleteID id ids := by
  simp [deleteID]

theorem dropRef_dropRef (id : String) (entry : Option (List String)) :
    dropRef id (dropRef id entry) = dropRef id entry := by
  cases entry with
  | none => rfl
  | some ids =>
    by_cases h : deleteID id ids = []
    · rw [dropRef_some_last _ _ h]
      rfl
    · rw [dropRef_some_keep _ _ h, dropRef_some_keep _ _ (by rw [deleteID_deleteID]; exact h),
        deleteID_deleteID]

theorem dropRef_isSome (id : String) (entry : Option (List String))
    (h : dropRef id entry ≠ none) : entry.isSome = true := by
  cases entry with
  | none => exact absurd rfl h
  | some ids => rfl

/-- The loop of `OnProcessTask` over the list of mount names. -/
theorem OnProcessTask_loop (opts : Options) (t : Task) (bioosInfo : BioosInfo)
    (names : List String) (acc : Loop) (hback : mountsBacked acc.st)
    (hlive : secretsLive acc.st) :
    (mountsBacked (names.foldl (OnProcessTaskBody opts noFaults t bioosInfo) acc).st
      ∧ secretsLive (names.foldl (OnProcessTaskBody opts noFaults t bioosInfo) acc).st)
    ∧ (∀ m, m ∉ names →
        (names.foldl (OnProcessTaskBody opts noFaults t bioosInfo) acc).st.pvcWithTasksCache m
          = acc.st.pvcWithTasksCache m
        ∧ mountRequests m (names.foldl (OnProcessTaskBody opts noFaults t bioosInfo) acc).st.trace
          = mountRequests m acc.st.trace)
    ∧ (∀ m, m ∈ names →
        (names.foldl (OnProcessTaskBody opts noFaults t bioosInfo) acc).st.pvcWithTasksCache m
          = some (addRef t.ID (acc.st.pvcWithTasksCache m))
        ∧ mountRequests m (names.foldl (OnProcessTaskBody opts noFaults t bioosInfo) acc).st.trace
          = mountRequests m acc.st.trace ++
            (if (acc.st.pvcWithTasksCache m).isSome then []
             else [{ verb := Verb.create, kind := Kind.pv, name := m },
                   { verb := Verb.create, kind := Kind.pvc, name := m }]))
    ∧ (∀ ext : String → Bool,
        (∀ n ∈ names, externalBucketSet bioosInfo (parseBucketFromPVCName n) = ext n
          ∧ (ext n = true →
            externalBucketTOSSecretName bioosInfo.SubmissionID (parseBucketFromPVCName n) = n)) →
        secretsBacked ext acc.st →
        secretsBacked ext (names.foldl (OnProcessTaskBody opts noFaults t bioosInfo) acc).st)
    ∧ (names.foldl (OnProcessTaskBody opts noFaults t bioosInfo) acc).errs = acc.errs
    ∧ (names.foldl (OnProcessTaskBody opts noFaults t bioosInfo) acc).existDeleting
        = acc.existDeleting := by
  induction names generalizing acc with
  | nil =>
    refine ⟨⟨hback, hlive⟩, fun _ _ => ⟨rfl, rfl⟩, fun m hm => ?_, fun _ _ h => h, rfl, rfl⟩
    cases hm
  | cons k rest ih =>
    obtain ⟨⟨b1, b2⟩, b3, b4, b5, b6, b7, b8⟩ :=
      OnProcessTaskBody_summary opts t bioosInfo acc k hback hlive
    obtain ⟨i1, i2, i3, i4, i5, i6⟩ := ih (OnProcessTaskBody opts noFaults t bioosInfo acc k) b1 b2
    rw [List.foldl_cons]
    refine ⟨i1, ?_, ?_, ?_, by rw [i5, b7], by rw [i6, b8]⟩
    · intro m hm
      have hmk : m ≠ k := fun e => hm (by rw [e]; exact List.mem_cons_self _ _)
      have hmr : m ∉ rest := fun e => hm (List.mem_cons_of_mem _ e)
      rw [(i2 m hmr).1, (i2 m hmr).2, (b3.1 m hmk).1, Frame.requests k m _ _ b3 hmk]
      exact ⟨rfl, rfl⟩
    · intro m hm
      by_cases hmk : m = k
      · subst hmk
        by_cases hmr : m ∈ rest
        · rw [(i3 m hmr).1, (i3 m hmr).2, b4, b5, addRef_addRef]
          simp
        · rw [(i2 m hmr).1, (i2 m hmr).2, b4, b5]
          exact ⟨rfl, rfl⟩
      · have hmr : m ∈ rest := by
          rcases List.mem_cons.mp hm with h | h
          · exact absurd h hmk
          · exact h
        rw [(i3 m hmr).1, (i3 m hmr).2, (b3.1 m hmk).1, Frame.requests k m _ _ b3 hmk]
        exact ⟨rfl, rfl⟩
    · intro ext hco hsec
      apply i4 ext (fun n hn => hco n (List.mem_cons_of_mem _ hn))
      exact b6 ext (hco k (List.mem_cons_self _ _)).1 (hco k (List.mem_cons_self _ _)).2 hsec

/-- The loop of `OnFinishTask` over the list of mount names. -/
theorem OnFinishTask_loop (t : Task) (bioosInfo : BioosInfo)
    (names : List String) (acc : Loop) (hback : mountsBacked acc.st)
    (hlive : secretsLive acc.st) :
    (mountsBacked (names.foldl (OnFinishTaskBody noFaults t bioosInfo) acc).st
      ∧ secretsLive (names.foldl (OnFinishTaskBody noFaults t bioosInfo) acc).st)
    ∧ (∀ c, c ∈ acc.st.trace → c ∈ (names.foldl (OnFinishTaskBody noFaults t bioosInfo) acc).st.trace)
    ∧ (∀ m, m ∉ names →
        (names.foldl (OnFinishTaskBody noFaults t bioosInfo) acc).st.pvcWithTasksCache m
          = acc.st.pvcWithTasksCache m
        ∧ mountRequests m (names.foldl (OnFinishTaskBody noFaults t bioosInfo) acc).st.trace
          = mountRequests m acc.st.trace)
    ∧ (∀ m, m ∈ names →
        (names.foldl (OnFinishTaskBody noFaults t bioosInfo) acc).st.pvcWithTasksCache m
          = dropRef t.ID (acc.st.pvcWithTasksCache m)
        ∧ (dropRef t.ID (acc.st.pvcWithTasksCache m) ≠ none →
            mountRequests m (names.foldl (OnFinishTaskBody noFaults t bioosInfo) acc).st.trace
              = mountRequests m acc.st.trace)
        ∧ ((acc.st.pvcWithTasksCache m).isSome = true →
            dropRef t.ID (acc.st.pvcWithTasksCache m) = none →
            ({ verb := Verb.delete, kind := Kind.pvc, name := m } : Call)
              ∈ (names.foldl (OnFinishTaskBody noFaults t bioosInfo) acc).st.trace
            ∧ ({ verb := Verb.delete, kind := Kind.pv, name := m } : Call)
              ∈ (names.foldl (OnFinishTaskBody noFaults t bioosInfo) acc).st.trace))
    ∧ (∀ ext : String → Bool,
        (∀ n ∈ names, externalBucketSet bioosInfo (parseBucketFromPVCName n) = ext n
          ∧ (ext n = true →
            externalBucketTOSSecretName bioosInfo.SubmissionID (parseBucketFromPVCName n) = n)) →
        secretsBacked ext acc.st →
        secretsBacked ext (names.foldl (OnFinishTaskBody noFaults t bioosInfo) acc).st)
    ∧ (names.foldl (OnFinishTaskBody noFaults t bioosInfo) acc).errs = acc.errs := by
  induction names generalizing acc with
  | nil =>
    refine ⟨⟨hback, hlive⟩, fun _ h => h, fun _ _ => ⟨rfl, rfl⟩, fun m hm => ?_,
      fun _ _ h => h, rfl⟩
    cases hm
  | cons k rest ih =>
    obtain ⟨⟨b1, b2⟩, b3, b4, b5, b5d, b6, b7, _⟩ :=
      OnFinishTaskBody_summary t bioosInfo acc k hback hlive
    obtain ⟨i1, i0, i2, i3, i4, i5⟩ := ih (OnFinishTaskBody noFaults t bioosInfo acc k) b1 b2
    rw [List.foldl_cons]
    refine ⟨i1, fun c hc => i0 c (Frame.mem_trace k _ _ b3 c hc), ?_, ?_, ?_, by rw [i5, b7]⟩
    · intro m hm
      have hmk : m ≠ k := fun e => hm (by rw [e]; exact List.mem_cons_self _ _)
      have hmr : m ∉ rest := fun e => hm (List.mem_cons_of_mem _ e)
      rw [(i2 m hmr).1, (i2 m hmr).2, (b3.1 m hmk).1, Frame.requests k m _ _ b3 hmk]
      exact ⟨rfl, rfl⟩
    · intro m hm
      by_cases hmk : m = k
      · subst hmk
        by_cases hmr : m ∈ rest
        · obtain ⟨j1, j2, j3⟩ := i3 m hmr
          rw [b4] at j1 j2 j3
          rw [dropRef_dropRef] at j1 j2
          refine ⟨j1, fun h => ?_, fun h1 h2 => ?_⟩
          · rw [j2 h, b5 h]
          · obtain ⟨d1, d2⟩ := b5d h1 h2
            exact ⟨i0 _ d1, i0 _ d2⟩
        · rw [(i2 m hmr).1, (i2 m hmr).2, b4]
          refine ⟨rfl, fun h => by rw [b5 h], fun h1 h2 => ?_⟩
          obtain ⟨d1, d2⟩ := b5d h1 h2
          exact ⟨i0 _ d1, i0 _ d2⟩
      · have hmr : m ∈ rest := by
          rcases List.mem_cons.mp hm with h | h
          · exact absurd h hmk
          · exact h
        obtain ⟨j1, j2, j3⟩ := i3 m hmr
        rw [(b3.1 m hmk).1] at j1 j2 j3
        rw [Frame.requests k m _ _ b3 hmk] at j2
        exact ⟨j1, j2, j3⟩
    · intro ext hco hsec
      apply i4 ext (fun n hn => hco n (List.mem_cons_of_mem _ hn))
      exact b6 ext (hco k (List.mem_cons_self _ _)).1 (hco k (List.mem_cons_self _ _)).2 hsec

/-- `OnProcessTask` when no request fails. -/
theorem OnProcessTask_summary (opts : Options) (t : Task) (st : State)
    (hback : mountsBacked st) (hlive : secretsLive st) :
    (mountsBacked (OnProcessTask opts noFaults t st).2
      ∧ secretsLive (OnProcessTask opts noFaults t st).2)
    ∧ (∀ ext : String → Bool, coherent ext t → secretsBacked ext st →
        secretsBacked ext (OnProcessTask opts noFaults t st).2)
    ∧ (∀ m, t.BioosInfo ≠ none → m ∈ t.AccelerateNames →
        (OnProcessTask opts noFaults t st).2.pvcWithTasksCache m
          = some (addRef t.ID (st.pvcWithTasksCache m))
        ∧ mountRequests m (OnProcessTask opts noFaults t st).2.trace
          = mountRequests m st.trace ++
            (if (st.pvcWithTasksCache m).isSome then []
             else [{ verb := Verb.create, kind := Kind.pv, name := m },
                   { verb := Verb.create, kind := Kind.pvc, name := m }]))
    ∧ (OnProcessTask opts noFaults t st).1 = (runner.Result.empty, none) := by
  unfold OnProcessTask
  cases hb : t.BioosInfo with
  | none =>
    exact ⟨⟨hback, hlive⟩, fun _ _ h => h, fun m h => absurd rfl h, rfl⟩
  | some bioosInfo =>
    by_cases hl : t.AccelerateNames.length = 0
    · simp only [hl, ↓reduceIte]
      refine ⟨⟨hback, hlive⟩, fun _ _ h => h, fun m _ hm => ?_, trivial⟩
      rw [List.length_eq_zero.mp hl] at hm
      cases hm
    · obtain ⟨l1, l2, l3, l4, l5, l6⟩ := OnProcessTask_loop opts t bioosInfo t.AccelerateNames
        { errs := [], existDeleting := false, st := st } hback hlive
      simp only [hl, ↓reduceIte]
      generalize t.AccelerateNames.foldl (OnProcessTaskBody opts noFaults t bioosInfo)
        { errs := [], existDeleting := false, st := st } = R at l1 l2 l3 l4 l5 l6 ⊢
      simp only at l5 l6
      rw [l5, l6]
      refine ⟨l1, fun ext hco hsec => l4 ext (hco bioosInfo hb) hsec, fun m _ hm => l3 m hm, rfl⟩

/-- `OnFinishTask` when no request fails. -/
theorem OnFinishTask_summary (t : Task) (st : State)
    (hback : mountsBacked st) (hlive : secretsLive st) :
    (mountsBacked (OnFinishTask noFaults t st).2 ∧ secretsLive (OnFinishTask noFaults t st).2)
    ∧ (∀ c, c ∈ st.trace → c ∈ (OnFinishTask noFaults t st).2.trace)
    ∧ (∀ ext : String → Bool, coherent ext t → secretsBacked ext st →
        secretsBacked ext (OnFinishTask noFaults t st).2)
    ∧ (∀ m, t.BioosInfo ≠ none → m ∈ t.AccelerateNames →
        (OnFinishTask noFaults t st).2.pvcWithTasksCache m
          = dropRef t.ID (st.pvcWithTasksCache m)
        ∧ (dropRef t.ID (st.pvcWithTasksCache m) ≠ none →
            mountRequests m (OnFinishTask noFaults t st).2.trace = mountRequests m st.trace)
        ∧ ((st.pvcWithTasksCache m).isSome = true → dropRef t.ID (st.pvcWithTasksCache m) = none →
            ({ verb := Verb.delete, kind := Kind.pvc, name := m } : Call)
              ∈ (OnFinishTask noFaults t st).2.trace
            ∧ ({ verb := Verb.delete, kind := Kind.pv, name := m } : Call)
              ∈ (OnFinishTask noFaults t st).2.trace))
    ∧ (OnFinishTask noFaults t st).1 = none := by
  unfold OnFinishTask
  cases hb : t.BioosInfo with
  | none =>
    exact ⟨⟨hback, hlive⟩, fun _ h => h, fun _ _ h => h, fun m h => absurd rfl h, rfl⟩
  | some bioosInfo =>
    by_cases hl : t.AccelerateNames.length = 0
    · simp only [hl, ↓reduceIte]
      refine ⟨⟨hback, hlive⟩, fun _ h => h, fun _ _ h => h, fun m _ hm => ?_, trivial⟩
      rw [List.length_eq_zero.mp hl] at hm
      cases hm
    · obtain ⟨l1, l0, l2, l3, l4, l5⟩ := OnFinishTask_loop t bioosInfo t.AccelerateNames
        { errs := [], existDeleting := false, st := st } hback hlive
      simp only [hl, ↓reduceIte]
      generalize t.AccelerateNames.foldl (OnFinishTaskBody noFaults t bioosInfo)
        { errs := [], existDeleting := false, st := st } = R at l1 l0 l2 l3 l4 l5 ⊢
      simp only at l5
      rw [l5]
      refine ⟨l1, l0, fun ext hco hsec => l4 ext (hco bioosInfo hb) hsec, fun m _ hm => l3 m hm,
        rfl⟩

theorem mountsBacked_New : mountsBacked New := by
  intro n
  exact ⟨rfl, rfl, fun h => by cases h⟩

theorem secretsLive_New : secretsLive New := by
  intro n s h
  cases h

theorem secretsBacked_New (ext : String → Bool) : secretsBacked ext New := by
  intro n
  show false = (ext n && false)
  rw [Bool.and_false]

/-- `processAll` from a state in which the mount `m` is referenced by the
tasks `seen`: the tasks are added, nothing is created. -/
theorem processAll_referenced (opts : Options) (m : String) (tasks : List Task) (st : State)
    (seen : List String) (requests : List Call)
    (hlist : ∀ t ∈ tasks, t.BioosInfo ≠ none ∧ m ∈ t.AccelerateNames)
    (hback : mountsBacked st) (hlive : secretsLive st)
    (hstate : ∃ ids, st.pvcWithTasksCache m = some ids ∧ (∀ x, x ∈ ids ↔ x ∈ seen))
    (hreq : mountRequests m st.trace = requests) :
    mountsBacked (processAll opts noFaults tasks st)
    ∧ secretsLive (processAll opts noFaults tasks st)
    ∧ (∃ ids, (processAll opts noFaults tasks st).pvcWithTasksCache m = some ids
        ∧ ∀ x, x ∈ ids ↔ x ∈ seen ++ tasks.map fun t => t.ID)
    ∧ mountRequests m (processAll opts noFaults tasks st).trace = requests := by
  induction tasks generalizing st seen with
  | nil =>
    obtain ⟨ids, h1, h2⟩ := hstate
    exact ⟨hback, hlive, ⟨ids, h1, fun x => by simpa using h2 x⟩, hreq⟩
  | cons t rest ih =>
    obtain ⟨ids, h1, h2⟩ := hstate
    obtain ⟨⟨a, b⟩, _, c, _⟩ := OnProcessTask_summary opts t st hback hlive
    obtain ⟨c1, c2⟩ := c m (hlist t (List.mem_cons_self _ _)).1 (hlist t (List.mem_cons_self _ _)).2
    rw [h1] at c1 c2
    have := ih (OnProcessTask opts noFaults t st).2 (seen ++ [t.ID])
      (fun x hx => hlist x (List.mem_cons_of_mem _ hx)) a b
      ⟨_, c1, fun x => by
        rw [mem_addRef, List.mem_append, List.mem_singleton, ← h2 x]
        constructor
        · rintro (h | ⟨ids0, h0, hx⟩)
          · exact Or.inr h
          · cases h0
            exact Or.inl hx
        · rintro (h | h)
          · exact Or.inr ⟨ids, rfl, h⟩
          · exact Or.inl h⟩
      (by rw [c2, hreq]; simp)
    obtain ⟨i1, i2, ⟨ids', i3, i4⟩, i5⟩ := this
    refine ⟨i1, i2, ⟨ids', i3, fun x => ?_⟩, i5⟩
    rw [i4 x]
    simp [List.append_assoc]

/-- `finishAll` for tasks other than `last` while `last` references the
mount `m`: the entry stays, nothing of the mount is requested. -/
theorem finishAll_referenced (m : String) (last : Task) (fin : List Task) (st : State)
    (requests : List Call)
    (hlist : ∀ t ∈ fin, t.BioosInfo ≠ none ∧ m ∈ t.AccelerateNames)
    (hlast : ∀ t ∈ fin, t.ID ≠ last.ID)
    (hback : mountsBacked st) (hlive : secretsLive st)
    (hstate : ∃ ids, st.pvcWithTasksCache m = some ids ∧ last.ID ∈ ids
      ∧ ∀ x ∈ ids, x = last.ID ∨ x ∈ fin.map fun t => t.ID)
    (hreq : mountRequests m st.trace = requests) :
    mountsBacked (finishAll noFaults fin st)
    ∧ secretsLive (finishAll noFaults fin st)
    ∧ (∃ ids, (finishAll noFaults fin st).pvcWithTasksCache m = some ids ∧ last.ID ∈ ids
        ∧ ∀ x ∈ ids, x = last.ID)
    ∧ mountRequests m (finishAll noFaults fin st).trace = requests := by
  induction fin generalizing st with
  | nil =>
    obtain ⟨ids, h1, h2, h3⟩ := hstate
    refine ⟨hback, hlive, ⟨ids, h1, h2, fun x hx => ?_⟩, hreq⟩
    rcases h3 x hx with h | h
    · exact h
    · cases h
  | cons t rest ih =>
    obtain ⟨ids, h1, h2, h3⟩ := hstate
    obtain ⟨⟨a, b⟩, _, _, c, _⟩ := OnFinishTask_summary t st hback hlive
    obtain ⟨c1, c2, _⟩ := c m (hlist t (List.mem_cons_self _ _)).1
      (hlist t (List.mem_cons_self _ _)).2
    have hne : last.ID ≠ t.ID := fun e => hlast t (List.mem_cons_self _ _) e.symm
    have hmem : last.ID ∈ deleteID t.ID ids := (mem_deleteID _ _ _).mpr ⟨h2, hne⟩
    have hkeep : deleteID t.ID ids ≠ [] := List.ne_nil_of_mem hmem
    rw [h1, dropRef_some_keep _ _ hkeep] at c1 c2
    exact ih (OnFinishTask noFaults t st).2
      (fun x hx => hlist x (List.mem_cons_of_mem _ hx))
      (fun x hx => hlast x (List.mem_cons_of_mem _ hx)) a b
      ⟨_, c1, hmem, fun x hx => by
        obtain ⟨hx1, hx2⟩ := (mem_deleteID _ _ _).mp hx
        rcases h3 x hx1 with h | h
        · exact Or.inl h
        · rw [List.map_cons, List.mem_cons] at h
          rcases h with h | h
          · exact absurd h hx2
          · exact Or.inr h⟩
      (by rw [c2 (by simp), hreq])

theorem isSome_false_eq_none {α : Type} (o : Option α) (h : o.isSome = false) : o = none :=
  (isSome_eq_false_iff o).mp h

/-- C9: from the accelerator as `New` makes it, with no request failing and
the cluster removing a deleted object at once, let
`tasks` be tasks with distinct ids that all list the mount `m` (such as
`workflow-B`). `OnProcessTask` for all of them sends exactly one create
request for the PV `m` and one for the PVC `m`, and both exist afterwards.
`OnFinishTask` for all but one of them, in any order, sends no create or
delete request for the PV or PVC `m` and leaves them present. `OnFinishTask`
for the last one sends the delete requests for the PVC and the PV, after which
neither exists and the table has no entry for `m`. -/
theorem mount_created_once_deleted_last (opts : Options) (m : String)
    (tasks finished : List Task) (last : Task)
    (hdistinct : tasks.Pairwise fun a b => a.ID ≠ b.ID)
    (hlist : ∀ t ∈ tasks, t.BioosInfo ≠ none ∧ m ∈ t.AccelerateNames)
    (horder : (finished ++ [last]).Perm tasks) :
    (mountRequests m (processAll opts noFaults tasks New).trace
        = [{ verb := Verb.create, kind := Kind.pv, name := m },
           { verb := Verb.create, kind := Kind.pvc, name := m }]
      ∧ ((processAll opts noFaults tasks New).pvs m).isSome = true
      ∧ ((processAll opts noFaults tasks New).pvcs m).isSome = true)
    ∧ (mountRequests m (finishAll noFaults finished (processAll opts noFaults tasks New)).trace
        = [{ verb := Verb.create, kind := Kind.pv, name := m },
           { verb := Verb.create, kind := Kind.pvc, name := m }]
      ∧ ((finishAll noFaults finished (processAll opts noFaults tasks New)).pvs m).isSome = true
      ∧ ((finishAll noFaults finished (processAll opts noFaults tasks New)).pvcs m).isSome = true)
    ∧ (({ verb := Verb.delete, kind := Kind.pvc, name := m } : Call)
        ∈ (OnFinishTask noFaults last
            (finishAll noFaults finished (processAll opts noFaults tasks New))).2.trace
      ∧ ({ verb := Verb.delete, kind := Kind.pv, name := m } : Call)
        ∈ (OnFinishTask noFaults last
            (finishAll noFaults finished (processAll opts noFaults tasks New))).2.trace
      ∧ (OnFinishTask noFaults last
            (finishAll noFaults finished (processAll opts noFaults tasks New))).2.pvcs m = none
      ∧ (OnFinishTask noFaults last
            (finishAll noFaults finished (processAll opts noFaults tasks New))).2.pvs m = none
      ∧ (OnFinishTask noFaults last
            (finishAll noFaults finished
              (processAll opts noFaults tasks New))).2.pvcWithTasksCache m = none) := by
  -- the ids of `finished ++ [last]` are those of `tasks`, without repetition
  have hnodup : (tasks.map fun t => t.ID).Nodup := by
    rw [List.Nodup, List.pairwise_map]
    exact hdistinct
  have hnodup' : ((finished ++ [last]).map fun t => t.ID).Nodup :=
    (List.Perm.nodup_iff (List.Perm.map _ horder)).mpr hnodup
  have hlastmem : last ∈ tasks := (List.Perm.mem_iff horder).mp (by simp)
  have hfinmem : ∀ t ∈ finished, t ∈ tasks := fun t ht =>
    (List.Perm.mem_iff horder).mp (List.mem_append_left _ ht)
  have hlastne : ∀ t ∈ finished, t.ID ≠ last.ID := by
    intro t ht e
    rw [List.map_append, List.nodup_append] at hnodup'
    exact hnodup'.2.2 (List.mem_map_of_mem _ ht) (by simp [e])
  -- processing
  obtain ⟨p1, p2, ⟨ids, p3, p4⟩, p5⟩ :
      mountsBacked (processAll opts noFaults tasks New)
      ∧ secretsLive (processAll opts noFaults tasks New)
      ∧ (∃ ids, (processAll opts noFaults tasks New).pvcWithTasksCache m = some ids
          ∧ ∀ x, x ∈ ids ↔ x ∈ tasks.map fun t => t.ID)
      ∧ mountRequests m (processAll opts noFaults tasks New).trace
          = [{ verb := Verb.create, kind := Kind.pv, name := m },
             { verb := Verb.create, kind := Kind.pvc, name := m }] := by
    cases tasks with
    | nil => cases hlastmem
    | cons t rest =>
      obtain ⟨⟨a, b⟩, _, c, _⟩ :=
        OnProcessTask_summary opts t New mountsBacked_New secretsLive_New
      obtain ⟨c1, c2⟩ := c m (hlist t (List.mem_cons_self _ _)).1
        (hlist t (List.mem_cons_self _ _)).2
      have := processAll_referenced opts m rest (OnProcessTask opts noFaults t New).2 [t.ID] _
        (fun x hx => hlist x (List.mem_cons_of_mem _ hx)) a b
        ⟨_, c1, fun x => by simp [addRef, New]⟩ c2
      obtain ⟨i1, i2, ⟨ids, i3, i4⟩, i5⟩ := this
      refine ⟨i1, i2, ⟨ids, i3, fun x => ?_⟩, ?_⟩
      · rw [i4 x]
        simp
      · show mountRequests m
          (processAll opts noFaults rest (OnProcessTask opts noFaults t New).2).trace = _
        rw [i5]
        simp [New, mountRequests]
  have hpv1 := (p1 m).1
  have hpvc1 := (p1 m).2.1
  rw [p3] at hpv1 hpvc1
  -- all but the last finished
  obtain ⟨f1, f2, ⟨ids', f3, f4, f5⟩, f6⟩ := finishAll_referenced m last finished
    (processAll opts noFaults tasks New) _
    (fun t ht => hlist t (hfinmem t ht)) hlastne p1 p2
    ⟨ids, p3, (p4 _).mpr (List.mem_map_of_mem _ hlastmem), fun x hx => by
      have h := (p4 x).mp hx
      rw [← List.Perm.mem_iff (List.Perm.map _ horder), List.map_append, List.mem_append] at h
      rcases h with h | h
      · exact Or.inr h
      · simp only [List.map_cons, List.map_nil, List.mem_singleton] at h
        exact Or.inl h⟩
    p5
  have hpv2 := (f1 m).1
  have hpvc2 := (f1 m).2.1
  rw [f3] at hpv2 hpvc2
  -- the last one
  obtain ⟨⟨l1, _⟩, _, _, l3, _⟩ := OnFinishTask_summary last
    (finishAll noFaults finished (processAll opts noFaults tasks New)) f1 f2
  obtain ⟨l4, _, l5⟩ := l3 m (hlist last hlastmem).1 (hlist last hlastmem).2
  have hdel : deleteID last.ID ids' = [] := by
    rw [List.eq_nil_iff_forall_not_mem]
    intro x hx
    obtain ⟨hx1, hx2⟩ := (mem_deleteID _ _ _).mp hx
    exact hx2 (f5 x hx1)
  rw [f3, dropRef_some_last _ _ hdel] at l4
  rw [f3] at l5
  obtain ⟨d1, d2⟩ := l5 rfl (dropRef_some_last _ _ hdel)
  have hpv3 := (l1 m).1
  have hpvc3 := (l1 m).2.1
  rw [l4] at hpv3 hpvc3
  exact ⟨⟨p5, hpv1, hpvc1⟩, ⟨f6, hpv2, hpvc2⟩, d1, d2, isSome_false_eq_none _ hpvc3,
    isSome_false_eq_none _ hpv3, l4⟩

/-- C9 at three tasks listing `workflow-B`, finished in the order third,
first, second. -/
theorem mount_created_once_deleted_last_witness :
    mountRequests (pvcNameFromBucket "B")
        (finishAll noFaults
          [mountTask "t3" "sub1" [pvcNameFromBucket "B"] [],
           mountTask "t1" "sub1" [pvcNameFromBucket "B"] []]
          (processAll sampleOptions noFaults
            [mountTask "t1" "sub1" [pvcNameFromBucket "B"] [],
             mountTask "t2" "sub1" [pvcNameFromBucket "B"] [],
             mountTask "t3" "sub1" [pvcNameFromBucket "B"] []] New)).trace
      = [{ verb := Verb.create, kind := Kind.pv, name := pvcNameFromBucket "B" },
         { verb := Verb.create, kind := Kind.pvc, name := pvcNameFromBucket "B" }]
    ∧ (OnFinishTask noFaults (mountTask "t2" "sub1" [pvcNameFromBucket "B"] [])
        (finishAll noFaults
          [mountTask "t3" "sub1" [pvcNameFromBucket "B"] [],
           mountTask "t1" "sub1" [pvcNameFromBucket "B"] []]
          (processAll sampleOptions noFaults
            [mountTask "t1" "sub1" [pvcNameFromBucket "B"] [],
             mountTask "t2" "sub1" [pvcNameFromBucket "B"] [],
             mountTask "t3" "sub1" [pvcNameFromBucket "B"] []] New))).2.pvcs
        (pvcNameFromBucket "B") = none :=
  ⟨(mount_created_once_deleted_last sampleOptions (pvcNameFromBucket "B")
      [mountTask "t1" "sub1" [pvcNameFromBucket "B"] [],
       mountTask "t2" "sub1" [pvcNameFromBucket "B"] [],
       mountTask "t3" "sub1" [pvcNameFromBucket "B"] []]
      [mountTask "t3" "sub1" [pvcNameFromBucket "B"] [],
       mountTask "t1" "sub1" [pvcNameFromBucket "B"] []]
      (mountTask "t2" "sub1" [pvcNameFromBucket "B"] [])
      (by decide) (by intro t ht; simp at ht; rcases ht with h | h | h <;> subst h <;> simp [mountTask])
      (by decide)).2.1.1,
   (mount_created_once_deleted_last sampleOptions (pvcNameFromBucket "B")
      [mountTask "t1" "sub1" [pvcNameFromBucket "B"] [],
       mountTask "t2" "sub1" [pvcNameFromBucket "B"] [],
       mountTask "t3" "sub1" [pvcNameFromBucket "B"] []]
      [mountTask "t3" "sub1" [pvcNameFromBucket "B"] [],
       mountTask "t1" "sub1" [pvcNameFromBucket "B"] []]
      (mountTask "t2" "sub1" [pvcNameFromBucket "B"] [])
      (by decide) (by intro t ht; simp at ht; rcases ht with h | h | h <;> subst h <;> simp [mountTask])
      (by decide)).2.2.2.2.1⟩

end mounttos

/-! ## Mount names, bucket selection and the rewriting of inputs -/

namespace mounttos

open localstore

theorem span_dash (l1 l2 : List Char) (h : ∀ c ∈ l1, c ≠ '-') :
    (l1 ++ '-' :: l2).span (fun c => c != '-') = (l1, '-' :: l2) := by
  induction l1 with
  | nil => simp [List.span_eq_take_drop]
  | cons a l1 ih =>
    have ha : a ≠ '-' := h a (List.mem_cons_self _ _)
    have ih1 := ih fun c hc => h c (List.mem_cons_of_mem _ hc)
    rw [List.span_eq_take_drop] at ih1 ⊢
    simp only [List.cons_append, List.takeWhile_cons, List.dropWhile_cons, bne_iff_ne, ne_eq, ha,
      not_false_eq_true, decide_True, ↓reduceIte]
    rw [Prod.mk.injEq] at ih1 ⊢
    exact ⟨by rw [ih1.1], ih1.2⟩

theorem parseBucketFromPVCName_after_dash (before bucket : String)
    (h : ∀ c ∈ before.toList, c ≠ '-') :
    parseBucketFromPVCName (before ++ "-" ++ bucket) = bucket := by
  unfold parseBucketFromPVCName
  have : (before ++ "-" ++ bucket).toList = before.toList ++ '-' :: bucket.toList := by
    simp [String.toList, String.data_append]
  rw [this, span_dash _ _ h]
  rfl

/-- The bucket read back from the mount name of a default-credential bucket is
the bucket. -/
theorem parseBucketFromPVCName_pvcNameFromBucket (bucket : String) :
    parseBucketFromPVCName (pvcNameFromBucket bucket) = bucket := by
  have h := parseBucketFromPVCName_after_dash "workflow" bucket (by decide)
  have e : pvcNameFromBucket bucket = "workflow" ++ "-" ++ bucket := by
    unfold pvcNameFromBucket
    rw [String.append_assoc]
    rfl
  rw [e, h]

/-- The bucket read back from the mount name of an external bucket is the
bucket when the submission id has no dash. -/
theorem parseBucketFromPVCName_pvcNameFromExternalBucket (submissionID bucket : String)
    (h : ∀ c ∈ submissionID.toList, c ≠ '-') :
    parseBucketFromPVCName (pvcNameFromExternalBucket submissionID bucket) = bucket :=
  parseBucketFromPVCName_after_dash submissionID bucket h

theorem mountOne_containers (podTemplate : PodTemplateSpec) (pvcName : String) :
    (mountOne podTemplate pvcName).Containers.length = podTemplate.Containers.length
    ∧ ∀ c ∈ (mountOne podTemplate pvcName).Containers,
        ({ Name := pvcName, ReadOnly := true,
           MountPath := mountTOSPath (parseBucketFromPVCName pvcName) } : VolumeMount)
          ∈ c.VolumeMounts := by
  constructor
  · simp [mountOne]
  · intro c hc
    simp only [mountOne, List.mem_map] at hc
    obtain ⟨c0, _, rfl⟩ := hc
    simp

theorem mountOne_keeps (podTemplate : PodTemplateSpec) (pvcName : String) (m : VolumeMount)
    (h : ∀ c ∈ podTemplate.Containers, m ∈ c.VolumeMounts) :
    ∀ c ∈ (mountOne podTemplate pvcName).Containers, m ∈ c.VolumeMounts := by
  intro c hc
  simp only [mountOne, List.mem_map] at hc
  obtain ⟨c0, h0, rfl⟩ := hc
  exact List.mem_append_left _ (h c0 h0)

theorem foldl_mountOne_keeps (names : List String) (podTemplate : PodTemplateSpec)
    (m : VolumeMount) (h : ∀ c ∈ podTemplate.Containers, m ∈ c.VolumeMounts) :
    ∀ c ∈ (names.foldl mountOne podTemplate).Containers, m ∈ c.VolumeMounts := by
  induction names generalizing podTemplate with
  | nil => exact h
  | cons n rest ih => exact ih _ (mountOne_keeps podTemplate n m h)

/-- `mountPVC` mounts every mount the task lists, read-only, in every
container, at the path of the bucket read back from the mount name. -/
theorem mountPVC_mounts (podTemplate : PodTemplateSpec) (localTask : Task) (pvcName : String)
    (h : pvcName ∈ localTask.AccelerateNames) :
    ∀ c ∈ (mountPVC podTemplate localTask).Containers,
      ({ Name := pvcName, ReadOnly := true,
         MountPath := mountTOSPath (parseBucketFromPVCName pvcName) } : VolumeMount)
        ∈ c.VolumeMounts := by
  unfold mountPVC
  have hne : localTask.AccelerateNames.length ≠ 0 := by
    intro h0
    rw [List.length_eq_zero.mp h0] at h
    cases h
  rw [if_neg hne]
  generalize localTask.AccelerateNames = names at h
  induction names generalizing podTemplate with
  | nil => cases h
  | cons n rest ih =>
    rcases List.mem_cons.mp h with h1 | h1
    · subst h1
      exact foldl_mountOne_keeps rest _ _ (mountOne_containers podTemplate pvcName).2
    · exact ih _ h1

/-- C11, at a submission id with a dash: for the submission id `sub-1` and the external
bucket `X`, the bucket read back from the mount name is `1-X`, not `X`; so
for the task with the input `s3://X/k` `ModifySyncTask` names the mount
`sub-1-X` and rewrites the input to `/tos-data/X/k`, while `mountPVC` mounts
that mount at `/tos-data/1-X`. -/
theorem parseBucketFromPVCName_dash_in_submission :
    parseBucketFromPVCName (pvcNameFromExternalBucket "sub-1" "X") = "1-X"
    ∧ ModifySyncTask urlParse id sampleOptions (syncTask "sub-1" ["s3://X/k"] ["X"])
        = some ([pvcNameFromExternalBucket "sub-1" "X"], [some { URL := "/tos-data/X/k" }])
    ∧ (mountPVC { Volumes := [], Containers := [{ VolumeMounts := [] }] }
          (mountTask "t" "sub-1" [pvcNameFromExternalBucket "sub-1" "X"] ["X"])).Containers
        = [{ VolumeMounts := [{ Name := "sub-1-X", ReadOnly := true, MountPath := "/tos-data/1-X" }] }] := by
  decide

end mounttos

namespace mounttos

open localstore

theorem replaceFirstChars_at_start (old new rest : List Char) (h : old ≠ []) :
    replaceFirstChars old new (old ++ rest) = new ++ rest := by
  cases old with
  | nil => exact absurd rfl h
  | cons c cs =>
    have hp : (c :: cs).isPrefixOf (c :: (cs ++ rest)) = true := by
      rw [List.isPrefixOf_iff_prefix]
      exact List.prefix_append (c :: cs) rest
    show replaceFirstChars (c :: cs) new (c :: (cs ++ rest)) = new ++ rest
    unfold replaceFirstChars
    rw [if_pos hp]
    have : (c :: (cs ++ rest)).drop (c :: cs).length = rest := by
      have := List.drop_left (c :: cs) rest
      simpa using this
    rw [this]

theorem stringsReplaceOnce_at_start (old new rest : String) (h : old ≠ "") :
    stringsReplaceOnce (old ++ rest) old new = new ++ rest := by
  unfold stringsReplaceOnce
  have hne : old.toList ≠ [] := by
    intro h0
    apply h
    have : old = String.mk old.toList := rfl
    rw [this, h0]
  have : (old ++ rest).toList = old.toList ++ rest.toList := by
    simp [String.toList, String.data_append]
  rw [this, replaceFirstChars_at_start _ _ _ hne]
  apply String.ext
  simp [String.toList, String.data_append]

theorem s3_append_ne_empty (bucket : String) : "s3://" ++ bucket ≠ "" := by
  intro h
  have := congrArg String.length h
  simp only [String.length_append] at this
  have h5 : "s3://".length = 5 := by decide
  rw [h5] at this
  have h0 : "".length = 0 := by decide
  rw [h0] at this
  omega

theorem rewriteInput_selected (urlParse : String → Option URL) (buckets : List String)
    (input : Input) (b rest : String) (hb : extractBucket urlParse input.URL = b) (hne : b ≠ "")
    (hsel : b ∈ buckets) (hurl : input.URL = "s3://" ++ b ++ rest) :
    (rewriteInput urlParse buckets input).URL = "/tos-data/" ++ b ++ rest := by
  unfold rewriteInput
  simp only [hb, hne, ↓reduceIte, hsel, not_true_eq_false]
  rw [hurl, stringsReplaceOnce_at_start _ _ _ (s3_append_ne_empty b)]
  rfl

theorem rewriteInput_other (urlParse : String → Option URL) (buckets : List String)
    (input : Input)
    (h : extractBucket urlParse input.URL = "" ∨ extractBucket urlParse input.URL ∉ buckets) :
    rewriteInput urlParse buckets input = input := by
  unfold rewriteInput
  rcases h with h | h
  · simp [h]
  · by_cases h0 : extractBucket urlParse input.URL = ""
    · simp [h0]
    · simp [h0, h]

theorem map_rewriteInput_nil (urlParse : String → Option URL) (inputs : List Input) :
    inputs.map (rewriteInput urlParse []) = inputs := by
  induction inputs with
  | nil => rfl
  | cons a rest ih =>
    rw [List.map_cons, ih, rewriteInput_other urlParse [] a (Or.inr (List.not_mem_nil _))]

theorem derefAll_map_some {α : Type} (l : List α) : derefAll (l.map some) = some l := by
  induction l with
  | nil => rfl
  | cons a rest ih => simp [derefAll, ih]

theorem derefAll_of_mem_none {α : Type} (l : List (Option α)) (h : none ∈ l) :
    derefAll l = none := by
  induction l with
  | nil => cases h
  | cons a rest ih =>
    cases a with
    | none => rfl
    | some a =>
      have hr : none ∈ rest := by
        rcases List.mem_cons.mp h with h1 | h1
        · cases h1
        · exact h1
      simp [derefAll, ih hr]

theorem extractBucketsAndSort_map_some (urlParse : String → Option URL)
    (mapOrder : List String → List String) (inputs : List Input) :
    extractBucketsAndSort urlParse mapOrder (inputs.map some)
      = some (sortSlice
          (fun a b => decide (bucketCounts urlParse inputs a > bucketCounts urlParse inputs b))
          (mapOrder (bucketKeys urlParse inputs))) := by
  unfold extractBucketsAndSort
  rw [derefAll_map_some]

/-- An input that is nil makes the selection of the buckets panic, whatever
the other inputs, the options and the credentials are. -/
theorem getAccelerateBuckets_nil_input (urlParse : String → Option URL)
    (mapOrder : List String → List String) (opts : Options) (taskFull : TaskFull)
    (externalBucketSet : String → Bool) (h : none ∈ taskFull.Inputs) :
    extractBucketsAndSort urlParse mapOrder taskFull.Inputs = none
    ∧ getAccelerateBuckets urlParse mapOrder opts taskFull externalBucketSet = none := by
  have h1 : extractBucketsAndSort urlParse mapOrder taskFull.Inputs = none := by
    unfold extractBucketsAndSort
    rw [derefAll_of_mem_none _ h]
  refine ⟨h1, ?_⟩
  unfold getAccelerateBuckets
  rw [h1]

end mounttos

namespace mounttos

open localstore

theorem mem_bucketKeys (urlParse : String → Option URL) (inputs : List Input) (b : String) :
    b ∈ bucketKeys urlParse inputs
      ↔ b ≠ "" ∧ ∃ input ∈ inputs, extractBucket urlParse input.URL = b := by
  unfold bucketKeys
  rw [List.mem_dedup, List.mem_filter, List.mem_map]
  constructor
  · rintro ⟨⟨input, hin, rfl⟩, hne⟩
    exact ⟨by simpa using hne, input, hin, rfl⟩
  · rintro ⟨hne, input, hin, rfl⟩
    exact ⟨⟨input, hin, rfl⟩, by simpa using hne⟩

theorem extractBucket_eq_iff (urlParse : String → Option URL) (url b : String) (hne : b ≠ "") :
    extractBucket urlParse url = b
      ↔ ∃ u, urlParse url = some u ∧ u.Scheme = "s3" ∧ u.Host = b := by
  unfold extractBucket
  cases h : urlParse url with
  | none =>
    constructor
    · intro h0
      exact absurd h0.symm hne
    · rintro ⟨u, hu, _⟩
      cases hu
  | some u =>
    by_cases hs : u.Scheme = "s3"
    · simp [S3Type, hs]
    · have hs2 : u.Scheme ≠ S3Type := hs
      show (if u.Scheme ≠ S3Type then "" else u.Host) = b ↔ _
      rw [if_pos hs2]
      constructor
      · intro h0
        exact absurd h0.symm hne
      · rintro ⟨v, hv, hv2, _⟩
        cases hv
        exact absurd hv2 hs

theorem sortSlice_perm {α : Type} (less : α → α → Bool) (l : List α) :
    (sortSlice less l).Perm l :=
  List.perm_insertionSort _ l

theorem sortSlice_by_count_sorted (count : String → Nat) (l : List String) :
    (sortSlice (fun a b => decide (count a > count b)) l).Pairwise
      (fun a b => count b ≤ count a) := by
  have hinst1 : IsTotal String (fun a b => decide (count b > count a) = false) :=
    ⟨fun a b => by
      simp only [gt_iff_lt, decide_eq_false_iff_not, not_lt]
      exact le_total _ _⟩
  have hinst2 : IsTrans String (fun a b => decide (count b > count a) = false) :=
    ⟨fun a b c hab hbc => by
      simp only [gt_iff_lt, decide_eq_false_iff_not, not_lt] at hab hbc ⊢
      exact le_trans hbc hab⟩
  have := List.sorted_insertionSort (fun a b => decide (count b > count a) = false) l
  unfold List.Sorted at this
  unfold sortSlice
  refine List.Pairwise.imp ?_ this
  intro a b h
  simpa using h

theorem truncate_eq_take (bs : List String) (n : Int) (hN : 0 ≤ n) :
    (if (bs.length : Int) > n then (if n < 0 then none else some (bs.take n.toNat))
      else some bs) = some (bs.take n.toNat) := by
  by_cases h : (bs.length : Int) > n
  · rw [if_pos h, if_neg (not_lt.mpr hN)]
  · rw [if_neg h, List.take_of_length_le]
    omega

/-- The buckets of inputs none of which is nil, sorted by `extractBucketsAndSort`. -/
theorem getAccelerateBuckets_eq (urlParse : String → Option URL)
    (mapOrder : List String → List String) (opts : Options) (taskFull : TaskFull)
    (externalBucketSet : String → Bool) (inputs : List Input)
    (hin : taskFull.Inputs = inputs.map some) (hN : 0 ≤ opts.BucketNumPerTask) :
    getAccelerateBuckets urlParse mapOrder opts taskFull externalBucketSet
      = some ((if opts.StaticTOSSecretName = "" then
            (sortSlice (fun a b =>
                decide (bucketCounts urlParse inputs a > bucketCounts urlParse inputs b))
              (mapOrder (bucketKeys urlParse inputs))).filter externalBucketSet
          else sortSlice (fun a b =>
                decide (bucketCounts urlParse inputs a > bucketCounts urlParse inputs b))
              (mapOrder (bucketKeys urlParse inputs))).take
            opts.BucketNumPerTask.toNat) := by
  unfold getAccelerateBuckets
  rw [hin, extractBucketsAndSort_map_some]
  simp only []
  generalize sortSlice (fun a b =>
      decide (bucketCounts urlParse inputs a > bucketCounts urlParse inputs b))
    (mapOrder (bucketKeys urlParse inputs)) = sorted
  by_cases h0 : sorted.length = 0
  · have hnil := List.length_eq_zero.mp h0
    simp [hnil]
  · simp only [h0, ↓reduceIte]
    rw [truncate_eq_take _ _ hN]
    by_cases hs : opts.StaticTOSSecretName = ""
    · simp [hs]
    · simp [hs]

theorem extractBucketsAndSort_perm (urlParse : String → Option URL)
    (mapOrder : List String → List String) (hperm : ∀ l, (mapOrder l).Perm l)
    (inputs : List Input) :
    (sortSlice (fun a b =>
        decide (bucketCounts urlParse inputs a > bucketCounts urlParse inputs b))
      (mapOrder (bucketKeys urlParse inputs))).Perm (bucketKeys urlParse inputs) :=
  (sortSlice_perm _ _).trans (hperm _)

theorem pairwise_take_drop {α : Type} (r : α → α → Prop) (l : List α) (n : Nat)
    (h : l.Pairwise r) : ∀ a ∈ l.take n, ∀ c ∈ l.drop n, r a c := by
  have h2 : (l.take n ++ l.drop n).Pairwise r := by rw [List.take_append_drop]; exact h
  rw [List.pairwise_append] at h2
  exact h2.2.2

theorem mem_take_or_drop {α : Type} (l : List α) (n : Nat) (c : α) (h : c ∈ l) :
    c ∈ l.take n ∨ c ∈ l.drop n := by
  rw [← List.mem_append, List.take_append_drop]
  exact h

/-- The selection of the buckets where it returns: with a limit N > 0, inputs
none of which is nil, and the keys of the count map ranged over in any
order, `getAccelerateBuckets` returns a list of at most N pairwise distinct
buckets, each the host of an input whose URL parses with the scheme `s3` and
each eligible; the eligible buckets are the non-empty hosts of such inputs
when a default secret name is configured, and those among them with external
credentials otherwise; an eligible bucket is left out only when N buckets are
returned, so the list has N entries or holds every eligible bucket; every
returned bucket is referenced by at least as many inputs as every eligible
bucket that is not returned, and the returned list is in non-increasing order
of the number of references. -/
theorem getAccelerateBuckets_without_nil (urlParse : String → Option URL)
    (mapOrder : List String → List String) (opts : Options) (taskFull : TaskFull)
    (externalBucketSet : String → Bool) (inputs : List Input)
    (hin : taskFull.Inputs = inputs.map some) (hperm : ∀ l, (mapOrder l).Perm l)
    (hN : 0 < opts.BucketNumPerTask) :
    ∃ buckets, getAccelerateBuckets urlParse mapOrder opts taskFull externalBucketSet = some buckets
      ∧ (buckets.length : Int) ≤ opts.BucketNumPerTask
      ∧ buckets.Nodup
      ∧ (∀ b ∈ buckets, ∃ input ∈ inputs, ∃ u,
          urlParse input.URL = some u ∧ u.Scheme = "s3" ∧ u.Host = b)
      ∧ (∀ b ∈ buckets, eligible urlParse opts inputs externalBucketSet b)
      ∧ (∀ c, eligible urlParse opts inputs externalBucketSet c
          ↔ (c ≠ "" ∧ (∃ input ∈ inputs, ∃ u,
                urlParse input.URL = some u ∧ u.Scheme = "s3" ∧ u.Host = c)
              ∧ (opts.StaticTOSSecretName ≠ "" ∨ externalBucketSet c = true)))
      ∧ (∀ c, eligible urlParse opts inputs externalBucketSet c → c ∉ buckets →
          (buckets.length : Int) = opts.BucketNumPerTask)
      ∧ (∀ b ∈ buckets, ∀ c, eligible urlParse opts inputs externalBucketSet c → c ∉ buckets →
          bucketCounts urlParse inputs c ≤ bucketCounts urlParse inputs b)
      ∧ buckets.Pairwise (fun a b =>
          bucketCounts urlParse inputs b ≤ bucketCounts urlParse inputs a) := by
  have hsortedAll := sortSlice_by_count_sorted (bucketCounts urlParse inputs)
    (mapOrder (bucketKeys urlParse inputs))
  have hpermAll := extractBucketsAndSort_perm urlParse mapOrder hperm inputs
  have hnodupAll : (sortSlice (fun a b =>
        decide (bucketCounts urlParse inputs a > bucketCounts urlParse inputs b))
      (mapOrder (bucketKeys urlParse inputs))).Nodup :=
    hpermAll.nodup_iff.mpr (List.nodup_dedup _)
  have hhost : ∀ c, c ≠ "" →
      ((∃ input ∈ inputs, extractBucket urlParse input.URL = c)
        ↔ ∃ input ∈ inputs, ∃ u,
            urlParse input.URL = some u ∧ u.Scheme = "s3" ∧ u.Host = c) := by
    intro c hc
    constructor
    · rintro ⟨input, hin, he⟩
      exact ⟨input, hin, (extractBucket_eq_iff urlParse _ c hc).mp he⟩
    · rintro ⟨input, hin, he⟩
      exact ⟨input, hin, (extractBucket_eq_iff urlParse _ c hc).mpr he⟩
  -- the list the first N are taken from
  obtain ⟨l, hl, hsub, hmem⟩ : ∃ l : List String,
      getAccelerateBuckets urlParse mapOrder opts taskFull externalBucketSet
        = some (l.take opts.BucketNumPerTask.toNat)
      ∧ l.Sublist (sortSlice (fun a b =>
            decide (bucketCounts urlParse inputs a > bucketCounts urlParse inputs b))
          (mapOrder (bucketKeys urlParse inputs)))
      ∧ (∀ c, c ∈ l ↔ eligible urlParse opts inputs externalBucketSet c) := by
    refine ⟨_, getAccelerateBuckets_eq urlParse mapOrder opts taskFull externalBucketSet
      inputs hin (le_of_lt hN), ?_, ?_⟩
    · split
      · exact List.filter_sublist _
      · exact List.Sublist.refl _
    · intro c
      unfold eligible
      by_cases hs : opts.StaticTOSSecretName = ""
      · simp only [hs, ↓reduceIte, List.mem_filter, ne_eq, not_true_eq_false, false_or]
        rw [hpermAll.mem_iff]
      · simp only [hs, ↓reduceIte, ne_eq, not_false_eq_true, true_or, and_true]
        rw [hpermAll.mem_iff]
  have hsorted : l.Pairwise (fun a b =>
      bucketCounts urlParse inputs b ≤ bucketCounts urlParse inputs a) :=
    hsortedAll.sublist hsub
  have hnodup : l.Nodup := hnodupAll.sublist hsub
  have htake : (l.take opts.BucketNumPerTask.toNat).Sublist l := List.take_sublist _ _
  refine ⟨_, hl, ?_, hnodup.sublist htake, ?_, ?_, ?_, ?_, ?_, hsorted.sublist htake⟩
  · have := List.length_take_le opts.BucketNumPerTask.toNat l
    omega
  · intro b hb
    have helig := (hmem b).mp (htake.subset hb)
    have hk := (mem_bucketKeys urlParse inputs b).mp helig.1
    exact (hhost b hk.1).mp hk.2
  · intro b hb
    exact (hmem b).mp (htake.subset hb)
  · intro c
    unfold eligible
    rw [mem_bucketKeys]
    constructor
    · rintro ⟨⟨hc, hin⟩, hsec⟩
      exact ⟨hc, (hhost c hc).mp hin, hsec⟩
    · rintro ⟨hc, hin, hsec⟩
      exact ⟨⟨hc, (hhost c hc).mpr hin⟩, hsec⟩
  · intro c hc hnot
    have hcl : c ∈ l := (hmem c).mpr hc
    have hlong : opts.BucketNumPerTask.toNat < l.length := by
      by_contra hle
      rw [List.take_of_length_le (not_lt.mp hle)] at hnot
      exact hnot hcl
    rw [List.length_take, Nat.min_eq_left (le_of_lt hlong)]
    exact Int.toNat_of_nonneg (le_of_lt hN)
  · intro b hb c hc hnot
    have hcl : c ∈ l := (hmem c).mpr hc
    rcases mem_take_or_drop l opts.BucketNumPerTask.toNat c hcl with h | h
    · exact absurd h hnot
    · exact pairwise_take_drop _ l _ hsorted b hb c h

/-- C13, at an input list with an entry that is nil: for the inputs
`s3://A/1`, nil and `s3://B/1` and the limit 2, `extractBucketsAndSort` panics
at the nil entry and so does `getAccelerateBuckets`, whatever the credentials;
for the inputs without the nil entry the buckets A and B are returned, and for
six inputs of the buckets A (once), B (twice) and C (three times) the buckets
C and B, in this order. -/
theorem getAccelerateBuckets_nil_input_faults :
    extractBucketsAndSort urlParse id
        [some { URL := "s3://A/1" }, none, some { URL := "s3://B/1" }] = none
    ∧ getAccelerateBuckets urlParse id { StaticTOSSecretName := "tos-secret", BucketNumPerTask := 2 }
        { BioosInfo := (mountTask "t" "sub1" [] []).BioosInfo,
          Inputs := [some { URL := "s3://A/1" }, none, some { URL := "s3://B/1" }] }
        (fun _ => false) = none
    ∧ getAccelerateBuckets urlParse id { StaticTOSSecretName := "tos-secret", BucketNumPerTask := 2 }
        { BioosInfo := (mountTask "t" "sub1" [] []).BioosInfo,
          Inputs := [some { URL := "s3://A/1" }, some { URL := "s3://B/1" }] }
        (fun _ => false) = some ["A", "B"]
    ∧ getAccelerateBuckets urlParse id { StaticTOSSecretName := "tos-secret", BucketNumPerTask := 2 }
        (syncTask "sub1" ["s3://A/1", "s3://B/1", "s3://C/1", "s3://B/2", "s3://C/2", "s3://C/3"] [])
        (fun _ => false) = some ["C", "B"] := by
  decide

/-- An input that is nil makes `ModifySyncTask` panic for every task that has
opted in. -/
theorem ModifySyncTask_nil_input (urlParse : String → Option URL)
    (mapOrder : List String → List String) (opts : Options) (taskFull : TaskFull)
    (bioosInfo : BioosInfo) (meta : BioosInfoMeta) (hb : taskFull.BioosInfo = some bioosInfo)
    (hm : bioosInfo.Meta = some meta) (ht : meta.MountTOS = some true)
    (h : none ∈ taskFull.Inputs) :
    ModifySyncTask urlParse mapOrder opts taskFull = none := by
  unfold ModifySyncTask
  simp only [hb, hm, ht, ne_eq, not_true_eq_false, ↓reduceIte]
  rw [(getAccelerateBuckets_nil_input urlParse mapOrder opts taskFull _ h).2]

/-- `ModifySyncTask` where it returns. For a task that has not opted in it
returns no mount name and the inputs as they were. For a task that has opted
in, none of whose inputs is nil, with a limit that is not negative, it
returns: with `buckets` the buckets selected by `getAccelerateBuckets`, one
mount name for each of them and each input as `rewriteInput` leaves it: an
input of the bucket `b` among the selected whose URL is `s3://` + `b` + rest
becomes `/tos-data/` + `b` + rest; an input without bucket (its URL does not
parse or has a scheme other than `s3`) or of a bucket not selected is
unchanged. -/
theorem ModifySyncTask_without_nil (urlParse : String → Option URL)
    (mapOrder : List String → List String) (opts : Options) (taskFull : TaskFull) :
    ((∀ bioosInfo meta, taskFull.BioosInfo = some bioosInfo → bioosInfo.Meta = some meta →
        meta.MountTOS ≠ some true) →
      ModifySyncTask urlParse mapOrder opts taskFull = some ([], taskFull.Inputs))
    ∧ (∀ bioosInfo meta (inputs : List Input), taskFull.BioosInfo = some bioosInfo →
        bioosInfo.Meta = some meta → meta.MountTOS = some true →
        taskFull.Inputs = inputs.map some → 0 ≤ opts.BucketNumPerTask →
        ∃ buckets,
          getAccelerateBuckets urlParse mapOrder opts taskFull (externalBucketSet bioosInfo)
            = some buckets
          ∧ ModifySyncTask urlParse mapOrder opts taskFull
            = some (buckets.map (fun bucket =>
                if externalBucketSet bioosInfo bucket then
                  pvcNameFromExternalBucket bioosInfo.SubmissionID bucket
                else pvcNameFromBucket bucket),
              (inputs.map (rewriteInput urlParse buckets)).map some))
    ∧ (∀ buckets input b rest, extractBucket urlParse input.URL = b → b ≠ "" → b ∈ buckets →
        input.URL = "s3://" ++ b ++ rest →
        (rewriteInput urlParse buckets input).URL = "/tos-data/" ++ b ++ rest)
    ∧ (∀ buckets input,
        (extractBucket urlParse input.URL = "" ∨ extractBucket urlParse input.URL ∉ buckets) →
        rewriteInput urlParse buckets input = input)
    ∧ (∀ url, (urlParse url = none ∨ ∃ u, urlParse url = some u ∧ u.Scheme ≠ "s3") →
        extractBucket urlParse url = "") := by
  refine ⟨?_, ?_, fun buckets input b rest => rewriteInput_selected urlParse buckets input b rest,
    fun buckets input => rewriteInput_other urlParse buckets input, ?_⟩
  · intro h
    unfold ModifySyncTask
    cases hb : taskFull.BioosInfo with
    | none => rfl
    | some bioosInfo =>
      cases hm : bioosInfo.Meta with
      | none => simp [hm]
      | some meta => simp [hm, h bioosInfo meta hb hm]
  · intro bioosInfo meta inputs hb hm ht hin hN
    obtain ⟨buckets, hg⟩ : ∃ buckets,
        getAccelerateBuckets urlParse mapOrder opts taskFull (externalBucketSet bioosInfo)
          = some buckets :=
      ⟨_, getAccelerateBuckets_eq urlParse mapOrder opts taskFull (externalBucketSet bioosInfo)
        inputs hin hN⟩
    refine ⟨buckets, hg, ?_⟩
    unfold ModifySyncTask
    simp only [hb, hm, ht, ne_eq, not_true_eq_false, ↓reduceIte, hg]
    by_cases hl : buckets.length = 0
    · have hnil := List.length_eq_zero.mp hl
      subst hnil
      simp only [List.length_nil, ↓reduceIte, List.map_nil, map_rewriteInput_nil]
      rw [hin]
    · simp only [hl, ↓reduceIte]
      rw [hin, derefAll_map_some]
  · intro url h
    unfold extractBucket
    rcases h with h | ⟨u, h, hs⟩
    · rw [h]
    · rw [h]
      simp only [S3Type]
      rw [if_pos hs]

/-- C12, at an opted-in task with an input that is nil: for the inputs
`s3://B/k1` and nil, `ModifySyncTask` panics, in `extractBucketsAndSort`, which
reads the URL of every entry; without the nil entry it returns the mount
`workflow-B` and the input rewritten to `/tos-data/B/k1`, and for the task with
the inputs `s3://B/k1`, `s3://B/k2`, `s3://C/k` and an input of another scheme
it returns the mounts of B and C and the inputs rewritten as the property
says. The loop of the syncer over the same inputs passes over the nil entry. -/
theorem ModifySyncTask_nil_input_faults :
    ModifySyncTask urlParse id sampleOptions
        { BioosInfo := (mountTask "t" "sub1" [] []).BioosInfo,
          Inputs := [some { URL := "s3://B/k1" }, none] } = none
    ∧ extractBucketsAndSort urlParse id [some { URL := "s3://B/k1" }, none] = none
    ∧ ModifySyncTask urlParse id sampleOptions
        { BioosInfo := (mountTask "t" "sub1" [] []).BioosInfo,
          Inputs := [some { URL := "s3://B/k1" }] }
      = some (["workflow-B"], [some { URL := "/tos-data/B/k1" }])
    ∧ ModifySyncTask urlParse id sampleOptions
        (syncTask "sub1" ["s3://B/k1", "s3://B/k2", "s3://C/k", "http://x/y"] [])
      = some (["workflow-B", "workflow-C"],
          [some { URL := "/tos-data/B/k1" }, some { URL := "/tos-data/B/k2" },
           some { URL := "/tos-data/C/k" }, some { URL := "http://x/y" }])
    ∧ syncer.embedCredentials syncer.sampleLibrary (mountTask "t" "sub1" [] ["B"]).BioosInfo
        [some { URL := "s3://B/k1", rest := "" }, none]
      = [some { URL := "s3://ak:sk@B/k1", rest := "" }, none] := by
  decide

end mounttos

/-! ## The entry guard, failures and missing objects -/

namespace runner

open localstore

theorem not_mem_releaseProcessTask (taskID : String) (w : World) :
    taskID ∉ (releaseProcessTask taskID w).taskProcessing := by
  unfold releaseProcessTask
  simp [List.mem_filter]

theorem mem_releaseProcessTask (taskID other : String) (w : World) (h : other ≠ taskID) :
    other ∈ (releaseProcessTask taskID w).taskProcessing ↔ other ∈ w.taskProcessing := by
  unfold releaseProcessTask
  simp [List.mem_filter, h]

theorem ProcessPod_busy (r : Runner) (opts : Options) (penv : PodEnv) (podName : String)
    (pw : PodWorld) (pod : Pod) (taskID : String) (hget : penv.getPodFails = false)
    (hpod : getPod pw podName = some pod) (hlabel : label pod LabelTaskID = some taskID)
    (hbusy : taskID ∈ pw.base.taskProcessing) :
    ProcessPod r opts penv podName pw
      = (Ret.done { Requeue := false, RequeueAfter := 1000 } none,
         emitPod (PodEffect.getPod podName) pw) := by
  unfold ProcessPod
  have hpod2 : getPod (emitPod (PodEffect.getPod podName) pw) podName = some pod := hpod
  have htry : tryProcessTask taskID (emitPod (PodEffect.getPod podName) pw).base
      = (false, pw.base) := by
    unfold tryProcessTask
    exact if_pos hbusy
  simp only [hget, Bool.false_eq_true, ↓reduceIte, hpod2, hlabel, htry]
  rfl

theorem ProcessPod_released (r : Runner) (opts : Options) (penv : PodEnv) (podName : String)
    (pw : PodWorld) (pod : Pod) (taskID : String) (hget : penv.getPodFails = false)
    (hpod : getPod pw podName = some pod) (hlabel : label pod LabelTaskID = some taskID)
    (hfree : taskID ∉ pw.base.taskProcessing) :
    taskID ∉ (ProcessPod r opts penv podName pw).2.base.taskProcessing := by
  unfold ProcessPod
  have hpod2 : getPod (emitPod (PodEffect.getPod podName) pw) podName = some pod := hpod
  have htry : (tryProcessTask taskID (emitPod (PodEffect.getPod podName) pw).base).1
      = true := by
    unfold tryProcessTask
    have : taskID ∉ (emitPod (PodEffect.getPod podName) pw).base.taskProcessing := hfree
    rw [if_neg this]
  simp only [hget, Bool.false_eq_true, ↓reduceIte, hpod2, hlabel, htry]
  exact not_mem_releaseProcessTask _ _

/-- C14: `tryProcessTask` succeeds exactly when the id is not in the busy set,
and then the id is in it; on a busy id it changes nothing; after
`releaseProcessTask` the id is not in the busy set and the other entries are
as before. For an id in the busy set, `ProcessTask` returns a requeue after
one second (1000 ms) without error and leaves the world as it is: no call is
made and the busy set is unchanged; `ProcessPod` on a pod labelled with the id
returns the same, and its only request is the read of the pod, so the world of
the task, the pods and the jobs are unchanged. After a `ProcessTask` or
`ProcessPod` that was admitted, the id is not in the busy set. -/
theorem entry_guard (r : Runner) (opts : Options) (env : Env) (penv : PodEnv)
    (taskID podName : String) (w : World) (pw : PodWorld) (pod : Pod) :
    ((tryProcessTask taskID w).1 = true ↔ taskID ∉ w.taskProcessing)
    ∧ (taskID ∉ w.taskProcessing → taskID ∈ (tryProcessTask taskID w).2.taskProcessing)
    ∧ (taskID ∈ w.taskProcessing → (tryProcessTask taskID w).2 = w)
    ∧ taskID ∉ (releaseProcessTask taskID w).taskProcessing
    ∧ (∀ other, other ≠ taskID →
        (other ∈ (releaseProcessTask taskID w).taskProcessing ↔ other ∈ w.taskProcessing))
    ∧ (taskID ∈ w.taskProcessing →
        ProcessTask r env taskID w
          = (Ret.done { Requeue := false, RequeueAfter := 1000 } none, w))
    ∧ (penv.getPodFails = false → getPod pw podName = some pod →
        label pod LabelTaskID = some taskID → taskID ∈ pw.base.taskProcessing →
        (ProcessPod r opts penv podName pw).1
            = Ret.done { Requeue := false, RequeueAfter := 1000 } none
          ∧ (ProcessPod r opts penv podName pw).2.base = pw.base
          ∧ (ProcessPod r opts penv podName pw).2.pods = pw.pods
          ∧ (ProcessPod r opts penv podName pw).2.jobs = pw.jobs
          ∧ (ProcessPod r opts penv podName pw).2.calls = pw.calls ++ [PodEffect.getPod podName])
    ∧ (taskID ∉ w.taskProcessing → taskID ∉ (ProcessTask r env taskID w).2.taskProcessing)
    ∧ (penv.getPodFails = false → getPod pw podName = some pod →
        label pod LabelTaskID = some taskID → taskID ∉ pw.base.taskProcessing →
        taskID ∉ (ProcessPod r opts penv podName pw).2.base.taskProcessing) := by
  refine ⟨?_, ?_, ?_, not_mem_releaseProcessTask taskID w,
    fun other h => mem_releaseProcessTask taskID other w h, ?_, ?_, ?_,
    ProcessPod_released r opts penv podName pw pod taskID⟩
  · unfold tryProcessTask
    by_cases h : taskID ∈ w.taskProcessing
    · simp [h]
    · simp [h]
  · intro h
    unfold tryProcessTask
    simp [h]
  · intro h
    unfold tryProcessTask
    simp [h]
  · intro h
    unfold ProcessTask tryProcessTask
    simp only [h, ↓reduceIte]
    rfl
  · intro hget hpod hlabel hbusy
    rw [ProcessPod_busy r opts penv podName pw pod taskID hget hpod hlabel hbusy]
    exact ⟨rfl, rfl, rfl, rfl, rfl⟩
  · intro hfree
    unfold ProcessTask tryProcessTask
    rw [if_neg hfree]
    exact not_mem_releaseProcessTask _ _

/-- C14 at `task-1` held by another reconciliation: `ProcessTask` and
`ProcessPod` on its stager pod ask to be run again after a second and change
nothing. -/
theorem entry_guard_witness :
    "task-1" ∈ ({ sampleWorld none none with taskProcessing := ["task-1"] } : World).taskProcessing
    ∧ ProcessTask sampleRunner (sampleEnv consts.TaskRunning []) "task-1"
          { sampleWorld none none with taskProcessing := ["task-1"] }
        = (Ret.done { Requeue := false, RequeueAfter := 1000 } none,
           { sampleWorld none none with taskProcessing := ["task-1"] })
    ∧ (ProcessPod sampleRunner samplePodOptions (samplePodEnv consts.TaskRunning)
          "task-1-inputs-filer-abcde"
          (samplePodWorld ["task-1"] [stagerPod (some 0) "ImagePullBackOff"] [stagerJob])).2.jobs
        = [stagerJob] :=
  ⟨by decide,
   (entry_guard sampleRunner samplePodOptions (sampleEnv consts.TaskRunning [])
      (samplePodEnv consts.TaskRunning) "task-1" "task-1-inputs-filer-abcde"
      { sampleWorld none none with taskProcessing := ["task-1"] }
      (samplePodWorld ["task-1"] [stagerPod (some 0) "ImagePullBackOff"] [stagerJob])
      (stagerPod (some 0) "ImagePullBackOff")).2.2.2.2.2.1 (by decide),
   ((entry_guard sampleRunner samplePodOptions (sampleEnv consts.TaskRunning [])
      (samplePodEnv consts.TaskRunning) "task-1" "task-1-inputs-filer-abcde"
      { sampleWorld none none with taskProcessing := ["task-1"] }
      (samplePodWorld ["task-1"] [stagerPod (some 0) "ImagePullBackOff"] [stagerJob])
      (stagerPod (some 0) "ImagePullBackOff")).2.2.2.2.2.2.1 rfl (by decide) (by decide)
      (by decide)).2.2.2.1⟩

end runner

namespace runner

open localstore

/-- A failure of the read of the local record at the start of
`stopAndCleanTask`, other than not-found, ends in a run-time panic. -/
theorem stopAndCleanTask_read_failure (r : Runner) (env : Env) (task : CPTask) (state : String)
    (w : World) (h : env.localGetFailsOnClean = true) :
    stopAndCleanTask r env task state w = (Ret.panic, emit Effect.localGet w) := by
  unfold stopAndCleanTask GetTask
  simp [h]

/-- C15, at a failing read of the local record of a task that is being
cancelled: `stopAndCleanTask`, and `ProcessTask` with it, end in a run-time
panic (the record read is nil and its stop marker is read), where `runTask`
returns the error of the same read. -/
theorem stopAndCleanTask_read_failure_faults :
    (stopAndCleanTask sampleRunner
        { sampleEnv consts.TaskCanceling [] with localGetFailsOnClean := true }
        (sampleCPTask consts.TaskCanceling) consts.TaskCanceled
        (sampleWorld (some taskStageRunning) none)).1 = Ret.panic
    ∧ (ProcessTask sampleRunner
        { sampleEnv consts.TaskCanceling [] with localGetFailsOnClean := true } "task-1"
        (sampleWorld (some taskStageRunning) none)).1 = Ret.panic
    ∧ (runTask sampleRunner
        { sampleEnv consts.TaskRunning [] with localGetFails := true }
        (sampleCPTask consts.TaskRunning)
        (sampleWorld (some taskStageRunning) none)).1
      = Ret.done Result.empty (some (Err.failure "failed to get configmap")) := by
  decide

/-- On the stop-and-clean path a missing local record is a no-op: an empty
result, no error, and only the read is made. -/
theorem stopAndCleanTask_record_not_found (r : Runner) (env : Env) (task : CPTask)
    (state : String) (w : World) (h : env.localGetFailsOnClean = false)
    (hrec : w.record = none) :
    stopAndCleanTask r env task state w = (Ret.done Result.empty none, emit Effect.localGet w) := by
  unfold stopAndCleanTask GetTask
  simp [h, hrec]

/-- On the run path a missing local record is returned as the error. -/
theorem runTask_record_not_found (r : Runner) (env : Env) (task : CPTask) (w : World)
    (h : env.localGetFails = false) (hrec : w.record = none) :
    runTask r env task w
      = (Ret.done Result.empty (some Err.notFound), emit Effect.localGet w) := by
  unfold runTask GetTask
  simp [h, hrec]

/-- A pod that is not found is a no-op of `ProcessPod`. -/
theorem ProcessPod_pod_not_found (r : Runner) (opts : Options) (penv : PodEnv)
    (podName : String) (pw : PodWorld) (hget : penv.getPodFails = false)
    (hpod : getPod pw podName = none) :
    ProcessPod r opts penv podName pw
      = (Ret.done Result.empty none, emitPod (PodEffect.getPod podName) pw) := by
  unfold ProcessPod
  have hpod2 : getPod (emitPod (PodEffect.getPod podName) pw) podName = none := hpod
  simp [hget, hpod2]

/-- A pod without the task-id label is ignored by `ProcessPod`. -/
theorem ProcessPod_without_label (r : Runner) (opts : Options) (penv : PodEnv)
    (podName : String) (pw : PodWorld) (pod : Pod) (hget : penv.getPodFails = false)
    (hpod : getPod pw podName = some pod) (hlabel : label pod LabelTaskID = none) :
    ProcessPod r opts penv podName pw
      = (Ret.done Result.empty none, emitPod (PodEffect.getPod podName) pw) := by
  unfold ProcessPod
  have hpod2 : getPod (emitPod (PodEffect.getPod podName) pw) podName = some pod := hpod
  simp [hget, hpod2, hlabel]

/-- C16, at a running task of the agent's cluster whose local record is
missing: `ProcessTask` returns the not-found of the local store as its error,
after the reads of the control plane and of the local store and without any
change; for the same task in the state of cancelling, it returns an empty
result and no error. -/
theorem ProcessTask_record_not_found_is_error :
    ProcessTask sampleRunner (sampleEnv consts.TaskRunning []) "task-1"
        { sampleWorld none none with record := none }
      = (Ret.done Result.empty (some Err.notFound),
         { sampleWorld none none with
           record := none, trace := [Effect.cpGetTask, Effect.localGet] })
    ∧ ProcessTask sampleRunner (sampleEnv consts.TaskCanceling []) "task-1"
        { sampleWorld none none with record := none }
      = (Ret.done Result.empty none,
         { sampleWorld none none with
           record := none, trace := [Effect.cpGetTask, Effect.localGet] }) := by
  decide

end runner

/-! ## The final update of the clean-up -/

namespace runner

open localstore

/-- Neither the update of the control plane nor a call of the final clean-up. -/
theorem kubeDeleteObject_calls (env : Env) (o : Obj) (w : World) :
    ∃ new, (kubeDeleteObject env o w).2.trace = w.trace ++ new
      ∧ (∀ e ∈ new, isUpdateCall e = false ∧ isCleanupCall e = false)
      ∧ (kubeDeleteObject env o w).2.record = w.record := by
  unfold kubeDeleteObject
  by_cases hg : env.kubeGetFails o = true
  · exact ⟨[Effect.kubeGet o], by simp [hg, emit, isUpdateCall, isCleanupCall]⟩
  · by_cases ho : o ∈ w.objects
    · by_cases hf : o ∈ w.finalizers
      · cases hp : env.kubeRemoveFinalizer o
        · cases hd : env.kubeDelete o <;>
            exact ⟨[Effect.kubeGet o, Effect.kubeRemoveFinalizer o, Effect.kubeDelete o], by
              simp [hg, ho, hf, hp, hd, emit, removeObject, isUpdateCall, isCleanupCall]⟩
        · cases hd : env.kubeDelete o <;>
            exact ⟨[Effect.kubeGet o, Effect.kubeRemoveFinalizer o, Effect.kubeDelete o], by
              simp [hg, ho, hf, hp, hd, emit, removeObject, isUpdateCall, isCleanupCall]⟩
        · exact ⟨[Effect.kubeGet o, Effect.kubeRemoveFinalizer o], by
            simp [hg, ho, hf, hp, emit, removeObject, isUpdateCall, isCleanupCall]⟩
      · cases hd : env.kubeDelete o <;>
          exact ⟨[Effect.kubeGet o, Effect.kubeDelete o], by
            simp [hg, ho, hf, hd, emit, removeObject, isUpdateCall, isCleanupCall]⟩
    · exact ⟨[Effect.kubeGet o], by simp [hg, ho, emit, isUpdateCall, isCleanupCall]⟩

theorem deleteAll_calls (env : Env) (l : List Obj) (w : World) :
    ∃ new, (deleteAll env l w).2.trace = w.trace ++ new
      ∧ (∀ e ∈ new, isUpdateCall e = false ∧ isCleanupCall e = false)
      ∧ (deleteAll env l w).2.record = w.record := by
  induction l generalizing w with
  | nil => exact ⟨[], by simp [deleteAll]⟩
  | cons a rest ih =>
    have hspec := kubeDeleteObject_calls env a w
    unfold deleteAll
    generalize kubeDeleteObject env a w = x at hspec ⊢
    obtain ⟨res, w1⟩ := x
    obtain ⟨n1, t1, c1, r1⟩ := hspec
    simp only at t1 r1
    cases res with
    | some err => exact ⟨n1, t1, c1, r1⟩
    | none =>
      obtain ⟨n2, t2, c2, r2⟩ := ih w1
      refine ⟨n1 ++ n2, ?_, ?_, r2.trans r1⟩
      · simp only [t2, t1, List.append_assoc]
      · intro e he
        rcases List.mem_append.mp he with h | h
        · exact c1 e h
        · exact c2 e h

/-- The end of `stopAndCleanTask` when the update fails: either the log file
could not be read and no update was sent, or the update was sent and decides
what is returned; the record is not touched and no clean-up call is made. -/
theorem stopAndCleanTaskReport_update_fails (r : Runner) (env : Env) (task : CPTask)
    (state : String) (taskInfo : TaskInfo) (w : World) (err : Err)
    (h : env.cpUpdateTask = some err) :
    (stopAndCleanTaskReport r env task state taskInfo w).2.record = w.record
    ∧ ((stopAndCleanTaskReport r env task state taskInfo w).2.trace
          = w.trace ++ [Effect.readLogFile]
      ∨ (∃ s logs, (stopAndCleanTaskReport r env task state taskInfo w).2.trace
            = w.trace ++ [Effect.readLogFile, Effect.cpUpdateTask s logs])
        ∧ (stopAndCleanTaskReport r env task state taskInfo w).1
            = if err = Err.badRequest then Ret.done { Requeue := false, RequeueAfter := 1000 } none
              else Ret.done Result.empty (some err)) := by
  unfold stopAndCleanTaskReport UpdateTask
  cases hl : env.logFile with
  | failed => exact ⟨rfl, Or.inl (by simp [emit])⟩
  | content s =>
    cases err with
    | badRequest =>
      simp only [h]
      exact ⟨rfl, Or.inr ⟨⟨_, _, List.append_assoc _ _ _⟩, rfl⟩⟩
    | notFound =>
      simp only [h]
      exact ⟨rfl, Or.inr ⟨⟨_, _, List.append_assoc _ _ _⟩, rfl⟩⟩
    | failure what =>
      simp only [h]
      exact ⟨rfl, Or.inr ⟨⟨_, _, List.append_assoc _ _ _⟩, rfl⟩⟩
  | notExist =>
    cases err with
    | badRequest =>
      simp only [h]
      exact ⟨rfl, Or.inr ⟨⟨_, _, List.append_assoc _ _ _⟩, rfl⟩⟩
    | notFound =>
      simp only [h]
      exact ⟨rfl, Or.inr ⟨⟨_, _, List.append_assoc _ _ _⟩, rfl⟩⟩
    | failure what =>
      simp only [h]
      exact ⟨rfl, Or.inr ⟨⟨_, _, List.append_assoc _ _ _⟩, rfl⟩⟩

/-- The deletes and the end of `stopAndCleanTask` when the update fails. -/
theorem stopAndCleanTask_tail_update_fails (r : Runner) (env : Env) (task : CPTask)
    (state : String) (taskInfo : TaskInfo) (l : List Obj) (w : World) (err : Err)
    (h : env.cpUpdateTask = some err) :
    (andThen (deleteAll env l w) fun w =>
        stopAndCleanTaskReport r env task state taskInfo w).2.record = w.record
    ∧ ∃ new, (andThen (deleteAll env l w) fun w =>
          stopAndCleanTaskReport r env task state taskInfo w).2.trace = w.trace ++ new
        ∧ (∀ e ∈ new, isCleanupCall e = false)
        ∧ ((∀ e ∈ new, isUpdateCall e = false)
          ∨ (andThen (deleteAll env l w) fun w =>
                stopAndCleanTaskReport r env task state taskInfo w).1
              = if err = Err.badRequest then
                  Ret.done { Requeue := false, RequeueAfter := 1000 } none
                else Ret.done Result.empty (some err)) := by
  obtain ⟨n1, t1, c1, r1⟩ := deleteAll_calls env l w
  generalize deleteAll env l w = x at t1 r1 ⊢
  obtain ⟨res, w1⟩ := x
  simp only at t1 r1
  cases res with
  | some e =>
    exact ⟨r1, n1, t1, fun e he => (c1 e he).2, Or.inl fun e he => (c1 e he).1⟩
  | none =>
    obtain ⟨hrec, hrest⟩ := stopAndCleanTaskReport_update_fails r env task state taskInfo w1 err h
    show (stopAndCleanTaskReport r env task state taskInfo w1).2.record = w.record ∧ ∃ new,
      (stopAndCleanTaskReport r env task state taskInfo w1).2.trace = w.trace ++ new
        ∧ (∀ e ∈ new, isCleanupCall e = false)
        ∧ ((∀ e ∈ new, isUpdateCall e = false)
          ∨ (stopAndCleanTaskReport r env task state taskInfo w1).1
              = if err = Err.badRequest then
                  Ret.done { Requeue := false, RequeueAfter := 1000 } none
                else Ret.done Result.empty (some err))
    refine ⟨hrec.trans r1, ?_⟩
    rcases hrest with ht | ⟨⟨s, logs, ht⟩, hres⟩
    · refine ⟨n1 ++ [Effect.readLogFile], by rw [ht, t1, List.append_assoc], ?_, Or.inl ?_⟩
      · intro e he
        rcases List.mem_append.mp he with h1 | h1
        · exact (c1 e h1).2
        · rw [List.mem_singleton.mp h1]; rfl
      · intro e he
        rcases List.mem_append.mp he with h1 | h1
        · exact (c1 e h1).1
        · rw [List.mem_singleton.mp h1]; rfl
    · refine ⟨n1 ++ [Effect.readLogFile, Effect.cpUpdateTask s logs],
        by rw [ht, t1, List.append_assoc], ?_, Or.inr hres⟩
      intro e he
      rcases List.mem_append.mp he with h1 | h1
      · exact (c1 e h1).2
      · simp only [List.mem_cons, List.mem_singleton, List.not_mem_nil, or_false] at h1
        rcases h1 with h1 | h1 <;> rw [h1] <;> rfl

theorem andThen_none (w : World) (k : World → Ret × World) : andThen (none, w) k = k w := rfl

theorem stopAndCleanTask_update_outcome (r : Runner) (env : Env) (task : CPTask)
    (state : String) (w : World) (err : Err) (h : env.cpUpdateTask = some err) :
    ∃ new, (stopAndCleanTask r env task state w).2.trace = w.trace ++ new
      ∧ ((∀ e ∈ new, isUpdateCall e = false)
        ∨ ((∀ e ∈ new, isCleanupCall e = false)
          ∧ (stopAndCleanTask r env task state w).1
              = (if err = Err.badRequest then
                  Ret.done { Requeue := false, RequeueAfter := 1000 } none
                else Ret.done Result.empty (some err))
          ∧ ∃ taskInfo, w.record = some taskInfo
              ∧ (stopAndCleanTask r env task state w).2.record
                  = some (if taskInfo.Stop = none then { taskInfo with Stop := some state }
                          else taskInfo))) := by
  rw [stopAndCleanTask_eq]
  by_cases hf : env.localGetFailsOnClean = true
  · have hget : GetTask env.localGetFailsOnClean w
        = (Except.error (Err.failure "failed to get configmap"), emit Effect.localGet w) := by
      unfold GetTask
      simp [hf]
    rw [hget]
    exact ⟨[Effect.localGet], rfl, Or.inl (by simp [isUpdateCall])⟩
  · cases hr : w.record with
    | none =>
      have hr1 : (emit Effect.localGet w).record = none := hr
      have hget : GetTask env.localGetFailsOnClean w
          = (Except.error Err.notFound, emit Effect.localGet w) := by
        unfold GetTask
        simp [hf, hr]
      rw [hget]
      exact ⟨[Effect.localGet], rfl, Or.inl (by simp [isUpdateCall])⟩
    | some taskInfo =>
      have hr1 : (emit Effect.localGet w).record = some taskInfo := hr
      have hget : GetTask env.localGetFailsOnClean w
          = (Except.ok taskInfo, emit Effect.localGet w) := by
        unfold GetTask
        simp [hf, hr]
      rw [hget]
      simp only
      by_cases hs : taskInfo.Stop = none
      · simp only [hs, ↓reduceIte]
        by_cases hsf : env.localStopFails = true
        · have hstop : StopTask env state (emit Effect.localGet w)
              = (some (Err.failure "failed to mark task cancel on configmap"),
                 emit (Effect.localStop state) (emit Effect.localGet w)) := by
            unfold StopTask
            simp [hsf]
          rw [hstop]
          exact ⟨[Effect.localGet, Effect.localStop state], List.append_assoc _ _ _,
            Or.inl (by simp [isUpdateCall])⟩
        · have hr2 : (emit (Effect.localStop state) (emit Effect.localGet w)).record
              = some taskInfo := hr
          have hstop : StopTask env state (emit Effect.localGet w)
              = (none, { emit (Effect.localStop state) (emit Effect.localGet w) with
                  record := some { taskInfo with Stop := some state } }) := by
            unfold StopTask
            simp [hsf, hr, emit]
          rw [hstop, andThen_none]
          obtain ⟨hrec, new, ht, hc, hrest⟩ := stopAndCleanTask_tail_update_fails r env task state
            taskInfo (cleanTargets taskInfo)
            { emit (Effect.localStop state) (emit Effect.localGet w) with
              record := some { taskInfo with Stop := some state } } err h
          refine ⟨[Effect.localGet, Effect.localStop state] ++ new, ?_, ?_⟩
          · rw [ht]
            simp [emit]
          · rcases hrest with hu | hres
            · left
              intro e he
              rcases List.mem_append.mp he with h1 | h1
              · simp only [List.mem_cons, List.mem_singleton, List.not_mem_nil, or_false] at h1
                rcases h1 with h1 | h1 <;> rw [h1] <;> rfl
              · exact hu e h1
            · right
              refine ⟨?_, hres, taskInfo, rfl, hrec.trans (by rw [if_pos hs])⟩
              intro e he
              rcases List.mem_append.mp he with h1 | h1
              · simp only [List.mem_cons, List.mem_singleton, List.not_mem_nil, or_false] at h1
                rcases h1 with h1 | h1 <;> rw [h1] <;> rfl
              · exact hc e h1
      · simp only [hs, ↓reduceIte]
        rw [andThen_none]
        obtain ⟨hrec, new, ht, hc, hrest⟩ := stopAndCleanTask_tail_update_fails r env task state
          taskInfo (cleanTargets taskInfo) (emit Effect.localGet w) err h
        refine ⟨[Effect.localGet] ++ new, ?_, ?_⟩
        · rw [ht]
          simp [emit]
        · rcases hrest with hu | hres
          · left
            intro e he
            rcases List.mem_append.mp he with h1 | h1
            · rw [List.mem_singleton.mp h1]; rfl
            · exact hu e h1
          · right
            refine ⟨?_, hres, taskInfo, rfl, hrec.trans (hr1.trans (by rw [if_neg hs]))⟩
            intro e he
            rcases List.mem_append.mp he with h1 | h1
            · rw [List.mem_singleton.mp h1]; rfl
            · exact hc e h1

/-- C17: when `stopAndCleanTask` sends its update and the control plane
answers it with an error, then for a bad-request error the result is a requeue
after one second (1000 ms) and no error, and for any other error the result is
that error; in both cases none of the calls of the final clean-up is made (the
offload file, the log directory, the accelerator, the deletion of the local
record), and the local record is the one read at the start, with the stop
marker that was there or else the one just written. -/
theorem stopAndCleanTask_update_bad_request (r : Runner) (env : Env) (task : CPTask)
    (state : String) (w : World) (err : Err) (hupd : env.cpUpdateTask = some err)
    (hsent : ∃ e ∈ callsOf w (stopAndCleanTask r env task state w).2, isUpdateCall e = true) :
    (stopAndCleanTask r env task state w).1
        = (if err = Err.badRequest then Ret.done { Requeue := false, RequeueAfter := 1000 } none
           else Ret.done Result.empty (some err))
    ∧ (∀ e ∈ callsOf w (stopAndCleanTask r env task state w).2, isCleanupCall e = false)
    ∧ ∃ taskInfo, w.record = some taskInfo
        ∧ (stopAndCleanTask r env task state w).2.record
            = some (if taskInfo.Stop = none then { taskInfo with Stop := some state }
                    else taskInfo) := by
  obtain ⟨new, ht, hcase⟩ := stopAndCleanTask_update_outcome r env task state w err hupd
  rw [callsOf_eq ht] at hsent ⊢
  rcases hcase with hu | ⟨hc, hres, hrec⟩
  · obtain ⟨e, he, hupdate⟩ := hsent
    rw [hu e he] at hupdate
    cases hupdate
  · exact ⟨hres, hc, hrec⟩

/-- C17 at a task in the state of cancelling whose record is at the stage of
initialising, with the control plane answering the update by a bad request. -/
theorem stopAndCleanTask_update_bad_request_witness :
    (stopAndCleanTask sampleRunner
        { sampleEnv consts.TaskCanceling [] with cpUpdateTask := some Err.badRequest }
        (sampleCPTask consts.TaskCanceling) consts.TaskCanceled
        (sampleWorld (some taskStageInitializing) none)).1
      = Ret.done { Requeue := false, RequeueAfter := 1000 } none :=
  (stopAndCleanTask_update_bad_request sampleRunner
    { sampleEnv consts.TaskCanceling [] with cpUpdateTask := some Err.badRequest }
    (sampleCPTask consts.TaskCanceling) consts.TaskCanceled
    (sampleWorld (some taskStageInitializing) none) Err.badRequest rfl
    ⟨Effect.cpUpdateTask (some consts.TaskCanceled)
        (genUpdateTaskLogsFinish sampleRunner "2024-01-01T00:00:00Z" [] ""),
      by decide, rfl⟩).1

end runner

/-! ## The pod observer: executor times and stalled image pulls -/

namespace runner

open localstore

end runner

namespace runner

open localstore

theorem podImagePullBackoff_iff (pod : Pod) :
    podImagePullBackoff pod = true
      ↔ ∃ containerStatus ∈ pod.ContainerStatuses,
          containerStatus.State.Waiting = some "ImagePullBackOff" := by
  unfold podImagePullBackoff
  simp [List.any_eq_true]

theorem podImagePullBackoffTimeout_iff (opts : Options) (penv : PodEnv) (pod : Pod) :
    podImagePullBackoffTimeout opts penv pod = true
      ↔ (∃ startTime, pod.StartTime = some startTime
            ∧ penv.nowTime - startTime > opts.PodImagePullBackoffTimeout)
        ∧ ∃ containerStatus ∈ pod.ContainerStatuses,
            containerStatus.State.Waiting = some "ImagePullBackOff" := by
  rw [← podImagePullBackoff_iff]
  unfold podImagePullBackoffTimeout
  cases hs : pod.StartTime with
  | none => simp
  | some startTime =>
    simp only [Option.some.injEq, exists_eq_left', gt_iff_lt]
    by_cases h1 : penv.nowTime - startTime ≤ opts.PodImagePullBackoffTimeout
    · simp [h1, not_lt.mpr h1]
    · by_cases h2 : podImagePullBackoff pod = true
      · simp [h1, h2, not_le.mp h1]
      · simp [h1, h2]

theorem getJobByName_name (pw : PodWorld) (name : String) (job : Job)
    (h : getJobByName pw name = some job) : job.Name = name := by
  unfold getJobByName at h
  have := List.find?_some h
  simpa using this

theorem find_map_stopped (jobs : List Job) (name : String) (job stopped : Job)
    (hstopped : stopped.Name = name)
    (h : jobs.find? (fun j => j.Name == name) = some job) :
    (jobs.map fun j => if j.Name == stopped.Name then stopped else j).find?
      (fun j => j.Name == name) = some stopped := by
  induction jobs with
  | nil => cases h
  | cons a rest ih =>
    by_cases ha : a.Name = name
    · simp [List.find?, ha, hstopped]
    · have hne : (a.Name == name) = false := by simpa using ha
      have h2 : rest.find? (fun j => j.Name == name) = some job := by
        rw [List.find?_cons, hne] at h
        exact h
      rw [List.map_cons, hstopped, hne, if_neg (by simp), List.find?_cons, hne]
      have := ih h2
      rw [hstopped] at this
      exact this

/-- C20: for a pending pod with a job-name label whose job is read, exists and
is not finished, the pod is stalled when it has a start time, its age is
strictly more than the configured timeout and some container is waiting with
the reason `ImagePullBackOff`. If the pod is stalled, `processImagePullBackoff`
sends the request that stops the job, and once that request is accepted the
job of the namespace has `activeDeadlineSeconds` 0. If the pod is not stalled,
no such request is sent, the jobs are as before and the result is a requeue
after `PodPollInterval` without error. For a pod that is not pending, or whose
job is missing or finished, nothing changes but the trace of reads, and the
result is empty without error. -/
theorem processImagePullBackoff_stall (opts : Options) (penv : PodEnv) (pod : Pod)
    (pw : PodWorld) (jobName : String) (hlabel : label pod LabelJobName = some jobName)
    (hget : penv.getJobFails = false) :
    (∀ job, getJobByName pw jobName = some job → jobFinished job = false →
      pod.Phase = PodPending →
      (((∃ startTime, pod.StartTime = some startTime
            ∧ penv.nowTime - startTime > opts.PodImagePullBackoffTimeout)
          ∧ ∃ containerStatus ∈ pod.ContainerStatuses,
              containerStatus.State.Waiting = some "ImagePullBackOff") →
        PodEffect.stopJob jobName ∈ (processImagePullBackoff opts penv pod pw).2.calls
        ∧ (penv.stopJob = Api.ok →
            (processImagePullBackoff opts penv pod pw).1 = Ret.done Result.empty none
            ∧ getJobByName (processImagePullBackoff opts penv pod pw).2 jobName
                = some { job with ActiveDeadlineSeconds := some 0 }))
      ∧ (¬ ((∃ startTime, pod.StartTime = some startTime
              ∧ penv.nowTime - startTime > opts.PodImagePullBackoffTimeout)
            ∧ ∃ containerStatus ∈ pod.ContainerStatuses,
                containerStatus.State.Waiting = some "ImagePullBackOff") →
        processImagePullBackoff opts penv pod pw
          = (Ret.done { Requeue := false, RequeueAfter := opts.PodPollInterval } none,
             emitPod (PodEffect.getJob jobName) pw)))
    ∧ ((pod.Phase ≠ PodPending ∨ getJobByName pw jobName = none
          ∨ ∃ job, getJobByName pw jobName = some job ∧ jobFinished job = true) →
        processImagePullBackoff opts penv pod pw
          = (Ret.done Result.empty none, emitPod (PodEffect.getJob jobName) pw)) := by
  constructor
  · intro job hjob hfin hpending
    have hjob2 : getJobByName (emitPod (PodEffect.getJob jobName) pw) jobName = some job := hjob
    have hphase : ¬ pod.Phase ≠ PodPending := fun h => h hpending
    constructor
    · intro hstalled
      have ht := (podImagePullBackoffTimeout_iff opts penv pod).mpr hstalled
      have hname := getJobByName_name pw jobName job hjob
      unfold processImagePullBackoff
      simp only [hlabel, hget, Bool.false_eq_true, ↓reduceIte, hjob2, hfin, hphase, ht]
      unfold stopJob
      constructor
      · cases penv.stopJob <;> simp [emitPod, setJob, hname]
      · intro hok
        rw [hok]
        refine ⟨rfl, ?_⟩
        exact find_map_stopped pw.jobs jobName job { job with ActiveDeadlineSeconds := some 0 }
          hname hjob
    · intro hnot
      have ht : podImagePullBackoffTimeout opts penv pod = false := by
        cases hb : podImagePullBackoffTimeout opts penv pod with
        | false => rfl
        | true => exact absurd ((podImagePullBackoffTimeout_iff opts penv pod).mp hb) hnot
      unfold processImagePullBackoff
      simp only [hlabel, hget, Bool.false_eq_true, ↓reduceIte, hjob2, hfin, hphase, ht]
  · intro h
    unfold processImagePullBackoff
    simp only [hlabel, hget, Bool.false_eq_true, ↓reduceIte]
    cases hjob : getJobByName (emitPod (PodEffect.getJob jobName) pw) jobName with
    | none => rfl
    | some job =>
      have hjob1 : getJobByName pw jobName = some job := hjob
      simp only
      by_cases hfin : jobFinished job = true
      · simp [hfin]
      · rcases h with h | h | ⟨j, h, hf⟩
        · simp [hfin, h]
        · rw [hjob1] at h
          cases h
        · rw [hjob1] at h
          cases h
          exact absurd hf hfin

/-- C20 at the stager pod of `task-1`, pending for one millisecond more than
the ten minutes of the timeout with its container waiting for the image:
`processImagePullBackoff` stops the job; pending for exactly ten minutes, the
job is left alone and the pod is looked at again after the poll interval. -/
theorem processImagePullBackoff_stall_witness :
    getJobByName
        (processImagePullBackoff samplePodOptions (samplePodEnv consts.TaskRunning)
          (stagerPod (some (sampleNow - 600001)) "ImagePullBackOff")
          (samplePodWorld [] [stagerPod (some (sampleNow - 600001)) "ImagePullBackOff"]
            [stagerJob])).2 "task-1-inputs-filer"
      = some { stagerJob with ActiveDeadlineSeconds := some 0 }
    ∧ processImagePullBackoff samplePodOptions (samplePodEnv consts.TaskRunning)
          (stagerPod (some (sampleNow - 600000)) "ImagePullBackOff")
          (samplePodWorld [] [stagerPod (some (sampleNow - 600000)) "ImagePullBackOff"]
            [stagerJob])
      = (Ret.done { Requeue := false, RequeueAfter := 60000 } none,
         emitPod (PodEffect.getJob "task-1-inputs-filer")
          (samplePodWorld [] [stagerPod (some (sampleNow - 600000)) "ImagePullBackOff"]
            [stagerJob])) :=
  ⟨((((processImagePullBackoff_stall samplePodOptions (samplePodEnv consts.TaskRunning)
        (stagerPod (some (sampleNow - 600001)) "ImagePullBackOff")
        (samplePodWorld [] [stagerPod (some (sampleNow - 600001)) "ImagePullBackOff"]
          [stagerJob]) "task-1-inputs-filer" (by decide) rfl).1 stagerJob (by decide) (by decide)
        (by decide)).1
        ⟨⟨sampleNow - 600001, rfl, by decide⟩,
          ⟨{ State := { Waiting := some "ImagePullBackOff", Running := none, Terminated := none } },
            by decide, rfl⟩⟩).2 rfl).2,
   by decide⟩

end runner

/-! ## pod.go: the times of an executor -/

namespace runner

open localstore

theorem getExecutorTimeBody_cases (penv : PodEnv) (pod : Pod) :
    ((getExecutorTimeBody penv pod).2 = none ∨ (getExecutorTimeBody penv pod).1 ≠ none)
    ∧ (∀ containerStatus rest, pod.ContainerStatuses = containerStatus :: rest →
        containerStatus.State.Running = none → containerStatus.State.Terminated ≠ none →
        (getExecutorTimeBody penv pod).1 ≠ none ∧ (getExecutorTimeBody penv pod).2 ≠ none) := by
  unfold getExecutorTimeBody
  cases hcs : pod.ContainerStatuses with
  | nil => exact ⟨Or.inl rfl, fun _ _ h => by cases h⟩
  | cons containerStatus rest =>
    simp only
    cases hrun : containerStatus.State.Running with
    | some startedAt =>
      refine ⟨Or.inl rfl, ?_⟩
      intro cs r h hr _
      cases h
      rw [hrun] at hr
      cases hr
    | none =>
      simp only
      cases hterm : containerStatus.State.Terminated with
      | none =>
        refine ⟨Or.inl rfl, ?_⟩
        intro cs r h _ ht
        cases h
        exact absurd hterm ht
      | some terminated =>
        simp only
        have key : (if (if validTime terminated.1 = true then some (penv.timeFormat terminated.1)
              else none) = none then
              (if validTime terminated.2 = true then some (penv.timeFormat terminated.2)
                else some (penv.timeFormat penv.nowTime))
            else (if validTime terminated.1 = true then some (penv.timeFormat terminated.1)
              else none)) ≠ none
            ∧ (if validTime terminated.2 = true then some (penv.timeFormat terminated.2)
                else some (penv.timeFormat penv.nowTime)) ≠ none := by
          by_cases h1 : validTime terminated.1 = true <;> by_cases h2 : validTime terminated.2 = true <;>
            simp [h1, h2]
        exact ⟨Or.inr key.1, fun _ _ _ _ _ => key⟩

/-- C30: `getExecutorTime` never returns an end time without a start time;
for a pod whose phase is Failed or Succeeded both are set; and for a pod whose
first container is terminated (its state has the terminated entry and no
running entry) both are set. -/
theorem getExecutorTime_end_has_start (penv : PodEnv) (pod : Pod) :
    ((getExecutorTime penv pod).2 ≠ none → (getExecutorTime penv pod).1 ≠ none)
    ∧ ((pod.Phase = PodFailed ∨ pod.Phase = PodSucceeded) →
        (getExecutorTime penv pod).1 ≠ none ∧ (getExecutorTime penv pod).2 ≠ none)
    ∧ (∀ containerStatus rest, pod.ContainerStatuses = containerStatus :: rest →
        containerStatus.State.Running = none → containerStatus.State.Terminated ≠ none →
        (getExecutorTime penv pod).1 ≠ none ∧ (getExecutorTime penv pod).2 ≠ none) := by
  obtain ⟨hbody, hterm⟩ := getExecutorTimeBody_cases penv pod
  have hfin : (pod.Phase = PodFailed ∨ pod.Phase = PodSucceeded) →
      (getExecutorTime penv pod).1 ≠ none ∧ (getExecutorTime penv pod).2 ≠ none := by
    intro hp
    unfold getExecutorTime
    simp only [hp, ↓reduceIte]
    constructor
    · cases (getExecutorTimeBody penv pod).1 with
      | some s => simp
      | none =>
        simp only
        cases pod.StartTime with
        | none => simp
        | some t => by_cases hv : validTime t = true <;> simp [hv]
    · cases (getExecutorTimeBody penv pod).2 with
      | some s => simp
      | none => simp
  have hother : ¬ (pod.Phase = PodFailed ∨ pod.Phase = PodSucceeded) →
      ((getExecutorTime penv pod).2 ≠ none → (getExecutorTime penv pod).1 ≠ none)
      ∧ ((getExecutorTimeBody penv pod).1 ≠ none ∧ (getExecutorTimeBody penv pod).2 ≠ none →
          (getExecutorTime penv pod).1 ≠ none ∧ (getExecutorTime penv pod).2 ≠ none) := by
    intro hp
    unfold getExecutorTime
    simp only [hp, ↓reduceIte]
    by_cases hr : pod.Phase = PodRunning
    · simp only [hr, ↓reduceIte]
      cases pod.DeletionTimestamp with
      | none =>
        simp only
        exact ⟨fun h2 => hbody.resolve_left h2, fun h => h⟩
      | some deletion =>
        simp only
        split
        · rename_i hc
          exact ⟨fun _ => hc.1, fun h => absurd hc.2.1 h.2⟩
        · exact ⟨fun h2 => hbody.resolve_left h2, fun h => h⟩
    · simp only [hr, ↓reduceIte]
      exact ⟨fun h2 => hbody.resolve_left h2, fun h => h⟩
  refine ⟨?_, hfin, ?_⟩
  · by_cases hp : pod.Phase = PodFailed ∨ pod.Phase = PodSucceeded
    · exact fun _ => (hfin hp).1
    · exact (hother hp).1
  · intro containerStatus rest hcs hrun ht
    by_cases hp : pod.Phase = PodFailed ∨ pod.Phase = PodSucceeded
    · exact hfin hp
    · exact (hother hp).2 (hterm containerStatus rest hcs hrun ht)

/-- C30 at the pod of an executor that is still in the phase Running while its
container has terminated. -/
theorem getExecutorTime_end_has_start_witness :
    getExecutorTime (samplePodEnv consts.TaskRunning)
        (executorPod PodRunning
          { Waiting := none, Running := none,
            Terminated := some (sampleNow - 60000, sampleNow) })
      = (some "2024-01-01T11:59:00Z", some "2024-01-01T12:00:00Z")
    ∧ (getExecutorTime (samplePodEnv consts.TaskRunning)
        (executorPod PodRunning
          { Waiting := none, Running := none,
            Terminated := some (sampleNow - 60000, sampleNow) })).1 ≠ none :=
  ⟨by decide,
   ((getExecutorTime_end_has_start (samplePodEnv consts.TaskRunning)
      (executorPod PodRunning
        { Waiting := none, Running := none,
          Terminated := some (sampleNow - 60000, sampleNow) })).2.2
      { State := { Waiting := none, Running := none,
                   Terminated := some (sampleNow - 60000, sampleNow) } } [] rfl rfl
      (by decide)).1⟩

end runner

/-! ## task.go: records without resources; crontab.go: the guard -/

namespace runner

open localstore

/-- For a task that needs a PVC and has no resources section, `doCreatePVC`
ends in a run-time panic. -/
theorem doCreatePVC_without_resources (env : Env) (localTask : Task) (w : World)
    (hpvc : shouldCreatePVC localTask = true) (hres : localTask.Resources = none) :
    doCreatePVC env localTask w = (Outcome.panic, w) := by
  unfold doCreatePVC
  simp [hpvc, hres]

/-- With a resources section, or without need of a PVC, `doCreatePVC` returns:
it does not panic. -/
theorem doCreatePVC_returns (env : Env) (localTask : Task) (w : World)
    (h : shouldCreatePVC localTask = false ∨ localTask.Resources ≠ none) :
    ∃ err, (doCreatePVC env localTask w).1 = Outcome.returned err := by
  unfold doCreatePVC
  by_cases hpvc : shouldCreatePVC localTask = true
  · rcases h with h | h
    · rw [h] at hpvc; cases hpvc
    · cases hres : localTask.Resources with
      | none => exact absurd hres h
      | some res =>
        simp only [hpvc, ↓reduceIte]
        cases hc : createPVC env w with
        | mk e w1 =>
          cases e with
          | some err => exact ⟨_, rfl⟩
          | none => exact ⟨_, rfl⟩
  · simp only [hpvc, Bool.false_eq_true, ↓reduceIte]
    exact ⟨_, rfl⟩

/-- C28, at a task with inputs and outputs and no resources section whose
record is at the stage of initialising: `doCreatePVC` ends in a run-time panic
(it reads `DiskGB` of the resources that are nil), and so does the
`ProcessTask` that reaches it; nothing is created and no stage is written. -/
theorem doCreatePVC_nil_resources_faults :
    shouldCreatePVC { stagedTask with Resources := none } = true
    ∧ (doCreatePVC (sampleEnv consts.TaskInitializing []) { stagedTask with Resources := none }
        (sampleWorld (some taskStageInitializing) none)).1 = Outcome.panic
    ∧ ProcessTask sampleRunner (sampleEnv consts.TaskInitializing []) "task-1"
        { sampleWorld (some taskStageInitializing) none with
          record := some { toTask := { stagedTask with Resources := none }, Stop := none,
                           Stage := some taskStageInitializing, ExecutorStage := none } }
      = (Ret.panic,
         { sampleWorld (some taskStageInitializing) none with
           record := some { toTask := { stagedTask with Resources := none }, Stop := none,
                            Stage := some taskStageInitializing, ExecutorStage := none },
           trace := [Effect.cpGetTask, Effect.localGet, Effect.accelOnProcess] }) := by
  decide

end runner

namespace crontab

/-- C25, amended: while the flag is set a tick does not invoke the registered
function and leaves the guard as it is; while it is not set a tick invokes the
function once and sets the flag; when the invocation returns the flag is
cleared, so that the next tick invokes the function again; when the
invocation panics the flag stays as it is. -/
theorem guard_skips_and_clears_on_return (g : Guard) :
    (g.runningFlag = true → tick g = (false, g))
    ∧ (g.runningFlag = false →
        (tick g).1 = true ∧ (tick g).2.runningFlag = true
        ∧ (tick g).2.invocations = g.invocations + 1)
    ∧ (finish Ending.returns g).runningFlag = false
    ∧ (finish Ending.returns g).invocations = g.invocations
    ∧ (tick (finish Ending.returns g)).1 = true
    ∧ finish Ending.panics g = g := by
  refine ⟨?_, ?_, rfl, rfl, rfl, rfl⟩
  · intro h
    unfold tick
    rw [if_pos h]
  · intro h
    unfold tick
    simp [h]

/-- C25, amended, at the guard as `RegisterCron` makes it: the first tick
invokes the function, a tick during the invocation does not, and the tick
after its return does. -/
theorem guard_skips_and_clears_on_return_witness :
    tick (tick RegisterCron).2 = (false, (tick RegisterCron).2)
    ∧ (tick RegisterCron).1 = true
    ∧ (tick (finish Ending.returns (tick RegisterCron).2)).1 = true :=
  ⟨(guard_skips_and_clears_on_return (tick RegisterCron).2).1 rfl,
   ((guard_skips_and_clears_on_return RegisterCron).2.1 rfl).1,
   (guard_skips_and_clears_on_return (tick RegisterCron).2).2.2.2.2.1⟩

/-- C25, where the registered function panics: the flag is still set after the
invocation has ended, and the next tick does not invoke the function. -/
theorem guard_stays_set_after_panic :
    (tick RegisterCron).1 = true
    ∧ (finish Ending.panics (tick RegisterCron).2).runningFlag = true
    ∧ (tick (finish Ending.panics (tick RegisterCron).2)).1 = false
    ∧ (tickToEnd Ending.returns (tickToEnd Ending.panics RegisterCron)).invocations = 1 := by
  decide

end crontab

/-! ## syncer/canceling.go -/

namespace syncer

open localstore runner

/-- C23, amended: for a task listed as Canceling, when the read of the local
store finds no record, `syncCancelingTask` sends exactly one update to the
control plane, which sets the state to Canceled and carries no log, writes
nothing locally, and returns what the update returns. When a record exists
it makes no call to the control plane: if the record has no stop annotation
and the write goes through, the stop annotation is Canceled afterwards; if the
record has a stop annotation already, whatever its value, nothing is written
and the annotation stays as it is. -/
theorem syncCancelingTask_cases (env : Env) (w : World) (hget : env.localGetFails = false) :
    (w.record = none →
      (syncCancelingTask env w).1 = env.cpUpdateTask
      ∧ callsOf w (syncCancelingTask env w).2
          = [Effect.localGet, Effect.cpUpdateTask (some consts.TaskCanceled) []]
      ∧ (syncCancelingTask env w).2.record = none)
    ∧ (∀ taskInfo, w.record = some taskInfo → taskInfo.Stop = none →
        env.localStopFails = false →
        (syncCancelingTask env w).1 = none
        ∧ callsOf w (syncCancelingTask env w).2
            = [Effect.localGet, Effect.localStop consts.TaskCanceled]
        ∧ (syncCancelingTask env w).2.record
            = some { taskInfo with Stop := some consts.TaskCanceled })
    ∧ (∀ taskInfo stop, w.record = some taskInfo → taskInfo.Stop = some stop →
        (syncCancelingTask env w).1 = none
        ∧ callsOf w (syncCancelingTask env w).2 = [Effect.localGet]
        ∧ (syncCancelingTask env w).2.record = some taskInfo) := by
  have hf : ¬ env.localGetFails = true := by rw [hget]; simp
  refine ⟨?_, ?_, ?_⟩
  · intro hr
    have hg : GetTask env.localGetFails w = (Except.error Err.notFound, emit Effect.localGet w) := by
      unfold GetTask
      simp [hf, hr]
    have hall : syncCancelingTask env w
        = (env.cpUpdateTask,
           emit (Effect.cpUpdateTask (some consts.TaskCanceled) []) (emit Effect.localGet w)) := by
      unfold syncCancelingTask
      rw [hg]
      rfl
    rw [hall]
    exact ⟨rfl, callsOf_eq (List.append_assoc _ _ _), hr⟩
  · intro taskInfo hr hs hstop
    have hg : GetTask env.localGetFails w = (Except.ok taskInfo, emit Effect.localGet w) := by
      unfold GetTask
      simp [hf, hr]
    have hst : StopTask env consts.TaskCanceled (emit Effect.localGet w)
        = (none, { emit (Effect.localStop consts.TaskCanceled) (emit Effect.localGet w) with
            record := some { taskInfo with Stop := some consts.TaskCanceled } }) := by
      unfold StopTask
      simp [hstop, hr, emit]
    have hall : syncCancelingTask env w
        = (none, { emit (Effect.localStop consts.TaskCanceled) (emit Effect.localGet w) with
            record := some { taskInfo with Stop := some consts.TaskCanceled } }) := by
      unfold syncCancelingTask
      rw [hg]
      simp only [hs, ne_eq, not_true_eq_false, ↓reduceIte]
      exact hst
    rw [hall]
    exact ⟨rfl, callsOf_eq (List.append_assoc _ _ _), rfl⟩
  · intro taskInfo stop hr hs
    have hg : GetTask env.localGetFails w = (Except.ok taskInfo, emit Effect.localGet w) := by
      unfold GetTask
      simp [hf, hr]
    have hall : syncCancelingTask env w = (none, emit Effect.localGet w) := by
      unfold syncCancelingTask
      rw [hg]
      simp [hs]
    rw [hall]
    exact ⟨rfl, callsOf_eq rfl, hr⟩

/-- C23, amended, at a task without local record and at the sample task
stored without stop annotation. -/
theorem syncCancelingTask_cases_witness :
    callsOf { initial sampleTask with record := none }
        (syncCancelingTask (sampleEnv consts.TaskCanceling [])
          { initial sampleTask with record := none }).2
      = [Effect.localGet, Effect.cpUpdateTask (some consts.TaskCanceled) []]
    ∧ (syncCancelingTask (sampleEnv consts.TaskCanceling []) (initial sampleTask)).2.record
      = some { toTask := sampleTask, Stop := some consts.TaskCanceled, Stage := none,
               ExecutorStage := none } :=
  ⟨((syncCancelingTask_cases (sampleEnv consts.TaskCanceling [])
      { initial sampleTask with record := none } rfl).1 rfl).2.1,
   ((syncCancelingTask_cases (sampleEnv consts.TaskCanceling []) (initial sampleTask)
      rfl).2.1 _ rfl rfl rfl).2.2⟩

/-- C23, where the record has a stop annotation other than Canceled: for a
record that the clean-up has marked Complete, `syncCancelingTask` only reads
the record, and its stop annotation is Complete afterwards. -/
theorem syncCancelingTask_keeps_stop :
    syncCancelingTask (sampleEnv consts.TaskCanceling [])
        { initial sampleTask with
          record := some { toTask := sampleTask, Stop := some consts.TaskComplete,
                           Stage := some taskStageOutputsFilerFinished, ExecutorStage := none } }
      = (none,
         { initial sampleTask with
           record := some { toTask := sampleTask, Stop := some consts.TaskComplete,
                            Stage := some taskStageOutputsFilerFinished, ExecutorStage := none },
           trace := [Effect.localGet] })
    ∧ some consts.TaskComplete ≠ some consts.TaskCanceled := by
  decide

end syncer

/-! ## offload/pvc.go: the round trip -/

namespace offload

open runner

theorem readFile_writeFile (path content : String) (disk : Disk) :
    readFile (writeFile path content disk) path = some content := by
  simp [readFile, writeFile]

theorem within_self (dir : String) : within dir dir = true := by
  simp [within]

theorem within_filepathJoin (dir elem : String) : within dir (filepathJoin dir elem) = true := by
  unfold within filepathJoin
  have h : (dir ++ "/").toList.isPrefixOf (dir ++ "/" ++ elem).toList = true := by
    rw [List.isPrefixOf_iff_prefix]
    have : (dir ++ "/" ++ elem).toList = (dir ++ "/").toList ++ elem.toList := by
      simp [String.toList, String.data_append]
    rw [this]
    exact List.prefix_append _ _
  rw [h]
  simp

theorem removeAll_gone (dir path : String) (disk : Disk) (h : within dir path = true) :
    path ∉ (removeAll dir disk).dirs ∧ readFile (removeAll dir disk) path = none := by
  constructor
  · intro hmem
    simp only [removeAll, List.mem_filter] at hmem
    rw [h] at hmem
    simp at hmem
  · unfold readFile removeAll
    have : List.find? (fun f => f.1 == path)
        (List.filter (fun f => !within dir f.1) disk.files) = none := by
      rw [List.find?_eq_none]
      intro x hx hp
      simp only [List.mem_filter] at hx
      have hxp : x.1 = path := by simpa using hp
      rw [hxp, h] at hx
      simp at hx
    simp only [this, Option.map_none']

theorem offload_ok (p : pvcHelper) (f : DiskFaults) (taskID content fileName path : String)
    (disk : Disk) (h : (offload p f taskID content fileName disk).1 = (path, none)) :
    path = filepathJoin (filepathJoin p.path taskID) fileName
    ∧ readFile (offload p f taskID content fileName disk).2 path = some content := by
  unfold offload at h ⊢
  by_cases h1 : f.mkdirAll = true
  · simp [h1] at h
  · by_cases h2 : f.writeFile = true
    · simp [h1, h2] at h
    · simp only [h1, h2, Bool.false_eq_true, ↓reduceIte, Prod.mk.injEq, and_true] at h ⊢
      subst h
      exact ⟨rfl, readFile_writeFile _ _ _⟩

/-- C22: a successful `OffloadInputs` returns the path of `inputs.json` in
the directory of the task below the base path, and the file at that path then
has exactly the content handed in; `OffloadOutputs` likewise with
`outputs.json`; each succeeds when the calls to the operating system do. After
a `DeleteOffloadFile` whose removal goes through, the directory of the task is
gone and so is every path below it, the two files among them. -/
theorem offload_round_trip (p : pvcHelper) (f : DiskFaults) (taskID content : String)
    (disk : Disk) :
    (∀ path, (OffloadInputs p f taskID content disk).1 = (path, none) →
      path = filepathJoin (filepathJoin p.path taskID) "inputs.json"
      ∧ readFile (OffloadInputs p f taskID content disk).2 path = some content)
    ∧ (∀ path, (OffloadOutputs p f taskID content disk).1 = (path, none) →
      path = filepathJoin (filepathJoin p.path taskID) "outputs.json"
      ∧ readFile (OffloadOutputs p f taskID content disk).2 path = some content)
    ∧ (f.mkdirAll = false → f.writeFile = false →
        (OffloadInputs p f taskID content disk).1.2 = none
        ∧ (OffloadOutputs p f taskID content disk).1.2 = none)
    ∧ (f.removeAll = false →
        filepathJoin p.path taskID ∉ (DeleteOffloadFile p f taskID disk).dirs
        ∧ readFile (DeleteOffloadFile p f taskID disk)
            (filepathJoin (filepathJoin p.path taskID) "inputs.json") = none
        ∧ readFile (DeleteOffloadFile p f taskID disk)
            (filepathJoin (filepathJoin p.path taskID) "outputs.json") = none
        ∧ ∀ path, within (filepathJoin p.path taskID) path = true →
            path ∉ (DeleteOffloadFile p f taskID disk).dirs
            ∧ readFile (DeleteOffloadFile p f taskID disk) path = none) := by
  refine ⟨fun path h => offload_ok p f taskID content inputsFileName path disk h,
    fun path h => offload_ok p f taskID content outputsFileName path disk h, ?_, ?_⟩
  · intro h1 h2
    simp [OffloadInputs, OffloadOutputs, offload, h1, h2]
  · intro hr
    have hd : DeleteOffloadFile p f taskID disk = removeAll (filepathJoin p.path taskID) disk := by
      simp [DeleteOffloadFile, hr]
    rw [hd]
    exact ⟨(removeAll_gone _ _ disk (within_self _)).1,
      (removeAll_gone _ _ disk (within_filepathJoin _ _)).2,
      (removeAll_gone _ _ disk (within_filepathJoin _ _)).2,
      fun path h => removeAll_gone _ _ disk h⟩

/-- C22 at the task `task-xxxx` on an empty volume below `/offload`. -/
theorem offload_round_trip_witness :
    (OffloadInputs { path := "/offload", pvcName := "offload-pvc" }
        { mkdirAll := false, writeFile := false, removeAll := false } "task-xxxx" "[in]"
        { dirs := [], files := [] }).1 = ("/offload/task-xxxx/inputs.json", none)
    ∧ readFile (OffloadInputs { path := "/offload", pvcName := "offload-pvc" }
        { mkdirAll := false, writeFile := false, removeAll := false } "task-xxxx" "[in]"
        { dirs := [], files := [] }).2 "/offload/task-xxxx/inputs.json" = some "[in]"
    ∧ DeleteOffloadFile { path := "/offload", pvcName := "offload-pvc" }
        { mkdirAll := false, writeFile := false, removeAll := false } "task-xxxx"
        (OffloadOutputs { path := "/offload", pvcName := "offload-pvc" }
          { mkdirAll := false, writeFile := false, removeAll := false } "task-xxxx" "[out]"
          (OffloadInputs { path := "/offload", pvcName := "offload-pvc" }
            { mkdirAll := false, writeFile := false, removeAll := false } "task-xxxx" "[in]"
            { dirs := [], files := [] }).2).2
      = { dirs := [], files := [] } :=
  ⟨by decide,
   ((offload_round_trip { path := "/offload", pvcName := "offload-pvc" }
      { mkdirAll := false, writeFile := false, removeAll := false } "task-xxxx" "[in]"
      { dirs := [], files := [] }).1 "/offload/task-xxxx/inputs.json" (by decide)).2,
   by decide⟩

end offload

/-! ## syncer/queued.go: the threshold -/

namespace syncer

open localstore runner

theorem marshalManifest_ne_empty (lib : Library) (key : String) (items : List (Option Item))
    (manifest : String) (h : marshalManifest lib key items = some manifest) : manifest ≠ "" := by
  unfold marshalManifest at h
  cases hv : lib.marshalItems items with
  | none => rw [hv] at h; cases h
  | some value =>
    rw [hv] at h
    simp only [Option.map_some', Option.some.injEq] at h
    intro he
    rw [he] at h
    have := congrArg String.length h
    simp only [String.length_append] at this
    have h1 : "\x7b\"".length = 2 := by decide
    have h0 : "".length = 0 := by decide
    rw [h1, h0] at this
    omega

theorem filepathJoin_ne_empty (dir elem : String) : offload.filepathJoin dir elem ≠ "" := by
  unfold offload.filepathJoin
  intro he
  have := congrArg String.length he
  simp only [String.length_append] at this
  have h1 : "/".length = 1 := by decide
  have h0 : "".length = 0 := by decide
  rw [h1, h0] at this
  omega

theorem embedCredentials_length (lib : Library) (bioosInfo : Option BioosInfo)
    (items : List (Option Item)) : (embedCredentials lib bioosInfo items).length = items.length := by
  unfold embedCredentials
  cases bioosInfo with
  | none => rfl
  | some info =>
    simp only
    split
    · exact List.length_map _ _
    · rfl

theorem syncedInputs_length (lib : Library) (taskFull : FullTask) (rewrite : String → String) :
    (syncedInputs lib taskFull rewrite).length = taskFull.Inputs.length := by
  unfold syncedInputs
  rw [embedCredentials_length, List.length_map]

theorem syncedOutputs_length (lib : Library) (taskFull : FullTask) :
    (syncedOutputs lib taskFull).length = taskFull.Outputs.length := by
  unfold syncedOutputs
  rw [embedCredentials_length]

/-- The block on the inputs when it returns no error. -/
theorem storeInputs_ok (s : Syncer) (lib : Library) (env : SyncEnv) (task : taskMinimal)
    (inputs : List (Option Item)) (taskStore : Task) (w : SyncWorld)
    (h : (storeInputs s lib env task inputs taskStore w).1 = none) :
    (storeInputs s lib env task inputs taskStore w).2.2.record = w.record
    ∧ (inputs.length = 0 → (storeInputs s lib env task inputs taskStore w).2.1 = taskStore)
    ∧ (inputs.length > 0 → ∃ manifest, marshalManifest lib "inputs" inputs = some manifest
        ∧ (len manifest ≤ s.offloadThreshold →
            (storeInputs s lib env task inputs taskStore w).2.1
              = { taskStore with InputsJSON := manifest })
        ∧ (len manifest > s.offloadThreshold →
            (storeInputs s lib env task inputs taskStore w).2.1
              = { taskStore with InputsRef := offload.filepathJoin (offload.filepathJoin s.offloadHelper.path task.id) "inputs.json" })) := by
  by_cases h0 : inputs.length > 0
  · cases hm : marshalManifest lib "inputs" inputs with
    | none =>
      have heq : storeInputs s lib env task inputs taskStore w
          = (some (Err.failure "failed to marshal inputs"), taskStore, w) := by
        unfold storeInputs
        simp [h0, hm]
      rw [heq] at h
      cases h
    | some manifest =>
      by_cases hl : len manifest ≤ s.offloadThreshold
      · have heq : storeInputs s lib env task inputs taskStore w
            = (none, { taskStore with InputsJSON := manifest }, w) := by
          unfold storeInputs
          simp [h0, hm, hl]
        rw [heq]
        exact ⟨rfl, fun hz => by omega,
          fun _ => ⟨manifest, rfl, fun _ => rfl, fun hgt => by omega⟩⟩
      · cases hx : (offload.OffloadInputs s.offloadHelper env.offloadInputs task.id manifest
            (emitSync SyncEffect.offloadInputs w).disk).1.2 with
        | some err =>
          have heq : (storeInputs s lib env task inputs taskStore w).1 = some err := by
            unfold storeInputs
            simp [h0, hm, hl, hx]
          rw [heq] at h
          cases h
        | none =>
          have hpath := offload.offload_ok s.offloadHelper env.offloadInputs task.id
            manifest offload.inputsFileName
            (offload.OffloadInputs s.offloadHelper env.offloadInputs task.id manifest
              (emitSync SyncEffect.offloadInputs w).disk).1.1
            (emitSync SyncEffect.offloadInputs w).disk
            (Prod.ext rfl hx)
          have heq : storeInputs s lib env task inputs taskStore w
              = (none,
                 { taskStore with InputsRef := (offload.OffloadInputs s.offloadHelper
                     env.offloadInputs task.id manifest
                     (emitSync SyncEffect.offloadInputs w).disk).1.1 },
                 { emitSync SyncEffect.offloadInputs w with
                   disk := (offload.OffloadInputs s.offloadHelper env.offloadInputs task.id
                     manifest (emitSync SyncEffect.offloadInputs w).disk).2 }) := by
            unfold storeInputs
            simp [h0, hm, hl, hx]
          rw [heq]
          refine ⟨rfl, fun hz => by omega, fun _ => ⟨manifest, rfl, fun hle => absurd hle hl,
            fun _ => ?_⟩⟩
          simp only
          rw [hpath.1]
          rfl
  · have heq : storeInputs s lib env task inputs taskStore w = (none, taskStore, w) := by
      unfold storeInputs
      simp [h0]
    rw [heq]
    exact ⟨rfl, fun _ => rfl, fun hgt => absurd hgt h0⟩

/-- The block on the outputs when it returns no error. -/
theorem storeOutputs_ok (s : Syncer) (lib : Library) (env : SyncEnv) (task : taskMinimal)
    (outputs : List (Option Item)) (taskStore : Task) (w : SyncWorld)
    (h : (storeOutputs s lib env task outputs taskStore w).1 = none) :
    (storeOutputs s lib env task outputs taskStore w).2.2.record = w.record
    ∧ (outputs.length = 0 → (storeOutputs s lib env task outputs taskStore w).2.1 = taskStore)
    ∧ (outputs.length > 0 → ∃ manifest, marshalManifest lib "outputs" outputs = some manifest
        ∧ (len manifest ≤ s.offloadThreshold →
            (storeOutputs s lib env task outputs taskStore w).2.1
              = { taskStore with OutputsJSON := manifest })
        ∧ (len manifest > s.offloadThreshold →
            (storeOutputs s lib env task outputs taskStore w).2.1
              = { taskStore with OutputsRef := offload.filepathJoin (offload.filepathJoin s.offloadHelper.path task.id) "outputs.json" })) := by
  by_cases h0 : outputs.length > 0
  · cases hm : marshalManifest lib "outputs" outputs with
    | none =>
      have heq : storeOutputs s lib env task outputs taskStore w
          = (some (Err.failure "failed to marshal outputs"), taskStore, w) := by
        unfold storeOutputs
        simp [h0, hm]
      rw [heq] at h
      cases h
    | some manifest =>
      by_cases hl : len manifest ≤ s.offloadThreshold
      · have heq : storeOutputs s lib env task outputs taskStore w
            = (none, { taskStore with OutputsJSON := manifest }, w) := by
          unfold storeOutputs
          simp [h0, hm, hl]
        rw [heq]
        exact ⟨rfl, fun hz => by omega,
          fun _ => ⟨manifest, rfl, fun _ => rfl, fun hgt => by omega⟩⟩
      · cases hx : (offload.OffloadOutputs s.offloadHelper env.offloadOutputs task.id manifest
            (emitSync SyncEffect.offloadOutputs w).disk).1.2 with
        | some err =>
          have heq : (storeOutputs s lib env task outputs taskStore w).1 = some err := by
            unfold storeOutputs
            simp [h0, hm, hl, hx]
          rw [heq] at h
          cases h
        | none =>
          have hpath := offload.offload_ok s.offloadHelper env.offloadOutputs task.id
            manifest offload.outputsFileName
            (offload.OffloadOutputs s.offloadHelper env.offloadOutputs task.id manifest
              (emitSync SyncEffect.offloadOutputs w).disk).1.1
            (emitSync SyncEffect.offloadOutputs w).disk
            (Prod.ext rfl hx)
          have heq : storeOutputs s lib env task outputs taskStore w
              = (none,
                 { taskStore with OutputsRef := (offload.OffloadOutputs s.offloadHelper
                     env.offloadOutputs task.id manifest
                     (emitSync SyncEffect.offloadOutputs w).disk).1.1 },
                 { emitSync SyncEffect.offloadOutputs w with
                   disk := (offload.OffloadOutputs s.offloadHelper env.offloadOutputs task.id
                     manifest (emitSync SyncEffect.offloadOutputs w).disk).2 }) := by
            unfold storeOutputs
            simp [h0, hm, hl, hx]
          rw [heq]
          refine ⟨rfl, fun hz => by omega, fun _ => ⟨manifest, rfl, fun hle => absurd hle hl,
            fun _ => ?_⟩⟩
          simp only
          rw [hpath.1]
          rfl
  · have heq : storeOutputs s lib env task outputs taskStore w = (none, taskStore, w) := by
      unfold storeOutputs
      simp [h0]
    rw [heq]
    exact ⟨rfl, fun _ => rfl, fun hgt => absurd hgt h0⟩


theorem StoreTask_ok (env : SyncEnv) (task : Task) (w : SyncWorld)
    (h : (StoreTask env task w).1 = none) : (StoreTask env task w).2.record = some task := by
  unfold StoreTask at h ⊢
  by_cases hf : env.storeTaskFails = true
  · simp [hf] at h
  · cases hr : (emitSync SyncEffect.storeTask w).record with
    | some t => simp [hf, hr] at h
    | none => simp [hf, hr]

theorem syncQueuedTaskDeferred_ok (s : Syncer) (env : SyncEnv) (task : taskMinimal)
    (x : Option Err × Task × SyncWorld) (h : (syncQueuedTaskDeferred s env task x).1 = none) :
    x.1 = none ∧ (syncQueuedTaskDeferred s env task x).2 = x.2.2 := by
  obtain ⟨e, ts, w⟩ := x
  cases e with
  | none => exact ⟨rfl, rfl⟩
  | some reterr =>
    unfold syncQueuedTaskDeferred at h
    simp only at h
    split at h <;> cases h

/-- The body of `syncQueuedTask` when it returns no error: both blocks
returned none and the record stored is the one they built. -/
theorem syncQueuedTaskBody_ok (s : Syncer) (lib : Library) (env : SyncEnv) (task : taskMinimal)
    (taskFull : FullTask) (rewrite : String → String) (taskStore : Task) (w : SyncWorld)
    (h : (syncQueuedTaskBody s lib env task taskFull rewrite taskStore w).1 = none) :
    (storeInputs s lib env task (syncedInputs lib taskFull rewrite) taskStore w).1 = none
    ∧ (storeOutputs s lib env task (syncedOutputs lib taskFull)
        (storeInputs s lib env task (syncedInputs lib taskFull rewrite) taskStore w).2.1
        (storeInputs s lib env task (syncedInputs lib taskFull rewrite) taskStore w).2.2).1 = none
    ∧ (syncQueuedTaskBody s lib env task taskFull rewrite taskStore w).2.2.record
        = some (storeOutputs s lib env task (syncedOutputs lib taskFull)
            (storeInputs s lib env task (syncedInputs lib taskFull rewrite) taskStore w).2.1
            (storeInputs s lib env task (syncedInputs lib taskFull rewrite) taskStore w).2.2).2.1 := by
  unfold syncQueuedTaskBody at h ⊢
  generalize storeInputs s lib env task (syncedInputs lib taskFull rewrite) taskStore w = x at h ⊢
  obtain ⟨e1, ts1, w1⟩ := x
  cases e1 with
  | some err => cases h
  | none =>
    simp only at h ⊢
    generalize storeOutputs s lib env task (syncedOutputs lib taskFull) ts1 w1 = y at h ⊢
    obtain ⟨e2, ts2, w2⟩ := y
    cases e2 with
    | some err => cases h
    | none =>
      simp only at h ⊢
      exact ⟨trivial, trivial, StoreTask_ok env ts2 w2 h⟩

/-- C21: the syncer that `RegisterCrontab` builds has the threshold 102400.
When `syncQueuedTask` finds no record and returns no error, it has stored a
record, built from the control plane's full view of the task, for which:
with no inputs, `InputsJSON` and `InputsRef` are both empty; with inputs, the
serialized manifest exists, and if its length in bytes is at most the
threshold it is stored inline (`InputsJSON` is the manifest, `InputsRef` is
empty), and if its length exceeds the threshold it is spilled (`InputsRef` is
the path of `inputs.json` in the offload directory of the task, `InputsJSON` is
empty), so that exactly one of the two is non-empty. The same holds for the
outputs with `OutputsJSON`, `OutputsRef` and `outputs.json`. -/
theorem syncQueuedTask_offload_threshold (s : Syncer) (lib : Library) (env : SyncEnv)
    (task : taskMinimal) (w : SyncWorld) :
    (∀ offloadHelper, (newSyncer offloadHelper).offloadThreshold = 102400)
    ∧ (w.record = none → (syncQueuedTask s lib env task w).1 = none →
      ∃ taskFull accelerateNames rewrite stored,
        env.cpGetTask = Except.ok taskFull
        ∧ env.modifySyncTask = Except.ok (accelerateNames, rewrite)
        ∧ (syncQueuedTask s lib env task w).2.record = some stored
        ∧ (taskFull.Inputs = [] → stored.InputsJSON = "" ∧ stored.InputsRef = "")
        ∧ (taskFull.Inputs ≠ [] →
            ∃ manifest,
              marshalManifest lib "inputs" (syncedInputs lib taskFull rewrite) = some manifest
              ∧ (len manifest ≤ s.offloadThreshold →
                  stored.InputsJSON = manifest ∧ stored.InputsRef = "")
              ∧ (len manifest > s.offloadThreshold →
                  stored.InputsRef
                      = offload.filepathJoin (offload.filepathJoin s.offloadHelper.path task.id)
                          "inputs.json"
                    ∧ stored.InputsJSON = "")
              ∧ ((stored.InputsJSON ≠ "" ∧ stored.InputsRef = "")
                  ∨ (stored.InputsJSON = "" ∧ stored.InputsRef ≠ "")))
        ∧ (taskFull.Outputs = [] → stored.OutputsJSON = "" ∧ stored.OutputsRef = "")
        ∧ (taskFull.Outputs ≠ [] →
            ∃ manifest,
              marshalManifest lib "outputs" (syncedOutputs lib taskFull) = some manifest
              ∧ (len manifest ≤ s.offloadThreshold →
                  stored.OutputsJSON = manifest ∧ stored.OutputsRef = "")
              ∧ (len manifest > s.offloadThreshold →
                  stored.OutputsRef
                      = offload.filepathJoin (offload.filepathJoin s.offloadHelper.path task.id)
                          "outputs.json"
                    ∧ stored.OutputsJSON = "")
              ∧ ((stored.OutputsJSON ≠ "" ∧ stored.OutputsRef = "")
                  ∨ (stored.OutputsJSON = "" ∧ stored.OutputsRef ≠ "")))) := by
  refine ⟨fun _ => rfl, ?_⟩
  intro hnew hok
  unfold syncQueuedTask at hok ⊢
  by_cases hf : env.localGetFails = true
  · simp [hf] at hok
  · have hr : (emitSync SyncEffect.localGet w).record = none := hnew
    simp only [hf, Bool.false_eq_true, ↓reduceIte, hr] at hok ⊢
    cases hcp : env.cpGetTask with
    | error err => rw [hcp] at hok; cases hok
    | ok taskFull =>
      rw [hcp] at hok
      simp only at hok ⊢
      cases hms : env.modifySyncTask with
      | error err => rw [hms] at hok; cases hok
      | ok res =>
        obtain ⟨accelerateNames, rewrite⟩ := res
        rw [hms] at hok
        simp only at hok ⊢
        obtain ⟨hbody, hsnd⟩ := syncQueuedTaskDeferred_ok s env task _ hok
        rw [hsnd]
        obtain ⟨h1, h2, h3⟩ := syncQueuedTaskBody_ok s lib env task taskFull rewrite _ _ hbody
        obtain ⟨_, i0, i1⟩ := storeInputs_ok s lib env task _ _ _ h1
        obtain ⟨_, o0, o1⟩ := storeOutputs_ok s lib env task _ _ _ h2
        refine ⟨taskFull, accelerateNames, rewrite, _, rfl, rfl, h3, ?_, ?_, ?_, ?_⟩
        · intro hin
          have hz : (syncedInputs lib taskFull rewrite).length = 0 := by
            rw [syncedInputs_length, hin]; rfl
          by_cases hout : (syncedOutputs lib taskFull).length = 0
          · rw [o0 hout, i0 hz]
            exact ⟨rfl, rfl⟩
          · obtain ⟨m, _, ole, ogt⟩ := o1 (Nat.pos_of_ne_zero hout)
            by_cases hl : len m ≤ s.offloadThreshold
            · rw [ole hl, i0 hz]
              exact ⟨rfl, rfl⟩
            · rw [ogt (not_le.mp hl), i0 hz]
              exact ⟨rfl, rfl⟩
        · intro hin
          have hpos : (syncedInputs lib taskFull rewrite).length > 0 := by
            rw [syncedInputs_length]
            exact List.length_pos.mpr hin
          obtain ⟨manifest, hm, ile, igt⟩ := i1 hpos
          have hne := marshalManifest_ne_empty lib _ _ _ hm
          have hpne := filepathJoin_ne_empty
            (offload.filepathJoin s.offloadHelper.path task.id) "inputs.json"
          have hkeep : ∀ ts : Task,
              (storeOutputs s lib env task (syncedOutputs lib taskFull) ts
                (storeInputs s lib env task (syncedInputs lib taskFull rewrite)
                  { taskFullToStore taskFull with AccelerateNames := accelerateNames }
                  (emitSync SyncEffect.modifySyncTask (emitSync SyncEffect.cpGetTask
                    (emitSync SyncEffect.localGet w)))).2.2).1 = none →
              (storeOutputs s lib env task (syncedOutputs lib taskFull) ts
                (storeInputs s lib env task (syncedInputs lib taskFull rewrite)
                  { taskFullToStore taskFull with AccelerateNames := accelerateNames }
                  (emitSync SyncEffect.modifySyncTask (emitSync SyncEffect.cpGetTask
                    (emitSync SyncEffect.localGet w)))).2.2).2.1.InputsJSON = ts.InputsJSON
              ∧ (storeOutputs s lib env task (syncedOutputs lib taskFull) ts
                (storeInputs s lib env task (syncedInputs lib taskFull rewrite)
                  { taskFullToStore taskFull with AccelerateNames := accelerateNames }
                  (emitSync SyncEffect.modifySyncTask (emitSync SyncEffect.cpGetTask
                    (emitSync SyncEffect.localGet w)))).2.2).2.1.InputsRef = ts.InputsRef := by
            intro ts hts
            obtain ⟨_, q0, q1⟩ := storeOutputs_ok s lib env task _ ts _ hts
            by_cases hout : (syncedOutputs lib taskFull).length = 0
            · rw [q0 hout]
              exact ⟨rfl, rfl⟩
            · obtain ⟨m, _, qle, qgt⟩ := q1 (Nat.pos_of_ne_zero hout)
              by_cases hl : len m ≤ s.offloadThreshold
              · rw [qle hl]
                exact ⟨rfl, rfl⟩
              · rw [qgt (not_le.mp hl)]
                exact ⟨rfl, rfl⟩
          obtain ⟨k1, k2⟩ := hkeep _ h2
          rw [k1, k2]
          refine ⟨manifest, hm, ?_, ?_, ?_⟩
          · intro hl
            rw [ile hl]
            exact ⟨rfl, rfl⟩
          · intro hl
            rw [igt hl]
            exact ⟨rfl, rfl⟩
          · by_cases hl : len manifest ≤ s.offloadThreshold
            · rw [ile hl]
              exact Or.inl ⟨hne, rfl⟩
            · rw [igt (not_le.mp hl)]
              exact Or.inr ⟨rfl, hpne⟩
        · intro hout
          have hz : (syncedOutputs lib taskFull).length = 0 := by
            rw [syncedOutputs_length, hout]; rfl
          rw [o0 hz]
          by_cases hin : (syncedInputs lib taskFull rewrite).length = 0
          · rw [i0 hin]
            exact ⟨rfl, rfl⟩
          · obtain ⟨m, _, ile, igt⟩ := i1 (Nat.pos_of_ne_zero hin)
            by_cases hl : len m ≤ s.offloadThreshold
            · rw [ile hl]
              exact ⟨rfl, rfl⟩
            · rw [igt (not_le.mp hl)]
              exact ⟨rfl, rfl⟩
        · intro hout
          have hpos : (syncedOutputs lib taskFull).length > 0 := by
            rw [syncedOutputs_length]
            exact List.length_pos.mpr hout
          obtain ⟨manifest, hm, ole, ogt⟩ := o1 hpos
          have hne := marshalManifest_ne_empty lib _ _ _ hm
          have hpne := filepathJoin_ne_empty
            (offload.filepathJoin s.offloadHelper.path task.id) "outputs.json"
          have hbase : (storeInputs s lib env task (syncedInputs lib taskFull rewrite)
              { taskFullToStore taskFull with AccelerateNames := accelerateNames }
              (emitSync SyncEffect.modifySyncTask (emitSync SyncEffect.cpGetTask
                (emitSync SyncEffect.localGet w)))).2.1.OutputsJSON = ""
              ∧ (storeInputs s lib env task (syncedInputs lib taskFull rewrite)
              { taskFullToStore taskFull with AccelerateNames := accelerateNames }
              (emitSync SyncEffect.modifySyncTask (emitSync SyncEffect.cpGetTask
                (emitSync SyncEffect.localGet w)))).2.1.OutputsRef = "" := by
            by_cases hin : (syncedInputs lib taskFull rewrite).length = 0
            · rw [i0 hin]
              exact ⟨rfl, rfl⟩
            · obtain ⟨m, _, ile, igt⟩ := i1 (Nat.pos_of_ne_zero hin)
              by_cases hl : len m ≤ s.offloadThreshold
              · rw [ile hl]
                exact ⟨rfl, rfl⟩
              · rw [igt (not_le.mp hl)]
                exact ⟨rfl, rfl⟩
          refine ⟨manifest, hm, ?_, ?_, ?_⟩
          · intro hl
            rw [ole hl]
            exact ⟨rfl, hbase.2⟩
          · intro hl
            rw [ogt hl]
            exact ⟨rfl, hbase.1⟩
          · by_cases hl : len manifest ≤ s.offloadThreshold
            · rw [ole hl]
              exact Or.inl ⟨hne, hbase.2⟩
            · rw [ogt (not_le.mp hl)]
              exact Or.inr ⟨hbase.1, hpne⟩

/-- C21 at a task with one input and one output and a threshold of 32 bytes:
the manifest of the inputs, of 31 bytes, is stored inline and the manifest of
the outputs, of 55 bytes, is spilled. -/
theorem syncQueuedTask_offload_threshold_witness :
    syncQueuedTask smallSyncer sampleLibrary (sampleSyncEnv sampleFullTask)
        { id := "task-1", state := consts.TaskQueued } emptySyncWorld
      = (none,
         { record := some
             { taskFullToStore sampleFullTask with
               InputsJSON := "\x7b\"inputs\":[\x7b\"url\":\"s3://b/k\"\x7d]\x7d",
               OutputsRef := "/offload/task-1/outputs.json" },
           disk :=
             { dirs := ["/offload/task-1"],
               files := [("/offload/task-1/outputs.json",
                 "\x7b\"outputs\":[\x7b\"url\":\"s3://b/a-rather-long-output-key\"\x7d]\x7d")] },
           calls := [SyncEffect.localGet, SyncEffect.cpGetTask, SyncEffect.modifySyncTask,
             SyncEffect.offloadOutputs, SyncEffect.storeTask] })
    ∧ ∃ taskFull accelerateNames rewrite stored,
        (sampleSyncEnv sampleFullTask).cpGetTask = Except.ok taskFull
        ∧ (sampleSyncEnv sampleFullTask).modifySyncTask = Except.ok (accelerateNames, rewrite)
        ∧ (syncQueuedTask smallSyncer sampleLibrary (sampleSyncEnv sampleFullTask)
            { id := "task-1", state := consts.TaskQueued } emptySyncWorld).2.record = some stored :=
  ⟨by decide,
   ((syncQueuedTask_offload_threshold smallSyncer sampleLibrary (sampleSyncEnv sampleFullTask)
      { id := "task-1", state := consts.TaskQueued } emptySyncWorld).2 rfl (by decide)).imp
    fun _ h1 => h1.imp fun _ h2 => h2.imp fun _ h3 => h3.imp fun _ h4 => ⟨h4.1, h4.2.1, h4.2.2.1⟩⟩

end syncer

/-! ## executor.go: word splitting of the command line -/

namespace runner

open localstore

/-- C26, at an argument that is the empty string: for the command `printf`
with the empty string as its argument and the stdout path `/out`, the command
line built has two blanks in a row and no quotes, and its words are `printf`,
`>` and `/out`: the empty argument is lost. At the stdout path `my out`, the
path is emitted as it is and falls into two words. An empty argument in
quotes, as in the command line `printf '' > /out`, is a word of its own. -/
theorem getCommandsWithStreamRedirects_drops_empty_argument :
    getCommandsWithStreamRedirects
        { Image := "img", Command := ["printf", ""], Workdir := "", Stdin := "",
          Stdout := "/out", Stderr := "", Env := [] }
      = ["/bin/sh", "-c", "printf  > /out"]
    ∧ shellWords "printf  > /out" = ["printf", ">", "/out"]
    ∧ shellWords "printf  > /out" ≠ ["printf", "", ">", "/out"]
    ∧ shellWords "printf '' > /out" = ["printf", "", ">", "/out"]
    ∧ getCommandsWithStreamRedirects
        { Image := "img", Command := ["echo", "hi there"], Workdir := "", Stdin := "",
          Stdout := "my out", Stderr := "", Env := [] }
      = ["/bin/sh", "-c", "echo 'hi there' > my out"]
    ∧ shellWords "echo 'hi there' > my out" = ["echo", "hi there", ">", "my", "out"] := by
  decide

end runner

/-! ## task.go: the index of the executor stage -/

namespace runner

open localstore

/-- What one `ProcessTask` does to the world, with the task the control plane
reported. -/
theorem ProcessTask_summary_reported (r : Runner) (env : Env) (taskID : String) (w : World) :
    Settled w (ProcessTask r env taskID w).2
    ∨ ∃ task ri o e, env.cpGetTask = Except.ok task ∧ w.record = some ri ∧ Advance task ri o e
        ∧ Attempt o e w (ProcessTask r env taskID w).2 := by
  unfold ProcessTask tryProcessTask
  by_cases hb : taskID ∈ w.taskProcessing
  · simp only [hb, if_true]
    exact Or.inl (Same.same_refl w).settled
  · simp only [hb, if_false]
    have h0 : Same w (emit Effect.cpGetTask
        { w with taskProcessing := taskID :: w.taskProcessing }) :=
      ⟨⟨[Effect.cpGetTask], rfl, rfl, rfl, rfl⟩, rfl, rfl⟩
    generalize emit Effect.cpGetTask { w with taskProcessing := taskID :: w.taskProcessing }
      = w0 at h0 ⊢
    cases hcp : env.cpGetTask with
    | error err => exact Or.inl (h0.same_trans (releaseProcessTask_same _ _)).settled
    | ok task =>
      have hsc : ∀ state, Settled w
          (releaseProcessTask taskID (stopAndCleanTask r env task state w0).2) := fun state =>
        (Settled.settled_after h0 (stopAndCleanTask_settled r env task state w0)).settled_andSame
          (releaseProcessTask_same _ _)
      by_cases h1 : task.ClusterID ≠ r.clusterID
      · simp only [if_pos h1]
        exact Or.inl (h0.same_trans (releaseProcessTask_same _ _)).settled
      · by_cases h2 : task.State = consts.TaskCanceling
        · simp only [if_neg h1, if_pos h2]
          exact Or.inl (hsc _)
        · by_cases h3 : task.State = consts.TaskSystemError
              ∨ task.State = consts.TaskExecutorError
              ∨ task.State = consts.TaskCanceled ∨ task.State = consts.TaskComplete
          · simp only [if_neg h1, if_neg h2, if_pos h3]
            exact Or.inl (hsc _)
          · simp only [if_neg h1, if_neg h2, if_neg h3]
            rcases runTask_summary r env task w0 with h | ⟨ri, o, e, hr, hadv, hatt⟩
            · exact Or.inl ((Settled.settled_after h0 h).settled_andSame (releaseProcessTask_same _ _))
            · exact Or.inr ⟨task, ri, o, e, rfl, by rw [← hr, h0.record], hadv,
                (Attempt.attempt_after h0 hatt).attempt_andSame (releaseProcessTask_same _ _)⟩

/-- The executor stage a step writes has an index in range, when the one it
read had and both views of the task have `n` executors. -/
theorem Advance.executorStage_in_range {task : CPTask} {ri : TaskInfo} {o : Option Obj}
    {v' : Int} {n : Nat} (h : Advance task ri o (Effect.localRecordExecutorStage v'))
    (hn : 1 ≤ n) (htask : task.Executors.length = n) (hlen : ri.Executors.length = n)
    (hin : ∀ v, ri.ExecutorStage = some v →
      0 ≤ (parseExecutorStageValue v).index ∧ (parseExecutorStageValue v).index < (n : Int)) :
    0 ≤ (parseExecutorStageValue v').index ∧ (parseExecutorStageValue v').index < (n : Int) := by
  generalize he : Effect.localRecordExecutorStage v' = e at h
  cases h <;> simp only [Effect.localRecordExecutorStage.injEq, reduceCtorEq] at he
  case executorsStart c h1 h2 h3 h4 =>
    rw [he]
    simp only [parseExecutorStageValue, newExecutorStageValue, executorStage.value,
      executorStatusToCreate]
    constructor
    · decide
    · have : Int.tdiv (0 * 10 + 0) 10 = 0 := by decide
      rw [this]
      omega
  case executorCreated c v h1 h2 h3 h4 h5 h6 h7 =>
    have hv := tdiv_tmod_ten v
    have hv' := tdiv_tmod_ten v'
    rw [hlen] at h7
    simp only [parseExecutorStageValue, newExecutorStageValue, executorStage.value,
      executorStatusToCreate, executorStatusCreated, executorStatusFailed] at *
    omega
  case executorWatched c v s h1 h2 h3 h4 h5 h6 =>
    have hv := tdiv_tmod_ten v
    have hv' := tdiv_tmod_ten v'
    have hr := hin v h4
    simp only [parseExecutorStageValue, newExecutorStageValue, executorStage.value,
      executorStatusSuccess, executorStatusCreated, executorStatusFailed] at *
    omega
  case executorNext c v h1 h2 h3 h4 h5 h6 =>
    have hv := tdiv_tmod_ten v
    have hv' := tdiv_tmod_ten v'
    have hr := hin v h4
    rw [htask] at h6
    simp only [parseExecutorStageValue, newExecutorStageValue, executorStage.value,
      executorStatusSuccess, executorStatusToCreate, executorStatusFailed] at *
    omega

/-- The record, if there is one, has `n` executors and an executor stage in
range. -/
theorem inRange_step {n : Nat} {w w' : World} (hn : 1 ≤ n)
    (hlen : ∀ ri, w.record = some ri → ri.Executors.length = n)
    (hin : executorIndexInRange n w)
    (h : Settled w w' ∨ ∃ task ri o e, task.Executors.length = n ∧ w.record = some ri
      ∧ Advance task ri o e ∧ Attempt o e w w') :
    (∀ rj, w'.record = some rj → rj.Executors.length = n) ∧ executorIndexInRange n w' := by
  have hsame : sameCounters w.record w'.record →
      (∀ rj, w'.record = some rj → rj.Executors.length = n) ∧ executorIndexInRange n w' := by
    intro hs
    rcases hs with ⟨_, hb⟩ | ⟨ri, rj, ha, hb, ht, _, he⟩
    · exact ⟨fun rj hr => (by rw [hb] at hr; cases hr),
        fun rj v hr _ => (by rw [hb] at hr; cases hr)⟩
    · refine ⟨?_, ?_⟩
      · intro rj2 hr
        rw [hb] at hr
        cases hr
        have := hlen ri ha
        rw [← this]
        show rj.toTask.Executors.length = ri.toTask.Executors.length
        rw [ht]
      · intro rj2 v hr hv
        rw [hb] at hr
        cases hr
        rw [he] at hv
        exact hin ri v ha hv
  rcases h with h | ⟨task, ri, o, e, htask, hr, hadv, hatt⟩
  · rcases h.record with h1 | ⟨h1, _⟩
    · exact hsame h1
    · exact ⟨fun rj hr => (by rw [h1] at hr; cases hr),
        fun rj v hr _ => (by rw [h1] at hr; cases hr)⟩
  · rcases hatt.record with h1 | ⟨ri2, rj, h1, h2, h3, h4⟩
    · exact hsame h1
    · rw [hr] at h1
      cases h1
      have hl : rj.Executors.length = n := by
        rw [← hlen ri hr]
        show rj.toTask.Executors.length = ri.toTask.Executors.length
        rw [h3]
      refine ⟨fun rj2 hr2 => (by rw [h2] at hr2; cases hr2; exact hl), ?_⟩
      intro rj2 v hr2 hv
      rw [h2] at hr2
      cases hr2
      cases e with
      | localRecordStage s =>
        simp only [applied] at h4
        rw [h4.2] at hv
        exact hin ri v hr hv
      | localRecordExecutorStage v' =>
        simp only [applied] at h4
        rw [h4.1] at hv
        cases hv
        exact hadv.executorStage_in_range hn htask (hlen ri hr) (fun v0 hv0 => hin ri v0 hr hv0)
      | _ => simp [applied] at h4

theorem RunReporting.in_range {r : Runner} {taskID : String} {n : Nat} {w w' : World}
    (hn : 1 ≤ n) (hlen : ∀ ri, w.record = some ri → ri.Executors.length = n)
    (hin : executorIndexInRange n w) (h : RunReporting r taskID n w w') :
    (∀ rj, w'.record = some rj → rj.Executors.length = n) ∧ executorIndexInRange n w' := by
  induction h with
  | refl => exact ⟨hlen, hin⟩
  | step env hrep _ ih =>
    apply inRange_step hn (ih hlen hin).1 (ih hlen hin).2
    rcases ProcessTask_summary_reported r env taskID _ with h | ⟨task, ri, o, e, hcp, hr, ha, hatt⟩
    · exact Or.inl h
    · exact Or.inr ⟨task, ri, o, e, hrep task hcp, hr, ha, hatt⟩
  | cancel env _ ih =>
    exact inRange_step hn (ih hlen hin).1 (ih hlen hin).2
      (Or.inl (syncCancelingMark_settled env _))

theorem RunReporting.reconcile (r : Runner) (env : Env) (taskID : String) (n : Nat)
    (hrep : ∀ task, env.cpGetTask = Except.ok task → task.Executors.length = n) (k : Nat)
    (w0 w : World) (h : RunReporting r taskID n w0 w) :
    RunReporting r taskID n w0 (reconcileTimes r env taskID k w) := by
  induction k generalizing w with
  | zero => exact h
  | succ k ih => exact ih _ (RunReporting.step env hrep h)

/-- C27: for a task whose record holds `n` executors, with `n` at least 1, and
no executor stage yet, along reconciliations and cancellation marks in which
the control plane reports `n` executors, every executor stage the record gets
has an index `i` with `0 ≤ i < n`, the record keeps its `n` executors, and so
`doCreateExecutor` at that index does not end in the panic of an index out of
range. -/
theorem executor_index_in_range (r : Runner) (taskID : String) (n : Nat) (w w' : World)
    (ri : TaskInfo) (hn : 1 ≤ n) (hrec : w.record = some ri) (hlen : ri.Executors.length = n)
    (hunset : ri.ExecutorStage = none) (hrun : RunReporting r taskID n w w') :
    ∀ rj v, w'.record = some rj → rj.ExecutorStage = some v →
      0 ≤ (parseExecutorStageValue v).index
      ∧ (parseExecutorStageValue v).index < (n : Int)
      ∧ rj.Executors.length = n
      ∧ ∀ env, (doCreateExecutor env rj.toTask (parseExecutorStageValue v).index w').1
          ≠ Ret.panic := by
  intro rj v hr hv
  have h0 : ∀ ri0, w.record = some ri0 → ri0.Executors.length = n := by
    intro ri0 h
    rw [hrec] at h
    cases h
    exact hlen
  have h1 : executorIndexInRange n w := by
    intro ri0 v0 h hv0
    rw [hrec] at h
    cases h
    rw [hunset] at hv0
    cases hv0
  obtain ⟨hl, hin⟩ := RunReporting.in_range hn h0 h1 hrun
  obtain ⟨ha, hb⟩ := hin rj v hr hv
  refine ⟨ha, hb, hl rj hr, ?_⟩
  intro env
  unfold doCreateExecutor
  have hlen2 : (rj.toTask.Executors.length : Int) = n := by
    have := hl rj hr
    show ((rj.Executors.length : Nat) : Int) = n
    rw [this]
  have hno : ¬ ((parseExecutorStageValue v).index < 0
      ∨ (parseExecutorStageValue v).index ≥ (rj.toTask.Executors.length : Int)) := by
    rw [hlen2]
    omega
  rw [if_neg hno]
  generalize createJob env (executorJobName (parseExecutorStageValue v).index) w' = x
  obtain ⟨e, w1⟩ := x
  cases e with
  | some err => simp [andThen]
  | none =>
    simp only [andThen, ret]
    generalize RecordTaskExecutorStage env _ w1 = y
    obtain ⟨e2, w2⟩ := y
    cases e2 <;> simp

/-- C27 at the sample task of three executors after thirteen reconciliations:
the record is at the executor stage `(2, ToCreate)`. -/
theorem executor_index_in_range_witness :
    (reconcileTimes sampleRunner (sampleEnv consts.TaskRunning []) "task-1" 13
        (initial sampleTask)).record
      = some { toTask := sampleTask, Stop := none, Stage := some 5, ExecutorStage := some 20 }
    ∧ 0 ≤ (parseExecutorStageValue 20).index
    ∧ (parseExecutorStageValue 20).index < ((3 : Nat) : Int) :=
  ⟨by decide,
   (executor_index_in_range sampleRunner "task-1" 3 (initial sampleTask)
      (reconcileTimes sampleRunner (sampleEnv consts.TaskRunning []) "task-1" 13
        (initial sampleTask))
      { toTask := sampleTask, Stop := none, Stage := none, ExecutorStage := none }
      (by decide) rfl (by decide) rfl
      (RunReporting.reconcile sampleRunner (sampleEnv consts.TaskRunning []) "task-1" 3
        (fun task h => by cases h; decide) 13 _ _ (RunReporting.refl _))
      { toTask := sampleTask, Stop := none, Stage := some 5, ExecutorStage := some 20 } 20
      (by decide) rfl).1,
   (executor_index_in_range sampleRunner "task-1" 3 (initial sampleTask)
      (reconcileTimes sampleRunner (sampleEnv consts.TaskRunning []) "task-1" 13
        (initial sampleTask))
      { toTask := sampleTask, Stop := none, Stage := none, ExecutorStage := none }
      (by decide) rfl (by decide) rfl
      (RunReporting.reconcile sampleRunner (sampleEnv consts.TaskRunning []) "task-1" 3
        (fun task h => by cases h; decide) 13 _ _ (RunReporting.refl _))
      { toTask := sampleTask, Stop := none, Stage := some 5, ExecutorStage := some 20 } 20
      (by decide) rfl).2.1⟩

end runner

/-! ## mounttos/pvc.go: createPVAndPVC without failures -/

namespace mounttos

open localstore

/-- `createPVAndPVC` when the PV or the PVC of the mount carries a deletion
timestamp and no request fails: it reports deleting, changes no object and
sends only reads. -/
theorem createPVAndPVC_deleting (k secretName : String) (st : State)
    (h : (st.pvs k).any (fun pv => pv.deleting) = true
      ∨ (st.pvcs k).any (fun pvc => pvc.deleting) = true) :
    (createPVAndPVC noFaults k secretName st).1 = (true, none)
    ∧ (createPVAndPVC noFaults k secretName st).2.pvcWithTasksCache = st.pvcWithTasksCache
    ∧ (createPVAndPVC noFaults k secretName st).2.pvs = st.pvs
    ∧ (createPVAndPVC noFaults k secretName st).2.pvcs = st.pvcs
    ∧ (createPVAndPVC noFaults k secretName st).2.secrets = st.secrets
    ∧ ∃ new, (createPVAndPVC noFaults k secretName st).2.trace = st.trace ++ new
        ∧ ∀ c ∈ new, c.verb = Verb.get := by
  by_cases hpv : (st.pvs k).any (fun pv => pv.deleting) = true
  · refine ⟨?_, ?_, ?_, ?_, ?_, [{ verb := Verb.get, kind := Kind.pv, name := k }], ?_, ?_⟩ <;>
      simp [createPVAndPVC, request, hpv]
  · have hpvc : (st.pvcs k).any (fun pvc => pvc.deleting) = true := h.resolve_left hpv
    refine ⟨?_, ?_, ?_, ?_, ?_, [{ verb := Verb.get, kind := Kind.pv, name := k },
      { verb := Verb.get, kind := Kind.pvc, name := k }], ?_, ?_⟩ <;>
      simp [createPVAndPVC, request, hpv, hpvc]

/-- `createPVAndPVC` when no request fails: no error, the table and the
secrets stay, and the PVs and PVCs of other names stay. -/
theorem createPVAndPVC_frame (k secretName : String) (st : State) :
    (createPVAndPVC noFaults k secretName st).1.2 = none
    ∧ (createPVAndPVC noFaults k secretName st).2.pvcWithTasksCache = st.pvcWithTasksCache
    ∧ (createPVAndPVC noFaults k secretName st).2.secrets = st.secrets
    ∧ (∀ n, n ≠ k → (createPVAndPVC noFaults k secretName st).2.pvs n = st.pvs n
        ∧ (createPVAndPVC noFaults k secretName st).2.pvcs n = st.pvcs n) := by
  by_cases hpv : (st.pvs k).any (fun pv => pv.deleting) = true
  · obtain ⟨h1, h2, h3, h4, h5, _⟩ := createPVAndPVC_deleting k secretName st (Or.inl hpv)
    exact ⟨by rw [h1], h2, h5, fun n _ => ⟨by rw [h3], by rw [h4]⟩⟩
  · by_cases hpvc : (st.pvcs k).any (fun pvc => pvc.deleting) = true
    · obtain ⟨h1, h2, h3, h4, h5, _⟩ := createPVAndPVC_deleting k secretName st (Or.inr hpvc)
      exact ⟨by rw [h1], h2, h5, fun n _ => ⟨by rw [h3], by rw [h4]⟩⟩
    · cases h1 : st.pvs k <;> cases h2 : st.pvcs k <;>
        simp only [h1, h2, Option.any_none, Option.any_some, Bool.not_eq_true,
          Bool.false_eq_true, not_false_eq_true] at hpv hpvc <;>
        simp [createPVAndPVC, request, hpv, hpvc, h1, h2] <;>
        intro n hn <;> simp [assign, hn]

/-- `createPVAndPVC` when nothing is being deleted and no request fails: it
reports no deletion and nothing is being deleted afterwards. -/
theorem createPVAndPVC_live (k secretName : String) (st : State) (hlive : mountsLive st) :
    (createPVAndPVC noFaults k secretName st).1 = (false, none)
    ∧ mountsLive (createPVAndPVC noFaults k secretName st).2 := by
  have hpv : ¬ (st.pvs k).any (fun pv => pv.deleting) = true := by
    cases h : st.pvs k with
    | none => simp
    | some pv => simp [hlive.1 k pv h]
  have hpvc : ¬ (st.pvcs k).any (fun pvc => pvc.deleting) = true := by
    cases h : st.pvcs k with
    | none => simp
    | some pvc => simp [hlive.2 k pvc h]
  have hassign_pv : ∀ (pvs : String → Option PV) (pv : PV), pv.deleting = false →
      (∀ n x, pvs n = some x → x.deleting = false) →
      ∀ n x, assign pvs k (some pv) n = some x → x.deleting = false := by
    intro pvs pv hd hall n x hx
    by_cases hn : n = k
    · simp [assign, hn] at hx
      rw [← hx]
      exact hd
    · simp [assign, hn] at hx
      exact hall n x hx
  have hassign_pvc : ∀ (pvcs : String → Option PVC) (pvc : PVC), pvc.deleting = false →
      (∀ n x, pvcs n = some x → x.deleting = false) →
      ∀ n x, assign pvcs k (some pvc) n = some x → x.deleting = false := by
    intro pvcs pvc hd hall n x hx
    by_cases hn : n = k
    · simp [assign, hn] at hx
      rw [← hx]
      exact hd
    · simp [assign, hn] at hx
      exact hall n x hx
  cases h1 : st.pvs k <;> cases h2 : st.pvcs k
  · have : createPVAndPVC noFaults k secretName st = _ := createPVAndPVC_absent k secretName st h1 h2
    rw [this]
    exact ⟨rfl, hassign_pv _ _ rfl hlive.1, hassign_pvc _ _ rfl hlive.2⟩
  · rename_i pvc
    have hd : pvc.deleting = false := hlive.2 k pvc h2
    refine ⟨by simp [createPVAndPVC, request, h1, h2, hd], ?_⟩
    simp only [createPVAndPVC, request, noFaults_fails, h1, h2, hd, Bool.false_eq_true,
      ↓reduceIte, Option.any_none, Option.any_some, Option.isSome_none, Option.isSome_some]
    exact ⟨hassign_pv _ _ rfl hlive.1, hlive.2⟩
  · rename_i pv
    have hd : pv.deleting = false := hlive.1 k pv h1
    refine ⟨by simp [createPVAndPVC, request, h1, h2, hd], ?_⟩
    simp only [createPVAndPVC, request, noFaults_fails, h1, h2, hd, Bool.false_eq_true,
      ↓reduceIte, Option.any_none, Option.any_some, Option.isSome_none, Option.isSome_some]
    exact ⟨hlive.1, hassign_pvc _ _ rfl hlive.2⟩
  · rename_i pv pvc
    have hd1 : pv.deleting = false := hlive.1 k pv h1
    have hd2 : pvc.deleting = false := hlive.2 k pvc h2
    refine ⟨by simp [createPVAndPVC, request, h1, h2, hd1, hd2], ?_⟩
    simp only [createPVAndPVC, request, noFaults_fails, h1, h2, hd1, hd2, Bool.false_eq_true,
      ↓reduceIte, Option.any_some, Option.isSome_some]
    exact hlive

end mounttos

namespace mounttos

open localstore

/-- The requests of `createPVAndPVC` all name the mount. -/
theorem createPVAndPVC_requests (k secretName : String) (st : State) :
    ∃ new, (createPVAndPVC noFaults k secretName st).2.trace = st.trace ++ new
      ∧ ∀ c ∈ new, c.name = k := by
  cases h1 : st.pvs k with
  | none =>
    cases h2 : st.pvcs k with
    | none =>
      refine ⟨[{ verb := Verb.get, kind := Kind.pv, name := k },
        { verb := Verb.get, kind := Kind.pvc, name := k },
        { verb := Verb.create, kind := Kind.pv, name := k },
        { verb := Verb.create, kind := Kind.pvc, name := k }], ?_, ?_⟩ <;>
        simp [createPVAndPVC, request, h1, h2]
    | some pvc =>
      cases hd : pvc.deleting
      · refine ⟨[{ verb := Verb.get, kind := Kind.pv, name := k },
          { verb := Verb.get, kind := Kind.pvc, name := k },
          { verb := Verb.create, kind := Kind.pv, name := k }], ?_, ?_⟩ <;>
          simp [createPVAndPVC, request, h1, h2, hd]
      · refine ⟨[{ verb := Verb.get, kind := Kind.pv, name := k },
          { verb := Verb.get, kind := Kind.pvc, name := k }], ?_, ?_⟩ <;>
          simp [createPVAndPVC, request, h1, h2, hd]
  | some pv =>
    cases hd1 : pv.deleting
    · cases h2 : st.pvcs k with
      | none =>
        refine ⟨[{ verb := Verb.get, kind := Kind.pv, name := k },
          { verb := Verb.get, kind := Kind.pvc, name := k },
          { verb := Verb.create, kind := Kind.pvc, name := k }], ?_, ?_⟩ <;>
          simp [createPVAndPVC, request, h1, h2, hd1]
      | some pvc =>
        cases hd : pvc.deleting <;>
        refine ⟨[{ verb := Verb.get, kind := Kind.pv, name := k },
          { verb := Verb.get, kind := Kind.pvc, name := k }], ?_, ?_⟩ <;>
          simp [createPVAndPVC, request, h1, h2, hd1, hd]
    · refine ⟨[{ verb := Verb.get, kind := Kind.pv, name := k }], ?_, ?_⟩ <;>
        simp [createPVAndPVC, request, h1, hd1]

end mounttos

/-! ## mounttos.go: deferred creation -/

namespace mounttos

open localstore

theorem Deferred.trans {m : String} {a b c : State} (h1 : Deferred m a b) (h2 : Deferred m b c) :
    Deferred m a c := by
  obtain ⟨_, a2, a3, n1, a4, a5⟩ := h1
  obtain ⟨b1, b2, b3, n2, b4, b5⟩ := h2
  refine ⟨b1, b2.trans a2, b3.trans a3, n1 ++ n2, ?_, ?_⟩
  · rw [b4, a4, List.append_assoc]
  · intro x hx
    rcases List.mem_append.1 hx with h | h
    · exact a5 x h
    · exact b5 x h

theorem mountDeleting_of_eq {m : String} {a b : State} (h : mountDeleting a m)
    (hpv : b.pvs m = a.pvs m) (hpvc : b.pvcs m = a.pvcs m) : mountDeleting b m := by
  unfold mountDeleting
  rw [hpv, hpvc]
  exact h

/-- `OnProcessTaskMount` while the mount `m` is being deleted and has no
reference set, when no request fails: `m` is left alone, and a deferral is
noted when the mount at hand is `m`. -/
theorem OnProcessTaskMount_deferred (t : Task) (k secretName m : String) (acc : Loop)
    (hc : acc.st.pvcWithTasksCache m = none) (hdel : mountDeleting acc.st m) :
    (OnProcessTaskMount noFaults t k secretName acc).errs = acc.errs
    ∧ Deferred m acc.st (OnProcessTaskMount noFaults t k secretName acc).st
    ∧ (acc.existDeleting = true →
        (OnProcessTaskMount noFaults t k secretName acc).existDeleting = true)
    ∧ (k = m → (OnProcessTaskMount noFaults t k secretName acc).existDeleting = true) := by
  by_cases hk : k = m
  · subst hk
    obtain ⟨d1, d2, d3, d4, _, new, d6, d7⟩ := createPVAndPVC_deleting k secretName acc.st hdel
    have hbody : OnProcessTaskMount noFaults t k secretName acc
        = { acc with existDeleting := true,
                     st := (createPVAndPVC noFaults k secretName acc.st).2 } := by
      simp [OnProcessTaskMount, d1]
    rw [hbody]
    refine ⟨rfl, ⟨?_, ?_, ?_, new, d6, fun c hcm => Or.inr (Or.inr (d7 c hcm))⟩,
      fun _ => rfl, fun _ => rfl⟩
    · show (createPVAndPVC noFaults k secretName acc.st).2.pvcWithTasksCache k = none
      rw [d2, hc]
    · show (createPVAndPVC noFaults k secretName acc.st).2.pvs k = _
      rw [d3]
    · show (createPVAndPVC noFaults k secretName acc.st).2.pvcs k = _
      rw [d4]
  · obtain ⟨f1, f2, _, f4⟩ := createPVAndPVC_frame k secretName acc.st
    obtain ⟨new, r1, r2⟩ := createPVAndPVC_requests k secretName acc.st
    have hmk : m ≠ k := fun h => hk h.symm
    have hother : ∀ c ∈ new, c.kind = Kind.secret ∨ c.name ≠ m ∨ c.verb = Verb.get := by
      intro c hcm
      refine Or.inr (Or.inl ?_)
      rw [r2 c hcm]
      exact hk
    cases hx : (createPVAndPVC noFaults k secretName acc.st).1.1 with
    | true =>
      have hbody : OnProcessTaskMount noFaults t k secretName acc
          = { acc with existDeleting := true,
                       st := (createPVAndPVC noFaults k secretName acc.st).2 } := by
        simp [OnProcessTaskMount, f1, hx]
      rw [hbody]
      refine ⟨rfl, ⟨?_, (f4 m hmk).1, (f4 m hmk).2, new, r1, hother⟩, fun _ => rfl,
        fun h => absurd h hk⟩
      show (createPVAndPVC noFaults k secretName acc.st).2.pvcWithTasksCache m = none
      rw [f2, hc]
    | false =>
      have hbody : OnProcessTaskMount noFaults t k secretName acc
          = { acc with st := { (createPVAndPVC noFaults k secretName acc.st).2 with
              pvcWithTasksCache :=
                assign (createPVAndPVC noFaults k secretName acc.st).2.pvcWithTasksCache
                  k (some [t.ID]) } } := by
        simp [OnProcessTaskMount, f1, hx]
      rw [hbody]
      refine ⟨rfl, ⟨?_, (f4 m hmk).1, (f4 m hmk).2, new, r1, hother⟩, fun h => h,
        fun h => absurd h hk⟩
      show assign _ k _ m = none
      rw [assign_other _ _ _ _ hmk, f2, hc]

/-- The loop body of `OnProcessTask` while the mount `m` is being deleted and
has no reference set, when no request fails. -/
theorem OnProcessTaskBody_deferred (opts : Options) (t : Task) (bioosInfo : BioosInfo)
    (acc : Loop) (k m : String)
    (hc : acc.st.pvcWithTasksCache m = none) (hdel : mountDeleting acc.st m) :
    (OnProcessTaskBody opts noFaults t bioosInfo acc k).errs = acc.errs
    ∧ Deferred m acc.st (OnProcessTaskBody opts noFaults t bioosInfo acc k).st
    ∧ (acc.existDeleting = true →
        (OnProcessTaskBody opts noFaults t bioosInfo acc k).existDeleting = true)
    ∧ (k = m → (OnProcessTaskBody opts noFaults t bioosInfo acc k).existDeleting = true) := by
  cases hck : acc.st.pvcWithTasksCache k with
  | some ids =>
    have hk : k ≠ m := by
      intro h
      rw [h, hc] at hck
      cases hck
    rw [OnProcessTaskBody_some opts t bioosInfo acc k ids hck]
    refine ⟨rfl, ⟨?_, rfl, rfl, [], by simp, by simp⟩, fun h => h, fun h => absurd h hk⟩
    show assign _ k _ m = none
    rw [assign_other _ _ _ _ (fun h => hk h.symm), hc]
  | none =>
    cases hauth : externalBucketAuthInfo bioosInfo (parseBucketFromPVCName k) with
    | none =>
      have hbody : OnProcessTaskBody opts noFaults t bioosInfo acc k
          = OnProcessTaskMount noFaults t k opts.StaticTOSSecretName acc := by
        simp [OnProcessTaskBody, hck, hauth]
      rw [hbody]
      exact OnProcessTaskMount_deferred t k _ m acc hc hdel
    | some a =>
      obtain ⟨s1, s2, s3, ⟨new, s4, s5⟩, _, s6, _, _⟩ := storeKubeSecret_spec
        (externalBucketTOSSecretName bioosInfo.SubmissionID (parseBucketFromPVCName k))
        a.1 a.2 acc.st
      have hstep : Deferred m acc.st (storeKubeSecret noFaults
          (externalBucketTOSSecretName bioosInfo.SubmissionID (parseBucketFromPVCName k))
          a.1 a.2 acc.st).2 :=
        ⟨by rw [s1, hc], by rw [s2], by rw [s3], new, s4, fun c hcm => Or.inl (s5 c hcm)⟩
      cases hx : (storeKubeSecret noFaults
          (externalBucketTOSSecretName bioosInfo.SubmissionID (parseBucketFromPVCName k))
          a.1 a.2 acc.st).1.1 with
      | true =>
        have hbody : OnProcessTaskBody opts noFaults t bioosInfo acc k
            = { acc with existDeleting := true, st := (storeKubeSecret noFaults
                (externalBucketTOSSecretName bioosInfo.SubmissionID (parseBucketFromPVCName k))
                a.1 a.2 acc.st).2 } := by
          simp [OnProcessTaskBody, hck, hauth, s6, hx]
        rw [hbody]
        exact ⟨rfl, hstep, fun _ => rfl, fun _ => rfl⟩
      | false =>
        have hbody : OnProcessTaskBody opts noFaults t bioosInfo acc k
            = OnProcessTaskMount noFaults t k
                (externalBucketTOSSecretName bioosInfo.SubmissionID (parseBucketFromPVCName k))
                { acc with st := (storeKubeSecret noFaults
                  (externalBucketTOSSecretName bioosInfo.SubmissionID (parseBucketFromPVCName k))
                  a.1 a.2 acc.st).2 } := by
          simp [OnProcessTaskBody, hck, hauth, s6, hx]
        rw [hbody]
        obtain ⟨m1, m2, m3, m4⟩ := OnProcessTaskMount_deferred t k
          (externalBucketTOSSecretName bioosInfo.SubmissionID (parseBucketFromPVCName k)) m
          { acc with st := (storeKubeSecret noFaults
            (externalBucketTOSSecretName bioosInfo.SubmissionID (parseBucketFromPVCName k))
            a.1 a.2 acc.st).2 } hstep.1 (mountDeleting_of_eq hdel hstep.2.1 hstep.2.2.1)
        exact ⟨m1, hstep.trans m2, m3, m4⟩

/-- The loop of `OnProcessTask` while the mount `m` is being deleted and has no
reference set, when no request fails: no error is collected, `m` is left
alone, and a deferral is noted once `m` has been met. -/
theorem OnProcessTask_loop_deferred (opts : Options) (t : Task) (bioosInfo : BioosInfo)
    (m : String) (names : List String) (acc : Loop)
    (hc : acc.st.pvcWithTasksCache m = none) (hdel : mountDeleting acc.st m)
    (hmet : m ∈ names ∨ acc.existDeleting = true) :
    (names.foldl (OnProcessTaskBody opts noFaults t bioosInfo) acc).errs = acc.errs
    ∧ Deferred m acc.st (names.foldl (OnProcessTaskBody opts noFaults t bioosInfo) acc).st
    ∧ (names.foldl (OnProcessTaskBody opts noFaults t bioosInfo) acc).existDeleting = true := by
  induction names generalizing acc with
  | nil =>
    refine ⟨rfl, ⟨hc, rfl, rfl, [], by simp, by simp⟩, ?_⟩
    rcases hmet with h | h
    · cases h
    · exact h
  | cons k rest ih =>
    obtain ⟨b1, b2, b3, b4⟩ := OnProcessTaskBody_deferred opts t bioosInfo acc k m hc hdel
    have hmet2 : m ∈ rest ∨ (OnProcessTaskBody opts noFaults t bioosInfo acc k).existDeleting = true := by
      rcases hmet with h | h
      · rcases List.mem_cons.1 h with h1 | h1
        · exact Or.inr (b4 h1.symm)
        · exact Or.inl h1
      · exact Or.inr (b3 h)
    obtain ⟨i1, i2, i3⟩ := ih (OnProcessTaskBody opts noFaults t bioosInfo acc k) b2.1
      (mountDeleting_of_eq hdel b2.2.1 b2.2.2.1) hmet2
    rw [List.foldl_cons]
    exact ⟨i1.trans b1, b2.trans i2, i3⟩

end mounttos

namespace runner

open localstore

/-- `runTask` on a task that is not stopped, when the mount hook asks to come
back later: the hook's result is returned and nothing is written. -/
theorem runTask_hook_requeue (r : Runner) (env : Env) (task : CPTask) (w : World)
    (ri : TaskInfo) (result : Result) (hget : env.localGetFails = false)
    (hrec : w.record = some ri) (hstop : ri.Stop = none)
    (hhook : env.accelOnProcess = (result, none)) (hzero : result.IsZero = false) :
    runTask r env task w
      = (Ret.done result none, emit Effect.accelOnProcess (emit Effect.localGet w)) := by
  simp [runTask, GetTask, hget, hrec, hstop, OnProcessTask, hhook, hzero]

end runner

namespace mounttos

open localstore

/-- C24: deferred mount creation. Let the PV or the PVC of the mount `m`
carry a deletion timestamp and let no cluster request fail. Then
`createPVAndPVC` on `m` reports deleting with no error, leaves every PV and
PVC as it was and sends only reads; `OnProcessTask` for a task that lists `m`,
while `m` has no reference set, returns `RequeueAfter` of 5000 ms with no
error, leaves `m` without a reference set and its PV and PVC as they were, and
sends no write about the PV or PVC of `m`; and `runTask`, given that result by
the mount hook for a task that is not stopped, returns it and writes nothing,
so the recorded stage stays. -/
theorem OnProcessTask_defers_deleting_mount (opts : Options) (t : Task) (bioosInfo : BioosInfo)
    (st : State) (m : String) (hb : t.BioosInfo = some bioosInfo)
    (hin : m ∈ t.AccelerateNames) (hc : st.pvcWithTasksCache m = none)
    (hdel : mountDeleting st m) :
    (∀ secretName,
      (createPVAndPVC noFaults m secretName st).1 = (true, none)
      ∧ (createPVAndPVC noFaults m secretName st).2.pvs = st.pvs
      ∧ (createPVAndPVC noFaults m secretName st).2.pvcs = st.pvcs
      ∧ ∃ new, (createPVAndPVC noFaults m secretName st).2.trace = st.trace ++ new
          ∧ ∀ c ∈ new, c.verb = Verb.get)
    ∧ (OnProcessTask opts noFaults t st).1
        = ({ Requeue := false, RequeueAfter := 5000 }, none)
    ∧ (OnProcessTask opts noFaults t st).2.pvcWithTasksCache m = none
    ∧ (OnProcessTask opts noFaults t st).2.pvs m = st.pvs m
    ∧ (OnProcessTask opts noFaults t st).2.pvcs m = st.pvcs m
    ∧ (∃ new, (OnProcessTask opts noFaults t st).2.trace = st.trace ++ new
        ∧ ∀ c ∈ new, c.kind = Kind.secret ∨ c.name ≠ m ∨ c.verb = Verb.get)
    ∧ ∀ (r : runner.Runner) (env : runner.Env) (task : runner.CPTask) (w : runner.World)
        (ri : TaskInfo), env.localGetFails = false → w.record = some ri → ri.Stop = none →
        env.accelOnProcess = (OnProcessTask opts noFaults t st).1 →
        runner.runTask r env task w
          = (runner.Ret.done { Requeue := false, RequeueAfter := 5000 } none,
              runner.emit runner.Effect.accelOnProcess (runner.emit runner.Effect.localGet w))
        ∧ (runner.runTask r env task w).2.record = w.record := by
  have hlen : ¬ t.AccelerateNames.length = 0 := by
    intro h
    rw [List.length_eq_zero] at h
    rw [h] at hin
    cases hin
  obtain ⟨l1, l2, l3⟩ := OnProcessTask_loop_deferred opts t bioosInfo m t.AccelerateNames
    { errs := [], existDeleting := false, st := st } hc hdel (Or.inl hin)
  have hall : OnProcessTask opts noFaults t st
      = (({ Requeue := false, RequeueAfter := 5000 }, none),
          (t.AccelerateNames.foldl (OnProcessTaskBody opts noFaults t bioosInfo)
            { errs := [], existDeleting := false, st := st }).st) := by
    simp [OnProcessTask, hb, hlen, l1, l3, NewAggregate, deletingWaitDuration]
  refine ⟨fun secretName => ?_, by rw [hall], by rw [hall]; exact l2.1,
    by rw [hall]; exact l2.2.1, by rw [hall]; exact l2.2.2.1, by rw [hall]; exact l2.2.2.2, ?_⟩
  · obtain ⟨d1, _, d3, d4, _, d6⟩ := createPVAndPVC_deleting m secretName st hdel
    exact ⟨d1, d3, d4, d6⟩
  · intro r env task w ri hget hrec hstop hhook
    rw [hall] at hhook
    have hrun := runner.runTask_hook_requeue r env task w ri _ hget hrec hstop hhook
      (by decide)
    rw [hrun]
    exact ⟨rfl, rfl⟩

end mounttos

namespace mounttos

open localstore

/-- C24 at a task that lists the mount `workflow-B` while the PV of that
mount is being deleted. -/
theorem OnProcessTask_defers_deleting_mount_witness :
    mountDeleting deletingState "workflow-B"
    ∧ (OnProcessTask sampleOptions noFaults (mountTask "t" "sub1" ["workflow-B"] [])
        deletingState).1 = ({ Requeue := false, RequeueAfter := 5000 }, none)
    ∧ (OnProcessTask sampleOptions noFaults (mountTask "t" "sub1" ["workflow-B"] [])
        deletingState).2.pvcWithTasksCache "workflow-B" = none :=
  ⟨Or.inl (by decide),
    (OnProcessTask_defers_deleting_mount sampleOptions (mountTask "t" "sub1" ["workflow-B"] []) _
      deletingState "workflow-B" rfl (List.mem_singleton.2 rfl) rfl (Or.inl (by decide))).2.1,
    (OnProcessTask_defers_deleting_mount sampleOptions (mountTask "t" "sub1" ["workflow-B"] []) _
      deletingState "workflow-B" rfl (List.mem_singleton.2 rfl) rfl
      (Or.inl (by decide))).2.2.1⟩

end mounttos

/-! ## mounttos.go: idempotence -/

namespace mounttos

open localstore

/-- `OnProcessTaskMount` when nothing is being deleted and no request fails:
the mount gets a reference set holding the task alone. -/
theorem OnProcessTaskMount_live (t : Task) (k secretName : String) (acc : Loop)
    (hm : mountsLive acc.st) :
    mountsLive (OnProcessTaskMount noFaults t k secretName acc).st
    ∧ (OnProcessTaskMount noFaults t k secretName acc).st.secrets = acc.st.secrets
    ∧ (OnProcessTaskMount noFaults t k secretName acc).errs = acc.errs
    ∧ (OnProcessTaskMount noFaults t k secretName acc).existDeleting = acc.existDeleting
    ∧ (OnProcessTaskMount noFaults t k secretName acc).st.pvcWithTasksCache k = some [t.ID]
    ∧ ∀ n, n ≠ k → (OnProcessTaskMount noFaults t k secretName acc).st.pvcWithTasksCache n
        = acc.st.pvcWithTasksCache n := by
  obtain ⟨h1, h2⟩ := createPVAndPVC_live k secretName acc.st hm
  obtain ⟨_, f2, f3, _⟩ := createPVAndPVC_frame k secretName acc.st
  have hbody : OnProcessTaskMount noFaults t k secretName acc
      = { acc with st := { (createPVAndPVC noFaults k secretName acc.st).2 with
          pvcWithTasksCache := assign (createPVAndPVC noFaults k secretName acc.st).2.pvcWithTasksCache
            k (some [t.ID]) } } := by
    simp [OnProcessTaskMount, h1]
  rw [hbody]
  refine ⟨h2, f3, rfl, rfl, assign_same _ _ _, fun n hn => ?_⟩
  show assign _ k _ n = _
  rw [assign_other _ _ _ _ hn, f2]

/-- The loop body of `OnProcessTask` when nothing is being deleted and no
request fails: nothing is being deleted afterwards, no error and no deferral is
noted, and the task is in the reference set of the mount. -/
theorem OnProcessTaskBody_live (opts : Options) (t : Task) (bioosInfo : BioosInfo) (acc : Loop)
    (k : String) (hm : mountsLive acc.st) (hs : secretsLive acc.st) :
    mountsLive (OnProcessTaskBody opts noFaults t bioosInfo acc k).st
    ∧ secretsLive (OnProcessTaskBody opts noFaults t bioosInfo acc k).st
    ∧ (OnProcessTaskBody opts noFaults t bioosInfo acc k).errs = acc.errs
    ∧ (OnProcessTaskBody opts noFaults t bioosInfo acc k).existDeleting = acc.existDeleting
    ∧ (∃ ids, (OnProcessTaskBody opts noFaults t bioosInfo acc k).st.pvcWithTasksCache k = some ids
        ∧ t.ID ∈ ids)
    ∧ ∀ n, n ≠ k → (OnProcessTaskBody opts noFaults t bioosInfo acc k).st.pvcWithTasksCache n
        = acc.st.pvcWithTasksCache n := by
  cases hc : acc.st.pvcWithTasksCache k with
  | some ids =>
    rw [OnProcessTaskBody_some opts t bioosInfo acc k ids hc]
    exact ⟨hm, hs, rfl, rfl, ⟨_, assign_same _ _ _, (mem_insertID _ _ _).2 (Or.inl rfl)⟩,
      fun n hn => assign_other _ _ _ _ hn⟩
  | none =>
    cases hauth : externalBucketAuthInfo bioosInfo (parseBucketFromPVCName k) with
    | none =>
      have hbody : OnProcessTaskBody opts noFaults t bioosInfo acc k
          = OnProcessTaskMount noFaults t k opts.StaticTOSSecretName acc := by
        simp [OnProcessTaskBody, hc, hauth]
      rw [hbody]
      obtain ⟨m1, m2, m3, m4, m5, m6⟩ := OnProcessTaskMount_live t k opts.StaticTOSSecretName acc hm
      refine ⟨m1, ?_, m3, m4, ⟨_, m5, List.mem_singleton.2 rfl⟩, m6⟩
      intro n s h
      rw [m2] at h
      exact hs n s h
    | some a =>
      obtain ⟨s1, s2, s3, _, _, s6, _, s8⟩ := storeKubeSecret_spec
        (externalBucketTOSSecretName bioosInfo.SubmissionID (parseBucketFromPVCName k))
        a.1 a.2 acc.st
      obtain ⟨s8a, s8b⟩ := s8 hs
      have hbody : OnProcessTaskBody opts noFaults t bioosInfo acc k
          = OnProcessTaskMount noFaults t k
              (externalBucketTOSSecretName bioosInfo.SubmissionID (parseBucketFromPVCName k))
              { acc with st := (storeKubeSecret noFaults
                (externalBucketTOSSecretName bioosInfo.SubmissionID (parseBucketFromPVCName k))
                a.1 a.2 acc.st).2 } := by
        simp [OnProcessTaskBody, hc, hauth, s6, s8b]
      rw [hbody]
      have hm2 : mountsLive ({ acc with st := (storeKubeSecret noFaults
          (externalBucketTOSSecretName bioosInfo.SubmissionID (parseBucketFromPVCName k))
          a.1 a.2 acc.st).2 } : Loop).st := by
        show mountsLive (storeKubeSecret noFaults _ a.1 a.2 acc.st).2
        unfold mountsLive
        rw [s2, s3]
        exact hm
      obtain ⟨m1, m2, m3, m4, m5, m6⟩ := OnProcessTaskMount_live t k
        (externalBucketTOSSecretName bioosInfo.SubmissionID (parseBucketFromPVCName k)) _ hm2
      refine ⟨m1, ?_, m3, m4, ⟨_, m5, List.mem_singleton.2 rfl⟩, fun n hn => ?_⟩
      · intro n s h
        rw [m2] at h
        exact s8a n s h
      · rw [m6 n hn]
        show (storeKubeSecret noFaults _ a.1 a.2 acc.st).2.pvcWithTasksCache n = _
        rw [s1]

/-- The loop of `OnProcessTask` when nothing is being deleted and no request
fails: afterwards the task is in the reference set of every listed mount. -/
theorem OnProcessTask_loop_live (opts : Options) (t : Task) (bioosInfo : BioosInfo)
    (names : List String) (acc : Loop) (hm : mountsLive acc.st) (hs : secretsLive acc.st) :
    (names.foldl (OnProcessTaskBody opts noFaults t bioosInfo) acc).errs = acc.errs
    ∧ (names.foldl (OnProcessTaskBody opts noFaults t bioosInfo) acc).existDeleting
        = acc.existDeleting
    ∧ (∀ k, (k ∈ names ∨ ∃ ids, acc.st.pvcWithTasksCache k = some ids ∧ t.ID ∈ ids) →
        ∃ ids, (names.foldl (OnProcessTaskBody opts noFaults t bioosInfo) acc).st.pvcWithTasksCache k
          = some ids ∧ t.ID ∈ ids) := by
  induction names generalizing acc with
  | nil =>
    refine ⟨rfl, rfl, fun k hk => ?_⟩
    rcases hk with hk | hk
    · cases hk
    · exact hk
  | cons k rest ih =>
    obtain ⟨b1, b2, b3, b4, b5, b6⟩ := OnProcessTaskBody_live opts t bioosInfo acc k hm hs
    obtain ⟨i1, i2, i3⟩ := ih (OnProcessTaskBody opts noFaults t bioosInfo acc k) b1 b2
    rw [List.foldl_cons]
    refine ⟨i1.trans b3, i2.trans b4, fun n hn => i3 n ?_⟩
    by_cases hnk : n = k
    · rw [hnk]
      exact Or.inr b5
    · rcases hn with hn | hn
      · rcases List.mem_cons.1 hn with h | h
        · exact absurd h hnk
        · exact Or.inl h
      · rw [← b6 n hnk] at hn
        exact Or.inr hn

/-- The loop body of `OnProcessTask` changes nothing on a mount whose
reference set already holds the task. -/
theorem OnProcessTaskBody_held (opts : Options) (f : Faults) (t : Task) (bioosInfo : BioosInfo)
    (acc : Loop) (k : String) (ids : List String)
    (hc : acc.st.pvcWithTasksCache k = some ids) (hin : t.ID ∈ ids) :
    OnProcessTaskBody opts f t bioosInfo acc k = acc := by
  have hassign : assign acc.st.pvcWithTasksCache k (some (insertID t.ID ids))
      = acc.st.pvcWithTasksCache := by
    funext n
    by_cases hn : n = k
    · rw [hn, assign_same, hc, insertID, if_pos hin]
    · exact assign_other _ _ _ _ hn
  have hbody : OnProcessTaskBody opts f t bioosInfo acc k
      = { acc with st := { acc.st with
          pvcWithTasksCache := assign acc.st.pvcWithTasksCache k (some (insertID t.ID ids)) } } := by
    simp [OnProcessTaskBody, hc]
  rw [hbody, hassign]

/-- The loop of `OnProcessTask` changes nothing when the reference set of
every listed mount already holds the task. -/
theorem OnProcessTask_loop_held (opts : Options) (f : Faults) (t : Task) (bioosInfo : BioosInfo)
    (names : List String) (acc : Loop)
    (h : ∀ k ∈ names, ∃ ids, acc.st.pvcWithTasksCache k = some ids ∧ t.ID ∈ ids) :
    names.foldl (OnProcessTaskBody opts f t bioosInfo) acc = acc := by
  induction names with
  | nil => rfl
  | cons k rest ih =>
    obtain ⟨ids, hc, hin⟩ := h k (List.mem_cons_self _ _)
    rw [List.foldl_cons, OnProcessTaskBody_held opts f t bioosInfo acc k ids hc hin]
    exact ih fun n hn => h n (List.mem_cons_of_mem _ hn)

/-- C29: `OnProcessTask` is idempotent. When no PV, PVC or secret of the
cluster is being deleted and no cluster request fails, a first call returns the
empty result with no error, and a second call for the same task returns the
empty result with no error and leaves the whole state as the first call left
it: the same table, the same PVs, PVCs and secrets, and the same list of
requests, so the second call sends no request and creates nothing. -/
theorem OnProcessTask_idempotent (opts : Options) (t : Task) (st : State)
    (hm : mountsLive st) (hs : secretsLive st) :
    (OnProcessTask opts noFaults t st).1 = (runner.Result.empty, none)
    ∧ OnProcessTask opts noFaults t (OnProcessTask opts noFaults t st).2
        = ((runner.Result.empty, none), (OnProcessTask opts noFaults t st).2)
    ∧ (OnProcessTask opts noFaults t (OnProcessTask opts noFaults t st).2).2.pvcWithTasksCache
        = (OnProcessTask opts noFaults t st).2.pvcWithTasksCache
    ∧ (OnProcessTask opts noFaults t (OnProcessTask opts noFaults t st).2).2.pvs
        = (OnProcessTask opts noFaults t st).2.pvs
    ∧ (OnProcessTask opts noFaults t (OnProcessTask opts noFaults t st).2).2.pvcs
        = (OnProcessTask opts noFaults t st).2.pvcs
    ∧ (OnProcessTask opts noFaults t (OnProcessTask opts noFaults t st).2).2.secrets
        = (OnProcessTask opts noFaults t st).2.secrets
    ∧ (OnProcessTask opts noFaults t (OnProcessTask opts noFaults t st).2).2.trace
        = (OnProcessTask opts noFaults t st).2.trace := by
  have key : (OnProcessTask opts noFaults t st).1 = (runner.Result.empty, none)
      ∧ OnProcessTask opts noFaults t (OnProcessTask opts noFaults t st).2
        = ((runner.Result.empty, none), (OnProcessTask opts noFaults t st).2) := by
    cases hb : t.BioosInfo with
    | none =>
      have h1 : ∀ s, OnProcessTask opts noFaults t s = ((runner.Result.empty, none), s) := by
        intro s
        simp [OnProcessTask, hb]
      rw [h1 st]
      exact ⟨rfl, h1 st⟩
    | some bioosInfo =>
      by_cases hlen : t.AccelerateNames.length = 0
      · have h1 : ∀ s, OnProcessTask opts noFaults t s = ((runner.Result.empty, none), s) := by
          intro s
          simp [OnProcessTask, hb, hlen]
        rw [h1 st]
        exact ⟨rfl, h1 st⟩
      · obtain ⟨l1, l2, l3⟩ := OnProcessTask_loop_live opts t bioosInfo t.AccelerateNames
          { errs := [], existDeleting := false, st := st } hm hs
        have h1 : OnProcessTask opts noFaults t st
            = ((runner.Result.empty, none),
                (t.AccelerateNames.foldl (OnProcessTaskBody opts noFaults t bioosInfo)
                  { errs := [], existDeleting := false, st := st }).st) := by
          simp [OnProcessTask, hb, hlen, l1, l2, NewAggregate]
        have h2 : t.AccelerateNames.foldl (OnProcessTaskBody opts noFaults t bioosInfo)
            { errs := [], existDeleting := false,
              st := (t.AccelerateNames.foldl (OnProcessTaskBody opts noFaults t bioosInfo)
                { errs := [], existDeleting := false, st := st }).st }
            = { errs := [], existDeleting := false,
                st := (t.AccelerateNames.foldl (OnProcessTaskBody opts noFaults t bioosInfo)
                  { errs := [], existDeleting := false, st := st }).st } :=
          OnProcessTask_loop_held opts noFaults t bioosInfo t.AccelerateNames _
            fun k hk => l3 k (Or.inl hk)
        rw [h1]
        refine ⟨rfl, ?_⟩
        simp [OnProcessTask, hb, hlen, h2, NewAggregate]
  exact ⟨key.1, key.2, by rw [key.2], by rw [key.2], by rw [key.2], by rw [key.2], by rw [key.2]⟩

end mounttos

namespace mounttos

open localstore

/-- C29 at a task that lists the mount `workflow-B`, from the empty state: the
first call sends four requests and creates the PV and the PVC, the second
changes nothing. -/
theorem OnProcessTask_idempotent_witness :
    (OnProcessTask sampleOptions noFaults (mountTask "t" "sub1" ["workflow-B"] []) New).2.trace
      = [{ verb := Verb.get, kind := Kind.pv, name := "workflow-B" },
         { verb := Verb.get, kind := Kind.pvc, name := "workflow-B" },
         { verb := Verb.create, kind := Kind.pv, name := "workflow-B" },
         { verb := Verb.create, kind := Kind.pvc, name := "workflow-B" }]
    ∧ OnProcessTask sampleOptions noFaults (mountTask "t" "sub1" ["workflow-B"] [])
        (OnProcessTask sampleOptions noFaults (mountTask "t" "sub1" ["workflow-B"] []) New).2
      = ((runner.Result.empty, none),
          (OnProcessTask sampleOptions noFaults (mountTask "t" "sub1" ["workflow-B"] []) New).2) :=
  ⟨by decide,
    (OnProcessTask_idempotent sampleOptions (mountTask "t" "sub1" ["workflow-B"] []) New
      ⟨(fun _ _ h => nomatch h), (fun _ _ h => nomatch h)⟩ (fun _ _ h => nomatch h)).2.1⟩

end mounttos

/-! ## mounttos.go: the mounts and their references when deleted objects stay for a while -/

namespace mounttos

open localstore

end mounttos
